import Mathlib

/-! Verification of the Lexer → Parser → AST front end.

Shallow embedding of `src/Lexer/Lexer_config.hpp`, `src/Lexer/Lexer.hpp`,
`src/Types/Type.hpp`, `src/Parser/SyntaxTree.hpp` and `src/Parser/Parser.hpp`.

Conventions of the embedding:

* `std::string` is `String`, a C `char` is a `Char`; the `<cctype>` predicates
  are those of the "C" locale.
* `int` is `Int`: line numbers and literal values stay far from the bounds of
  `int`, except in `std::stoi`, whose range check is explicit.
* `std::vector<T>` is `List T`, `push_back` appends at the end.
* `std::unordered_set<std::string>` is a `List String` read only through
  membership. `std::unordered_map<std::string, T>` is an association list with
  unique keys, kept in insertion order; the iteration order of the C++
  container is unspecified and no function of the embedding depends on it.
* The parser's member variables `tokens`, `typeTable`, `current` are threaded
  explicitly. A member function returns either its result and the new state,
  or the failure (a `throw`) and the state in which it was raised: the parser
  object outlives the exception.
* Reading `tokens[i]` with `i` outside the vector is undefined behaviour in
  C++; the embedding makes it the observable outcome `Failure.out_of_bounds i`.
* Recursion and loops of the parser take a `fuel : Nat` that strictly
  decreases at every call and every loop iteration; exhaustion is the
  distinguished outcome `Failure.out_of_fuel`, which is never a result of
  the C++ code. Results are stated with `Yields`: from some amount of fuel on,
  the run ends with the stated result.
-/

namespace Compiler

/-! ## Lexer_config.hpp -/

/-- The enumeration `TokenType` of `Lexer_config.hpp`. -/
inductive TokenType
  | _function | _if | _else | _for | _while | _return
  | _true | _false | _break | _continue | _let
  | int_lit
  | _operator
  | o_paren | c_paren | o_brace | c_brace | o_bracket
  | c_bracket | semicolon | comma | colon | exclamation
  | identifier
  | _unknown
  deriving DecidableEq, Repr, Inhabited

/-- The record `Token` (`scoped_value` is never written nor read by the lexer
or the parser and is left out). -/
structure Token where
  type : TokenType
  line : Int
  value : String
  deriving DecidableEq, Repr, Inhabited

/-- The keyword table `string_to_type`. -/
def string_to_type : List (String × TokenType) :=
  [("def", TokenType._function),
   ("if", TokenType._if),
   ("else", TokenType._else),
   ("for", TokenType._for),
   ("while", TokenType._while),
   ("return", TokenType._return),
   ("true", TokenType._true),
   ("false", TokenType._false),
   ("break", TokenType._break),
   ("continue", TokenType._continue),
   ("let", TokenType._let)]

/-- Maps a word to a token: `string_to_type.find(input)`, else `identifier`. -/
def mapStringToToken (input : String) (line : Int) : Token :=
  match string_to_type.lookup input with
  | some t => { type := t, line := line, value := input }
  | none => { type := TokenType.identifier, line := line, value := input }

/-- The characters of `operatorChars = "+-*/%^<>=!."`. -/
def operatorChars : List Char :=
  ['+', '-', '*', '/', '%', '^', '<', '>', '=', '!', '.']

/-- Membership test `operatorChars.find(c) != npos`. -/
def isOperatorChar (c : Char) : Bool :=
  operatorChars.contains c

/-! ## `<cctype>` in the "C" locale -/

/-- The C `isspace`: space, `\t`, `\n`, `\v`, `\f`, `\r`. -/
def isspace (c : Char) : Bool :=
  c.toNat = 32 || (9 ≤ c.toNat && c.toNat ≤ 13)

/-- The C `isdigit`. -/
def isdigit (c : Char) : Bool :=
  48 ≤ c.toNat && c.toNat ≤ 57

/-- The C `isalpha`. -/
def isalpha (c : Char) : Bool :=
  (65 ≤ c.toNat && c.toNat ≤ 90) || (97 ≤ c.toNat && c.toNat ≤ 122)

/-- The C `isalnum`. -/
def isalnum (c : Char) : Bool :=
  isalpha c || isdigit c

/-! ## Lexer.hpp -/

/-- Loop condition of the word branch: `isalnum(line[i]) || line[i] == '_'`. -/
def isWordChar (c : Char) : Bool :=
  isalnum c || c == '_'

/-- Loop condition of the number branch: `isdigit(line[i]) || line[i] == '.'`. -/
def isNumberChar (c : Char) : Bool :=
  isdigit c || c == '.'

/-- The `switch` of the punctuation branch. -/
def punctuationType (c : Char) : TokenType :=
  if c = '(' then TokenType.o_paren
  else if c = ')' then TokenType.c_paren
  else if c = '{' then TokenType.o_brace
  else if c = '}' then TokenType.c_brace
  else if c = '[' then TokenType.o_bracket
  else if c = ']' then TokenType.c_bracket
  else if c = ';' then TokenType.semicolon
  else if c = ',' then TokenType.comma
  else if c = ':' then TokenType.colon
  else TokenType._unknown

/-- The loop `while (i < line.size())` of `tokenize` on one line. The second
argument is the unread part `line[i..]` of the line; an inner loop
`while (i < line.size() && p(line[i])) ++i` followed by
`line.substr(start, i - start)` is `takeWhile p` for the text and `dropWhile p`
for the new unread part. `tokens` is the vector being filled. -/
def tokenizeLine (lineNum : Int) : Nat → List Char → List Token → List Token
  | 0, _, tokens => tokens
  | _ + 1, [], tokens => tokens
  | fuel + 1, c :: rest, tokens =>
    if isspace c then
      tokenizeLine lineNum fuel rest tokens
    else if isalpha c then
      let word := String.mk ((c :: rest).takeWhile isWordChar)
      tokenizeLine lineNum fuel ((c :: rest).dropWhile isWordChar)
        (tokens ++ [mapStringToToken word lineNum])
    else if isdigit c then
      let number := String.mk ((c :: rest).takeWhile isNumberChar)
      tokenizeLine lineNum fuel ((c :: rest).dropWhile isNumberChar)
        (tokens ++ [{ type := TokenType.int_lit, line := lineNum, value := number }])
    else if isOperatorChar c then
      let op := String.mk ((c :: rest).takeWhile isOperatorChar)
      tokenizeLine lineNum fuel ((c :: rest).dropWhile isOperatorChar)
        (tokens ++ [{ type := TokenType._operator, line := lineNum, value := op }])
    else
      tokenizeLine lineNum fuel rest
        (tokens ++ [{ type := punctuationType c, line := lineNum, value := String.mk [c] }])

/-- The loop `for (const std::string& line : file)` of `tokenize`. Every
iteration of the inner loop reads at least one character, so `line.length`
iterations are enough for a line. -/
def tokenizeLines : Int → List String → List Token → List Token
  | _, [], tokens => tokens
  | lineNum, line :: file, tokens =>
    tokenizeLines (lineNum + 1) file (tokenizeLine lineNum line.length line.data tokens)

/-- The method `Lexer::tokenize`. -/
def tokenize (file : List String) : List Token :=
  tokenizeLines 1 file []

/-! ## Type.hpp -/

/-- What a `Type*` may point to: a `PrimitiveType` or a `StructType`. -/
inductive Type_ where
  | PrimitiveType (name : String)
  | StructType (name : String) (fields : List (String × Type_))
  deriving Repr, Inhabited

/-- The class `StructType`: a name and the map `fields` from field names to
types, kept as an association list with unique keys. -/
structure StructType where
  name : String
  fields : List (String × Type_) := []
  deriving Repr, Inhabited

/-- The assignment `m[key] = value` of `std::unordered_map`: overwrite the entry
of `key` when there is one, insert a new entry otherwise. -/
def mapAssign {β : Type} (m : List (String × β)) (key : String) (value : β) :
    List (String × β) :=
  if m.any (fun e => e.1 == key) then
    m.map (fun e => if e.1 == key then (key, value) else e)
  else
    m ++ [(key, value)]

/-- The method `StructType::addField`: `fields[fieldName] = fieldType`. -/
def StructType.addField (s : StructType) (fieldName : String) (fieldType : Type_) :
    StructType :=
  { s with fields := mapAssign s.fields fieldName fieldType }

/-! ## SyntaxTree.hpp -/

/-- The class hierarchy below `ASTNode`: one constructor per node class, the
arguments being the members in declaration order. A child pointer that may be
`nullptr` is an `Option`. -/
inductive ASTNode where
  | LiteralExpr (value : Int)
  | VariableExpr (name : String)
  | BinaryExpr (op : String) (left right : ASTNode)
  | UnaryExpr (op : String) (expr : ASTNode)
  | PostfixExpr (op : String) (operand : ASTNode)
  | PrefixExpr (op : String) (operand : ASTNode)
  | IndexExpr (target index : ASTNode)
  | FunctionCallExpr (callee : ASTNode) (arguments : List ASTNode)
  | ClassInstanceExpr (structType : StructType) (fieldValues : List (String × ASTNode))
  | ClassFieldAccessExpr (structInstance : ASTNode) (fieldName : String)
  | BlockStmt (statements : List ASTNode)
  | CompoundStmt (statements : List ASTNode)
  | ExprStmt (expr : ASTNode)
  | IfStmt (condition thenBranch : ASTNode) (elseBranch : Option ASTNode)
  | WhileStmt (condition body : ASTNode)
  | ForStmt (initializer condition incrementor body : ASTNode)
  | ReturnStmt (expression : Option ASTNode)
  | DefinitionStmt (dataType : String) (expression : ASTNode)
  | BreakStmt
  | ContinueStmt
  | Program (Code : List ASTNode)
  | FunctionDecl (name : String) (params : List (String × String)) (returnType : String)
      (body : ASTNode)
  | ClassDecl (name : String) (structType : StructType)
  deriving Repr, Inhabited

/-! ## Parser.hpp: state, failures, navigation helpers -/

/-- How a call into the parser can end without a result. `runtime_error` is the
exception thrown by the parser itself, `invalid_argument` and `out_of_range`
are the exceptions of `std::stoi`, `out_of_bounds i` is the read `tokens[i]`
outside the vector (undefined behaviour in C++), and `out_of_fuel` is the
exhaustion of the recursion budget of the embedding. -/
inductive Failure where
  | runtime_error (what : String)
  | invalid_argument (what : String)
  | out_of_range (what : String)
  | out_of_bounds (index : Nat)
  | out_of_fuel
  deriving DecidableEq, Repr, Inhabited

/-- The member variables of the class `Parser`. -/
structure Parser where
  tokens : List Token
  typeTable : List String
  primitiveTypeTable : List String
  current : Nat
  deriving DecidableEq, Repr, Inhabited

/-- The call `set.emplace(name)` of `std::unordered_set`. -/
def emplace (table : List String) (name : String) : List String :=
  if table.contains name then table else table ++ [name]

/-- The constructor `Parser::Parser`: every primitive type is put in the
type table. -/
def Parser.new (tokens : List Token) : Parser :=
  { tokens := tokens
    typeTable := ["float", "void"].foldl emplace []
    primitiveTypeTable := ["float", "void"]
    current := 0 }

/-- How a call of a member function returning `α` ends: with a result and the
state of the members after the call, or with a failure and the state of the
members when it was raised. -/
abbrev Outcome (α : Type) : Type := Except (Failure × Parser) (α × Parser)

/-- A member function of `Parser` returning `α`: it reads and updates the
members and either returns or ends with a `Failure`. -/
def ParserM (α : Type) : Type := Parser → Outcome α

/-- Return without touching the members. -/
def ParserM.pure {α : Type} (a : α) : ParserM α := fun p => Except.ok (a, p)

/-- Sequencing: a failure of the first part ends the whole. -/
def ParserM.bind {α β : Type} (m : ParserM α) (f : α → ParserM β) : ParserM β :=
  fun p => match m p with
    | Except.error e => Except.error e
    | Except.ok (a, p') => f a p'

instance : Monad ParserM where
  pure := ParserM.pure
  bind := ParserM.bind

/-- End the call with failure `e` (a `throw`, or undefined behaviour). -/
def fail {α : Type} (e : Failure) : ParserM α := fun p => Except.error (e, p)

/-- The read `tokens[i]` (no state change). -/
def tokenAt (i : Nat) : ParserM Token := fun p =>
  match p.tokens[i]? with
  | some t => Except.ok (t, p)
  | none => Except.error (Failure.out_of_bounds i, p)

/-- The test `typeTable.find(name) != typeTable.end()`. -/
def inTypeTable (name : String) : ParserM Bool := fun p =>
  Except.ok (p.typeTable.contains name, p)

/-- The helper `isAtEnd`: `current >= tokens.size()`. -/
def isAtEnd : ParserM Bool := fun p =>
  Except.ok (decide (p.current ≥ p.tokens.length), p)

/-- The helper `peek`: `tokens[current]`. -/
def peek : ParserM Token := fun p => tokenAt p.current p

/-- The helper `previous`: `tokens[current - 1]`; the index is computed in
`size_t`, so it is `2 ^ 64 - 1` when `current` is 0. -/
def previous : ParserM Token := fun p =>
  tokenAt (if p.current = 0 then 2 ^ 64 - 1 else p.current - 1) p

/-- The helper `advance`: `tokens[current++]`. -/
def advance : ParserM Token := fun p =>
  match tokenAt p.current p with
  | Except.ok (t, p') => Except.ok (t, { p' with current := p'.current + 1 })
  | Except.error e => Except.error e

/-- The helper `check`: `!isAtEnd() && peek().type == type`. -/
def check (type : TokenType) : ParserM Bool := do
  if ← isAtEnd then
    return false
  else
    return (← peek).type == type

/-- The helper `match`: like `check`, and the token is consumed on success. -/
def match_ (type : TokenType) : ParserM Bool := do
  if ← isAtEnd then
    return false
  else if (← peek).type == type then
    let _ ← advance
    return true
  else
    return false

/-- The helper `consume`: `match` or fail with a positioned message built from
`tokens[current].line`. -/
def consume (expected : TokenType) (errorMessage : String) : ParserM Token := do
  if ← match_ expected then
    previous
  else
    let t ← peek
    fail (Failure.runtime_error
      ("Parse Error: " ++ errorMessage ++ " [Line: " ++ toString t.line ++ "]"))

/-- A loop or branch condition of the form
`check(TokenType::_operator) && (peek().value == o1 || peek().value == o2 ...)`,
evaluated left to right with short circuit. -/
def checkOperator (ops : List String) : ParserM Bool := do
  if ← check TokenType._operator then
    return ops.contains (← peek).value
  else
    return false

/-- The function `std::stoi(str)` in base 10: leading white space is skipped, an
optional sign is read, then the longest run of digits; no digit is
`std::invalid_argument`, a value outside `int` is `std::out_of_range`. -/
def stoi (str : String) : Except Failure Int :=
  let s := str.data.dropWhile isspace
  let negative := s.head? == some '-'
  let s := if s.head? == some '-' || s.head? == some '+' then s.tail else s
  let digits := s.takeWhile isdigit
  if digits.isEmpty then
    Except.error (Failure.invalid_argument "stoi")
  else
    let magnitude : Nat := digits.foldl (fun acc d => 10 * acc + (d.toNat - 48)) 0
    let value : Int := if negative then -(magnitude : Int) else (magnitude : Int)
    if value < -2147483648 ∨ 2147483647 < value then
      Except.error (Failure.out_of_range "stoi")
    else
      Except.ok value

/-- Lift a `std::stoi` call into a member function. -/
def liftExcept {α : Type} (r : Except Failure α) : ParserM α := fun p =>
  match r with
  | Except.ok a => Except.ok (a, p)
  | Except.error e => Except.error (e, p)

/-! ## Parser.hpp: the grammar -/

/-- The method `parseLoopControl`. -/
def parseLoopControl : ParserM ASTNode := do
  if ← match_ TokenType._break then
    let _ ← consume TokenType.semicolon "Expected ';' after 'break'."
    return ASTNode.BreakStmt
  else if ← match_ TokenType._continue then
    let _ ← consume TokenType.semicolon "Expected ';' after 'continue'."
    return ASTNode.ContinueStmt
  else
    fail (Failure.runtime_error "Expected a loop control statement ('break' or 'continue').")

/-- The member-access loop of `parsePrimary`:
`while (check(_operator) && peek().value == ".")`. -/
def parsePrimaryFieldLoop : Nat → ASTNode → ParserM ASTNode
  | 0, _ => fail Failure.out_of_fuel
  | fuel + 1, node => do
    if ← checkOperator ["."] then
      let _ ← advance
      let field := (← advance).value
      parsePrimaryFieldLoop fuel (ASTNode.ClassFieldAccessExpr node field)
    else
      return node

/-- The postfix loop of `parsePrimary`:
`while (check(_operator) && (peek().value == "++" || peek().value == "--"))`. -/
def parsePrimaryPostfixLoop : Nat → ASTNode → ParserM ASTNode
  | 0, _ => fail Failure.out_of_fuel
  | fuel + 1, node => do
    if ← checkOperator ["++", "--"] then
      let _ ← advance
      let op := (← previous).value
      parsePrimaryPostfixLoop fuel (ASTNode.PostfixExpr op node)
    else
      return node

mutual

/-- The method `parseStatement` (the `throw` after the last `else` cannot be
reached and is left out). -/
def parseStatement : Nat → ParserM ASTNode
  | 0 => fail Failure.out_of_fuel
  | fuel + 1 => do
    if ← check TokenType.o_brace then
      parseCompound fuel
    else if ← check TokenType._if then
      parseIf fuel
    else if ← check TokenType._while then
      parseWhile fuel
    else if ← check TokenType._for then
      parseFor fuel
    else if ← check TokenType._return then
      parseReturn fuel
    else if ← inTypeTable (← peek).value then
      parseDefinition fuel
    else if (← check TokenType._break) || (← check TokenType._continue) then
      parseLoopControl
    else
      parseExpressionStmt fuel

/-- The method `parseExpression`. -/
def parseExpression : Nat → ParserM ASTNode
  | 0 => fail Failure.out_of_fuel
  | fuel + 1 => parseAssignment fuel

/-- The method `parseAssignment`. -/
def parseAssignment : Nat → ParserM ASTNode
  | 0 => fail Failure.out_of_fuel
  | fuel + 1 => do
    let left ← parseComparison fuel
    if ← checkOperator ["="] then
      let op := (← advance).value
      let right ← parseAssignment fuel
      return ASTNode.BinaryExpr op left right
    else
      return left

/-- The `while` loop of `parseComparison`. -/
def parseComparisonLoop : Nat → ASTNode → ParserM ASTNode
  | 0, _ => fail Failure.out_of_fuel
  | fuel + 1, left => do
    if ← checkOperator ["==", "!=", "<", "<=", ">", ">="] then
      let op := (← advance).value
      let right ← parseAddition fuel
      parseComparisonLoop fuel (ASTNode.BinaryExpr op left right)
    else
      return left

/-- The method `parseComparison`. -/
def parseComparison : Nat → ParserM ASTNode
  | 0 => fail Failure.out_of_fuel
  | fuel + 1 => do
    let left ← parseAddition fuel
    parseComparisonLoop fuel left

/-- The `while` loop of `parseAddition`. -/
def parseAdditionLoop : Nat → ASTNode → ParserM ASTNode
  | 0, _ => fail Failure.out_of_fuel
  | fuel + 1, left => do
    if ← checkOperator ["+", "-"] then
      let op := (← advance).value
      let right ← parseMultiplication fuel
      parseAdditionLoop fuel (ASTNode.BinaryExpr op left right)
    else
      return left

/-- The method `parseAddition`. -/
def parseAddition : Nat → ParserM ASTNode
  | 0 => fail Failure.out_of_fuel
  | fuel + 1 => do
    let left ← parseMultiplication fuel
    parseAdditionLoop fuel left

/-- The `while` loop of `parseMultiplication`. -/
def parseMultiplicationLoop : Nat → ASTNode → ParserM ASTNode
  | 0, _ => fail Failure.out_of_fuel
  | fuel + 1, left => do
    if ← checkOperator ["*", "/", "%", "^"] then
      let op := (← advance).value
      let right ← parseUnary fuel
      parseMultiplicationLoop fuel (ASTNode.BinaryExpr op left right)
    else
      return left

/-- The method `parseMultiplication`. -/
def parseMultiplication : Nat → ParserM ASTNode
  | 0 => fail Failure.out_of_fuel
  | fuel + 1 => do
    let left ← parseUnary fuel
    parseMultiplicationLoop fuel left

/-- The method `parseUnary`. -/
def parseUnary : Nat → ParserM ASTNode
  | 0 => fail Failure.out_of_fuel
  | fuel + 1 => do
    if ← checkOperator ["++", "--"] then
      let op := (← advance).value
      let operand ← parseUnary fuel
      return ASTNode.PrefixExpr op operand
    else
      parsePrimary fuel

/-- The indexing loop of `parsePrimary`: `while (check(o_bracket))`. -/
def parsePrimaryIndexLoop : Nat → ASTNode → ParserM ASTNode
  | 0, _ => fail Failure.out_of_fuel
  | fuel + 1, node => do
    if ← check TokenType.o_bracket then
      let _ ← advance
      let index ← parseExpression fuel
      let _ ← consume TokenType.c_bracket "Expected ']' after index."
      parsePrimaryIndexLoop fuel (ASTNode.IndexExpr node index)
    else
      return node

/-- The argument loop of `parsePrimary`:
`do { arguments.push_back(parseExpression()); } while (match(comma))`. -/
def parsePrimaryArgumentLoop : Nat → List ASTNode → ParserM (List ASTNode)
  | 0, _ => fail Failure.out_of_fuel
  | fuel + 1, arguments => do
    let argument ← parseExpression fuel
    if ← match_ TokenType.comma then
      parsePrimaryArgumentLoop fuel (arguments ++ [argument])
    else
      return arguments ++ [argument]

/-- The call loop of `parsePrimary`: `while (check(o_paren))`. -/
def parsePrimaryCallLoop : Nat → ASTNode → ParserM ASTNode
  | 0, _ => fail Failure.out_of_fuel
  | fuel + 1, node => do
    if ← check TokenType.o_paren then
      let _ ← advance
      let arguments ←
        if !(← check TokenType.c_paren) then parsePrimaryArgumentLoop fuel []
        else pure []
      let _ ← consume TokenType.c_paren "Expected ')' after function call arguments."
      parsePrimaryCallLoop fuel (ASTNode.FunctionCallExpr node arguments)
    else
      return node

/-- The method `parsePrimary`. -/
def parsePrimary : Nat → ParserM ASTNode
  | 0 => fail Failure.out_of_fuel
  | fuel + 1 => do
    if ← match_ TokenType.int_lit then
      return ASTNode.LiteralExpr (← liftExcept (stoi (← previous).value))
    else if ← match_ TokenType.identifier then
      let node := ASTNode.VariableExpr (← previous).value
      let node ← parsePrimaryIndexLoop fuel node
      let node ← parsePrimaryFieldLoop fuel node
      let node ← parsePrimaryPostfixLoop fuel node
      let node ← parsePrimaryCallLoop fuel node
      return node
    else if ← match_ TokenType.o_paren then
      let expr ← parseExpression fuel
      let _ ← consume TokenType.c_paren "Expected ')' after expression."
      return expr
    else
      fail (Failure.runtime_error "Expected a number, variable, or '('.")

/-- The loop of `parseCompound`: `while (!check(c_brace) && !isAtEnd())`. -/
def parseCompoundLoop : Nat → List ASTNode → ParserM (List ASTNode)
  | 0, _ => fail Failure.out_of_fuel
  | fuel + 1, statements => do
    if !(← check TokenType.c_brace) && !(← isAtEnd) then
      let statement ← parseStatement fuel
      parseCompoundLoop fuel (statements ++ [statement])
    else
      return statements

/-- The method `parseCompound`. -/
def parseCompound : Nat → ParserM ASTNode
  | 0 => fail Failure.out_of_fuel
  | fuel + 1 => do
    let _ ← consume TokenType.o_brace "Expected '\x7b' at the start of a compound statement."
    let statements ← parseCompoundLoop fuel []
    let _ ← consume TokenType.c_brace "Expected '\x7d' at the end of a compound statement."
    return ASTNode.CompoundStmt statements

/-- The method `parseIf`. -/
def parseIf : Nat → ParserM ASTNode
  | 0 => fail Failure.out_of_fuel
  | fuel + 1 => do
    if !(← match_ TokenType._if) then
      fail (Failure.runtime_error "Expected 'if' keyword.")
    else if !(← match_ TokenType.o_paren) then
      fail (Failure.runtime_error "Expected '(' after 'if'.")
    else
      let condition ← parseStatement fuel
      if !(← match_ TokenType.c_paren) then
        fail (Failure.runtime_error "Expected ')' after condition.")
      else
        let thenStmt ← parseStatement fuel
        if ← match_ TokenType._else then
          let elseStmt ← parseStatement fuel
          return ASTNode.IfStmt condition thenStmt (some elseStmt)
        else
          return ASTNode.IfStmt condition thenStmt none

/-- The method `parseWhile`. -/
def parseWhile : Nat → ParserM ASTNode
  | 0 => fail Failure.out_of_fuel
  | fuel + 1 => do
    if !(← match_ TokenType._while) then
      fail (Failure.runtime_error "Expected 'while' keyword.")
    else if !(← match_ TokenType.o_paren) then
      fail (Failure.runtime_error "Expected '(' after 'while'.")
    else
      let condition ← parseExpression fuel
      if !(← match_ TokenType.c_paren) then
        fail (Failure.runtime_error "Expected ')' after condition.")
      else
        let body ← parseStatement fuel
        return ASTNode.WhileStmt condition body

/-- The method `parseFor`. -/
def parseFor : Nat → ParserM ASTNode
  | 0 => fail Failure.out_of_fuel
  | fuel + 1 => do
    if !(← match_ TokenType._for) then
      fail (Failure.runtime_error "Expected 'for' keyword.")
    else if !(← match_ TokenType.o_paren) then
      fail (Failure.runtime_error "Expected '(' after 'for'.")
    else
      let initializer ← parseExpression fuel
      let _ ← consume TokenType.semicolon "Expected ; in 'for' loop."
      let condition ← parseExpression fuel
      let _ ← consume TokenType.semicolon "Expected ; in 'for' loop."
      let incrementor ← parseExpression fuel
      if !(← match_ TokenType.c_paren) then
        fail (Failure.runtime_error "Expected ')' after condition.")
      else
        let body ← parseStatement fuel
        return ASTNode.ForStmt initializer condition incrementor body

/-- The method `parseExpressionStmt`. -/
def parseExpressionStmt : Nat → ParserM ASTNode
  | 0 => fail Failure.out_of_fuel
  | fuel + 1 => do
    let ret ← parseExpression fuel
    let _ ← consume TokenType.semicolon "Expected a ;"
    return ret

/-- The method `parseReturn`. -/
def parseReturn : Nat → ParserM ASTNode
  | 0 => fail Failure.out_of_fuel
  | fuel + 1 => do
    let _ ← consume TokenType._return "Expected a 'return' statement."
    let expression ← parseExpressionStmt fuel
    let _ ← consume TokenType.semicolon "Expected ;"
    return ASTNode.ReturnStmt (some expression)

/-- The method `parseDefinition`. -/
def parseDefinition : Nat → ParserM ASTNode
  | 0 => fail Failure.out_of_fuel
  | fuel + 1 => do
    let datatype := (← consume TokenType.identifier "Expected a datatype").value
    let expression ← parseExpression fuel
    let _ ← consume TokenType.semicolon "Expected ;"
    return ASTNode.DefinitionStmt datatype expression

end

/-- The parameter loop of `parseFunction`: `do { ... } while (match(comma))`. -/
def parseFunctionParamLoop : Nat → List (String × String) → ParserM (List (String × String))
  | 0, _ => fail Failure.out_of_fuel
  | fuel + 1, params => do
    if !(← inTypeTable (← peek).value) then
      fail (Failure.runtime_error "Expected a type.")
    else
      let paramType := (← advance).value
      if !(← check TokenType.identifier) then
        fail (Failure.runtime_error "Expected a type.")
      else
        let paramName := (← advance).value
        if ← match_ TokenType.comma then
          parseFunctionParamLoop fuel (params ++ [(paramName, paramType)])
        else
          return params ++ [(paramName, paramType)]

/-- The method `parseFunction`. -/
def parseFunction (fuel : Nat) : ParserM ASTNode := do
  if !(← inTypeTable (← peek).value) then
    fail (Failure.runtime_error "Expected return datatype for function.")
  else
    let returnType := (← advance).value
    if ← check TokenType.identifier then
      let functionName := (← advance).value
      if !(← match_ TokenType.o_paren) then
        fail (Failure.runtime_error "Expected '(' after function name.")
      else
        let params ←
          if !(← check TokenType.c_paren) then parseFunctionParamLoop fuel []
          else pure []
        if !(← match_ TokenType.c_paren) then
          fail (Failure.runtime_error "Expected ')' after parameters.")
        else
          let body ← parseStatement fuel
          return ASTNode.FunctionDecl functionName params returnType body
    else
      fail (Failure.runtime_error "Unexpected token at start of Function declaration.")

/-- The statement `typeTable.emplace(className)`. -/
def registerType (className : String) : ParserM Unit := fun p =>
  Except.ok ((), { p with typeTable := emplace p.typeTable className })

/-- The field loop of `parseClass`: `while (!check(c_brace) && !isAtEnd())`. The
lookup of `fieldType` in the type table has an empty body and no effect. -/
def parseClassFieldLoop : Nat → StructType → ParserM StructType
  | 0, _ => fail Failure.out_of_fuel
  | fuel + 1, structType => do
    if !(← check TokenType.c_brace) && !(← isAtEnd) then
      let fieldType := (← consume TokenType.identifier "Expected a type").value
      let fieldName := (← consume TokenType.identifier "Expected field name.").value
      let _ ← consume TokenType.semicolon "Expected ';' after field declaration."
      parseClassFieldLoop fuel (structType.addField fieldName (Type_.PrimitiveType fieldType))
    else
      return structType

/-- The method `parseClass`. -/
def parseClass (fuel : Nat) : ParserM ASTNode := do
  if !(← check TokenType.identifier) then
    fail (Failure.runtime_error "Expected a class identifier (name).")
  else
    let _ ← advance
    let className := (← advance).value
    registerType className
    let _ ← consume TokenType.o_brace "Expected '\x7b' to begin class body."
    let structType ← parseClassFieldLoop fuel { name := className }
    let _ ← consume TokenType.c_brace "Expected '\x7d' after class body."
    return ASTNode.ClassDecl className structType

/-- The loop `while(!isAtEnd())` of `Parse`. -/
def ParseLoop : Nat → List ASTNode → ParserM (List ASTNode)
  | 0, _ => fail Failure.out_of_fuel
  | fuel + 1, code => do
    if !(← isAtEnd) then
      if (← peek).value == "class" then
        let decl ← parseClass fuel
        ParseLoop fuel (code ++ [decl])
      else
        let decl ← parseFunction fuel
        ParseLoop fuel (code ++ [decl])
    else
      return code

/-- The method `Parse`. -/
def Parse (fuel : Nat) : ParserM ASTNode := do
  let code ← ParseLoop fuel []
  return ASTNode.Program code

/-! ## Vocabulary of the statements -/

/-- The text of a token sequence: the texts of its tokens, concatenated. -/
def tokenTexts (tokens : List Token) : String :=
  String.join (tokens.map Token.value)

/-- A word as the word branch of the lexer reads it: a letter followed by
letters, digits and underscores. -/
def isIdentifierShaped (w : String) : Bool :=
  match w.data with
  | [] => false
  | c :: cs => isalpha c && cs.all isWordChar

/-- The parser state moved forward by `k` tokens. -/
def Parser.skip (p : Parser) (k : Nat) : Parser := { p with current := p.current + k }

/-- The token under the cursor, if any. -/
def Parser.look (p : Parser) : Option Token := p.tokens[p.current]?

/-- The outcome is the exhaustion of the fuel. -/
def OutOfFuel {β : Type} (r : Except (Failure × Parser) β) : Prop :=
  ∃ q, r = Except.error (Failure.out_of_fuel, q)

/-- `m'` returns what `m` returns whenever `m` does not run out of fuel. -/
structure Stable {α : Type} (m m' : ParserM α) : Prop where
  run : ∀ p, ¬ OutOfFuel (m p) → m' p = m p

/-- Every function of the grammar is stable under one more unit of fuel. -/
structure StableAt (n : Nat) : Prop where
  parseStatement : Stable (parseStatement n) (parseStatement (n + 1))
  parseExpression : Stable (parseExpression n) (parseExpression (n + 1))
  parseAssignment : Stable (parseAssignment n) (parseAssignment (n + 1))
  parseComparisonLoop : ∀ l, Stable (parseComparisonLoop n l) (parseComparisonLoop (n + 1) l)
  parseComparison : Stable (parseComparison n) (parseComparison (n + 1))
  parseAdditionLoop : ∀ l, Stable (parseAdditionLoop n l) (parseAdditionLoop (n + 1) l)
  parseAddition : Stable (parseAddition n) (parseAddition (n + 1))
  parseMultiplicationLoop : ∀ l,
    Stable (parseMultiplicationLoop n l) (parseMultiplicationLoop (n + 1) l)
  parseMultiplication : Stable (parseMultiplication n) (parseMultiplication (n + 1))
  parseUnary : Stable (parseUnary n) (parseUnary (n + 1))
  parsePrimaryIndexLoop : ∀ l, Stable (parsePrimaryIndexLoop n l) (parsePrimaryIndexLoop (n + 1) l)
  parsePrimaryArgumentLoop : ∀ l,
    Stable (parsePrimaryArgumentLoop n l) (parsePrimaryArgumentLoop (n + 1) l)
  parsePrimaryCallLoop : ∀ l, Stable (parsePrimaryCallLoop n l) (parsePrimaryCallLoop (n + 1) l)
  parsePrimary : Stable (parsePrimary n) (parsePrimary (n + 1))
  parseCompoundLoop : ∀ l, Stable (parseCompoundLoop n l) (parseCompoundLoop (n + 1) l)
  parseCompound : Stable (parseCompound n) (parseCompound (n + 1))
  parseIf : Stable (parseIf n) (parseIf (n + 1))
  parseWhile : Stable (parseWhile n) (parseWhile (n + 1))
  parseFor : Stable (parseFor n) (parseFor (n + 1))
  parseExpressionStmt : Stable (parseExpressionStmt n) (parseExpressionStmt (n + 1))
  parseReturn : Stable (parseReturn n) (parseReturn (n + 1))
  parseDefinition : Stable (parseDefinition n) (parseDefinition (n + 1))

/-- The token under the cursor exists and has kind `ty`. -/
def Parser.atType (p : Parser) (ty : TokenType) : Bool :=
  p.look.any (fun t => t.type == ty)

/-- The token under the cursor exists and is an operator whose text is in `ops`. -/
def Parser.atOperator (p : Parser) (ops : List String) : Bool :=
  p.look.any (fun t => t.type == TokenType._operator && ops.contains t.value)

/-- With enough fuel, `f` run on `p` ends with `r`. -/
def Yields {α : Type} (f : Nat → ParserM α) (p : Parser) (r : Outcome α) :
    Prop :=
  ∃ n, ∀ m, n ≤ m → f m p = r

/-- The tokens from the cursor on. -/
def Parser.rest (p : Parser) : List Token := p.tokens.drop p.current

/-- The tree `x1 = (x2 = (... (xn = E)))`. -/
def assignChain (names : List String) (E : ASTNode) : ASTNode :=
  names.foldr (fun x acc => ASTNode.BinaryExpr "=" (ASTNode.VariableExpr x) acc) E

/-- The tokens `x1 = x2 = ... xn =` for a list of (identifier token, `=` token) pairs. -/
def assignTargets (targets : List (Token × Token)) : List Token :=
  targets.flatMap (fun x => [x.1, x.2])

/-- The parser state after `typeTable.emplace(name)`. -/
def Parser.withType (p : Parser) (name : String) : Parser :=
  { p with typeTable := emplace p.typeTable name }

/-- One field declaration `T f ;` of a class body, as tokens. -/
structure FieldDecl where
  type : Token
  name : Token
  semi : Token

/-- The tokens of a class body. -/
def classBodyTokens (fields : List FieldDecl) : List Token :=
  fields.flatMap (fun f => [f.type, f.name, f.semi])

/-- The entries `fi ↦ primitive(Ti)` of the declared fields, in source order. -/
def fieldEntries (fields : List FieldDecl) : List (String × Type_) :=
  fields.map (fun f => (f.name.value, Type_.PrimitiveType f.type.value))

/-- An index suffix `[ e ]`: the brackets, the tokens of `e` and the tree of `e`. -/
structure IndexSuffix where
  ob : Token
  etoks : List Token
  tree : ASTNode
  cb : Token

/-- The tokens of a run of index suffixes. -/
def indexTokens (l : List IndexSuffix) : List Token :=
  l.flatMap (fun s => s.ob :: (s.etoks ++ [s.cb]))

/-- The index suffixes `l` stand at the cursor of `p`: the brackets have their
kinds and the expression parser, run after each `[`, reads exactly the tokens
of the index expression and builds its tree. -/
def indexesInPlace : Parser → List IndexSuffix → Prop
  | _, [] => True
  | p, s :: rest =>
    s.ob.type = TokenType.o_bracket ∧ s.cb.type = TokenType.c_bracket ∧
    Yields parseExpression (p.skip 1) (Except.ok (s.tree, p.skip (1 + s.etoks.length))) ∧
    indexesInPlace (p.skip (s.etoks.length + 2)) rest

/-- The node built from `node` by a run of index suffixes, left to right. -/
def applyIndexes (node : ASTNode) (l : List IndexSuffix) : ASTNode :=
  l.foldl (fun n s => ASTNode.IndexExpr n s.tree) node

/-- A field access suffix `. name`. -/
structure FieldSuffix where
  dot : Token
  name : Token

/-- The tokens of a run of field access suffixes. -/
def fieldTokens (l : List FieldSuffix) : List Token :=
  l.flatMap (fun s => [s.dot, s.name])

/-- The node built from `node` by a run of field access suffixes, left to right. -/
def applyFields (node : ASTNode) (l : List FieldSuffix) : ASTNode :=
  l.foldl (fun n s => ASTNode.ClassFieldAccessExpr n s.name.value) node

/-- The node built from `node` by a run of postfix operator tokens, left to right. -/
def applyPostfixes (node : ASTNode) (l : List Token) : ASTNode :=
  l.foldl (fun n t => ASTNode.PostfixExpr t.value n) node

/-- One argument of a call: its tokens, its tree, and the comma that follows it
when it is not the last argument. -/
structure Argument where
  etoks : List Token
  tree : ASTNode
  comma : Token

/-- The tokens of an argument list, commas included. -/
def argumentTokens : List Argument → List Token
  | [] => []
  | [a] => a.etoks
  | a :: b :: rest => a.etoks ++ a.comma :: argumentTokens (b :: rest)

/-- The arguments `l` stand at the cursor of `p`: the expression parser reads
exactly the tokens of each argument and builds its tree, and a comma follows
every argument but the last. -/
def argumentsInPlace : Parser → List Argument → Prop
  | _, [] => True
  | p, [a] => Yields parseExpression p (Except.ok (a.tree, p.skip a.etoks.length))
  | p, a :: b :: rest =>
    Yields parseExpression p (Except.ok (a.tree, p.skip a.etoks.length)) ∧
    a.comma.type = TokenType.comma ∧
    argumentsInPlace (p.skip (a.etoks.length + 1)) (b :: rest)

/-- A call suffix `( args )`. -/
structure CallSuffix where
  op : Token
  args : List Argument
  cp : Token

/-- The tokens of a run of call suffixes. -/
def callTokens (l : List CallSuffix) : List Token :=
  l.flatMap (fun s => s.op :: (argumentTokens s.args ++ [s.cp]))

/-- The call suffixes `l` stand at the cursor of `p`: the parentheses have their
kinds, a non-empty argument list does not start with a `)`, and the arguments
stand after the `(`. -/
def callsInPlace : Parser → List CallSuffix → Prop
  | _, [] => True
  | p, s :: rest =>
    s.op.type = TokenType.o_paren ∧ s.cp.type = TokenType.c_paren ∧
    (s.args ≠ [] → (p.skip 1).atType TokenType.c_paren = false) ∧
    argumentsInPlace (p.skip 1) s.args ∧
    callsInPlace (p.skip ((argumentTokens s.args).length + 2)) rest

/-- The node built from `node` by a run of call suffixes, left to right. -/
def applyCalls (node : ASTNode) (l : List CallSuffix) : ASTNode :=
  l.foldl (fun n s => ASTNode.FunctionCallExpr n (s.args.map (fun a => a.tree))) node

/-- The state in which a call ended, whether it returned or failed. -/
def Outcome.state {α : Type} (r : Outcome α) : Parser :=
  match r with
  | Except.ok v => v.2
  | Except.error e => e.2

/-- The state `q` comes after `p` in a parse: the same tokens and primitive
types, a cursor that did not move back, and a type table that lost no entry. -/
structure Parser.Extends (p q : Parser) : Prop where
  tokens : q.tokens = p.tokens
  primitiveTypeTable : q.primitiveTypeTable = p.primitiveTypeTable
  current : p.current ≤ q.current
  typeTable : ∀ x, x ∈ p.typeTable → x ∈ q.typeTable

/-- Whether it returns or fails, `m` leaves a state that comes after the one it
was called in. -/
structure Advances {α : Type} (m : ParserM α) : Prop where
  run : ∀ p, Parser.Extends p (m p).state

/-- Every function of the grammar, run with fuel `n`, leaves a state that comes
after the one it was called in. -/
structure AdvancesAt (n : Nat) : Prop where
  parseStatement : Advances (parseStatement n)
  parseExpression : Advances (parseExpression n)
  parseAssignment : Advances (parseAssignment n)
  parseComparisonLoop : ∀ l, Advances (parseComparisonLoop n l)
  parseComparison : Advances (parseComparison n)
  parseAdditionLoop : ∀ l, Advances (parseAdditionLoop n l)
  parseAddition : Advances (parseAddition n)
  parseMultiplicationLoop : ∀ l, Advances (parseMultiplicationLoop n l)
  parseMultiplication : Advances (parseMultiplication n)
  parseUnary : Advances (parseUnary n)
  parsePrimaryIndexLoop : ∀ l, Advances (parsePrimaryIndexLoop n l)
  parsePrimaryArgumentLoop : ∀ l, Advances (parsePrimaryArgumentLoop n l)
  parsePrimaryCallLoop : ∀ l, Advances (parsePrimaryCallLoop n l)
  parsePrimary : Advances (parsePrimary n)
  parseCompoundLoop : ∀ l, Advances (parseCompoundLoop n l)
  parseCompound : Advances (parseCompound n)
  parseIf : Advances (parseIf n)
  parseWhile : Advances (parseWhile n)
  parseFor : Advances (parseFor n)
  parseExpressionStmt : Advances (parseExpressionStmt n)
  parseReturn : Advances (parseReturn n)
  parseDefinition : Advances (parseDefinition n)

/-- One parameter `T p` of a function declaration, as tokens, with the comma
that follows it when it is not the last parameter. -/
structure ParamDecl where
  type : Token
  name : Token
  comma : Token

/-- The tokens of a parameter list, commas included. -/
def paramTokens : List ParamDecl → List Token
  | [] => []
  | [a] => [a.type, a.name]
  | a :: b :: rest => a.type :: a.name :: a.comma :: paramTokens (b :: rest)

/-- The tokens of parameters that are each followed by a comma. -/
def paramPrefixTokens (l : List ParamDecl) : List Token :=
  l.flatMap (fun d => [d.type, d.name, d.comma])

/-- The pairs (name, type) of the parameters, in source order. -/
def paramEntries (l : List ParamDecl) : List (String × String) :=
  l.map (fun d => (d.name.value, d.type.value))

/-- The parameters `l` are well formed for the type table `table`: the text of
every type token is in the table, every name is an identifier, and a comma
follows every parameter but the last. -/
def paramsInPlace (table : List String) : List ParamDecl → Prop
  | [] => True
  | [a] => a.type.value ∈ table ∧ a.name.type = TokenType.identifier
  | a :: b :: rest =>
    a.type.value ∈ table ∧ a.name.type = TokenType.identifier ∧
    a.comma.type = TokenType.comma ∧ paramsInPlace table (b :: rest)

/-- The node is a class declaration. -/
def ASTNode.isClassDecl : ASTNode → Bool
  | ASTNode.ClassDecl _ _ => true
  | _ => false

/-- The node is a function declaration. -/
def ASTNode.isFunctionDecl : ASTNode → Bool
  | ASTNode.FunctionDecl _ _ _ _ => true
  | _ => false

/-- Every value that `m` returns satisfies `P`. -/
def Returns {α : Type} (m : ParserM α) (P : α → Prop) : Prop :=
  ∀ p a q, m p = Except.ok (a, q) → P a

/-- Read from the state `p` on, the top-level constructs are `code`, in source
order, and the input ends in the state `q`: each construct whose first token
has the text `class` is read by `parseClass` and is a class declaration, each
other one is read by `parseFunction` and is a function declaration. -/
def topLevelRun : Parser → List ASTNode → Parser → Prop
  | p, [], q => p.look = none ∧ q = p
  | p, d :: ds, q => ∃ t p',
      p.look = some t ∧
      (if t.value = "class" then
        d.isClassDecl = true ∧ Yields parseClass p (Except.ok (d, p'))
      else
        d.isFunctionDecl = true ∧ Yields parseFunction p (Except.ok (d, p'))) ∧
      topLevelRun p' ds q

/-- The tokens that the scan of the line with number `k` produces. -/
def lineTokens (k : Nat) (line : String) : List Token :=
  tokenizeLine (k : Int) line.length line.data []

/-- The value of a decimal digit character. -/
def digitValue (c : Char) : Nat := c.toNat - '0'.toNat

/-- Modelled from the spec: the decimal value of a run of digits, the first
digit being the most significant one. -/
def decimalValue (d : List Char) : Nat :=
  Nat.ofDigits 10 (d.reverse.map digitValue)

/-- The map `fields` of the struct descriptor after the field declarations
`fields` were added, in source order, to the map `m`. -/
def declareFields (m : List (String × Type_)) (fields : List FieldDecl) : List (String × Type_) :=
  fields.foldl (fun m f => mapAssign m f.name.value (Type_.PrimitiveType f.type.value)) m

/-- Modelled from the spec: the type given by the last declaration of the field
name `x` in a class body, if there is one. -/
def lastDeclared (fields : List FieldDecl) (x : String) : Option Type_ :=
  (fields.reverse.find? (fun f => f.name.value == x)).map
    (fun f => Type_.PrimitiveType f.type.value)

/-- The state has the tokens `ts`, and at most `r` of them are still unread. -/
def Unread (ts : List Token) (r : Nat) (p : Parser) : Prop :=
  p.tokens = ts ∧ ts.length - p.current ≤ r

/-- The state has the tokens `ts`, and of at most `r` tokens that were unread
at least `d` have been read since. -/
def Read (ts : List Token) (r d : Nat) (q : Parser) : Prop :=
  d ≤ r ∧ Unread ts (r - d) q

/-- Run in a state that satisfies `P`, the call `m` does not exhaust the fuel,
and when it returns `a` in the state `q` then `Q a q` holds. -/
structure Triple {α : Type} (P : Parser → Prop) (m : ParserM α) (Q : α → Parser → Prop) :
    Prop where
  safe : ∀ p, P p → ¬ OutOfFuel (m p)
  post : ∀ p a q, P p → m p = Except.ok (a, q) → Q a q

/-- With fuel `n`, every function of the grammar runs without exhausting the
fuel in any state with at most `r` unread tokens, when `n` is at least ten
times `r` plus the rank of the function; a statement, an expression or a
primary that is returned has read at least one token. -/
structure RunsAt (n : Nat) : Prop where
  parseStatement : ∀ (ts : List Token) (r : Nat), 10 * r + 9 ≤ n →
    Triple (Unread ts r) (Compiler.parseStatement n) (fun _ => Read ts r 1)
  parseExpression : ∀ (ts : List Token) (r : Nat), 10 * r + 7 ≤ n →
    Triple (Unread ts r) (Compiler.parseExpression n) (fun _ => Read ts r 1)
  parseAssignment : ∀ (ts : List Token) (r : Nat), 10 * r + 6 ≤ n →
    Triple (Unread ts r) (Compiler.parseAssignment n) (fun _ => Read ts r 1)
  parseComparisonLoop : ∀ l (ts : List Token) (r : Nat), 10 * r + 1 ≤ n →
    Triple (Unread ts r) (Compiler.parseComparisonLoop n l) (fun _ => Read ts r 0)
  parseComparison : ∀ (ts : List Token) (r : Nat), 10 * r + 5 ≤ n →
    Triple (Unread ts r) (Compiler.parseComparison n) (fun _ => Read ts r 1)
  parseAdditionLoop : ∀ l (ts : List Token) (r : Nat), 10 * r + 1 ≤ n →
    Triple (Unread ts r) (Compiler.parseAdditionLoop n l) (fun _ => Read ts r 0)
  parseAddition : ∀ (ts : List Token) (r : Nat), 10 * r + 4 ≤ n →
    Triple (Unread ts r) (Compiler.parseAddition n) (fun _ => Read ts r 1)
  parseMultiplicationLoop : ∀ l (ts : List Token) (r : Nat), 10 * r + 1 ≤ n →
    Triple (Unread ts r) (Compiler.parseMultiplicationLoop n l) (fun _ => Read ts r 0)
  parseMultiplication : ∀ (ts : List Token) (r : Nat), 10 * r + 3 ≤ n →
    Triple (Unread ts r) (Compiler.parseMultiplication n) (fun _ => Read ts r 1)
  parseUnary : ∀ (ts : List Token) (r : Nat), 10 * r + 2 ≤ n →
    Triple (Unread ts r) (Compiler.parseUnary n) (fun _ => Read ts r 1)
  parsePrimaryIndexLoop : ∀ l (ts : List Token) (r : Nat), 10 * r + 1 ≤ n →
    Triple (Unread ts r) (Compiler.parsePrimaryIndexLoop n l) (fun _ => Read ts r 0)
  parsePrimaryArgumentLoop : ∀ l (ts : List Token) (r : Nat), 10 * r + 8 ≤ n →
    Triple (Unread ts r) (Compiler.parsePrimaryArgumentLoop n l) (fun _ => Read ts r 0)
  parsePrimaryCallLoop : ∀ l (ts : List Token) (r : Nat), 10 * r + 1 ≤ n →
    Triple (Unread ts r) (Compiler.parsePrimaryCallLoop n l) (fun _ => Read ts r 0)
  parsePrimary : ∀ (ts : List Token) (r : Nat), 10 * r + 1 ≤ n →
    Triple (Unread ts r) (Compiler.parsePrimary n) (fun _ => Read ts r 1)
  parseCompoundLoop : ∀ l (ts : List Token) (r : Nat), 10 * r + 10 ≤ n →
    Triple (Unread ts r) (Compiler.parseCompoundLoop n l) (fun _ => Read ts r 0)
  parseCompound : ∀ (ts : List Token) (r : Nat), 10 * r + 1 ≤ n →
    Triple (Unread ts r) (Compiler.parseCompound n) (fun _ => Read ts r 1)
  parseIf : ∀ (ts : List Token) (r : Nat), 10 * r + 1 ≤ n →
    Triple (Unread ts r) (Compiler.parseIf n) (fun _ => Read ts r 1)
  parseWhile : ∀ (ts : List Token) (r : Nat), 10 * r + 1 ≤ n →
    Triple (Unread ts r) (Compiler.parseWhile n) (fun _ => Read ts r 1)
  parseFor : ∀ (ts : List Token) (r : Nat), 10 * r + 1 ≤ n →
    Triple (Unread ts r) (Compiler.parseFor n) (fun _ => Read ts r 1)
  parseExpressionStmt : ∀ (ts : List Token) (r : Nat), 10 * r + 8 ≤ n →
    Triple (Unread ts r) (Compiler.parseExpressionStmt n) (fun _ => Read ts r 1)
  parseReturn : ∀ (ts : List Token) (r : Nat), 10 * r + 1 ≤ n →
    Triple (Unread ts r) (Compiler.parseReturn n) (fun _ => Read ts r 1)
  parseDefinition : ∀ (ts : List Token) (r : Nat), 10 * r + 1 ≤ n →
    Triple (Unread ts r) (Compiler.parseDefinition n) (fun _ => Read ts r 1)

/-- The token read last before the cursor of `q` is a `;` or a `}`. -/
def EndsStatement (q : Parser) : Prop :=
  ∃ t, 0 < q.current ∧ q.tokens[q.current - 1]? = some t ∧
    (t.type = TokenType.semicolon ∨ t.type = TokenType.c_brace)

/-- Whenever `m`, called in a state that satisfies `P`, returns, the state it
returns in satisfies `Q`. -/
def Post {α : Type} (P : Parser → Prop) (m : ParserM α) (Q : Parser → Prop) : Prop :=
  ∀ p a q, P p → m p = Except.ok (a, q) → Q q

/-- Whenever `m1` returns, `m2` run on the same state returns in the same
state (the values may differ). -/
def SameEnd {α β : Type} (m1 : ParserM α) (m2 : ParserM β) : Prop :=
  ∀ s a q, m1 s = Except.ok (a, q) → ∃ b, m2 s = Except.ok (b, q)

/-- The token `t` would open a suffix of a kind whose loop is over once the
field suffixes `flds`, the postfix operators `posts` and the call suffixes
`calls` have been read: a `[` after a field, postfix or call suffix, a `.`
after a postfix or call suffix, or a `++` or `--` after a call suffix. -/
def opensEarlierSuffix (flds : List FieldSuffix) (posts : List Token)
    (calls : List CallSuffix) (t : Token) : Prop :=
  (t.type = TokenType.o_bracket ∧ (flds ≠ [] ∨ posts ≠ [] ∨ calls ≠ [])) ∨
  (t.type = TokenType._operator ∧ t.value = "." ∧ (posts ≠ [] ∨ calls ≠ [])) ∨
  (t.type = TokenType._operator ∧ t.value ∈ ["++", "--"] ∧ calls ≠ [])

/-! # Properties -/

/-! ## Keyword lookup -/

theorem mapStringToToken_value (w : String) (n : Int) : (mapStringToToken w n).value = w := by
  unfold mapStringToToken; split <;> rfl

theorem mapStringToToken_line (w : String) (n : Int) : (mapStringToToken w n).line = n := by
  unfold mapStringToToken; split <;> rfl

theorem mapStringToToken_type (w : String) (n : Int) :
    (mapStringToToken w n).type = (string_to_type.lookup w).getD TokenType.identifier := by
  unfold mapStringToToken; split <;> simp [*]

theorem lookup_of_mem (w : String) (k : TokenType) (h : (w, k) ∈ string_to_type) :
    string_to_type.lookup w = some k := by
  have hall : ∀ e ∈ string_to_type, string_to_type.lookup e.1 = some e.2 := by decide
  exact hall (w, k) h

theorem lookup_of_not_mem (w : String) (h : ∀ k, (w, k) ∉ string_to_type) :
    string_to_type.lookup w = none := by
  rw [List.lookup_eq_none_iff]
  intro a ha
  by_contra hne
  have hw : w = a.1 := by simpa using hne
  exact h a.2 (by rw [hw]; exact ha)

/-- C7. Keyword lookup is total and exact: `mapStringToToken w n` always
returns a token with text `w` and line `n`; its kind is the kind the keyword
table binds to `w` when `w` is one of the reserved words, and `identifier` for
every other `w`. The reserved words are exactly `def`, `if`, `else`, `for`,
`while`, `return`, `true`, `false`, `break`, `continue`, `let`; the words `iff`
and `If` are identifiers. -/
theorem mapStringToToken_total_exact (w : String) (n : Int) :
    (mapStringToToken w n).value = w ∧ (mapStringToToken w n).line = n ∧
    (∀ k, (w, k) ∈ string_to_type → (mapStringToToken w n).type = k) ∧
    ((∀ k, (w, k) ∉ string_to_type) → (mapStringToToken w n).type = TokenType.identifier) ∧
    string_to_type.map Prod.fst =
      ["def", "if", "else", "for", "while", "return", "true", "false", "break",
        "continue", "let"] ∧
    (mapStringToToken "iff" n).type = TokenType.identifier ∧
    (mapStringToToken "If" n).type = TokenType.identifier := by
  refine ⟨mapStringToToken_value w n, mapStringToToken_line w n, ?_, ?_, rfl, rfl, rfl⟩
  · intro k hk
    rw [mapStringToToken_type, lookup_of_mem w k hk]; rfl
  · intro h
    rw [mapStringToToken_type, lookup_of_not_mem w h]; rfl

/-! ## Character classes and the lexer -/

theorem isspace_of_isalpha {c : Char} (h : isalpha c = true) : isspace c = false := by
  simp [isalpha, isspace] at *
  omega

theorem isWordChar_of_isalpha {c : Char} (h : isalpha c = true) : isWordChar c = true := by
  simp [isWordChar, isalnum, h]

theorem isNumberChar_of_isdigit {c : Char} (h : isdigit c = true) : isNumberChar c = true := by
  simp [isNumberChar, h]

theorem isspace_of_isWordChar {c : Char} (h : isWordChar c = true) : isspace c = false := by
  simp only [isWordChar, isalnum, Bool.or_eq_true, beq_iff_eq] at h
  rcases h with (h | h) | h
  · exact isspace_of_isalpha h
  · simp [isdigit, isspace] at *; omega
  · subst h; rfl

theorem isspace_of_isOperatorChar {c : Char} (h : isOperatorChar c = true) : isspace c = false := by
  simp [isOperatorChar, operatorChars] at h
  rcases h with h | h | h | h | h | h | h | h | h | h | h <;> subst h <;> rfl

theorem isspace_of_isNumberChar {c : Char} (h : isNumberChar c = true) : isspace c = false := by
  simp only [isNumberChar, Bool.or_eq_true, beq_iff_eq] at h
  rcases h with h | h
  · simp [isdigit, isspace] at *; omega
  · subst h; rfl

theorem String_join_data (l : List String) : (String.join l).data = (l.map String.data).flatten := by
  have h : ∀ (l : List String) (acc : String),
      (l.foldl (fun r s => r ++ s) acc).data = acc.data ++ (l.map String.data).flatten := by
    intro l
    induction l with
    | nil => intro acc; simp
    | cons s l ih => intro acc; simp [ih, String.data_append]
  simpa [String.join] using h l ""

theorem tokenTexts_cons (t : Token) (ts : List Token) :
    (tokenTexts (t :: ts)).data = t.value.data ++ (tokenTexts ts).data := by
  simp [tokenTexts, String_join_data]

theorem tokenizeLine_acc (ln : Int) : ∀ (fuel : Nat) (cs : List Char) (acc : List Token),
    tokenizeLine ln fuel cs acc = acc ++ tokenizeLine ln fuel cs [] := by
  intro fuel
  induction fuel with
  | zero => intro cs acc; simp [tokenizeLine]
  | succ fuel ih =>
    intro cs acc
    cases cs with
    | nil => simp [tokenizeLine]
    | cons c rest =>
      simp only [tokenizeLine]
      split_ifs
      · exact ih _ _
      all_goals
        rw [ih _ (acc ++ _), ih _ ([] ++ _)]
        simp

theorem filter_run (p : Char → Bool) (hp : ∀ c, p c = true → isspace c = false)
    (l : List Char) :
    l.takeWhile p ++ (l.dropWhile p).filter (fun c => !isspace c) =
      l.filter (fun c => !isspace c) := by
  conv => rhs; rw [← List.takeWhile_append_dropWhile p l, List.filter_append]
  congr 1
  symm
  rw [List.filter_eq_self]
  intro a ha
  simp [hp a (List.mem_takeWhile_imp ha)]

theorem dropWhile_length_le (p : Char → Bool) (c : Char) (rest : List Char)
    (hc : p c = true) : ((c :: rest).dropWhile p).length ≤ rest.length := by
  rw [List.dropWhile_cons_of_pos hc]
  exact (List.dropWhile_sublist p).length_le

theorem tokenizeLine_spec (ln : Int) : ∀ (fuel : Nat) (cs : List Char), cs.length ≤ fuel →
    (∀ t ∈ tokenizeLine ln fuel cs [], t.line = ln) ∧
    (tokenTexts (tokenizeLine ln fuel cs [])).data = cs.filter (fun c => !isspace c) := by
  intro fuel
  induction fuel with
  | zero =>
    intro cs h
    have : cs = [] := List.length_eq_zero.mp (by omega)
    subst this
    simp [tokenizeLine, tokenTexts, String.join]
  | succ fuel ih =>
    intro cs h
    cases cs with
    | nil => simp [tokenizeLine, tokenTexts, String.join]
    | cons c rest =>
      have hrest : rest.length ≤ fuel := by simpa using h
      simp only [tokenizeLine]
      split_ifs with hs ha hd ho
      · obtain ⟨h1, h2⟩ := ih rest hrest
        refine ⟨h1, ?_⟩
        rw [h2]; simp [hs]
      · have hc := isWordChar_of_isalpha ha
        obtain ⟨h1, h2⟩ := ih ((c :: rest).dropWhile isWordChar)
          (le_trans (dropWhile_length_le _ c rest hc) hrest)
        rw [tokenizeLine_acc]
        constructor
        · intro t ht
          simp only [List.nil_append, List.singleton_append, List.mem_cons] at ht
          rcases ht with rfl | ht
          · exact mapStringToToken_line _ _
          · exact h1 t ht
        · simp only [tokenTexts, String_join_data] at h2 ⊢
          simp only [List.nil_append, List.singleton_append, List.map_cons, List.flatten_cons,
            mapStringToToken_value]
          rw [h2]
          exact filter_run isWordChar (fun c => isspace_of_isWordChar) (c :: rest)
      · have hc := isNumberChar_of_isdigit hd
        obtain ⟨h1, h2⟩ := ih ((c :: rest).dropWhile isNumberChar)
          (le_trans (dropWhile_length_le _ c rest hc) hrest)
        rw [tokenizeLine_acc]
        constructor
        · intro t ht
          simp only [List.nil_append, List.singleton_append, List.mem_cons] at ht
          rcases ht with rfl | ht
          · rfl
          · exact h1 t ht
        · simp only [tokenTexts, String_join_data] at h2 ⊢
          simp only [List.nil_append, List.singleton_append, List.map_cons, List.flatten_cons]
          rw [h2]
          exact filter_run isNumberChar (fun c => isspace_of_isNumberChar) (c :: rest)
      · obtain ⟨h1, h2⟩ := ih ((c :: rest).dropWhile isOperatorChar)
          (le_trans (dropWhile_length_le _ c rest ho) hrest)
        rw [tokenizeLine_acc]
        constructor
        · intro t ht
          simp only [List.nil_append, List.singleton_append, List.mem_cons] at ht
          rcases ht with rfl | ht
          · rfl
          · exact h1 t ht
        · simp only [tokenTexts, String_join_data] at h2 ⊢
          simp only [List.nil_append, List.singleton_append, List.map_cons, List.flatten_cons]
          rw [h2]
          exact filter_run isOperatorChar (fun c => isspace_of_isOperatorChar) (c :: rest)
      · obtain ⟨h1, h2⟩ := ih rest hrest
        rw [tokenizeLine_acc]
        constructor
        · intro t ht
          simp only [List.nil_append, List.singleton_append, List.mem_cons] at ht
          rcases ht with rfl | ht
          · rfl
          · exact h1 t ht
        · simp only [tokenTexts, String_join_data] at h2 ⊢
          simp only [List.nil_append, List.singleton_append, List.map_cons, List.flatten_cons]
          rw [h2]
          simp [hs]

theorem tokenizeLines_acc : ∀ (file : List String) (ln : Int) (acc : List Token),
    tokenizeLines ln file acc = acc ++ tokenizeLines ln file [] := by
  intro file
  induction file with
  | nil => intro ln acc; simp [tokenizeLines]
  | cons line file ih =>
    intro ln acc
    simp only [tokenizeLines]
    rw [ih, tokenizeLine_acc, ih _ (tokenizeLine _ _ _ [])]
    simp

theorem tokenizeLines_cons (line : String) (file : List String) (ln : Int) :
    tokenizeLines ln (line :: file) [] =
      tokenizeLine ln line.length line.data [] ++ tokenizeLines (ln + 1) file [] := by
  simp only [tokenizeLines]
  rw [tokenizeLines_acc]

theorem tokenizeLines_line_ge : ∀ (file : List String) (ln : Int),
    ∀ t ∈ tokenizeLines ln file [], ln ≤ t.line ∧ t.line < ln + file.length := by
  intro file
  induction file with
  | nil => intro ln t ht; simp [tokenizeLines] at ht
  | cons line file ih =>
    intro ln t ht
    rw [tokenizeLines_cons, List.mem_append] at ht
    rcases ht with ht | ht
    · have := (tokenizeLine_spec ln line.length line.data (le_refl _)).1 t ht
      simp only [List.length_cons, Nat.cast_add, Nat.cast_one]
      omega
    · have := ih (ln + 1) t ht
      simp only [List.length_cons, Nat.cast_add, Nat.cast_one]
      omega

theorem tokenizeLines_filter : ∀ (file : List String) (ln : Int) (i : Nat) (line : String),
    file[i]? = some line →
    (tokenizeLines ln file []).filter (fun t => t.line = ln + i) =
      tokenizeLine (ln + i) line.length line.data [] := by
  intro file
  induction file with
  | nil => intro ln i line h; simp at h
  | cons l file ih =>
    intro ln i line h
    rw [tokenizeLines_cons, List.filter_append]
    cases i with
    | zero =>
      simp only [List.getElem?_cons_zero, Option.some.injEq] at h
      subst h
      have h1 : (tokenizeLine ln l.length l.data []).filter (fun t => t.line = ln + (0 : Nat)) =
          tokenizeLine ln l.length l.data [] := by
        rw [List.filter_eq_self]
        intro t ht
        simp [(tokenizeLine_spec ln l.length l.data (le_refl _)).1 t ht]
      have h2 : (tokenizeLines (ln + 1) file []).filter (fun t => t.line = ln + (0 : Nat)) = [] := by
        rw [List.filter_eq_nil_iff]
        intro t ht
        have := (tokenizeLines_line_ge file (ln + 1) t ht).1
        simp only [Nat.cast_zero, add_zero, decide_eq_true_eq]
        omega
      rw [h1, h2]
      simp
    | succ i =>
      simp only [List.getElem?_cons_succ] at h
      have h1 : (tokenizeLine ln l.length l.data []).filter
          (fun t => t.line = ln + ((i + 1 : Nat) : Int)) = [] := by
        rw [List.filter_eq_nil_iff]
        intro t ht
        have := (tokenizeLine_spec ln l.length l.data (le_refl _)).1 t ht
        simp only [decide_eq_true_eq]
        push_cast
        omega
      have h2 := ih (ln + 1) i line h
      have e : ln + ((i + 1 : Nat) : Int) = ln + 1 + (i : Int) := by push_cast; ring
      rw [h1, e, h2]
      simp

/-- C5. `tokenize` loses no non-whitespace character: for every list of lines
and every 1-based line number `k`, the texts of the tokens whose line field is
`k`, concatenated in order, are line `k` without its whitespace characters. -/
theorem tokenize_reconstructs_line (file : List String) (k : Nat) (line : String)
    (hk : 1 ≤ k) (hline : file[k - 1]? = some line) :
    tokenTexts ((tokenize file).filter (fun t => t.line = (k : Int))) =
      String.mk (line.data.filter (fun c => !isspace c)) := by
  have e : (k : Int) = 1 + ((k - 1 : Nat) : Int) := by omega
  unfold tokenize
  rw [e, tokenizeLines_filter file 1 (k - 1) line hline]
  apply String.ext
  exact (tokenizeLine_spec _ line.length line.data (le_refl _)).2

theorem tokenize_reconstructs_line_witness :
    tokenTexts ((tokenize ["int x;", "  x = x+1 ;"]).filter (fun t => t.line = ((2 : Nat) : Int))) =
      String.mk ("  x = x+1 ;".data.filter (fun c => !isspace c)) :=
  tokenize_reconstructs_line ["int x;", "  x = x+1 ;"] 2 "  x = x+1 ;" (by decide) (by rfl)

theorem isWordChar_of_isOperatorChar {c : Char} (h : isOperatorChar c = true) :
    isWordChar c = false := by
  simp [isOperatorChar, operatorChars] at h
  rcases h with h | h | h | h | h | h | h | h | h | h | h <;> subst h <;> rfl

theorem isOperatorChar_of_isalpha {c : Char} (h : isalpha c = true) :
    isOperatorChar c = false := by
  cases hc : isOperatorChar c with
  | false => rfl
  | true =>
    have := isWordChar_of_isOperatorChar hc
    rw [isWordChar_of_isalpha h] at this
    exact absurd this (by decide)

theorem isalpha_of_isOperatorChar {c : Char} (h : isOperatorChar c = true) :
    isalpha c = false := by
  cases hc : isalpha c with
  | false => rfl
  | true => rw [isOperatorChar_of_isalpha hc] at h; exact absurd h (by decide)

theorem isdigit_of_isOperatorChar {c : Char} (h : isOperatorChar c = true) :
    isdigit c = false := by
  have := isWordChar_of_isOperatorChar h
  simp only [isWordChar, isalnum, Bool.or_eq_false_iff] at this
  exact this.1.2

theorem takeWhile_run (p : Char → Bool) : ∀ (w rest : List Char),
    (∀ c ∈ w, p c = true) → (∀ c, rest.head? = some c → p c = false) →
    (w ++ rest).takeWhile p = w ∧ (w ++ rest).dropWhile p = rest := by
  intro w
  induction w with
  | nil =>
    intro rest _ hr
    cases rest with
    | nil => simp
    | cons c rest => simp [hr c rfl]
  | cons x w ih =>
    intro rest hw hr
    have hx : p x = true := hw x (List.mem_cons_self _ _)
    obtain ⟨h1, h2⟩ := ih rest (fun c hc => hw c (List.mem_cons_of_mem _ hc)) hr
    simp [List.takeWhile_cons, List.dropWhile_cons, hx, h1, h2]

theorem tokenizeLine_nil (ln : Int) (fuel : Nat) (acc : List Token) :
    tokenizeLine ln fuel [] acc = acc := by
  cases fuel <;> simp [tokenizeLine]

theorem tokenizeLine_word (ln : Int) (fuel : Nat) (c : Char) (cs rest : List Char)
    (acc : List Token) (hc : isalpha c = true) (hcs : ∀ x ∈ cs, isWordChar x = true)
    (hr : ∀ x, rest.head? = some x → isWordChar x = false) :
    tokenizeLine ln (fuel + 1) (c :: cs ++ rest) acc =
      tokenizeLine ln fuel rest (acc ++ [mapStringToToken (String.mk (c :: cs)) ln]) := by
  have hall : ∀ x ∈ c :: cs, isWordChar x = true := by
    intro x hx
    rcases List.mem_cons.mp hx with rfl | hx
    · exact isWordChar_of_isalpha hc
    · exact hcs x hx
  obtain ⟨h1, h2⟩ := takeWhile_run isWordChar (c :: cs) rest hall hr
  rw [List.cons_append] at h1 h2 ⊢
  simp only [tokenizeLine, isspace_of_isalpha hc, hc, h1, h2]
  simp

theorem tokenizeLine_operator (ln : Int) (fuel : Nat) (c : Char) (cs rest : List Char)
    (acc : List Token) (hall : ∀ x ∈ c :: cs, isOperatorChar x = true)
    (hr : ∀ x, rest.head? = some x → isOperatorChar x = false) :
    tokenizeLine ln (fuel + 1) (c :: cs ++ rest) acc =
      tokenizeLine ln fuel rest
        (acc ++ [{ type := TokenType._operator, line := ln, value := String.mk (c :: cs) }]) := by
  have hc : isOperatorChar c = true := hall c (List.mem_cons_self _ _)
  obtain ⟨h1, h2⟩ := takeWhile_run isOperatorChar (c :: cs) rest hall hr
  rw [List.cons_append] at h1 h2 ⊢
  simp only [tokenizeLine, isspace_of_isOperatorChar hc, isalpha_of_isOperatorChar hc,
    isdigit_of_isOperatorChar hc, hc, h1, h2]
  simp

/-- C6. Operator maximal munch: for identifier-shaped words `a` and `b` and a
non-empty string `op` of operator characters, the line `a ++ op ++ b` lexes to
exactly three tokens, the word token of `a`, one operator token with text `op`
and the word token of `b`; the operator run is never split. -/
theorem operator_maximal_munch (a op b : String)
    (ha : isIdentifierShaped a = true) (hb : isIdentifierShaped b = true)
    (hop : op ≠ "") (hops : op.data.all isOperatorChar = true) :
    tokenize [a ++ op ++ b] =
      [mapStringToToken a 1, { type := TokenType._operator, line := 1, value := op },
        mapStringToToken b 1] := by
  obtain ⟨a⟩ := a
  obtain ⟨op⟩ := op
  obtain ⟨b⟩ := b
  cases a with
  | nil => simp [isIdentifierShaped] at ha
  | cons a0 as =>
  cases b with
  | nil => simp [isIdentifierShaped] at hb
  | cons b0 bs =>
  cases op with
  | nil => exact absurd rfl hop
  | cons o os =>
  simp only [isIdentifierShaped, Bool.and_eq_true, List.all_eq_true] at ha hb
  simp only [List.all_eq_true] at hops
  have ho : isOperatorChar o = true := hops o (List.mem_cons_self _ _)
  have hlen : (String.mk (a0 :: as) ++ String.mk (o :: os) ++ String.mk (b0 :: bs)).length =
      (as.length + os.length + bs.length) + 3 := by
    simp only [String.length_append, String.length_mk, List.length_cons]
    omega
  have hdata : (String.mk (a0 :: as) ++ String.mk (o :: os) ++ String.mk (b0 :: bs)).data =
      a0 :: as ++ (o :: os ++ (b0 :: bs ++ [])) := by
    simp [String.data_append]
  simp only [tokenize, tokenizeLines, hlen, hdata]
  rw [tokenizeLine_word 1 _ a0 as _ _ ha.1 ha.2
    (fun x hx => by
      simp only [List.cons_append, List.head?_cons, Option.some.injEq] at hx
      subst hx; exact isWordChar_of_isOperatorChar ho)]
  rw [tokenizeLine_operator 1 _ o os _ _ hops
    (fun x hx => by
      simp only [List.cons_append, List.head?_cons, Option.some.injEq] at hx
      subst hx; exact isOperatorChar_of_isalpha hb.1)]
  rw [tokenizeLine_word 1 _ b0 bs [] _ hb.1 hb.2 (fun x hx => by simp at hx)]
  rw [tokenizeLine_nil]
  simp

theorem operator_maximal_munch_witness :
    tokenize ["a" ++ "<=" ++ "b"] =
      [{ type := TokenType.identifier, line := 1, value := "a" },
        { type := TokenType._operator, line := 1, value := "<=" },
        { type := TokenType.identifier, line := 1, value := "b" }] :=
  operator_maximal_munch "a" "<=" "b" (by decide) (by decide) (by decide) (by decide)

/-! ## The parser's helpers, run on a state -/

theorem bind_apply {α β : Type} (m : ParserM α) (f : α → ParserM β) (p : Parser) :
    (m >>= f) p = match m p with
      | Except.error e => Except.error e
      | Except.ok (a, p') => f a p' := rfl

theorem pure_apply {α : Type} (a : α) (p : Parser) :
    (pure a : ParserM α) p = Except.ok (a, p) := rfl

theorem fail_apply {α : Type} (e : Failure) (p : Parser) :
    (fail e : ParserM α) p = Except.error (e, p) := rfl

theorem look_isNone (p : Parser) : decide (p.current ≥ p.tokens.length) = p.look.isNone := by
  simp only [Parser.look]
  by_cases h : p.current < p.tokens.length
  · rw [List.getElem?_eq_getElem h]; simp; omega
  · rw [List.getElem?_eq_none (by omega)]; simp; omega

theorem isAtEnd_apply (p : Parser) : isAtEnd p = Except.ok (p.look.isNone, p) := by
  simp only [isAtEnd, look_isNone]

theorem peek_apply (p : Parser) : peek p =
    match p.look with
    | some t => Except.ok (t, p)
    | none => Except.error (Failure.out_of_bounds p.current, p) := by
  rfl

theorem advance_apply (p : Parser) : advance p =
    match p.look with
    | some t => Except.ok (t, p.skip 1)
    | none => Except.error (Failure.out_of_bounds p.current, p) := by
  simp only [advance, tokenAt, Parser.look, Parser.skip]
  cases p.tokens[p.current]? <;> rfl

theorem check_apply (ty : TokenType) (p : Parser) :
    check ty p = Except.ok (p.look.any (fun t => t.type == ty), p) := by
  simp only [check, bind_apply, isAtEnd_apply, peek_apply]
  cases h : p.look <;> simp [pure_apply, bind_apply, peek_apply, h]

theorem match_apply (ty : TokenType) (p : Parser) :
    match_ ty p = if p.look.any (fun t => t.type == ty) then Except.ok (true, p.skip 1)
      else Except.ok (false, p) := by
  simp only [match_, bind_apply, isAtEnd_apply, peek_apply, advance_apply]
  cases h : p.look with
  | none => simp [pure_apply]
  | some t =>
    by_cases ht : t.type = ty <;> simp [pure_apply, bind_apply, peek_apply, advance_apply, ht, h]

theorem skip_look (p : Parser) (k : Nat) : (p.skip k).look = p.tokens[p.current + k]? := rfl
theorem skip_skip (p : Parser) (j k : Nat) : (p.skip j).skip k = p.skip (j + k) := by
  simp [Parser.skip, Nat.add_assoc]
theorem skip_tokens (p : Parser) (k : Nat) : (p.skip k).tokens = p.tokens := rfl
theorem skip_current (p : Parser) (k : Nat) : (p.skip k).current = p.current + k := rfl
theorem skip_zero (p : Parser) : p.skip 0 = p := rfl

theorem previous_skip (p : Parser) (k : Nat) :
    previous (p.skip (k + 1)) = match (p.skip k).look with
      | some t => Except.ok (t, p.skip (k + 1))
      | none => Except.error (Failure.out_of_bounds (p.current + k), p.skip (k + 1)) := by
  have e : (if (p.skip (k + 1)).current = 0 then 2 ^ 64 - 1 else (p.skip (k + 1)).current - 1) =
      p.current + k := by
    have h : (p.skip (k + 1)).current = p.current + k + 1 := rfl
    rw [h, if_neg (Nat.succ_ne_zero _)]
    rfl
  simp only [previous, tokenAt, e, skip_look, skip_tokens]

theorem consume_apply (ty : TokenType) (msg : String) (p : Parser) :
    consume ty msg p = match p.look with
      | some t =>
        if t.type = ty then Except.ok (t, p.skip 1)
        else Except.error (Failure.runtime_error
          ("Parse Error: " ++ msg ++ " [Line: " ++ toString t.line ++ "]"), p)
      | none => Except.error (Failure.out_of_bounds p.current, p) := by
  simp only [consume, bind_apply, match_apply]
  cases h : p.look with
  | none => simp [peek_apply, h, bind_apply]
  | some t =>
    by_cases ht : t.type = ty
    · have := previous_skip p 0
      simp only [skip_zero, h] at this
      simp [ht, this]
    · simp [ht, peek_apply, h, bind_apply, fail_apply]

theorem checkOperator_apply (ops : List String) (p : Parser) :
    checkOperator ops p =
      Except.ok (p.look.any (fun t => t.type == TokenType._operator && ops.contains t.value), p) := by
  simp only [checkOperator, bind_apply, check_apply]
  cases h : p.look with
  | none => simp [pure_apply]
  | some t =>
    by_cases ht : t.type = TokenType._operator <;> simp [ht, pure_apply, bind_apply, peek_apply, h]

theorem inTypeTable_apply (name : String) (p : Parser) :
    inTypeTable name p = Except.ok (p.typeTable.contains name, p) := rfl

theorem liftExcept_ok {α : Type} (a : α) (p : Parser) :
    liftExcept (Except.ok a) p = Except.ok (a, p) := rfl

theorem liftExcept_error {α : Type} (e : Failure) (p : Parser) :
    (liftExcept (Except.error e) : ParserM α) p = Except.error (e, p) := rfl


/-! ## More fuel never changes a result -/

theorem Stable.refl {α : Type} (m : ParserM α) : Stable m m := ⟨fun _ _ => rfl⟩

theorem outOfFuel_error {β : Type} (e : Failure × Parser) :
    OutOfFuel (Except.error e : Except (Failure × Parser) β) ↔ e.1 = Failure.out_of_fuel := by
  constructor
  · rintro ⟨q, h⟩
    injection h with h
    rw [h]
  · intro h
    exact ⟨e.2, by rw [← h]⟩

theorem outOfFuel_ok {β : Type} (v : β) :
    ¬ OutOfFuel (Except.ok v : Except (Failure × Parser) β) := by
  rintro ⟨q, h⟩
  cases h

theorem Stable.of_fail {α : Type} (m' : ParserM α) : Stable (fail Failure.out_of_fuel) m' :=
  ⟨fun p h => absurd ⟨p, rfl⟩ h⟩

theorem Stable.trans {α : Type} {a b c : ParserM α} (h1 : Stable a b) (h2 : Stable b c) :
    Stable a c :=
  ⟨fun p hp => by
    have e := h1.run p hp
    rw [h2.run p (by rw [e]; exact hp), e]⟩

theorem Stable.bind {α β : Type} {m m' : ParserM α} {f f' : α → ParserM β}
    (h1 : Stable m m') (h2 : ∀ a, Stable (f a) (f' a)) : Stable (m >>= f) (m' >>= f') := by
  constructor
  intro p hp
  rw [bind_apply] at hp
  rw [bind_apply, bind_apply]
  cases hm : m p with
  | error e =>
    simp only [hm] at hp
    have : m' p = m p := h1.run p (by
      rw [hm, outOfFuel_error]
      rwa [outOfFuel_error] at hp)
    rw [this, hm]
  | ok r =>
    obtain ⟨a, p'⟩ := r
    simp only [hm] at hp
    have : m' p = m p := h1.run p (by rw [hm]; exact outOfFuel_ok _)
    rw [this, hm]
    exact (h2 a).run p' hp

theorem Stable.ite {α : Type} {c : Prop} [Decidable c] {a a' b b' : ParserM α}
    (h1 : Stable a a') (h2 : Stable b b') :
    Stable (if c then a else b) (if c then a' else b') := by
  by_cases h : c <;> simp [h, h1, h2]

theorem Stable.le {α : Type} (f : Nat → ParserM α) (h : ∀ n, Stable (f n) (f (n + 1)))
    {n m : Nat} (hnm : n ≤ m) : Stable (f n) (f m) := by
  induction hnm with
  | refl => exact Stable.refl _
  | step _ ih => exact ih.trans (h _)

theorem parsePrimaryFieldLoop_stable (n : Nat) : ∀ node,
    Stable (parsePrimaryFieldLoop n node) (parsePrimaryFieldLoop (n + 1) node) := by
  induction n with
  | zero => intro node; exact Stable.of_fail _
  | succ n ih =>
    intro node
    rw [parsePrimaryFieldLoop, parsePrimaryFieldLoop]
    repeat (with_reducible first | exact Stable.refl _ | exact ih _ | apply Stable.bind | apply Stable.ite | intro _)

theorem parsePrimaryPostfixLoop_stable (n : Nat) : ∀ node,
    Stable (parsePrimaryPostfixLoop n node) (parsePrimaryPostfixLoop (n + 1) node) := by
  induction n with
  | zero => intro node; exact Stable.of_fail _
  | succ n ih =>
    intro node
    rw [parsePrimaryPostfixLoop, parsePrimaryPostfixLoop]
    repeat (with_reducible first | exact Stable.refl _ | exact ih _ | apply Stable.bind | apply Stable.ite | intro _)

theorem stableAt (n : Nat) : StableAt n := by
  induction n with
  | zero =>
    constructor
    all_goals first | exact Stable.of_fail _ | exact fun _ => Stable.of_fail _
  | succ n ih =>
    constructor
    all_goals (try intro l)
    all_goals first
      | rw [parseStatement, parseStatement]
      | rw [parseExpression, parseExpression]
      | rw [parseAssignment, parseAssignment]
      | rw [parseComparisonLoop, parseComparisonLoop]
      | rw [parseComparison, parseComparison]
      | rw [parseAdditionLoop, parseAdditionLoop]
      | rw [parseAddition, parseAddition]
      | rw [parseMultiplicationLoop, parseMultiplicationLoop]
      | rw [parseMultiplication, parseMultiplication]
      | rw [parseUnary, parseUnary]
      | rw [parsePrimaryIndexLoop, parsePrimaryIndexLoop]
      | rw [parsePrimaryArgumentLoop, parsePrimaryArgumentLoop]
      | rw [parsePrimaryCallLoop, parsePrimaryCallLoop]
      | rw [parsePrimary, parsePrimary]
      | rw [parseCompoundLoop, parseCompoundLoop]
      | rw [parseCompound, parseCompound]
      | rw [parseIf, parseIf]
      | rw [parseWhile, parseWhile]
      | rw [parseFor, parseFor]
      | rw [parseExpressionStmt, parseExpressionStmt]
      | rw [parseReturn, parseReturn]
      | rw [parseDefinition, parseDefinition]
    all_goals repeat (with_reducible first
      | exact Stable.refl _
      | exact ih.parseStatement | exact ih.parseExpression | exact ih.parseAssignment
      | exact ih.parseComparisonLoop _ | exact ih.parseComparison
      | exact ih.parseAdditionLoop _ | exact ih.parseAddition
      | exact ih.parseMultiplicationLoop _ | exact ih.parseMultiplication
      | exact ih.parseUnary | exact ih.parsePrimaryIndexLoop _
      | exact ih.parsePrimaryArgumentLoop _ | exact ih.parsePrimaryCallLoop _
      | exact ih.parsePrimary | exact ih.parseCompoundLoop _ | exact ih.parseCompound
      | exact ih.parseIf | exact ih.parseWhile | exact ih.parseFor
      | exact ih.parseExpressionStmt | exact ih.parseReturn | exact ih.parseDefinition
      | exact parsePrimaryFieldLoop_stable _ _ | exact parsePrimaryPostfixLoop_stable _ _
      | apply Stable.bind | apply Stable.ite | intro _)


/-! ## Running the grammar: one lemma per path -/

theorem Yields.of_run {α : Type} {f : Nat → ParserM α} (hf : ∀ n, Stable (f n) (f (n + 1)))
    {p : Parser} {r : Outcome α} (n : Nat) (h : f n p = r)
    (hr : ¬ OutOfFuel r) : Yields f p r :=
  ⟨n, fun m hm => by
    have := (Stable.le f hf hm).run p (by rw [h]; exact hr)
    rw [this, h]⟩

theorem Yields.unique {α : Type} {f : Nat → ParserM α} {p : Parser}
    {r r' : Outcome α} (h : Yields f p r) (h' : Yields f p r') : r = r' := by
  obtain ⟨n, hn⟩ := h
  obtain ⟨n', hn'⟩ := h'
  rw [← hn (max n n') (le_max_left _ _), ← hn' (max n n') (le_max_right _ _)]

theorem check_at (ty : TokenType) (p : Parser) : check ty p = Except.ok (p.atType ty, p) :=
  check_apply ty p

theorem checkOperator_at (ops : List String) (p : Parser) :
    checkOperator ops p = Except.ok (p.atOperator ops, p) :=
  checkOperator_apply ops p

theorem atOperator_of_look {p : Parser} {t : Token} {ops : List String} (h : p.look = some t)
    (ht : t.type = TokenType._operator) (hv : t.value ∈ ops) : p.atOperator ops = true := by
  simp [Parser.atOperator, h, ht, hv]

theorem atOperator_of_type {p : Parser} {t : Token} {ops : List String} (h : p.look = some t)
    (ht : t.type ≠ TokenType._operator) : p.atOperator ops = false := by
  simp [Parser.atOperator, h, ht]

theorem atOperator_of_value {p : Parser} {t : Token} {ops : List String} (h : p.look = some t)
    (hv : t.value ∉ ops) : p.atOperator ops = false := by
  simp [Parser.atOperator, h, hv]

theorem atType_of_look {p : Parser} {t : Token} (ty : TokenType) (h : p.look = some t) :
    p.atType ty = (t.type == ty) := by
  simp [Parser.atType, h]

/-! ### parsePrimary -/

theorem parsePrimary_literal {p : Parser} {t : Token} {v : Int} (h : p.look = some t)
    (ht : t.type = TokenType.int_lit) (hv : stoi t.value = Except.ok v) :
    Yields parsePrimary p (Except.ok (ASTNode.LiteralExpr v, p.skip 1)) := by
  refine ⟨1, fun m hm => ?_⟩
  obtain ⟨m, rfl⟩ : ∃ k, m = k + 1 := ⟨m - 1, by omega⟩
  rw [parsePrimary]
  have hp := previous_skip p 0
  simp only [skip_zero, h] at hp
  simp [bind_apply, match_apply, h, ht, hp, hv, liftExcept_ok, pure_apply]

theorem parseUnary_primary {p : Parser} {r : Outcome ASTNode}
    (h : p.atOperator ["++", "--"] = false) (hp : Yields parsePrimary p r) :
    Yields parseUnary p r := by
  obtain ⟨n, hn⟩ := hp
  refine ⟨n + 1, fun m hm => ?_⟩
  obtain ⟨m, rfl⟩ : ∃ k, m = k + 1 := ⟨m - 1, by omega⟩
  rw [parseUnary]
  simp [bind_apply, checkOperator_at, h, hn m (by omega)]

theorem parseMultiplicationLoop_exit {p : Parser} (left : ASTNode)
    (h : p.atOperator ["*", "/", "%", "^"] = false) :
    Yields (fun n => parseMultiplicationLoop n left) p (Except.ok (left, p)) := by
  refine ⟨1, fun m hm => ?_⟩
  obtain ⟨m, rfl⟩ : ∃ k, m = k + 1 := ⟨m - 1, by omega⟩
  simp only []
  rw [parseMultiplicationLoop]
  simp [bind_apply, checkOperator_at, h, pure_apply]

theorem parseMultiplicationLoop_step {p q : Parser} {t : Token} {left right : ASTNode}
    {r : Outcome ASTNode}
    (h : p.look = some t) (ht : t.type = TokenType._operator)
    (hv : t.value ∈ ["*", "/", "%", "^"])
    (h1 : Yields parseUnary (p.skip 1) (Except.ok (right, q)))
    (h2 : Yields (fun n => parseMultiplicationLoop n (ASTNode.BinaryExpr t.value left right)) q r) :
    Yields (fun n => parseMultiplicationLoop n left) p r := by
  obtain ⟨n1, h1⟩ := h1
  obtain ⟨n2, h2⟩ := h2
  refine ⟨max n1 n2 + 1, fun m hm => ?_⟩
  obtain ⟨m, rfl⟩ : ∃ k, m = k + 1 := ⟨m - 1, by omega⟩
  have hm1 : n1 ≤ m := by omega
  have hm2 : n2 ≤ m := by omega
  simp only [] at h2 ⊢
  rw [parseMultiplicationLoop]
  simp [bind_apply, checkOperator_at, atOperator_of_look h ht hv, advance_apply, h, h1 m hm1,
    h2 m hm2]

theorem parseMultiplication_of {p q : Parser} {left : ASTNode}
    {r : Outcome ASTNode}
    (h1 : Yields parseUnary p (Except.ok (left, q)))
    (h2 : Yields (fun n => parseMultiplicationLoop n left) q r) :
    Yields parseMultiplication p r := by
  obtain ⟨n1, h1⟩ := h1
  obtain ⟨n2, h2⟩ := h2
  refine ⟨max n1 n2 + 1, fun m hm => ?_⟩
  obtain ⟨m, rfl⟩ : ∃ k, m = k + 1 := ⟨m - 1, by omega⟩
  have hm1 : n1 ≤ m := by omega
  have hm2 : n2 ≤ m := by omega
  simp only [] at h2
  rw [parseMultiplication]
  simp [bind_apply, h1 m hm1, h2 m hm2]

theorem parseAdditionLoop_exit {p : Parser} (left : ASTNode)
    (h : p.atOperator ["+", "-"] = false) :
    Yields (fun n => parseAdditionLoop n left) p (Except.ok (left, p)) := by
  refine ⟨1, fun m hm => ?_⟩
  obtain ⟨m, rfl⟩ : ∃ k, m = k + 1 := ⟨m - 1, by omega⟩
  simp only []
  rw [parseAdditionLoop]
  simp [bind_apply, checkOperator_at, h, pure_apply]

theorem parseAdditionLoop_step {p q : Parser} {t : Token} {left right : ASTNode}
    {r : Outcome ASTNode}
    (h : p.look = some t) (ht : t.type = TokenType._operator)
    (hv : t.value ∈ ["+", "-"])
    (h1 : Yields parseMultiplication (p.skip 1) (Except.ok (right, q)))
    (h2 : Yields (fun n => parseAdditionLoop n (ASTNode.BinaryExpr t.value left right)) q r) :
    Yields (fun n => parseAdditionLoop n left) p r := by
  obtain ⟨n1, h1⟩ := h1
  obtain ⟨n2, h2⟩ := h2
  refine ⟨max n1 n2 + 1, fun m hm => ?_⟩
  obtain ⟨m, rfl⟩ : ∃ k, m = k + 1 := ⟨m - 1, by omega⟩
  have hm1 : n1 ≤ m := by omega
  have hm2 : n2 ≤ m := by omega
  simp only [] at h2 ⊢
  rw [parseAdditionLoop]
  simp [bind_apply, checkOperator_at, atOperator_of_look h ht hv, advance_apply, h, h1 m hm1,
    h2 m hm2]

theorem parseAddition_of {p q : Parser} {left : ASTNode}
    {r : Outcome ASTNode}
    (h1 : Yields parseMultiplication p (Except.ok (left, q)))
    (h2 : Yields (fun n => parseAdditionLoop n left) q r) :
    Yields parseAddition p r := by
  obtain ⟨n1, h1⟩ := h1
  obtain ⟨n2, h2⟩ := h2
  refine ⟨max n1 n2 + 1, fun m hm => ?_⟩
  obtain ⟨m, rfl⟩ : ∃ k, m = k + 1 := ⟨m - 1, by omega⟩
  have hm1 : n1 ≤ m := by omega
  have hm2 : n2 ≤ m := by omega
  simp only [] at h2
  rw [parseAddition]
  simp [bind_apply, h1 m hm1, h2 m hm2]

theorem parseComparisonLoop_exit {p : Parser} (left : ASTNode)
    (h : p.atOperator ["==", "!=", "<", "<=", ">", ">="] = false) :
    Yields (fun n => parseComparisonLoop n left) p (Except.ok (left, p)) := by
  refine ⟨1, fun m hm => ?_⟩
  obtain ⟨m, rfl⟩ : ∃ k, m = k + 1 := ⟨m - 1, by omega⟩
  simp only []
  rw [parseComparisonLoop]
  simp [bind_apply, checkOperator_at, h, pure_apply]

theorem parseComparisonLoop_step {p q : Parser} {t : Token} {left right : ASTNode}
    {r : Outcome ASTNode}
    (h : p.look = some t) (ht : t.type = TokenType._operator)
    (hv : t.value ∈ ["==", "!=", "<", "<=", ">", ">="])
    (h1 : Yields parseAddition (p.skip 1) (Except.ok (right, q)))
    (h2 : Yields (fun n => parseComparisonLoop n (ASTNode.BinaryExpr t.value left right)) q r) :
    Yields (fun n => parseComparisonLoop n left) p r := by
  obtain ⟨n1, h1⟩ := h1
  obtain ⟨n2, h2⟩ := h2
  refine ⟨max n1 n2 + 1, fun m hm => ?_⟩
  obtain ⟨m, rfl⟩ : ∃ k, m = k + 1 := ⟨m - 1, by omega⟩
  have hm1 : n1 ≤ m := by omega
  have hm2 : n2 ≤ m := by omega
  simp only [] at h2 ⊢
  rw [parseComparisonLoop]
  simp [bind_apply, checkOperator_at, atOperator_of_look h ht hv, advance_apply, h, h1 m hm1,
    h2 m hm2]

theorem parseComparison_of {p q : Parser} {left : ASTNode}
    {r : Outcome ASTNode}
    (h1 : Yields parseAddition p (Except.ok (left, q)))
    (h2 : Yields (fun n => parseComparisonLoop n left) q r) :
    Yields parseComparison p r := by
  obtain ⟨n1, h1⟩ := h1
  obtain ⟨n2, h2⟩ := h2
  refine ⟨max n1 n2 + 1, fun m hm => ?_⟩
  obtain ⟨m, rfl⟩ : ∃ k, m = k + 1 := ⟨m - 1, by omega⟩
  have hm1 : n1 ≤ m := by omega
  have hm2 : n2 ≤ m := by omega
  simp only [] at h2
  rw [parseComparison]
  simp [bind_apply, h1 m hm1, h2 m hm2]

/-! ### parseAssignment, parseExpression, parseExpressionStmt -/

theorem parseAssignment_plain {p q : Parser} {left : ASTNode}
    (h1 : Yields parseComparison p (Except.ok (left, q)))
    (h : q.atOperator ["="] = false) :
    Yields parseAssignment p (Except.ok (left, q)) := by
  obtain ⟨n1, h1⟩ := h1
  refine ⟨n1 + 1, fun m hm => ?_⟩
  obtain ⟨m, rfl⟩ : ∃ k, m = k + 1 := ⟨m - 1, by omega⟩
  rw [parseAssignment]
  simp [bind_apply, h1 m (by omega), checkOperator_at, h, pure_apply]

theorem parseAssignment_assign {p q q' : Parser} {t : Token} {left right : ASTNode}
    (h1 : Yields parseComparison p (Except.ok (left, q)))
    (h : q.look = some t) (ht : t.type = TokenType._operator) (hv : t.value = "=")
    (h2 : Yields parseAssignment (q.skip 1) (Except.ok (right, q'))) :
    Yields parseAssignment p (Except.ok (ASTNode.BinaryExpr "=" left right, q')) := by
  obtain ⟨n1, h1⟩ := h1
  obtain ⟨n2, h2⟩ := h2
  refine ⟨max n1 n2 + 1, fun m hm => ?_⟩
  obtain ⟨m, rfl⟩ : ∃ k, m = k + 1 := ⟨m - 1, by omega⟩
  have hm1 : n1 ≤ m := by omega
  have hm2 : n2 ≤ m := by omega
  have hop : q.atOperator ["="] = true := atOperator_of_look h ht (by simp [hv])
  rw [parseAssignment]
  simp [bind_apply, h1 m hm1, checkOperator_at, hop, advance_apply, h, h2 m hm2, pure_apply, hv]

theorem parseExpression_iff {p : Parser} {r : Outcome ASTNode} :
    Yields parseExpression p r ↔ Yields parseAssignment p r := by
  constructor
  · rintro ⟨n, hn⟩
    refine ⟨n, fun m hm => ?_⟩
    have := hn (m + 1) (by omega)
    rwa [parseExpression] at this
  · rintro ⟨n, hn⟩
    refine ⟨n + 1, fun m hm => ?_⟩
    obtain ⟨m, rfl⟩ : ∃ k, m = k + 1 := ⟨m - 1, by omega⟩
    rw [parseExpression]
    exact hn m (by omega)

theorem parseExpressionStmt_of {p q : Parser} {t : Token} {e : ASTNode}
    (h1 : Yields parseExpression p (Except.ok (e, q)))
    (h : q.look = some t) (ht : t.type = TokenType.semicolon) :
    Yields parseExpressionStmt p (Except.ok (e, q.skip 1)) := by
  obtain ⟨n1, h1⟩ := h1
  refine ⟨n1 + 1, fun m hm => ?_⟩
  obtain ⟨m, rfl⟩ : ∃ k, m = k + 1 := ⟨m - 1, by omega⟩
  rw [parseExpressionStmt]
  simp [bind_apply, h1 m (by omega), consume_apply, h, ht, pure_apply]


/-! ### The suffix loops of parsePrimary -/

theorem parsePrimaryIndexLoop_exit {p : Parser} (node : ASTNode)
    (h : p.atType TokenType.o_bracket = false) :
    Yields (fun n => parsePrimaryIndexLoop n node) p (Except.ok (node, p)) := by
  refine ⟨1, fun m hm => ?_⟩
  obtain ⟨m, rfl⟩ : ∃ k, m = k + 1 := ⟨m - 1, by omega⟩
  simp only []
  rw [parsePrimaryIndexLoop]
  simp [bind_apply, check_at, h, pure_apply]

theorem parsePrimaryIndexLoop_step {p q : Parser} {t t' : Token} {node index : ASTNode}
    {r : Outcome ASTNode}
    (h : p.look = some t) (ht : t.type = TokenType.o_bracket)
    (h1 : Yields parseExpression (p.skip 1) (Except.ok (index, q)))
    (h' : q.look = some t') (ht' : t'.type = TokenType.c_bracket)
    (h2 : Yields (fun n => parsePrimaryIndexLoop n (ASTNode.IndexExpr node index)) (q.skip 1) r) :
    Yields (fun n => parsePrimaryIndexLoop n node) p r := by
  obtain ⟨n1, h1⟩ := h1
  obtain ⟨n2, h2⟩ := h2
  refine ⟨max n1 n2 + 1, fun m hm => ?_⟩
  obtain ⟨m, rfl⟩ : ∃ k, m = k + 1 := ⟨m - 1, by omega⟩
  have hm1 : n1 ≤ m := by omega
  have hm2 : n2 ≤ m := by omega
  simp only [] at h2 ⊢
  rw [parsePrimaryIndexLoop]
  simp [bind_apply, check_at, atType_of_look _ h, ht, advance_apply, h, h1 m hm1, consume_apply,
    h', ht', h2 m hm2]

theorem parsePrimaryFieldLoop_exit {p : Parser} (node : ASTNode)
    (h : p.atOperator ["."] = false) :
    Yields (fun n => parsePrimaryFieldLoop n node) p (Except.ok (node, p)) := by
  refine ⟨1, fun m hm => ?_⟩
  obtain ⟨m, rfl⟩ : ∃ k, m = k + 1 := ⟨m - 1, by omega⟩
  simp only []
  rw [parsePrimaryFieldLoop]
  simp [bind_apply, checkOperator_at, h, pure_apply]

theorem parsePrimaryFieldLoop_step {p : Parser} {t t' : Token} {node : ASTNode}
    {r : Outcome ASTNode}
    (h : p.look = some t) (ht : t.type = TokenType._operator) (hv : t.value = ".")
    (h' : (p.skip 1).look = some t')
    (h2 : Yields (fun n => parsePrimaryFieldLoop n (ASTNode.ClassFieldAccessExpr node t'.value))
      ((p.skip 1).skip 1) r) :
    Yields (fun n => parsePrimaryFieldLoop n node) p r := by
  obtain ⟨n2, h2⟩ := h2
  refine ⟨n2 + 1, fun m hm => ?_⟩
  obtain ⟨m, rfl⟩ : ∃ k, m = k + 1 := ⟨m - 1, by omega⟩
  have hm2 : n2 ≤ m := by omega
  have hop : p.atOperator ["."] = true := atOperator_of_look h ht (by simp [hv])
  simp only [] at h2 ⊢
  rw [parsePrimaryFieldLoop]
  simp [bind_apply, checkOperator_at, hop, advance_apply, h, h', h2 m hm2]

theorem parsePrimaryPostfixLoop_exit {p : Parser} (node : ASTNode)
    (h : p.atOperator ["++", "--"] = false) :
    Yields (fun n => parsePrimaryPostfixLoop n node) p (Except.ok (node, p)) := by
  refine ⟨1, fun m hm => ?_⟩
  obtain ⟨m, rfl⟩ : ∃ k, m = k + 1 := ⟨m - 1, by omega⟩
  simp only []
  rw [parsePrimaryPostfixLoop]
  simp [bind_apply, checkOperator_at, h, pure_apply]

theorem parsePrimaryPostfixLoop_step {p : Parser} {t : Token} {node : ASTNode}
    {r : Outcome ASTNode}
    (h : p.look = some t) (ht : t.type = TokenType._operator) (hv : t.value ∈ ["++", "--"])
    (h2 : Yields (fun n => parsePrimaryPostfixLoop n (ASTNode.PostfixExpr t.value node))
      (p.skip 1) r) :
    Yields (fun n => parsePrimaryPostfixLoop n node) p r := by
  obtain ⟨n2, h2⟩ := h2
  refine ⟨n2 + 1, fun m hm => ?_⟩
  obtain ⟨m, rfl⟩ : ∃ k, m = k + 1 := ⟨m - 1, by omega⟩
  have hm2 : n2 ≤ m := by omega
  have hp := previous_skip p 0
  simp only [skip_zero, h] at hp
  simp only [] at h2 ⊢
  rw [parsePrimaryPostfixLoop]
  simp [bind_apply, checkOperator_at, atOperator_of_look h ht hv, advance_apply, h, hp, h2 m hm2]

theorem parsePrimaryArgumentLoop_last {p q : Parser} {arguments : List ASTNode}
    {argument : ASTNode}
    (h1 : Yields parseExpression p (Except.ok (argument, q)))
    (h : q.atType TokenType.comma = false) :
    Yields (fun n => parsePrimaryArgumentLoop n arguments) p
      (Except.ok (arguments ++ [argument], q)) := by
  obtain ⟨n1, h1⟩ := h1
  refine ⟨n1 + 1, fun m hm => ?_⟩
  obtain ⟨m, rfl⟩ : ∃ k, m = k + 1 := ⟨m - 1, by omega⟩
  simp only []
  rw [parsePrimaryArgumentLoop]
  simp only [Parser.atType] at h
  simp [bind_apply, h1 m (by omega), match_apply, h, pure_apply]

theorem parsePrimaryArgumentLoop_more {p q : Parser} {arguments : List ASTNode}
    {argument : ASTNode} {r : Outcome (List ASTNode)}
    (h1 : Yields parseExpression p (Except.ok (argument, q)))
    (h : q.atType TokenType.comma = true)
    (h2 : Yields (fun n => parsePrimaryArgumentLoop n (arguments ++ [argument])) (q.skip 1) r) :
    Yields (fun n => parsePrimaryArgumentLoop n arguments) p r := by
  obtain ⟨n1, h1⟩ := h1
  obtain ⟨n2, h2⟩ := h2
  refine ⟨max n1 n2 + 1, fun m hm => ?_⟩
  obtain ⟨m, rfl⟩ : ∃ k, m = k + 1 := ⟨m - 1, by omega⟩
  have hm1 : n1 ≤ m := by omega
  have hm2 : n2 ≤ m := by omega
  simp only [] at h2 ⊢
  rw [parsePrimaryArgumentLoop]
  simp only [Parser.atType] at h
  simp [bind_apply, h1 m hm1, match_apply, h, h2 m hm2]

theorem parsePrimaryCallLoop_exit {p : Parser} (node : ASTNode)
    (h : p.atType TokenType.o_paren = false) :
    Yields (fun n => parsePrimaryCallLoop n node) p (Except.ok (node, p)) := by
  refine ⟨1, fun m hm => ?_⟩
  obtain ⟨m, rfl⟩ : ∃ k, m = k + 1 := ⟨m - 1, by omega⟩
  simp only []
  rw [parsePrimaryCallLoop]
  simp [bind_apply, check_at, h, pure_apply]

theorem parsePrimaryCallLoop_step_empty {p : Parser} {t t' : Token} {node : ASTNode}
    {r : Outcome ASTNode}
    (h : p.look = some t) (ht : t.type = TokenType.o_paren)
    (h' : (p.skip 1).look = some t') (ht' : t'.type = TokenType.c_paren)
    (h2 : Yields (fun n => parsePrimaryCallLoop n (ASTNode.FunctionCallExpr node []))
      ((p.skip 1).skip 1) r) :
    Yields (fun n => parsePrimaryCallLoop n node) p r := by
  obtain ⟨n2, h2⟩ := h2
  refine ⟨n2 + 1, fun m hm => ?_⟩
  obtain ⟨m, rfl⟩ : ∃ k, m = k + 1 := ⟨m - 1, by omega⟩
  have hm2 : n2 ≤ m := by omega
  simp only [] at h2 ⊢
  rw [parsePrimaryCallLoop]
  simp [bind_apply, check_at, atType_of_look _ h, ht, advance_apply, h, atType_of_look _ h', ht',
    pure_apply, consume_apply, h', h2 m hm2]

theorem parsePrimaryCallLoop_step_arguments {p q : Parser} {t t' : Token} {node : ASTNode}
    {arguments : List ASTNode} {r : Outcome ASTNode}
    (h : p.look = some t) (ht : t.type = TokenType.o_paren)
    (hc : (p.skip 1).atType TokenType.c_paren = false)
    (h1 : Yields (fun n => parsePrimaryArgumentLoop n []) (p.skip 1) (Except.ok (arguments, q)))
    (h' : q.look = some t') (ht' : t'.type = TokenType.c_paren)
    (h2 : Yields (fun n => parsePrimaryCallLoop n (ASTNode.FunctionCallExpr node arguments))
      (q.skip 1) r) :
    Yields (fun n => parsePrimaryCallLoop n node) p r := by
  obtain ⟨n1, h1⟩ := h1
  obtain ⟨n2, h2⟩ := h2
  refine ⟨max n1 n2 + 1, fun m hm => ?_⟩
  obtain ⟨m, rfl⟩ : ∃ k, m = k + 1 := ⟨m - 1, by omega⟩
  have hm1 : n1 ≤ m := by omega
  have hm2 : n2 ≤ m := by omega
  simp only [] at h1 h2 ⊢
  rw [parsePrimaryCallLoop]
  simp [bind_apply, check_at, atType_of_look _ h, ht, advance_apply, h, hc, h1 m hm1,
    consume_apply, h', ht', h2 m hm2]

theorem parsePrimary_identifier {p q1 q2 q3 : Parser} {t : Token} {n1 n2 n3 : ASTNode}
    {r : Outcome ASTNode}
    (h : p.look = some t) (ht : t.type = TokenType.identifier)
    (h1 : Yields (fun n => parsePrimaryIndexLoop n (ASTNode.VariableExpr t.value)) (p.skip 1)
      (Except.ok (n1, q1)))
    (h2 : Yields (fun n => parsePrimaryFieldLoop n n1) q1 (Except.ok (n2, q2)))
    (h3 : Yields (fun n => parsePrimaryPostfixLoop n n2) q2 (Except.ok (n3, q3)))
    (h4 : Yields (fun n => parsePrimaryCallLoop n n3) q3 r) :
    Yields parsePrimary p r := by
  obtain ⟨k1, h1⟩ := h1
  obtain ⟨k2, h2⟩ := h2
  obtain ⟨k3, h3⟩ := h3
  obtain ⟨k4, h4⟩ := h4
  refine ⟨k1 + k2 + k3 + k4 + 1, fun m hm => ?_⟩
  obtain ⟨m, rfl⟩ : ∃ k, m = k + 1 := ⟨m - 1, by omega⟩
  have hm1 : k1 ≤ m := by omega
  have hm2 : k2 ≤ m := by omega
  have hm3 : k3 ≤ m := by omega
  have hm4 : k4 ≤ m := by omega
  have hp := previous_skip p 0
  simp only [skip_zero, h] at hp
  simp only [] at h1 h2 h3 h4
  rw [parsePrimary]
  cases r with
  | error e => simp [bind_apply, match_apply, h, ht, hp, h1 m hm1, h2 m hm2, h3 m hm3, h4 m hm4]
  | ok v => simp [bind_apply, match_apply, h, ht, hp, h1 m hm1, h2 m hm2, h3 m hm3, h4 m hm4,
      pure_apply]

/-- An identifier that no suffix follows is a variable. -/
theorem parsePrimary_variable {p : Parser} {t : Token}
    (h : p.look = some t) (ht : t.type = TokenType.identifier)
    (h1 : (p.skip 1).atType TokenType.o_bracket = false)
    (h2 : (p.skip 1).atOperator ["."] = false)
    (h3 : (p.skip 1).atOperator ["++", "--"] = false)
    (h4 : (p.skip 1).atType TokenType.o_paren = false) :
    Yields parsePrimary p (Except.ok (ASTNode.VariableExpr t.value, p.skip 1)) :=
  parsePrimary_identifier h ht (parsePrimaryIndexLoop_exit _ h1) (parsePrimaryFieldLoop_exit _ h2)
    (parsePrimaryPostfixLoop_exit _ h3) (parsePrimaryCallLoop_exit _ h4)


theorem rest_cons {p : Parser} {t : Token} {more : List Token} (h : p.rest = t :: more) :
    p.look = some t ∧ (p.skip 1).rest = more := by
  simp only [Parser.rest, Parser.look, Parser.skip] at *
  constructor
  · have := congrArg List.head? h
    simpa [List.head?_drop] using this
  · have := congrArg List.tail h
    simpa [List.tail_drop] using this

theorem rest_append {p : Parser} (pre : List Token) {more : List Token}
    (h : p.rest = pre ++ more) : (p.skip pre.length).rest = more := by
  simp only [Parser.rest, Parser.skip] at *
  rw [← List.drop_drop, h]
  simp

theorem new_rest (ts : List Token) : (Parser.new ts).rest = ts := rfl

theorem bind_ok {α β : Type} {m : ParserM α} {f : α → ParserM β} {p : Parser}
    {r : β × Parser} (h : (m >>= f) p = Except.ok r) :
    ∃ a p', m p = Except.ok (a, p') ∧ f a p' = Except.ok r := by
  rw [bind_apply] at h
  cases hm : m p with
  | error e => simp [hm] at h
  | ok v => exact ⟨v.1, v.2, rfl, by simpa [hm] using h⟩

theorem parseComparison_atom {p q : Parser} {a : ASTNode}
    (h : Yields parsePrimary p (Except.ok (a, q)))
    (h0 : p.atOperator ["++", "--"] = false)
    (h1 : q.atOperator ["*", "/", "%", "^"] = false)
    (h2 : q.atOperator ["+", "-"] = false)
    (h3 : q.atOperator ["==", "!=", "<", "<=", ">", ">="] = false) :
    Yields parseComparison p (Except.ok (a, q)) :=
  parseComparison_of
    (parseAddition_of
      (parseMultiplication_of (parseUnary_primary h0 h) (parseMultiplicationLoop_exit _ h1))
      (parseAdditionLoop_exit _ h2))
    (parseComparisonLoop_exit _ h3)

theorem assignChain_aux (E : ASTNode) (q : Parser) (more : List Token) :
    ∀ (targets : List (Token × Token)) (p : Parser),
    (∀ x ∈ targets, x.1.type = TokenType.identifier ∧ x.2.type = TokenType._operator ∧
      x.2.value = "=") →
    p.rest = assignTargets targets ++ more →
    Yields parseExpression (p.skip (2 * targets.length)) (Except.ok (E, q)) →
    Yields parseExpression p
      (Except.ok (assignChain (targets.map (fun x => x.1.value)) E, q)) := by
  intro targets
  induction targets with
  | nil => intro p _ _ h; simpa [assignChain] using h
  | cons x targets ih =>
    intro p hx hrest he
    obtain ⟨h1, h2, h3⟩ := hx x (List.mem_cons_self _ _)
    have hr : p.rest = x.1 :: x.2 :: (assignTargets targets ++ more) := by
      rw [hrest]; simp [assignTargets]
    obtain ⟨l0, hr1⟩ := rest_cons hr
    obtain ⟨l1, hr2⟩ := rest_cons hr1
    have e : (p.skip 1).skip 1 = p.skip 2 := skip_skip p 1 1
    have e2 : (p.skip 2).skip (2 * targets.length) = p.skip (2 * (x :: targets).length) := by
      rw [skip_skip]; congr 1; simp; omega
    rw [e] at hr2
    have hrec := ih (p.skip 2) (fun y hy => hx y (List.mem_cons_of_mem _ hy)) hr2
      (by rw [e2]; exact he)
    rw [← e] at hrec
    have hvar : Yields parseComparison p
        (Except.ok (ASTNode.VariableExpr x.1.value, p.skip 1)) :=
      parseComparison_atom
        (parsePrimary_variable l0 h1
          (by simp [atType_of_look _ l1, h2])
          (atOperator_of_value l1 (by simp [h3]))
          (atOperator_of_value l1 (by simp [h3]))
          (by simp [atType_of_look _ l1, h2]))
        (atOperator_of_type l0 (by simp [h1]))
        (atOperator_of_value l1 (by simp [h3]))
        (atOperator_of_value l1 (by simp [h3]))
        (atOperator_of_value l1 (by simp [h3]))
    simp only [List.map_cons, assignChain, List.foldr_cons]
    exact parseExpression_iff.mpr
      (parseAssignment_assign hvar l1 h2 h3 (parseExpression_iff.mp hrec))


theorem yields_parseExpression {p : Parser} {r : Outcome ASTNode} (n : Nat)
    (h : parseExpression n p = r) (hr : ¬ OutOfFuel r) :
    Yields parseExpression p r :=
  Yields.of_run (fun n => (stableAt n).parseExpression) n h hr

theorem assignTargets_cons (x : Token × Token) (xs : List (Token × Token)) :
    assignTargets (x :: xs) = x.1 :: x.2 :: assignTargets xs := by
  simp [assignTargets]

theorem assignTargets_length (targets : List (Token × Token)) :
    (assignTargets targets).length = 2 * targets.length := by
  induction targets with
  | nil => rfl
  | cons x xs ih => rw [assignTargets_cons]; simp [ih]; omega

/-- C2. Assignment is right-associative and has the lowest precedence: for
identifiers `x1 .. xn` and an expression `e` that the expression parser reads
in place as the tree `E`, parsing `x1 = x2 = ... = xn = e ;` as an expression
statement yields `binary(=, x1, binary(=, x2, ... binary(=, xn, E)))` and
consumes every token. -/
theorem assignment_right_associative (P : Parser) (targets : List (Token × Token))
    (etoks : List Token) (semi : Token) (E : ASTNode) (k : Nat)
    (hP : P = Parser.new (assignTargets targets ++ etoks ++ [semi]))
    (ht : ∀ x ∈ targets, x.1.type = TokenType.identifier ∧ x.2.type = TokenType._operator ∧
      x.2.value = "=")
    (hs : semi.type = TokenType.semicolon)
    (he : parseExpression k (P.skip (2 * targets.length)) =
      Except.ok (E, P.skip (2 * targets.length + etoks.length))) :
    Yields parseExpressionStmt P
      (Except.ok (assignChain (targets.map (fun x => x.1.value)) E,
        P.skip (2 * targets.length + etoks.length + 1))) := by
  have hrest : P.rest = assignTargets targets ++ (etoks ++ [semi]) := by
    rw [hP, new_rest, List.append_assoc]
  have hlen := assignTargets_length targets
  have h1 := rest_append _ hrest
  rw [hlen] at h1
  have h2 := rest_append etoks h1
  rw [skip_skip] at h2
  have lsemi := (rest_cons h2).1
  have := parseExpressionStmt_of
    (assignChain_aux E _ (etoks ++ [semi]) targets P ht hrest
      (yields_parseExpression k he (outOfFuel_ok _))) lsemi hs
  rwa [skip_skip] at this

theorem assignment_right_associative_witness :
    Yields parseExpressionStmt (Parser.new (tokenize ["x=y=5;"]))
      (Except.ok (ASTNode.BinaryExpr "=" (ASTNode.VariableExpr "x")
        (ASTNode.BinaryExpr "=" (ASTNode.VariableExpr "y") (ASTNode.LiteralExpr 5)),
        (Parser.new (tokenize ["x=y=5;"])).skip 6)) :=
  assignment_right_associative (Parser.new (tokenize ["x=y=5;"]))
    [(⟨TokenType.identifier, 1, "x"⟩, ⟨TokenType._operator, 1, "="⟩),
     (⟨TokenType.identifier, 1, "y"⟩, ⟨TokenType._operator, 1, "="⟩)]
    [⟨TokenType.int_lit, 1, "5"⟩] ⟨TokenType.semicolon, 1, ";"⟩ (ASTNode.LiteralExpr 5) 10
    (by rfl) (by decide) (by rfl) (by rfl)


/-! ## Expression statements -/

theorem not_mem_mul_of_mem_add {p : String} (hp : p ∈ ["+", "-"]) :
    p ∉ ["*", "/", "%", "^"] := by
  simp only [List.mem_cons, List.mem_singleton, List.not_mem_nil, or_false] at hp ⊢
  rcases hp with rfl | rfl <;> decide

/-- A literal on which no multiplicative operator follows, read by `parseMultiplication`. -/
theorem parseMultiplication_literal {p : Parser} {t : Token} {v : Int} (h : p.look = some t)
    (ht : t.type = TokenType.int_lit) (hv : stoi t.value = Except.ok v)
    (hn : (p.skip 1).atOperator ["*", "/", "%", "^"] = false) :
    Yields parseMultiplication p (Except.ok (ASTNode.LiteralExpr v, p.skip 1)) :=
  parseMultiplication_of
    (parseUnary_primary (atOperator_of_type h (by simp [ht])) (parsePrimary_literal h ht hv))
    (parseMultiplicationLoop_exit _ hn)

/-- C1. Multiplicative operators bind tighter than additive ones: for integer
literal tokens with values `a`, `b`, `c`, an additive operator `p` and a
multiplicative operator `m`, the tokens of `a p b m c ;` parse as an expression
statement to `binary(p, a, binary(m, b, c))`, and those of `a m b p c ;` to
`binary(p, binary(m, a, b), c)`. -/
theorem multiplicative_binds_tighter (la lp lb lm lc ls : Int) (ta tb tc p m : String)
    (a b c : Int)
    (ha : stoi ta = Except.ok a) (hb : stoi tb = Except.ok b) (hc : stoi tc = Except.ok c)
    (hp : p ∈ ["+", "-"]) (hm : m ∈ ["*", "/", "%", "^"]) :
    Yields parseExpressionStmt
      (Parser.new
        [⟨TokenType.int_lit, la, ta⟩, ⟨TokenType._operator, lp, p⟩, ⟨TokenType.int_lit, lb, tb⟩,
         ⟨TokenType._operator, lm, m⟩, ⟨TokenType.int_lit, lc, tc⟩,
         ⟨TokenType.semicolon, ls, ";"⟩])
      (Except.ok (ASTNode.BinaryExpr p (ASTNode.LiteralExpr a)
          (ASTNode.BinaryExpr m (ASTNode.LiteralExpr b) (ASTNode.LiteralExpr c)),
        (Parser.new
          [⟨TokenType.int_lit, la, ta⟩, ⟨TokenType._operator, lp, p⟩,
           ⟨TokenType.int_lit, lb, tb⟩, ⟨TokenType._operator, lm, m⟩,
           ⟨TokenType.int_lit, lc, tc⟩, ⟨TokenType.semicolon, ls, ";"⟩]).skip 6)) ∧
    Yields parseExpressionStmt
      (Parser.new
        [⟨TokenType.int_lit, la, ta⟩, ⟨TokenType._operator, lm, m⟩, ⟨TokenType.int_lit, lb, tb⟩,
         ⟨TokenType._operator, lp, p⟩, ⟨TokenType.int_lit, lc, tc⟩,
         ⟨TokenType.semicolon, ls, ";"⟩])
      (Except.ok (ASTNode.BinaryExpr p
          (ASTNode.BinaryExpr m (ASTNode.LiteralExpr a) (ASTNode.LiteralExpr b))
          (ASTNode.LiteralExpr c),
        (Parser.new
          [⟨TokenType.int_lit, la, ta⟩, ⟨TokenType._operator, lm, m⟩,
           ⟨TokenType.int_lit, lb, tb⟩, ⟨TokenType._operator, lp, p⟩,
           ⟨TokenType.int_lit, lc, tc⟩, ⟨TokenType.semicolon, ls, ";"⟩]).skip 6)) := by
  have hpm := not_mem_mul_of_mem_add hp
  constructor
  · generalize hP : Parser.new _ = P
    have l0 : P.look = some ⟨TokenType.int_lit, la, ta⟩ := by subst hP; rfl
    have l1 : (P.skip 1).look = some ⟨TokenType._operator, lp, p⟩ := by subst hP; rfl
    have l2 : ((P.skip 1).skip 1).look = some ⟨TokenType.int_lit, lb, tb⟩ := by subst hP; rfl
    have l3 : (((P.skip 1).skip 1).skip 1).look = some ⟨TokenType._operator, lm, m⟩ := by
      subst hP; rfl
    have l4 : ((((P.skip 1).skip 1).skip 1).skip 1).look = some ⟨TokenType.int_lit, lc, tc⟩ := by
      subst hP; rfl
    have l5 : (((((P.skip 1).skip 1).skip 1).skip 1).skip 1).look =
        some ⟨TokenType.semicolon, ls, ";"⟩ := by
      subst hP; rfl
    have e6 : P.skip 6 = (((((P.skip 1).skip 1).skip 1).skip 1).skip 1).skip 1 := rfl
    rw [e6]
    exact parseExpressionStmt_of (parseExpression_iff.mpr (parseAssignment_plain
      (parseComparison_of
        (parseAddition_of
          (parseMultiplication_literal l0 rfl ha (atOperator_of_value l1 hpm))
          (parseAdditionLoop_step l1 rfl hp
            (parseMultiplication_of
              (parseUnary_primary (atOperator_of_type l2 (by simp))
                (parsePrimary_literal l2 rfl hb))
              (parseMultiplicationLoop_step l3 rfl hm
                (parseUnary_primary (atOperator_of_type l4 (by simp))
                  (parsePrimary_literal l4 rfl hc))
                (parseMultiplicationLoop_exit _ (atOperator_of_type l5 (by simp)))))
            (parseAdditionLoop_exit _ (atOperator_of_type l5 (by simp)))))
        (parseComparisonLoop_exit _ (atOperator_of_type l5 (by simp))))
      (atOperator_of_type l5 (by simp)))) l5 rfl
  · generalize hP : Parser.new _ = P
    have l0 : P.look = some ⟨TokenType.int_lit, la, ta⟩ := by subst hP; rfl
    have l1 : (P.skip 1).look = some ⟨TokenType._operator, lm, m⟩ := by subst hP; rfl
    have l2 : ((P.skip 1).skip 1).look = some ⟨TokenType.int_lit, lb, tb⟩ := by subst hP; rfl
    have l3 : (((P.skip 1).skip 1).skip 1).look = some ⟨TokenType._operator, lp, p⟩ := by
      subst hP; rfl
    have l4 : ((((P.skip 1).skip 1).skip 1).skip 1).look = some ⟨TokenType.int_lit, lc, tc⟩ := by
      subst hP; rfl
    have l5 : (((((P.skip 1).skip 1).skip 1).skip 1).skip 1).look =
        some ⟨TokenType.semicolon, ls, ";"⟩ := by
      subst hP; rfl
    have e6 : P.skip 6 = (((((P.skip 1).skip 1).skip 1).skip 1).skip 1).skip 1 := rfl
    rw [e6]
    exact parseExpressionStmt_of (parseExpression_iff.mpr (parseAssignment_plain
      (parseComparison_of
        (parseAddition_of
          (parseMultiplication_of
            (parseUnary_primary (atOperator_of_type l0 (by simp))
              (parsePrimary_literal l0 rfl ha))
            (parseMultiplicationLoop_step l1 rfl hm
              (parseUnary_primary (atOperator_of_type l2 (by simp))
                (parsePrimary_literal l2 rfl hb))
              (parseMultiplicationLoop_exit _ (atOperator_of_value l3 hpm))))
          (parseAdditionLoop_step l3 rfl hp
            (parseMultiplication_literal l4 rfl hc (atOperator_of_type l5 (by simp)))
            (parseAdditionLoop_exit _ (atOperator_of_type l5 (by simp)))))
        (parseComparisonLoop_exit _ (atOperator_of_type l5 (by simp))))
      (atOperator_of_type l5 (by simp)))) l5 rfl

theorem multiplicative_binds_tighter_witness :
    Yields parseExpressionStmt (Parser.new (tokenize ["1+2*3;"]))
      (Except.ok (ASTNode.BinaryExpr "+" (ASTNode.LiteralExpr 1)
          (ASTNode.BinaryExpr "*" (ASTNode.LiteralExpr 2) (ASTNode.LiteralExpr 3)),
        (Parser.new (tokenize ["1+2*3;"])).skip 6)) :=
  (multiplicative_binds_tighter 1 1 1 1 1 1 "1" "2" "3" "+" "*" 1 2 3 (by rfl) (by rfl) (by rfl)
    (by decide) (by decide)).1

/-- C3. Postfix forms written in the order index, field access, call nest left
to right: for an identifier `a`, a field name `b` and an index expression `e`
that the expression parser reads in place as the tree `E`, parsing
`a [ e ] . b ( ) ;` as an expression statement yields a call with no argument
whose callee is the access to field `b` of the index node of `variable(a)` and
`E`. -/
theorem postfix_index_field_call (P : Parser) (a ob cb dot b op cp semi : Token)
    (etoks : List Token) (E : ASTNode) (k : Nat)
    (hP : P = Parser.new ([a, ob] ++ etoks ++ [cb, dot, b, op, cp, semi]))
    (ha : a.type = TokenType.identifier) (hob : ob.type = TokenType.o_bracket)
    (hcb : cb.type = TokenType.c_bracket)
    (hdot : dot.type = TokenType._operator ∧ dot.value = ".")
    (hop : op.type = TokenType.o_paren) (hcp : cp.type = TokenType.c_paren)
    (hsemi : semi.type = TokenType.semicolon)
    (he : parseExpression k (P.skip 2) = Except.ok (E, P.skip (2 + etoks.length))) :
    Yields parseExpressionStmt P
      (Except.ok (ASTNode.FunctionCallExpr
          (ASTNode.ClassFieldAccessExpr
            (ASTNode.IndexExpr (ASTNode.VariableExpr a.value) E) b.value) [],
        P.skip (etoks.length + 8))) := by
  have hrest : P.rest = a :: ob :: (etoks ++ [cb, dot, b, op, cp, semi]) := by
    rw [hP, new_rest]; simp
  obtain ⟨l0, r1⟩ := rest_cons hrest
  obtain ⟨l1, r2⟩ := rest_cons r1
  have r3 := rest_append etoks r2
  have e3 : ((P.skip 1).skip 1).skip etoks.length = P.skip (2 + etoks.length) := by
    simp only [skip_skip]
  rw [e3] at r3
  generalize hQ : P.skip (2 + etoks.length) = Q at r3 he
  obtain ⟨l2, r4⟩ := rest_cons r3
  obtain ⟨l3, r5⟩ := rest_cons r4
  obtain ⟨l4, r6⟩ := rest_cons r5
  obtain ⟨l5, r7⟩ := rest_cons r6
  obtain ⟨l6, r8⟩ := rest_cons r7
  obtain ⟨l7, _⟩ := rest_cons r8
  have hprim : Yields parsePrimary P
      (Except.ok (ASTNode.FunctionCallExpr
          (ASTNode.ClassFieldAccessExpr
            (ASTNode.IndexExpr (ASTNode.VariableExpr a.value) E) b.value) [],
        ((((Q.skip 1).skip 1).skip 1).skip 1).skip 1)) :=
    parsePrimary_identifier l0 ha
      (parsePrimaryIndexLoop_step l1 hob (yields_parseExpression k he (outOfFuel_ok _)) l2 hcb
        (parsePrimaryIndexLoop_exit _ (by simp [atType_of_look _ l3, hdot.1])))
      (parsePrimaryFieldLoop_step l3 hdot.1 hdot.2 l4
        (parsePrimaryFieldLoop_exit _ (atOperator_of_type l5 (by simp [hop]))))
      (parsePrimaryPostfixLoop_exit _ (atOperator_of_type l5 (by simp [hop])))
      (parsePrimaryCallLoop_step_empty l5 hop l6 hcp
        (parsePrimaryCallLoop_exit _ (by simp [atType_of_look _ l7, hsemi])))
  have hfin : P.skip (etoks.length + 8) = (((((Q.skip 1).skip 1).skip 1).skip 1).skip 1).skip 1 := by
    rw [← hQ]
    simp only [skip_skip]
    congr 1
    omega
  rw [hfin]
  exact parseExpressionStmt_of (parseExpression_iff.mpr (parseAssignment_plain
    (parseComparison_atom hprim (atOperator_of_type l0 (by simp [ha]))
      (atOperator_of_type l7 (by simp [hsemi])) (atOperator_of_type l7 (by simp [hsemi]))
      (atOperator_of_type l7 (by simp [hsemi])))
    (atOperator_of_type l7 (by simp [hsemi])))) l7 hsemi

theorem postfix_index_field_call_witness :
    Yields parseExpressionStmt (Parser.new (tokenize ["a[0].b();"]))
      (Except.ok (ASTNode.FunctionCallExpr
          (ASTNode.ClassFieldAccessExpr
            (ASTNode.IndexExpr (ASTNode.VariableExpr "a") (ASTNode.LiteralExpr 0)) "b") [],
        (Parser.new (tokenize ["a[0].b();"])).skip 9)) :=
  postfix_index_field_call (Parser.new (tokenize ["a[0].b();"]))
    ⟨TokenType.identifier, 1, "a"⟩ ⟨TokenType.o_bracket, 1, "["⟩ ⟨TokenType.c_bracket, 1, "]"⟩
    ⟨TokenType._operator, 1, "."⟩ ⟨TokenType.identifier, 1, "b"⟩ ⟨TokenType.o_paren, 1, "("⟩
    ⟨TokenType.c_paren, 1, ")"⟩ ⟨TokenType.semicolon, 1, ";"⟩
    [⟨TokenType.int_lit, 1, "0"⟩] (ASTNode.LiteralExpr 0) 10
    (by rfl) (by rfl) (by rfl) (by rfl) (by decide) (by rfl) (by rfl) (by rfl) (by rfl)

/-! ## Declarations and the end of the input -/

theorem parseFunctionParamLoop_stable (n : Nat) : ∀ params,
    Stable (parseFunctionParamLoop n params) (parseFunctionParamLoop (n + 1) params) := by
  induction n with
  | zero => intro params; exact Stable.of_fail _
  | succ n ih =>
    intro params
    rw [parseFunctionParamLoop, parseFunctionParamLoop]
    repeat (with_reducible first | exact Stable.refl _ | exact ih _ | apply Stable.bind | apply Stable.ite | intro _)

theorem parseFunction_stable (n : Nat) : Stable (parseFunction n) (parseFunction (n + 1)) := by
  unfold parseFunction
  repeat (with_reducible first
    | exact Stable.refl _ | exact parseFunctionParamLoop_stable _ _
    | exact (stableAt _).parseStatement | apply Stable.bind | apply Stable.ite | intro _)

theorem parseClassFieldLoop_stable (n : Nat) : ∀ structType,
    Stable (parseClassFieldLoop n structType) (parseClassFieldLoop (n + 1) structType) := by
  induction n with
  | zero => intro structType; exact Stable.of_fail _
  | succ n ih =>
    intro structType
    rw [parseClassFieldLoop, parseClassFieldLoop]
    repeat (with_reducible first | exact Stable.refl _ | exact ih _ | apply Stable.bind | apply Stable.ite | intro _)

theorem parseClass_stable (n : Nat) : Stable (parseClass n) (parseClass (n + 1)) := by
  unfold parseClass
  repeat (with_reducible first
    | exact Stable.refl _ | exact parseClassFieldLoop_stable _ _
    | apply Stable.bind | apply Stable.ite | intro _)

theorem ParseLoop_stable (n : Nat) : ∀ code,
    Stable (ParseLoop n code) (ParseLoop (n + 1) code) := by
  induction n with
  | zero => intro code; exact Stable.of_fail _
  | succ n ih =>
    intro code
    rw [ParseLoop, ParseLoop]
    repeat (with_reducible first
      | exact Stable.refl _ | exact ih _ | exact parseClass_stable _ | exact parseFunction_stable _
      | apply Stable.bind | apply Stable.ite | intro _)

theorem Parse_stable (n : Nat) : Stable (Parse n) (Parse (n + 1)) := by
  unfold Parse
  exact Stable.bind (ParseLoop_stable n _) (fun _ => Stable.refl _)

theorem yields_parseStatement {p : Parser} {r : Outcome ASTNode} (n : Nat)
    (h : parseStatement n p = r) (hr : ¬ OutOfFuel r) :
    Yields parseStatement p r :=
  Yields.of_run (fun n => (stableAt n).parseStatement) n h hr

theorem yields_parseExpressionStmt {p : Parser} {r : Outcome ASTNode} (n : Nat)
    (h : parseExpressionStmt n p = r) (hr : ¬ OutOfFuel r) :
    Yields parseExpressionStmt p r :=
  Yields.of_run (fun n => (stableAt n).parseExpressionStmt) n h hr

theorem yields_Parse {p : Parser} {r : Outcome ASTNode} (n : Nat)
    (h : Parse n p = r) (hr : ¬ OutOfFuel r) :
    Yields Parse p r :=
  Yields.of_run Parse_stable n h hr

theorem yields_parseClass {p : Parser} {r : Outcome ASTNode} (n : Nat)
    (h : parseClass n p = r) (hr : ¬ OutOfFuel r) :
    Yields parseClass p r :=
  Yields.of_run parseClass_stable n h hr

theorem yields_parseFunction {p : Parser} {r : Outcome ASTNode} (n : Nat)
    (h : parseFunction n p = r) (hr : ¬ OutOfFuel r) :
    Yields parseFunction p r :=
  Yields.of_run parseFunction_stable n h hr

/-- C8. The claim that the parser never reads the token sequence at an index
greater than or equal to its length fails on the code: `consume`, `peek` and
`advance` read `tokens[current]` without a bound check. Parsing the tokens of
`{` as a statement reads index 1 of a one-token sequence, a function whose
block is never closed (`void f() {`) reads index 5 of five tokens, and a
parameter list that is never closed (`void f(`, `void f(float x,`) reads
index 3 of three and index 6 of six tokens. The spec's own example
`{ if (1) { }` does end with a ParseError, but one about a missing `;` after
the condition, raised before the end of the input is reached. -/
theorem end_of_input_read_out_of_bounds :
    Yields parseStatement (Parser.new (tokenize ["\x7b"]))
      (Except.error (Failure.out_of_bounds 1,
        (Parser.new (tokenize ["\x7b"])).skip 1)) ∧
    Yields Parse (Parser.new (tokenize ["void f() \x7b"]))
      (Except.error (Failure.out_of_bounds 5,
        (Parser.new (tokenize ["void f() \x7b"])).skip 5)) ∧
    Yields Parse (Parser.new (tokenize ["void f("]))
      (Except.error (Failure.out_of_bounds 3,
        (Parser.new (tokenize ["void f("])).skip 3)) ∧
    Yields Parse (Parser.new (tokenize ["void f(float x,"]))
      (Except.error (Failure.out_of_bounds 6,
        (Parser.new (tokenize ["void f(float x,"])).skip 6)) ∧
    Yields parseStatement (Parser.new (tokenize ["\x7b if (1) \x7b \x7d"]))
      (Except.error (Failure.runtime_error "Parse Error: Expected a ; [Line: 1]",
        (Parser.new (tokenize ["\x7b if (1) \x7b \x7d"])).skip 4)) :=
  ⟨yields_parseStatement 20 (by rfl) (by simp [outOfFuel_error]),
   yields_Parse 20 (by rfl) (by simp [outOfFuel_error]),
   yields_Parse 20 (by rfl) (by simp [outOfFuel_error]),
   yields_Parse 20 (by rfl) (by simp [outOfFuel_error]),
   yields_parseStatement 20 (by rfl) (by simp [outOfFuel_error])⟩


/-! ## Class declarations -/

theorem look_eq_head (p : Parser) : p.look = p.rest.head? := by
  simp [Parser.look, Parser.rest, List.head?_drop]

theorem withType_look (p : Parser) (name : String) : (p.withType name).look = p.look := rfl
theorem withType_rest (p : Parser) (name : String) : (p.withType name).rest = p.rest := rfl
theorem withType_skip (p : Parser) (name : String) (k : Nat) :
    (p.withType name).skip k = (p.skip k).withType name := rfl

theorem registerType_apply (name : String) (p : Parser) :
    registerType name p = Except.ok ((), p.withType name) := rfl

theorem mem_emplace_self (table : List String) (name : String) : name ∈ emplace table name := by
  unfold emplace
  split
  · rename_i h
    simpa using h
  · simp

theorem mem_emplace_of_mem {table : List String} {x : String} (name : String) (h : x ∈ table) :
    x ∈ emplace table name := by
  unfold emplace
  split
  · exact h
  · simp [h]

theorem mapAssign_new {β : Type} (m : List (String × β)) (key : String) (value : β)
    (h : key ∉ m.map Prod.fst) : mapAssign m key value = m ++ [(key, value)] := by
  unfold mapAssign
  rw [if_neg]
  simp only [List.any_eq_true, beq_iff_eq, not_exists, not_and]
  intro e he hk
  exact h (List.mem_map.mpr ⟨e, he, hk⟩)

theorem classBodyTokens_cons (f : FieldDecl) (fields : List FieldDecl) :
    classBodyTokens (f :: fields) = f.type :: f.name :: f.semi :: classBodyTokens fields := by
  simp [classBodyTokens]

theorem atType_false_of_look {p : Parser} {t : Token} {ty : TokenType} (h : p.look = some t)
    (ht : t.type ≠ ty) : p.atType ty = false := by
  simp [Parser.atType, h, ht]

theorem atType_true_of_look {p : Parser} {t : Token} {ty : TokenType} (h : p.look = some t)
    (ht : t.type = ty) : p.atType ty = true := by
  simp [Parser.atType, h, ht]

theorem parseClassFieldLoop_fields (cb : Token) (more : List Token)
    (hcb : cb.type = TokenType.c_brace) :
    ∀ (fields : List FieldDecl) (p : Parser) (st : StructType),
    p.rest = classBodyTokens fields ++ cb :: more →
    (∀ f ∈ fields, f.type.type = TokenType.identifier ∧ f.name.type = TokenType.identifier ∧
      f.semi.type = TokenType.semicolon) →
    Yields (fun n => parseClassFieldLoop n st) p
      (Except.ok (fields.foldl
        (fun s f => s.addField f.name.value (Type_.PrimitiveType f.type.value)) st,
        p.skip (3 * fields.length))) := by
  intro fields
  induction fields with
  | nil =>
    intro p st hrest _
    have l0 := (rest_cons (by simpa [classBodyTokens] using hrest)).1
    refine ⟨1, fun m hm => ?_⟩
    obtain ⟨m, rfl⟩ : ∃ k, m = k + 1 := ⟨m - 1, by omega⟩
    simp only []
    rw [parseClassFieldLoop]
    simp [bind_apply, check_at, atType_true_of_look l0 hcb, isAtEnd_apply, pure_apply, skip_zero]
  | cons f fields ih =>
    intro p st hrest hf
    obtain ⟨h1, h2, h3⟩ := hf f (List.mem_cons_self _ _)
    rw [classBodyTokens_cons] at hrest
    obtain ⟨l0, r1⟩ := rest_cons hrest
    obtain ⟨l1, r2⟩ := rest_cons r1
    obtain ⟨l2, r3⟩ := rest_cons r2
    obtain ⟨n, hn⟩ := ih (((p.skip 1).skip 1).skip 1)
      (st.addField f.name.value (Type_.PrimitiveType f.type.value)) r3
      (fun g hg => hf g (List.mem_cons_of_mem _ hg))
    refine ⟨n + 1, fun m hm => ?_⟩
    obtain ⟨m, rfl⟩ : ∃ k, m = k + 1 := ⟨m - 1, by omega⟩
    have hm' : n ≤ m := by omega
    have e : (((p.skip 1).skip 1).skip 1).skip (3 * fields.length) =
        p.skip (3 * (f :: fields).length) := by
      simp only [skip_skip, List.length_cons]
      congr 1
      omega
    simp only [] at hn ⊢
    rw [parseClassFieldLoop]
    simp [bind_apply, check_at, atType_false_of_look l0 (by simp [h1] : f.type.type ≠ TokenType.c_brace),
      isAtEnd_apply, l0, consume_apply, h1, l1, h2, l2, h3, hn m hm', e]

theorem foldl_addField (name : String) : ∀ (fields : List FieldDecl) (entries : List (String × Type_)),
    (entries.map Prod.fst ++ fields.map (fun f => f.name.value)).Nodup →
    fields.foldl
      (fun (s : StructType) f => s.addField f.name.value (Type_.PrimitiveType f.type.value))
      ({ name := name, fields := entries } : StructType) =
      ({ name := name, fields := entries ++ fieldEntries fields } : StructType) := by
  intro fields
  induction fields with
  | nil => intro entries _; simp [fieldEntries]
  | cons f fields ih =>
    intro entries hd
    have hnew : f.name.value ∉ entries.map Prod.fst := by
      intro hmem
      rw [List.nodup_append] at hd
      exact hd.2.2 hmem (by simp)
    have e : ({ name := name, fields := entries } : StructType).addField f.name.value
        (Type_.PrimitiveType f.type.value) =
        { name := name, fields := entries ++ [(f.name.value, Type_.PrimitiveType f.type.value)] } := by
      simp only [StructType.addField, mapAssign_new _ _ _ hnew]
    rw [List.foldl_cons, e, ih]
    · simp [fieldEntries]
    · simpa using hd


theorem classBodyTokens_length (fields : List FieldDecl) :
    (classBodyTokens fields).length = 3 * fields.length := by
  induction fields with
  | nil => rfl
  | cons f fs ih => rw [classBodyTokens_cons]; simp only [List.length_cons, ih]; omega

theorem fieldEntries_lookup : ∀ (fields : List FieldDecl),
    (fields.map (fun f => f.name.value)).Nodup →
    ∀ f ∈ fields, (fieldEntries fields).lookup f.name.value =
      some (Type_.PrimitiveType f.type.value) := by
  intro fields
  induction fields with
  | nil => intro _ f hf; simp at hf
  | cons g fs ih =>
    intro hd f hf
    have hd' : g.name.value ∉ fs.map (fun f => f.name.value) ∧
        (fs.map (fun f => f.name.value)).Nodup := by simpa using hd
    rcases List.mem_cons.mp hf with rfl | hf'
    · simp [fieldEntries, List.lookup_cons]
    · have hne : f.name.value ≠ g.name.value := by
        intro e
        exact hd'.1 (List.mem_map.mpr ⟨f, hf', e⟩)
      have := ih hd'.2 f hf'
      simp only [fieldEntries, List.map_cons, List.lookup_cons] at this ⊢
      rw [show (f.name.value == g.name.value) = false from by simpa using hne]
      exact this

/-- C10. A class declaration `class N { T1 f1; ... Tn fn; }` with pairwise
distinct field names yields a `ClassDecl` named `N` whose struct descriptor has
exactly the `n` fields `f1 .. fn`, field `fi` being `primitive(Ti)`; afterwards
`N` is in the type table, the lookup a following declaration makes for `N`
succeeds, and the parser stands right after the closing brace. -/
theorem class_declaration (P : Parser) (kw name ob cb : Token) (fields : List FieldDecl)
    (more : List Token)
    (hP : P.rest = kw :: name :: ob :: (classBodyTokens fields ++ cb :: more))
    (hkw : kw.type = TokenType.identifier) (hob : ob.type = TokenType.o_brace)
    (hcb : cb.type = TokenType.c_brace)
    (hf : ∀ f ∈ fields, f.type.type = TokenType.identifier ∧
      f.name.type = TokenType.identifier ∧ f.semi.type = TokenType.semicolon)
    (hd : (fields.map (fun f => f.name.value)).Nodup) :
    Yields parseClass P
      (Except.ok (ASTNode.ClassDecl name.value
          { name := name.value, fields := fieldEntries fields },
        (P.withType name.value).skip (3 * fields.length + 4))) ∧
    (fieldEntries fields).length = fields.length ∧
    (∀ f ∈ fields, (fieldEntries fields).lookup f.name.value =
      some (Type_.PrimitiveType f.type.value)) ∧
    name.value ∈ ((P.withType name.value).skip (3 * fields.length + 4)).typeTable ∧
    inTypeTable name.value ((P.withType name.value).skip (3 * fields.length + 4)) =
      Except.ok (true, (P.withType name.value).skip (3 * fields.length + 4)) ∧
    ((P.withType name.value).skip (3 * fields.length + 4)).rest = more := by
  obtain ⟨l0, r1⟩ := rest_cons hP
  obtain ⟨l1, r2⟩ := rest_cons r1
  obtain ⟨l2, r3⟩ := rest_cons r2
  have r3' : ((((P.skip 1).skip 1).withType name.value).skip 1).rest =
      classBodyTokens fields ++ cb :: more := by
    rw [withType_skip, withType_rest]; exact r3
  have hloop := parseClassFieldLoop_fields cb more hcb fields
    ((((P.skip 1).skip 1).withType name.value).skip 1) { name := name.value } r3' hf
  rw [foldl_addField name.value fields [] (by simpa using hd), List.nil_append] at hloop
  have r4 := rest_append (classBodyTokens fields) r3'
  rw [classBodyTokens_length] at r4
  obtain ⟨l3, r5⟩ := rest_cons r4
  have efin : (((((P.skip 1).skip 1).withType name.value).skip 1).skip (3 * fields.length)).skip 1 =
      (P.withType name.value).skip (3 * fields.length + 4) := by
    simp only [Parser.skip, Parser.withType]
    congr 1
    omega
  rw [efin] at r5
  have hmem : name.value ∈ ((P.withType name.value).skip (3 * fields.length + 4)).typeTable :=
    mem_emplace_self _ _
  have hfind : inTypeTable name.value ((P.withType name.value).skip (3 * fields.length + 4)) =
      Except.ok (true, (P.withType name.value).skip (3 * fields.length + 4)) := by
    rw [inTypeTable_apply]
    simp [hmem]
  refine ⟨?_, by simp [fieldEntries], fieldEntries_lookup fields hd, hmem, hfind, r5⟩
  obtain ⟨n, hn⟩ := hloop
  refine ⟨n, fun m hm => ?_⟩
  simp only [] at hn
  unfold parseClass
  simp [bind_apply, check_at, atType_true_of_look l0 hkw, advance_apply, l0, l1,
    registerType_apply, consume_apply, withType_look, l2, hob, hn m hm, l3, hcb,
    pure_apply, efin]

theorem class_declaration_witness :
    Yields parseClass (Parser.new (tokenize ["class Point \x7b float x; float y; \x7d"]))
      (Except.ok (ASTNode.ClassDecl "Point"
          { name := "Point", fields := [("x", Type_.PrimitiveType "float"),
              ("y", Type_.PrimitiveType "float")] },
        ((Parser.new (tokenize ["class Point \x7b float x; float y; \x7d"])).withType "Point").skip
          10)) ∧
    "Point" ∈ (((Parser.new (tokenize ["class Point \x7b float x; float y; \x7d"])).withType
      "Point").skip 10).typeTable :=
  have h := class_declaration (Parser.new (tokenize ["class Point \x7b float x; float y; \x7d"]))
    ⟨TokenType.identifier, 1, "class"⟩ ⟨TokenType.identifier, 1, "Point"⟩
    ⟨TokenType.o_brace, 1, "\x7b"⟩ ⟨TokenType.c_brace, 1, "\x7d"⟩
    [⟨⟨TokenType.identifier, 1, "float"⟩, ⟨TokenType.identifier, 1, "x"⟩,
        ⟨TokenType.semicolon, 1, ";"⟩⟩,
     ⟨⟨TokenType.identifier, 1, "float"⟩, ⟨TokenType.identifier, 1, "y"⟩,
        ⟨TokenType.semicolon, 1, ";"⟩⟩] []
    (by rfl) (by rfl) (by rfl) (by rfl) (by decide) (by decide)
  ⟨h.1, h.2.2.2.1⟩


/-! ## The suffixes of an identifier -/

theorem skip_eq (p : Parser) {j k : Nat} (h : j = k) : p.skip j = p.skip k := by rw [h]

theorem indexTokens_cons (s : IndexSuffix) (l : List IndexSuffix) :
    indexTokens (s :: l) = s.ob :: (s.etoks ++ s.cb :: indexTokens l) := by
  simp [indexTokens]

theorem parsePrimaryIndexLoop_run : ∀ (l : List IndexSuffix) (p : Parser) (node : ASTNode)
    (more : List Token),
    p.rest = indexTokens l ++ more → indexesInPlace p l →
    (p.skip (indexTokens l).length).atType TokenType.o_bracket = false →
    Yields (fun n => parsePrimaryIndexLoop n node) p
      (Except.ok (applyIndexes node l, p.skip (indexTokens l).length)) := by
  intro l
  induction l with
  | nil =>
    intro p node more _ _ hexit
    exact parsePrimaryIndexLoop_exit node hexit
  | cons s l ih =>
    intro p node more hrest hin hexit
    obtain ⟨hob, hcb, hy, hin'⟩ := hin
    rw [indexTokens_cons] at hrest
    simp only [List.cons_append, List.append_assoc] at hrest
    obtain ⟨l0, r1⟩ := rest_cons hrest
    have r2 := rest_append s.etoks r1
    rw [skip_skip] at r2
    obtain ⟨l1, r3⟩ := rest_cons r2
    rw [skip_skip] at r3
    have e1 : p.skip (1 + s.etoks.length + 1) = p.skip (s.etoks.length + 2) :=
      skip_eq p (by omega)
    have e2 : (p.skip (s.etoks.length + 2)).skip (indexTokens l).length =
        p.skip (indexTokens (s :: l)).length := by
      rw [skip_skip, indexTokens_cons]
      exact skip_eq p (by simp; omega)
    rw [e1] at r3
    have hrec := ih (p.skip (s.etoks.length + 2)) (ASTNode.IndexExpr node s.tree) more r3 hin'
      (by rw [e2]; exact hexit)
    rw [e2, ← e1, ← skip_skip] at hrec
    exact parsePrimaryIndexLoop_step l0 hob hy l1 hcb hrec


theorem fieldTokens_cons (s : FieldSuffix) (l : List FieldSuffix) :
    fieldTokens (s :: l) = s.dot :: s.name :: fieldTokens l := by
  simp [fieldTokens]

theorem parsePrimaryFieldLoop_run : ∀ (l : List FieldSuffix) (p : Parser) (node : ASTNode)
    (more : List Token),
    p.rest = fieldTokens l ++ more →
    (∀ s ∈ l, s.dot.type = TokenType._operator ∧ s.dot.value = ".") →
    (p.skip (fieldTokens l).length).atOperator ["."] = false →
    Yields (fun n => parsePrimaryFieldLoop n node) p
      (Except.ok (applyFields node l, p.skip (fieldTokens l).length)) := by
  intro l
  induction l with
  | nil =>
    intro p node more _ _ hexit
    exact parsePrimaryFieldLoop_exit node hexit
  | cons s l ih =>
    intro p node more hrest hwf hexit
    obtain ⟨hd1, hd2⟩ := hwf s (List.mem_cons_self _ _)
    rw [fieldTokens_cons] at hrest
    obtain ⟨l0, r1⟩ := rest_cons hrest
    obtain ⟨l1, r2⟩ := rest_cons r1
    have e2 : ((p.skip 1).skip 1).skip (fieldTokens l).length =
        p.skip (fieldTokens (s :: l)).length := by
      rw [skip_skip, skip_skip, fieldTokens_cons]
      exact skip_eq p (by simp; omega)
    have hrec := ih ((p.skip 1).skip 1) (ASTNode.ClassFieldAccessExpr node s.name.value) more r2
      (fun x hx => hwf x (List.mem_cons_of_mem _ hx)) (by rw [e2]; exact hexit)
    rw [e2] at hrec
    exact parsePrimaryFieldLoop_step l0 hd1 hd2 l1 hrec

theorem parsePrimaryPostfixLoop_run : ∀ (l : List Token) (p : Parser) (node : ASTNode)
    (more : List Token),
    p.rest = l ++ more →
    (∀ t ∈ l, t.type = TokenType._operator ∧ t.value ∈ ["++", "--"]) →
    (p.skip l.length).atOperator ["++", "--"] = false →
    Yields (fun n => parsePrimaryPostfixLoop n node) p
      (Except.ok (applyPostfixes node l, p.skip l.length)) := by
  intro l
  induction l with
  | nil =>
    intro p node more _ _ hexit
    exact parsePrimaryPostfixLoop_exit node hexit
  | cons t l ih =>
    intro p node more hrest hwf hexit
    obtain ⟨h1, h2⟩ := hwf t (List.mem_cons_self _ _)
    obtain ⟨l0, r1⟩ := rest_cons hrest
    have e2 : (p.skip 1).skip l.length = p.skip (t :: l).length := by
      rw [skip_skip]
      exact skip_eq p (by simp; omega)
    have hrec := ih (p.skip 1) (ASTNode.PostfixExpr t.value node) more r1
      (fun x hx => hwf x (List.mem_cons_of_mem _ hx)) (by rw [e2]; exact hexit)
    rw [e2] at hrec
    exact parsePrimaryPostfixLoop_step l0 h1 h2 hrec

theorem parsePrimaryArgumentLoop_run : ∀ (l : List Argument) (p : Parser)
    (arguments : List ASTNode) (more : List Token),
    l ≠ [] → p.rest = argumentTokens l ++ more → argumentsInPlace p l →
    (p.skip (argumentTokens l).length).atType TokenType.comma = false →
    Yields (fun n => parsePrimaryArgumentLoop n arguments) p
      (Except.ok (arguments ++ l.map (fun a => a.tree), p.skip (argumentTokens l).length)) := by
  intro l
  induction l with
  | nil => intro p arguments more h; exact absurd rfl h
  | cons a l ih =>
    intro p arguments more _ hrest hin hexit
    cases l with
    | nil =>
      simp only [argumentTokens, argumentsInPlace] at hrest hin hexit ⊢
      exact parsePrimaryArgumentLoop_last hin hexit
    | cons b l =>
      simp only [argumentTokens, argumentsInPlace] at hrest hin hexit ⊢
      obtain ⟨hy, hc, hin'⟩ := hin
      rw [List.append_assoc] at hrest
      have r1 := rest_append a.etoks hrest
      obtain ⟨l0, r2⟩ := rest_cons (by simpa using r1)
      rw [skip_skip] at r2
      have e2 : (p.skip (a.etoks.length + 1)).skip (argumentTokens (b :: l)).length =
          p.skip (a.etoks ++ a.comma :: argumentTokens (b :: l)).length := by
        rw [skip_skip]
        exact skip_eq p (by simp; omega)
      have hrec := ih (p.skip (a.etoks.length + 1)) (arguments ++ [a.tree]) more (by simp) r2 hin'
        (by rw [e2]; exact hexit)
      rw [e2, ← skip_skip] at hrec
      simp only [List.map_cons, List.append_assoc, List.singleton_append] at hrec ⊢
      exact parsePrimaryArgumentLoop_more hy (atType_true_of_look l0 hc) hrec


theorem callTokens_cons (s : CallSuffix) (l : List CallSuffix) :
    callTokens (s :: l) = s.op :: (argumentTokens s.args ++ s.cp :: callTokens l) := by
  simp [callTokens]

theorem parsePrimaryCallLoop_run : ∀ (l : List CallSuffix) (p : Parser) (node : ASTNode)
    (more : List Token),
    p.rest = callTokens l ++ more → callsInPlace p l →
    (p.skip (callTokens l).length).atType TokenType.o_paren = false →
    Yields (fun n => parsePrimaryCallLoop n node) p
      (Except.ok (applyCalls node l, p.skip (callTokens l).length)) := by
  intro l
  induction l with
  | nil =>
    intro p node more _ _ hexit
    exact parsePrimaryCallLoop_exit node hexit
  | cons s l ih =>
    intro p node more hrest hin hexit
    obtain ⟨hop, hcp, hne, hargs, hin'⟩ := hin
    rw [callTokens_cons] at hrest
    simp only [List.cons_append, List.append_assoc] at hrest
    obtain ⟨l0, r1⟩ := rest_cons hrest
    have r2 := rest_append (argumentTokens s.args) r1
    obtain ⟨l1, r3⟩ := rest_cons r2
    have e1 : ((p.skip 1).skip (argumentTokens s.args).length).skip 1 =
        p.skip ((argumentTokens s.args).length + 2) := by
      rw [skip_skip, skip_skip]
      exact skip_eq p (by omega)
    have e2 : (p.skip ((argumentTokens s.args).length + 2)).skip (callTokens l).length =
        p.skip (callTokens (s :: l)).length := by
      rw [skip_skip, callTokens_cons]
      exact skip_eq p (by simp; omega)
    rw [e1] at r3
    have hrec := ih (p.skip ((argumentTokens s.args).length + 2))
      (ASTNode.FunctionCallExpr node (s.args.map (fun a => a.tree))) more r3 hin'
      (by rw [e2]; exact hexit)
    rw [e2, ← e1] at hrec
    have hgoal : applyCalls node (s :: l) =
        applyCalls (ASTNode.FunctionCallExpr node (s.args.map (fun a => a.tree))) l := rfl
    rw [hgoal]
    by_cases hempty : s.args = []
    · rw [hempty] at hrec l1 ⊢
      simp only [argumentTokens, List.length_nil, skip_zero, List.map_nil] at hrec l1 ⊢
      exact parsePrimaryCallLoop_step_empty l0 hop l1 hcp hrec
    · have hrun := parsePrimaryArgumentLoop_run s.args (p.skip 1) [] (s.cp :: (callTokens l ++ more))
        hempty r1 hargs (atType_false_of_look l1 (by simp [hcp]))
      rw [List.nil_append] at hrun
      exact parsePrimaryCallLoop_step_arguments l0 hop (hne hempty) hrun l1 hcp hrec

/-- The kinds of token that can follow a run of suffixes of `a` in `a ... ;`: the
first token of a later run, or the semicolon. -/
theorem head_after_fields (flds : List FieldSuffix) (posts : List Token)
    (calls : List CallSuffix) (semi : Token)
    (hfl : ∀ s ∈ flds, s.dot.type = TokenType._operator ∧ s.dot.value = ".")
    (hpo : ∀ t ∈ posts, t.type = TokenType._operator ∧ t.value ∈ ["++", "--"])
    (hca : ∀ s ∈ calls, s.op.type = TokenType.o_paren)
    (hsemi : semi.type = TokenType.semicolon) :
    (∀ t, (fieldTokens flds ++ (posts ++ (callTokens calls ++ [semi]))).head? = some t →
      t.type ≠ TokenType.o_bracket) ∧
    (∀ t, (posts ++ (callTokens calls ++ [semi])).head? = some t →
      (t.type = TokenType._operator → t.value ≠ ".") ∧ t.type ≠ TokenType.o_bracket) ∧
    (∀ t, (callTokens calls ++ [semi]).head? = some t → t.type ≠ TokenType._operator) := by
  have h3 : ∀ t, (callTokens calls ++ [semi]).head? = some t →
      t.type = TokenType.o_paren ∨ t.type = TokenType.semicolon := by
    intro t ht
    cases calls with
    | nil => simp [callTokens] at ht; subst ht; exact Or.inr hsemi
    | cons s l =>
      rw [callTokens_cons] at ht
      simp at ht
      subst ht
      exact Or.inl (hca s (List.mem_cons_self _ _))
  have h2 : ∀ t, (posts ++ (callTokens calls ++ [semi])).head? = some t →
      (t.type = TokenType._operator ∧ t.value ∈ ["++", "--"]) ∨
      t.type = TokenType.o_paren ∨ t.type = TokenType.semicolon := by
    intro t ht
    cases posts with
    | nil => exact Or.inr (h3 t (by simpa using ht))
    | cons x l =>
      simp at ht
      subst ht
      exact Or.inl (hpo x (List.mem_cons_self _ _))
  refine ⟨?_, ?_, ?_⟩
  · intro t ht
    cases flds with
    | nil =>
      rcases h2 t (by simpa [fieldTokens] using ht) with h | h | h <;> simp [h]
    | cons s l =>
      rw [fieldTokens_cons] at ht
      simp at ht
      subst ht
      simp [(hfl s (List.mem_cons_self _ _)).1]
  · intro t ht
    rcases h2 t ht with h | h | h
    · refine ⟨fun _ => ?_, by simp [h.1]⟩
      have := h.2
      simp only [List.mem_cons, List.mem_singleton, List.not_mem_nil, or_false] at this
      rcases this with e | e <;> rw [e] <;> decide
    · exact ⟨fun h' => (by rw [h] at h'; cases h'), (by simp [h])⟩
    · exact ⟨fun h' => (by rw [h] at h'; cases h'), (by simp [h])⟩
  · intro t ht
    rcases h3 t ht with h | h <;> simp [h]


theorem callsInPlace_op : ∀ (l : List CallSuffix) (p : Parser), callsInPlace p l →
    ∀ s ∈ l, s.op.type = TokenType.o_paren := by
  intro l
  induction l with
  | nil => intro p _ s hs; simp at hs
  | cons x l ih =>
    intro p h s hs
    rcases List.mem_cons.mp hs with rfl | hs
    · exact h.1
    · exact ih _ h.2.2.2.2 s hs

theorem atType_false_of_rest {p : Parser} {l : List Token} {ty : TokenType} (h : p.rest = l)
    (hl : ∀ t, l.head? = some t → t.type ≠ ty) : p.atType ty = false := by
  simp only [Parser.atType, look_eq_head, h]
  cases hh : l.head? with
  | none => rfl
  | some t => simpa using hl t hh

theorem atOperator_false_of_rest {p : Parser} {l : List Token} {ops : List String}
    (h : p.rest = l)
    (hl : ∀ t, l.head? = some t → t.type = TokenType._operator → t.value ∉ ops) :
    p.atOperator ops = false := by
  simp only [Parser.atOperator, look_eq_head, h]
  cases hh : l.head? with
  | none => rfl
  | some t =>
    by_cases ht : t.type = TokenType._operator
    · simpa [ht] using hl t hh ht
    · simp [ht]

/-- The token that stands where each of the last three suffix loops starts,
when a token that opens a suffix of an earlier kind follows the suffixes. -/
theorem head_before_earlier_suffix (flds : List FieldSuffix) (posts : List Token)
    (calls : List CallSuffix) (t : Token) (more : List Token)
    (hfl : ∀ s ∈ flds, s.dot.type = TokenType._operator ∧ s.dot.value = ".")
    (hpo : ∀ t ∈ posts, t.type = TokenType._operator ∧ t.value ∈ ["++", "--"])
    (hca : ∀ s ∈ calls, s.op.type = TokenType.o_paren)
    (ht : opensEarlierSuffix flds posts calls t) :
    (∀ x, (fieldTokens flds ++ (posts ++ (callTokens calls ++ t :: more))).head? = some x →
      x.type ≠ TokenType.o_bracket) ∧
    (∀ x, (posts ++ (callTokens calls ++ t :: more)).head? = some x →
      x.type = TokenType._operator → x.value ∉ ["."]) ∧
    (∀ x, (callTokens calls ++ t :: more).head? = some x →
      x.type = TokenType._operator → x.value ∉ ["++", "--"]) := by
  have hinc : ∀ v : String, v ∈ ["++", "--"] → v ≠ "." := by
    intro v hv
    simp only [List.mem_cons, List.mem_singleton, List.not_mem_nil, or_false] at hv
    rcases hv with e | e <;> rw [e] <;> decide
  have h3 : ∀ x, (callTokens calls ++ t :: more).head? = some x →
      x.type = TokenType._operator → x.value ∉ ["++", "--"] := by
    intro x hx hop
    cases calls with
    | nil =>
      simp [callTokens] at hx
      subst hx
      rcases ht with h | h | h
      · rw [h.1] at hop; cases hop
      · rw [h.2.1]; decide
      · exact absurd rfl h.2.2
    | cons s l =>
      rw [callTokens_cons] at hx
      simp at hx
      subst hx
      rw [hca s (List.mem_cons_self _ _)] at hop
      cases hop
  have h2 : ∀ x, (posts ++ (callTokens calls ++ t :: more)).head? = some x →
      x.type = TokenType._operator → x.value ∉ ["."] := by
    intro x hx hop
    cases posts with
    | nil =>
      simp only [List.nil_append] at hx
      cases calls with
      | nil =>
        simp [callTokens] at hx
        subst hx
        rcases ht with h | h | h
        · rw [h.1] at hop; cases hop
        · rcases h.2.2 with h | h <;> exact absurd rfl h
        · exact absurd rfl h.2.2
      | cons s l =>
        rw [callTokens_cons] at hx
        simp at hx
        subst hx
        rw [hca s (List.mem_cons_self _ _)] at hop
        cases hop
    | cons y l =>
      simp at hx
      subst hx
      simpa using hinc _ (hpo _ (List.mem_cons_self _ _)).2
  refine ⟨?_, h2, h3⟩
  intro x hx
  cases flds with
  | nil =>
    simp only [fieldTokens, List.flatMap_nil, List.nil_append] at hx
    cases posts with
    | nil =>
      simp only [List.nil_append] at hx
      cases calls with
      | nil =>
        simp [callTokens] at hx
        subst hx
        rcases ht with h | h | h
        · rcases h.2 with h | h | h <;> exact absurd rfl h
        · simp [h.1]
        · simp [h.1]
      | cons s l =>
        rw [callTokens_cons] at hx
        simp at hx
        subst hx
        simp [hca s (List.mem_cons_self _ _)]
    | cons y l =>
      simp at hx
      subst hx
      simp [(hpo _ (List.mem_cons_self _ _)).1]
  | cons s l =>
    rw [fieldTokens_cons] at hx
    simp at hx
    subst hx
    simp [(hfl s (List.mem_cons_self _ _)).1]

/-- After the suffixes of an identifier, read in the order of the four loops,
a token that opens a suffix of an earlier kind is not read: the primary
expression ends in front of it, and the expression statement fails there. -/
theorem earlier_suffix_not_read (P : Parser) (a t : Token) (ixs : List IndexSuffix)
    (flds : List FieldSuffix) (posts : List Token) (calls : List CallSuffix)
    (more : List Token)
    (hrest : P.rest = a :: (indexTokens ixs ++ (fieldTokens flds ++
      (posts ++ (callTokens calls ++ t :: more)))))
    (ha : a.type = TokenType.identifier)
    (hix : indexesInPlace (P.skip 1) ixs)
    (hfl : ∀ s ∈ flds, s.dot.type = TokenType._operator ∧ s.dot.value = ".")
    (hpo : ∀ t ∈ posts, t.type = TokenType._operator ∧ t.value ∈ ["++", "--"])
    (hca : callsInPlace
      (P.skip (1 + (indexTokens ixs).length + (fieldTokens flds).length + posts.length)) calls)
    (ht : opensEarlierSuffix flds posts calls t) :
    Yields parsePrimary P
      (Except.ok (applyCalls (applyPostfixes (applyFields (applyIndexes
          (ASTNode.VariableExpr a.value) ixs) flds) posts) calls,
        P.skip (1 + (indexTokens ixs).length + (fieldTokens flds).length + posts.length +
          (callTokens calls).length))) ∧
    Yields parseExpressionStmt P
      (Except.error (Failure.runtime_error
          ("Parse Error: " ++ "Expected a ;" ++ " [Line: " ++ toString t.line ++ "]"),
        P.skip (1 + (indexTokens ixs).length + (fieldTokens flds).length + posts.length +
          (callTokens calls).length))) := by
  obtain ⟨hb1, hb2, hb3⟩ := head_before_earlier_suffix flds posts calls t more hfl hpo
    (callsInPlace_op calls _ hca) ht
  obtain ⟨l0, r1⟩ := rest_cons hrest
  have r2 := rest_append (indexTokens ixs) r1
  have r3 := rest_append (fieldTokens flds) r2
  have r4 := rest_append posts r3
  have r5 := rest_append (callTokens calls) r4
  obtain ⟨l5, _⟩ := rest_cons r5
  have e4 : P.skip (1 + (indexTokens ixs).length + (fieldTokens flds).length + posts.length) =
      (((P.skip 1).skip (indexTokens ixs).length).skip (fieldTokens flds).length).skip
        posts.length := by
    simp only [skip_skip]
  have e5 : P.skip (1 + (indexTokens ixs).length + (fieldTokens flds).length + posts.length +
      (callTokens calls).length) =
      ((((P.skip 1).skip (indexTokens ixs).length).skip (fieldTokens flds).length).skip
        posts.length).skip (callTokens calls).length := by
    simp only [skip_skip]
  rw [e4] at hca
  rw [e5]
  have htp : t.type ≠ TokenType.o_paren ∧ t.type ≠ TokenType.semicolon := by
    rcases ht with h | h | h <;> simp [h.1]
  have hbin : ∀ ops : List String, "." ∉ ops → "++" ∉ ops → "--" ∉ ops →
      (((((P.skip 1).skip (indexTokens ixs).length).skip (fieldTokens flds).length).skip
        posts.length).skip (callTokens calls).length).atOperator ops = false := by
    intro ops h1 h2 h3
    rcases ht with h | h | h
    · exact atOperator_of_type l5 (by simp [h.1])
    · exact atOperator_of_value l5 (by rw [h.2.1]; exact h1)
    · refine atOperator_of_value l5 ?_
      have hv := h.2.1
      simp only [List.mem_cons, List.mem_singleton, List.not_mem_nil, or_false] at hv
      rcases hv with e | e <;> rw [e] <;> assumption
  have hprim : Yields parsePrimary P (Except.ok
      (applyCalls (applyPostfixes (applyFields (applyIndexes
          (ASTNode.VariableExpr a.value) ixs) flds) posts) calls,
        ((((P.skip 1).skip (indexTokens ixs).length).skip (fieldTokens flds).length).skip
          posts.length).skip (callTokens calls).length)) :=
    parsePrimary_identifier l0 ha
      (parsePrimaryIndexLoop_run ixs (P.skip 1) _ _ r1 hix (atType_false_of_rest r2 hb1))
      (parsePrimaryFieldLoop_run flds _ _ _ r2 hfl (atOperator_false_of_rest r3 hb2))
      (parsePrimaryPostfixLoop_run posts _ _ _ r3 hpo (atOperator_false_of_rest r4 hb3))
      (parsePrimaryCallLoop_run calls _ _ _ r4 hca (atType_false_of_look l5 htp.1))
  refine ⟨hprim, ?_⟩
  obtain ⟨n1, h1⟩ := parseExpression_iff.mpr (parseAssignment_plain
    (parseComparison_atom hprim (atOperator_of_type l0 (by simp [ha]))
      (hbin _ (by decide) (by decide) (by decide)) (hbin _ (by decide) (by decide) (by decide))
      (hbin _ (by decide) (by decide) (by decide)))
    (hbin _ (by decide) (by decide) (by decide)))
  refine ⟨n1 + 1, fun m hm => ?_⟩
  obtain ⟨m, rfl⟩ : ∃ k, m = k + 1 := ⟨m - 1, by omega⟩
  rw [parseExpressionStmt]
  simp [bind_apply, h1 m (by omega), consume_apply, l5, htp.2]

theorem field_then_index_rejected :
    Yields parseExpressionStmt (Parser.new (tokenize ["a.b[0]();"]))
      (Except.error (Failure.runtime_error "Parse Error: Expected a ; [Line: 1]",
        (Parser.new (tokenize ["a.b[0]();"])).skip 3)) :=
  yields_parseExpressionStmt 12 (by rfl) (by simp [outOfFuel_error])

/-- C4, as the code has it. After an identifier the suffixes are read by four
loops in a fixed order: index suffixes `[expr]`, then field accesses `.name`,
then postfix `++`/`--`, then calls `(args)`, any number of each. A sequence
of suffixes in this order, followed by a `;`, is accepted and applied left to
right, each suffix wrapping the node built so far. A suffix that comes after
one of a later kind is not read: in any state, when the token after such a
sequence is a `[` and a field, postfix or call suffix was read, or a `.` and a
postfix or call suffix was read, or a `++` or `--` and a call suffix was read,
the primary expression ends in front of that token and the expression
statement fails there with `Parse Error: Expected a ; [Line: n]`, `n` being
the line of that token. `a.b[0]();` is rejected in this way. -/
theorem suffixes_in_fixed_order (a : Token) (ixs : List IndexSuffix)
    (flds : List FieldSuffix) (posts : List Token) (calls : List CallSuffix)
    (ha : a.type = TokenType.identifier)
    (hfl : ∀ s ∈ flds, s.dot.type = TokenType._operator ∧ s.dot.value = ".")
    (hpo : ∀ t ∈ posts, t.type = TokenType._operator ∧ t.value ∈ ["++", "--"]) :
    (∀ (P : Parser) (semi : Token),
      P = Parser.new (a :: (indexTokens ixs ++ (fieldTokens flds ++
        (posts ++ (callTokens calls ++ [semi]))))) →
      semi.type = TokenType.semicolon →
      indexesInPlace (P.skip 1) ixs →
      callsInPlace
        (P.skip (1 + (indexTokens ixs).length + (fieldTokens flds).length + posts.length))
        calls →
      Yields parseExpressionStmt P
        (Except.ok (applyCalls (applyPostfixes (applyFields (applyIndexes
            (ASTNode.VariableExpr a.value) ixs) flds) posts) calls,
          P.skip (1 + (indexTokens ixs).length + (fieldTokens flds).length + posts.length +
            (callTokens calls).length + 1)))) ∧
    (∀ (P : Parser) (t : Token) (more : List Token),
      P.rest = a :: (indexTokens ixs ++ (fieldTokens flds ++
        (posts ++ (callTokens calls ++ t :: more)))) →
      indexesInPlace (P.skip 1) ixs →
      callsInPlace
        (P.skip (1 + (indexTokens ixs).length + (fieldTokens flds).length + posts.length))
        calls →
      opensEarlierSuffix flds posts calls t →
      Yields parsePrimary P
        (Except.ok (applyCalls (applyPostfixes (applyFields (applyIndexes
            (ASTNode.VariableExpr a.value) ixs) flds) posts) calls,
          P.skip (1 + (indexTokens ixs).length + (fieldTokens flds).length + posts.length +
            (callTokens calls).length))) ∧
      Yields parseExpressionStmt P
        (Except.error (Failure.runtime_error
            ("Parse Error: " ++ "Expected a ;" ++ " [Line: " ++ toString t.line ++ "]"),
          P.skip (1 + (indexTokens ixs).length + (fieldTokens flds).length + posts.length +
            (callTokens calls).length)))) ∧
    Yields parseExpressionStmt (Parser.new (tokenize ["a.b[0]();"]))
      (Except.error (Failure.runtime_error "Parse Error: Expected a ; [Line: 1]",
        (Parser.new (tokenize ["a.b[0]();"])).skip 3)) := by
  refine ⟨?_, fun P t more hrest hix hca ht =>
    earlier_suffix_not_read P a t ixs flds posts calls more hrest ha hix hfl hpo hca ht,
    field_then_index_rejected⟩
  intro P semi hP hsemi hix hca
  obtain ⟨hb1, hb2, hb3⟩ := head_after_fields flds posts calls semi hfl hpo
    (callsInPlace_op calls _ hca) hsemi
  have hrest : P.rest = a :: (indexTokens ixs ++ (fieldTokens flds ++
      (posts ++ (callTokens calls ++ [semi])))) := by rw [hP, new_rest]
  obtain ⟨l0, r1⟩ := rest_cons hrest
  have r2 := rest_append (indexTokens ixs) r1
  have r3 := rest_append (fieldTokens flds) r2
  have r4 := rest_append posts r3
  have r5 := rest_append (callTokens calls) r4
  obtain ⟨l5, _⟩ := rest_cons r5
  have e4 : P.skip (1 + (indexTokens ixs).length + (fieldTokens flds).length + posts.length) =
      (((P.skip 1).skip (indexTokens ixs).length).skip (fieldTokens flds).length).skip
        posts.length := by
    simp only [skip_skip]
  have e6 : P.skip (1 + (indexTokens ixs).length + (fieldTokens flds).length + posts.length +
      (callTokens calls).length + 1) =
      (((((P.skip 1).skip (indexTokens ixs).length).skip (fieldTokens flds).length).skip
        posts.length).skip (callTokens calls).length).skip 1 := by
    simp only [skip_skip]
  rw [e4] at hca
  rw [e6]
  have hsemi_op : ∀ ops : List String, (((((P.skip 1).skip (indexTokens ixs).length).skip
      (fieldTokens flds).length).skip posts.length).skip (callTokens calls).length).atOperator
      ops = false := fun ops => atOperator_of_type l5 (by simp [hsemi])
  have hprim : Yields parsePrimary P (Except.ok
      (applyCalls (applyPostfixes (applyFields (applyIndexes
          (ASTNode.VariableExpr a.value) ixs) flds) posts) calls,
        ((((P.skip 1).skip (indexTokens ixs).length).skip (fieldTokens flds).length).skip
          posts.length).skip (callTokens calls).length)) :=
    parsePrimary_identifier l0 ha
      (parsePrimaryIndexLoop_run ixs (P.skip 1) _ _ r1 hix (atType_false_of_rest r2 hb1))
      (parsePrimaryFieldLoop_run flds _ _ _ r2 hfl
        (atOperator_false_of_rest r3 (fun t ht hop => by simpa using (hb2 t ht).1 hop)))
      (parsePrimaryPostfixLoop_run posts _ _ _ r3 hpo
        (atOperator_false_of_rest r4 (fun t ht hop => absurd hop (hb3 t ht))))
      (parsePrimaryCallLoop_run calls _ _ _ r4 hca
        (atType_false_of_look l5 (by simp [hsemi])))
  exact parseExpressionStmt_of (parseExpression_iff.mpr (parseAssignment_plain
    (parseComparison_atom hprim (atOperator_of_type l0 (by simp [ha]))
      (hsemi_op _) (hsemi_op _) (hsemi_op _)) (hsemi_op _))) l5 hsemi


theorem suffixes_in_fixed_order_witness :
    Yields parseExpressionStmt (Parser.new (tokenize ["a[0].b++(1,2);"]))
      (Except.ok (ASTNode.FunctionCallExpr
          (ASTNode.PostfixExpr "++"
            (ASTNode.ClassFieldAccessExpr
              (ASTNode.IndexExpr (ASTNode.VariableExpr "a") (ASTNode.LiteralExpr 0)) "b"))
          [ASTNode.LiteralExpr 1, ASTNode.LiteralExpr 2],
        (Parser.new (tokenize ["a[0].b++(1,2);"])).skip 13)) ∧
    Yields parseExpressionStmt (Parser.new (tokenize ["a[0].b++(1,2).c;"]))
      (Except.error (Failure.runtime_error "Parse Error: Expected a ; [Line: 1]",
        (Parser.new (tokenize ["a[0].b++(1,2).c;"])).skip 12)) ∧
    Yields parseExpressionStmt (Parser.new (tokenize ["a ++ .b;"]))
      (Except.error (Failure.runtime_error "Parse Error: Expected a ; [Line: 1]",
        (Parser.new (tokenize ["a ++ .b;"])).skip 2)) :=
  have h := suffixes_in_fixed_order ⟨TokenType.identifier, 1, "a"⟩
    [⟨⟨TokenType.o_bracket, 1, "["⟩, [⟨TokenType.int_lit, 1, "0"⟩], ASTNode.LiteralExpr 0,
      ⟨TokenType.c_bracket, 1, "]"⟩⟩]
    [⟨⟨TokenType._operator, 1, "."⟩, ⟨TokenType.identifier, 1, "b"⟩⟩]
    [⟨TokenType._operator, 1, "++"⟩]
    [⟨⟨TokenType.o_paren, 1, "("⟩,
      [⟨[⟨TokenType.int_lit, 1, "1"⟩], ASTNode.LiteralExpr 1, ⟨TokenType.comma, 1, ","⟩⟩,
       ⟨[⟨TokenType.int_lit, 1, "2"⟩], ASTNode.LiteralExpr 2, ⟨TokenType.comma, 1, ","⟩⟩],
      ⟨TokenType.c_paren, 1, ")"⟩⟩]
    (by rfl) (by decide) (by decide)
  ⟨h.1 (Parser.new (tokenize ["a[0].b++(1,2);"])) ⟨TokenType.semicolon, 1, ";"⟩
      (by rfl) (by rfl)
      ⟨rfl, rfl, yields_parseExpression 8 (by rfl) (outOfFuel_ok _), trivial⟩
      ⟨rfl, rfl, fun _ => by rfl,
        ⟨yields_parseExpression 8 (by rfl) (outOfFuel_ok _), rfl,
          yields_parseExpression 8 (by rfl) (outOfFuel_ok _)⟩,
        trivial⟩,
    (h.2.1 (Parser.new (tokenize ["a[0].b++(1,2).c;"])) ⟨TokenType._operator, 1, "."⟩
      [⟨TokenType.identifier, 1, "c"⟩, ⟨TokenType.semicolon, 1, ";"⟩]
      (by rfl)
      ⟨rfl, rfl, yields_parseExpression 8 (by rfl) (outOfFuel_ok _), trivial⟩
      ⟨rfl, rfl, fun _ => by rfl,
        ⟨yields_parseExpression 8 (by rfl) (outOfFuel_ok _), rfl,
          yields_parseExpression 8 (by rfl) (outOfFuel_ok _)⟩,
        trivial⟩
      (Or.inr (Or.inl ⟨rfl, rfl, Or.inl (by simp)⟩))).2,
    ((suffixes_in_fixed_order ⟨TokenType.identifier, 1, "a"⟩ [] []
      [⟨TokenType._operator, 1, "++"⟩] [] (by rfl) (by decide) (by decide)).2.1
      (Parser.new (tokenize ["a ++ .b;"])) ⟨TokenType._operator, 1, "."⟩
      [⟨TokenType.identifier, 1, "b"⟩, ⟨TokenType.semicolon, 1, ";"⟩]
      (by rfl) trivial trivial
      (Or.inr (Or.inl ⟨rfl, rfl, Or.inl (by simp)⟩))).2⟩


/-- C4, as stated, fails: parsing `a.b[0]();` does not yield
`call(index(field-access(variable(a), b), literal(0)), no arguments)`, in
whatever state. -/
theorem suffix_any_order_counterexample :
    ¬ ∃ q, Yields parseExpressionStmt (Parser.new (tokenize ["a.b[0]();"]))
      (Except.ok (ASTNode.FunctionCallExpr
        (ASTNode.IndexExpr
          (ASTNode.ClassFieldAccessExpr (ASTNode.VariableExpr "a") "b") (ASTNode.LiteralExpr 0))
        [], q)) := by
  rintro ⟨q, hq⟩
  exact absurd (Yields.unique field_then_index_rejected hq) (by simp)

/-! ## Diagnostics -/

/-- C9. The claim that every failure is rendered as
`Parse Error: <message> [Line: <n>]` fails on the code: only `consume` builds
that text. A `while`, `if` or `for` header on line 7 whose closing `)` is
missing fails with the bare text `Expected ')' after condition.`, thrown
directly; a missing `;` at the very end of the input reads `tokens[current]`
out of bounds while building the message; where `consume` finds a wrong token
the text does carry the line; and a literal beyond the range of `int` ends with
the `std::out_of_range` of `std::stoi`. -/
theorem missing_paren_message_has_no_line :
    Yields parseStatement (Parser.new (tokenize ["", "", "", "", "", "", "while (1 \x7b\x7d"]))
      (Except.error (Failure.runtime_error "Expected ')' after condition.",
        (Parser.new (tokenize ["", "", "", "", "", "", "while (1 \x7b\x7d"])).skip 3)) ∧
    Yields parseStatement (Parser.new (tokenize ["", "", "", "", "", "", "if (1; \x7b\x7d"]))
      (Except.error (Failure.runtime_error "Expected ')' after condition.",
        (Parser.new (tokenize ["", "", "", "", "", "", "if (1; \x7b\x7d"])).skip 4)) ∧
    Yields parseStatement (Parser.new (tokenize ["", "", "", "", "", "", "for (1;2;3 \x7b\x7d"]))
      (Except.error (Failure.runtime_error "Expected ')' after condition.",
        (Parser.new (tokenize ["", "", "", "", "", "", "for (1;2;3 \x7b\x7d"])).skip 7)) ∧
    Yields parseStatement (Parser.new (tokenize ["", "", "", "", "", "", "while (1) 2"]))
      (Except.error (Failure.out_of_bounds 5,
        (Parser.new (tokenize ["", "", "", "", "", "", "while (1) 2"])).skip 5)) ∧
    Yields parseStatement (Parser.new (tokenize ["", "", "", "", "", "", "while (1) 2 \x7d"]))
      (Except.error (Failure.runtime_error "Parse Error: Expected a ; [Line: 7]",
        (Parser.new (tokenize ["", "", "", "", "", "", "while (1) 2 \x7d"])).skip 5)) ∧
    Yields parseStatement (Parser.new (tokenize ["99999999999;"]))
      (Except.error (Failure.out_of_range "stoi",
        (Parser.new (tokenize ["99999999999;"])).skip 1)) :=
  ⟨yields_parseStatement 12 (by rfl) (by simp [outOfFuel_error]),
   yields_parseStatement 12 (by rfl) (by simp [outOfFuel_error]),
   yields_parseStatement 12 (by rfl) (by simp [outOfFuel_error]),
   yields_parseStatement 12 (by rfl) (by simp [outOfFuel_error]),
   yields_parseStatement 12 (by rfl) (by simp [outOfFuel_error]),
   yields_parseStatement 12 (by rfl) (by simp [outOfFuel_error])⟩


/-! ## States only move forward -/

theorem extends_refl (p : Parser) : Parser.Extends p p :=
  ⟨rfl, rfl, le_refl _, fun _ h => h⟩

theorem extends_trans {p q r : Parser} (h1 : Parser.Extends p q) (h2 : Parser.Extends q r) :
    Parser.Extends p r :=
  ⟨h2.tokens.trans h1.tokens, h2.primitiveTypeTable.trans h1.primitiveTypeTable,
    le_trans h1.current h2.current, fun x hx => h2.typeTable x (h1.typeTable x hx)⟩

theorem extends_skip (p : Parser) (k : Nat) : Parser.Extends p (p.skip k) :=
  ⟨rfl, rfl, Nat.le_add_right _ _, fun _ h => h⟩

theorem extends_withType (p : Parser) (name : String) : Parser.Extends p (p.withType name) :=
  ⟨rfl, rfl, le_refl _, fun _ h => mem_emplace_of_mem name h⟩

theorem advances_pure {α : Type} (a : α) : Advances (pure a : ParserM α) :=
  ⟨fun p => extends_refl p⟩

theorem advances_fail {α : Type} (e : Failure) : Advances (fail e : ParserM α) :=
  ⟨fun p => extends_refl p⟩

theorem advances_bind {α β : Type} {m : ParserM α} {f : α → ParserM β}
    (h1 : Advances m) (h2 : ∀ a, Advances (f a)) : Advances (m >>= f) := by
  constructor
  intro p
  have h := h1.run p
  rw [bind_apply]
  cases hm : m p with
  | error e =>
    rw [hm] at h
    exact h
  | ok v =>
    rw [hm] at h
    exact extends_trans h ((h2 v.1).run v.2)

theorem advances_ite {α : Type} {c : Prop} [Decidable c] {a b : ParserM α}
    (h1 : Advances a) (h2 : Advances b) : Advances (if c then a else b) := by
  by_cases h : c <;> simp [h, h1, h2]

theorem advances_tokenAt (i : Nat) : Advances (tokenAt i) := by
  constructor
  intro p
  unfold Compiler.tokenAt
  cases p.tokens[i]? <;> exact extends_refl p

theorem advances_isAtEnd : Advances isAtEnd := ⟨fun p => extends_refl p⟩

theorem advances_inTypeTable (name : String) : Advances (inTypeTable name) :=
  ⟨fun p => extends_refl p⟩

theorem advances_peek : Advances peek := ⟨fun p => (advances_tokenAt p.current).run p⟩

theorem advances_previous : Advances previous :=
  ⟨fun p => (advances_tokenAt _).run p⟩

theorem advances_advance : Advances advance := by
  constructor
  intro p
  rw [advance_apply]
  cases p.look
  · exact extends_refl p
  · exact extends_skip p 1

theorem advances_liftExcept {α : Type} (r : Except Failure α) : Advances (liftExcept r) := by
  constructor
  intro p
  cases r <;> exact extends_refl p

theorem advances_registerType (name : String) : Advances (registerType name) :=
  ⟨fun p => extends_withType p name⟩

theorem advances_check (ty : TokenType) : Advances (check ty) := by
  constructor
  intro p
  rw [check_apply]
  exact extends_refl p

theorem advances_match_ (ty : TokenType) : Advances (match_ ty) := by
  constructor
  intro p
  rw [match_apply]
  split
  · exact extends_skip p 1
  · exact extends_refl p

theorem advances_consume (ty : TokenType) (msg : String) : Advances (consume ty msg) := by
  constructor
  intro p
  rw [consume_apply]
  cases p.look with
  | none => exact extends_refl p
  | some t =>
    by_cases h : t.type = ty
    · simp only [h, if_true]; exact extends_skip p 1
    · simp only [h, if_false]; exact extends_refl p

theorem advances_checkOperator (ops : List String) : Advances (checkOperator ops) := by
  constructor
  intro p
  rw [checkOperator_apply]
  exact extends_refl p

theorem parseLoopControl_advances : Advances parseLoopControl := by
  unfold parseLoopControl
  repeat (with_reducible first
      | exact advances_pure _ | exact advances_fail _ | exact advances_peek
      | exact advances_previous | exact advances_advance | exact advances_isAtEnd
      | exact advances_check _ | exact advances_match_ _ | exact advances_consume _ _
      | exact advances_checkOperator _ | exact advances_inTypeTable _
      | exact advances_liftExcept _ | exact advances_registerType _
      | apply advances_bind | apply advances_ite | intro _)

theorem parsePrimaryFieldLoop_advances (n : Nat) : ∀ node, Advances (parsePrimaryFieldLoop n node) := by
  induction n with
  | zero => intro node; exact advances_fail _
  | succ n ih =>
    intro node
    rw [parsePrimaryFieldLoop]
    repeat (with_reducible first
          | exact advances_pure _ | exact advances_fail _ | exact advances_peek
          | exact advances_previous | exact advances_advance | exact advances_isAtEnd
          | exact advances_check _ | exact advances_match_ _ | exact advances_consume _ _
          | exact advances_checkOperator _ | exact advances_inTypeTable _
          | exact advances_liftExcept _ | exact advances_registerType _
          | exact ih _
          | apply advances_bind | apply advances_ite | intro _)

theorem parsePrimaryPostfixLoop_advances (n : Nat) : ∀ node, Advances (parsePrimaryPostfixLoop n node) := by
  induction n with
  | zero => intro node; exact advances_fail _
  | succ n ih =>
    intro node
    rw [parsePrimaryPostfixLoop]
    repeat (with_reducible first
          | exact advances_pure _ | exact advances_fail _ | exact advances_peek
          | exact advances_previous | exact advances_advance | exact advances_isAtEnd
          | exact advances_check _ | exact advances_match_ _ | exact advances_consume _ _
          | exact advances_checkOperator _ | exact advances_inTypeTable _
          | exact advances_liftExcept _ | exact advances_registerType _
          | exact ih _
          | apply advances_bind | apply advances_ite | intro _)


theorem advancesAt (n : Nat) : AdvancesAt n := by
  induction n with
  | zero =>
    constructor
    all_goals first | exact advances_fail _ | exact fun _ => advances_fail _
  | succ n ih =>
    constructor
    all_goals (try intro l)
    all_goals first
      | rw [parseStatement]
      | rw [parseExpression]
      | rw [parseAssignment]
      | rw [parseComparisonLoop]
      | rw [parseComparison]
      | rw [parseAdditionLoop]
      | rw [parseAddition]
      | rw [parseMultiplicationLoop]
      | rw [parseMultiplication]
      | rw [parseUnary]
      | rw [parsePrimaryIndexLoop]
      | rw [parsePrimaryArgumentLoop]
      | rw [parsePrimaryCallLoop]
      | rw [parsePrimary]
      | rw [parseCompoundLoop]
      | rw [parseCompound]
      | rw [parseIf]
      | rw [parseWhile]
      | rw [parseFor]
      | rw [parseExpressionStmt]
      | rw [parseReturn]
      | rw [parseDefinition]
    all_goals repeat (with_reducible first
      | exact advances_pure _ | exact advances_fail _ | exact advances_peek
      | exact advances_previous | exact advances_advance | exact advances_isAtEnd
      | exact advances_check _ | exact advances_match_ _ | exact advances_consume _ _
      | exact advances_checkOperator _ | exact advances_inTypeTable _
      | exact advances_liftExcept _ | exact advances_registerType _
      | exact ih.parseStatement
      | exact ih.parseExpression
      | exact ih.parseAssignment
      | exact ih.parseComparisonLoop _
      | exact ih.parseComparison
      | exact ih.parseAdditionLoop _
      | exact ih.parseAddition
      | exact ih.parseMultiplicationLoop _
      | exact ih.parseMultiplication
      | exact ih.parseUnary
      | exact ih.parsePrimaryIndexLoop _
      | exact ih.parsePrimaryArgumentLoop _
      | exact ih.parsePrimaryCallLoop _
      | exact ih.parsePrimary
      | exact ih.parseCompoundLoop _
      | exact ih.parseCompound
      | exact ih.parseIf
      | exact ih.parseWhile
      | exact ih.parseFor
      | exact ih.parseExpressionStmt
      | exact ih.parseReturn
      | exact ih.parseDefinition
      | exact parsePrimaryFieldLoop_advances _ _ | exact parsePrimaryPostfixLoop_advances _ _
      | exact parseLoopControl_advances
      | apply advances_bind | apply advances_ite | intro _)

theorem parseFunctionParamLoop_advances (n : Nat) : ∀ params, Advances (parseFunctionParamLoop n params) := by
  induction n with
  | zero => intro params; exact advances_fail _
  | succ n ih =>
    intro params
    rw [parseFunctionParamLoop]
    repeat (with_reducible first
          | exact advances_pure _ | exact advances_fail _ | exact advances_peek
          | exact advances_previous | exact advances_advance | exact advances_isAtEnd
          | exact advances_check _ | exact advances_match_ _ | exact advances_consume _ _
          | exact advances_checkOperator _ | exact advances_inTypeTable _
          | exact advances_liftExcept _ | exact advances_registerType _
          | exact ih _
          | apply advances_bind | apply advances_ite | intro _)


theorem parseFunction_advances (n : Nat) : Advances (parseFunction n) := by
  unfold parseFunction
  repeat (with_reducible first
      | exact advances_pure _ | exact advances_fail _ | exact advances_peek
      | exact advances_previous | exact advances_advance | exact advances_isAtEnd
      | exact advances_check _ | exact advances_match_ _ | exact advances_consume _ _
      | exact advances_checkOperator _ | exact advances_inTypeTable _
      | exact advances_liftExcept _ | exact advances_registerType _
      | exact parseFunctionParamLoop_advances _ _ | exact (advancesAt _).parseStatement
      | apply advances_bind | apply advances_ite | intro _)

theorem parseClassFieldLoop_advances (n : Nat) : ∀ structType, Advances (parseClassFieldLoop n structType) := by
  induction n with
  | zero => intro structType; exact advances_fail _
  | succ n ih =>
    intro structType
    rw [parseClassFieldLoop]
    repeat (with_reducible first
          | exact advances_pure _ | exact advances_fail _ | exact advances_peek
          | exact advances_previous | exact advances_advance | exact advances_isAtEnd
          | exact advances_check _ | exact advances_match_ _ | exact advances_consume _ _
          | exact advances_checkOperator _ | exact advances_inTypeTable _
          | exact advances_liftExcept _ | exact advances_registerType _
          | exact ih _
          | apply advances_bind | apply advances_ite | intro _)


theorem parseClass_advances (n : Nat) : Advances (parseClass n) := by
  unfold parseClass
  repeat (with_reducible first
      | exact advances_pure _ | exact advances_fail _ | exact advances_peek
      | exact advances_previous | exact advances_advance | exact advances_isAtEnd
      | exact advances_check _ | exact advances_match_ _ | exact advances_consume _ _
      | exact advances_checkOperator _ | exact advances_inTypeTable _
      | exact advances_liftExcept _ | exact advances_registerType _
      | exact parseClassFieldLoop_advances _ _
      | apply advances_bind | apply advances_ite | intro _)

theorem ParseLoop_advances (n : Nat) : ∀ code, Advances (ParseLoop n code) := by
  induction n with
  | zero => intro code; exact advances_fail _
  | succ n ih =>
    intro code
    rw [ParseLoop]
    repeat (with_reducible first
      | exact advances_pure _ | exact advances_fail _ | exact advances_peek
      | exact advances_previous | exact advances_advance | exact advances_isAtEnd
      | exact advances_check _ | exact advances_match_ _ | exact advances_consume _ _
      | exact advances_checkOperator _ | exact advances_inTypeTable _
      | exact advances_liftExcept _ | exact advances_registerType _
      | exact ih _ | exact parseClass_advances _ | exact parseFunction_advances _
      | apply advances_bind | apply advances_ite | intro _)

theorem Parse_advances (n : Nat) : Advances (Parse n) := by
  unfold Parse
  exact advances_bind (ParseLoop_advances n _) (fun _ => advances_pure _)

/-! ## The type table -/

theorem new_typeTable (tokens : List Token) :
    (Parser.new tokens).typeTable = ["float", "void"] := by
  have h : ["float", "void"].foldl emplace [] = ["float", "void"] := by decide
  exact h

/-- C14. The type table only grows. A parser is constructed with the seed
primitives `float` and `void` in its type table, and every method of the parser
(`Parse`, `parseClass`, `parseFunction`, every statement parser and every
expression parser), run with any fuel on any state `p`, ends in a state whose
type table contains every entry of the type table of `p`, whether the method
returned or failed (out of fuel included); so the seeds are still present when
`Parse` ends on a freshly constructed parser. -/
theorem typeTable_only_grows (tokens : List Token) (fuel : Nat) (p : Parser) :
    "float" ∈ (Parser.new tokens).typeTable ∧ "void" ∈ (Parser.new tokens).typeTable ∧
    "float" ∈ (Parse fuel (Parser.new tokens)).state.typeTable ∧
    "void" ∈ (Parse fuel (Parser.new tokens)).state.typeTable ∧
    p.typeTable ⊆ (Parse fuel p).state.typeTable ∧
    p.typeTable ⊆ (parseClass fuel p).state.typeTable ∧
    p.typeTable ⊆ (parseFunction fuel p).state.typeTable ∧
    p.typeTable ⊆ (parseStatement fuel p).state.typeTable ∧
    p.typeTable ⊆ (parseCompound fuel p).state.typeTable ∧
    p.typeTable ⊆ (parseIf fuel p).state.typeTable ∧
    p.typeTable ⊆ (parseWhile fuel p).state.typeTable ∧
    p.typeTable ⊆ (parseFor fuel p).state.typeTable ∧
    p.typeTable ⊆ (parseReturn fuel p).state.typeTable ∧
    p.typeTable ⊆ (parseDefinition fuel p).state.typeTable ∧
    p.typeTable ⊆ (parseLoopControl p).state.typeTable ∧
    p.typeTable ⊆ (parseExpressionStmt fuel p).state.typeTable ∧
    p.typeTable ⊆ (parseExpression fuel p).state.typeTable ∧
    p.typeTable ⊆ (parseAssignment fuel p).state.typeTable ∧
    p.typeTable ⊆ (parseComparison fuel p).state.typeTable ∧
    p.typeTable ⊆ (parseAddition fuel p).state.typeTable ∧
    p.typeTable ⊆ (parseMultiplication fuel p).state.typeTable ∧
    p.typeTable ⊆ (parseUnary fuel p).state.typeTable ∧
    p.typeTable ⊆ (parsePrimary fuel p).state.typeTable := by
  have seedF : "float" ∈ (Parser.new tokens).typeTable := by
    rw [new_typeTable]; decide
  have seedV : "void" ∈ (Parser.new tokens).typeTable := by
    rw [new_typeTable]; decide
  have g := advancesAt fuel
  exact ⟨seedF, seedV,
    ((Parse_advances fuel).run _).typeTable _ seedF,
    ((Parse_advances fuel).run _).typeTable _ seedV,
    ((Parse_advances fuel).run p).typeTable,
    ((parseClass_advances fuel).run p).typeTable,
    ((parseFunction_advances fuel).run p).typeTable,
    (g.parseStatement.run p).typeTable,
    (g.parseCompound.run p).typeTable,
    (g.parseIf.run p).typeTable,
    (g.parseWhile.run p).typeTable,
    (g.parseFor.run p).typeTable,
    (g.parseReturn.run p).typeTable,
    (g.parseDefinition.run p).typeTable,
    (parseLoopControl_advances.run p).typeTable,
    (g.parseExpressionStmt.run p).typeTable,
    (g.parseExpression.run p).typeTable,
    (g.parseAssignment.run p).typeTable,
    (g.parseComparison.run p).typeTable,
    (g.parseAddition.run p).typeTable,
    (g.parseMultiplication.run p).typeTable,
    (g.parseUnary.run p).typeTable,
    (g.parsePrimary.run p).typeTable⟩

/-! ## Statements: dispatch, failures, if and for -/

theorem parseStatement_succ (fuel : Nat) {p : Parser} {t : Token} (h : p.look = some t) :
    parseStatement (fuel + 1) p =
      if t.type = TokenType.o_brace then parseCompound fuel p
      else if t.type = TokenType._if then parseIf fuel p
      else if t.type = TokenType._while then parseWhile fuel p
      else if t.type = TokenType._for then parseFor fuel p
      else if t.type = TokenType._return then parseReturn fuel p
      else if t.value ∈ p.typeTable then parseDefinition fuel p
      else if t.type = TokenType._break ∨ t.type = TokenType._continue then parseLoopControl p
      else parseExpressionStmt fuel p := by
  rw [parseStatement]
  by_cases h1 : t.type = TokenType.o_brace
  · simp [bind_apply, check_at, atType_of_look _ h, h1]
  by_cases h2 : t.type = TokenType._if
  · simp [bind_apply, check_at, atType_of_look _ h, h2]
  by_cases h3 : t.type = TokenType._while
  · simp [bind_apply, check_at, atType_of_look _ h, h3]
  by_cases h4 : t.type = TokenType._for
  · simp [bind_apply, check_at, atType_of_look _ h, h4]
  by_cases h5 : t.type = TokenType._return
  · simp [bind_apply, check_at, atType_of_look _ h, h5]
  by_cases h6 : t.value ∈ p.typeTable
  · simp [bind_apply, check_at, atType_of_look _ h, peek_apply, h, inTypeTable_apply,
      h1, h2, h3, h4, h5, h6]
  by_cases h7 : t.type = TokenType._break
  · simp [bind_apply, check_at, atType_of_look _ h, peek_apply, h, inTypeTable_apply,
      h1, h2, h3, h4, h5, h6, h7]
  by_cases h8 : t.type = TokenType._continue
  · simp [bind_apply, check_at, atType_of_look _ h, peek_apply, h, inTypeTable_apply,
      h1, h2, h3, h4, h5, h6, h7, h8]
  simp [bind_apply, check_at, atType_of_look _ h, peek_apply, h, inTypeTable_apply,
    h1, h2, h3, h4, h5, h6, h7, h8]

theorem parseStatement_to {f : Nat → ParserM ASTNode} {p : Parser} {r : Outcome ASTNode}
    (hd : ∀ fuel, parseStatement (fuel + 1) p = f fuel p) (h : Yields f p r) :
    Yields parseStatement p r := by
  obtain ⟨n, hn⟩ := h
  refine ⟨n + 1, fun m hm => ?_⟩
  obtain ⟨m, rfl⟩ : ∃ k, m = k + 1 := ⟨m - 1, by omega⟩
  rw [hd, hn m (by omega)]

theorem parseStatement_return {p : Parser} {t : Token} {r : Outcome ASTNode}
    (h : p.look = some t) (ht : t.type = TokenType._return) (hr : Yields parseReturn p r) :
    Yields parseStatement p r :=
  parseStatement_to (fun fuel => by rw [parseStatement_succ fuel h]; simp [ht]) hr

theorem parseStatement_if {p : Parser} {t : Token} {r : Outcome ASTNode}
    (h : p.look = some t) (ht : t.type = TokenType._if) (hr : Yields parseIf p r) :
    Yields parseStatement p r :=
  parseStatement_to (fun fuel => by rw [parseStatement_succ fuel h]; simp [ht]) hr

theorem parseStatement_for {p : Parser} {t : Token} {r : Outcome ASTNode}
    (h : p.look = some t) (ht : t.type = TokenType._for) (hr : Yields parseFor p r) :
    Yields parseStatement p r :=
  parseStatement_to (fun fuel => by rw [parseStatement_succ fuel h]; simp [ht]) hr

theorem parseStatement_definition {p : Parser} {t : Token} {r : Outcome ASTNode}
    (h : p.look = some t) (ht : t.type = TokenType.identifier) (hv : t.value ∈ p.typeTable)
    (hr : Yields parseDefinition p r) : Yields parseStatement p r :=
  parseStatement_to (fun fuel => by rw [parseStatement_succ fuel h]; simp [ht, hv]) hr

theorem parseStatement_expression {p : Parser} {t : Token} {r : Outcome ASTNode}
    (h : p.look = some t) (ht : t.type = TokenType.identifier) (hv : t.value ∉ p.typeTable)
    (hr : Yields parseExpressionStmt p r) : Yields parseStatement p r :=
  parseStatement_to (fun fuel => by rw [parseStatement_succ fuel h]; simp [ht, hv]) hr

/-- A result reached with some fuel is the result reached with enough fuel. -/
theorem Yields.eq_of_run {α : Type} {f : Nat → ParserM α} (hf : ∀ n, Stable (f n) (f (n + 1)))
    {p : Parser} {r r' : Outcome α} (h : Yields f p r) (n : Nat) (h' : f n p = r')
    (hr : ¬ OutOfFuel r') : r' = r :=
  Yields.unique (Yields.of_run hf n h' hr) h

theorem parseStatement_never_ok {p : Parser} {e : Failure × Parser}
    (h : Yields parseStatement p (Except.error e)) (fuel : Nat) (node : ASTNode) (q : Parser) :
    parseStatement fuel p ≠ Except.ok (node, q) := by
  intro hok
  have := Yields.eq_of_run (fun n => (stableAt n).parseStatement) h fuel hok (outOfFuel_ok _)
  simp at this

/-! ### Failures inside an expression -/

theorem parsePrimary_reject {p : Parser} {t : Token} (h : p.look = some t)
    (h1 : t.type ≠ TokenType.int_lit) (h2 : t.type ≠ TokenType.identifier)
    (h3 : t.type ≠ TokenType.o_paren) :
    Yields parsePrimary p
      (Except.error (Failure.runtime_error "Expected a number, variable, or '('.", p)) := by
  refine ⟨1, fun m hm => ?_⟩
  obtain ⟨m, rfl⟩ : ∃ k, m = k + 1 := ⟨m - 1, by omega⟩
  rw [parsePrimary]
  simp [bind_apply, match_apply, h, h1, h2, h3, fail_apply]

theorem parseMultiplication_error {p : Parser} {e : Failure × Parser}
    (h1 : Yields parseUnary p (Except.error e)) :
    Yields parseMultiplication p (Except.error e) := by
  obtain ⟨n1, h1⟩ := h1
  refine ⟨n1 + 1, fun m hm => ?_⟩
  obtain ⟨m, rfl⟩ : ∃ k, m = k + 1 := ⟨m - 1, by omega⟩
  rw [parseMultiplication]
  simp [bind_apply, h1 m (by omega)]

theorem parseAddition_error {p : Parser} {e : Failure × Parser}
    (h1 : Yields parseMultiplication p (Except.error e)) :
    Yields parseAddition p (Except.error e) := by
  obtain ⟨n1, h1⟩ := h1
  refine ⟨n1 + 1, fun m hm => ?_⟩
  obtain ⟨m, rfl⟩ : ∃ k, m = k + 1 := ⟨m - 1, by omega⟩
  rw [parseAddition]
  simp [bind_apply, h1 m (by omega)]

theorem parseComparison_error {p : Parser} {e : Failure × Parser}
    (h1 : Yields parseAddition p (Except.error e)) :
    Yields parseComparison p (Except.error e) := by
  obtain ⟨n1, h1⟩ := h1
  refine ⟨n1 + 1, fun m hm => ?_⟩
  obtain ⟨m, rfl⟩ : ∃ k, m = k + 1 := ⟨m - 1, by omega⟩
  rw [parseComparison]
  simp [bind_apply, h1 m (by omega)]

theorem parseAssignment_error {p : Parser} {e : Failure × Parser}
    (h1 : Yields parseComparison p (Except.error e)) :
    Yields parseAssignment p (Except.error e) := by
  obtain ⟨n1, h1⟩ := h1
  refine ⟨n1 + 1, fun m hm => ?_⟩
  obtain ⟨m, rfl⟩ : ∃ k, m = k + 1 := ⟨m - 1, by omega⟩
  rw [parseAssignment]
  simp [bind_apply, h1 m (by omega)]

/-- No expression starts with a `;` or a `)`. -/
theorem parseExpression_reject {p : Parser} {t : Token} (h : p.look = some t)
    (ht : t.type = TokenType.semicolon ∨ t.type = TokenType.c_paren) :
    Yields parseExpression p
      (Except.error (Failure.runtime_error "Expected a number, variable, or '('.", p)) := by
  have h0 : t.type ≠ TokenType._operator := by rcases ht with ht | ht <;> simp [ht]
  have h1 : t.type ≠ TokenType.int_lit := by rcases ht with ht | ht <;> simp [ht]
  have h2 : t.type ≠ TokenType.identifier := by rcases ht with ht | ht <;> simp [ht]
  have h3 : t.type ≠ TokenType.o_paren := by rcases ht with ht | ht <;> simp [ht]
  exact parseExpression_iff.mpr (parseAssignment_error (parseComparison_error
    (parseAddition_error (parseMultiplication_error
      (parseUnary_primary (atOperator_of_type h h0) (parsePrimary_reject h h1 h2 h3))))))

/-! ### Statements -/

theorem parseExpressionStmt_missing {p q : Parser} {t : Token} {e : ASTNode}
    (h1 : Yields parseExpression p (Except.ok (e, q)))
    (h : q.look = some t) (ht : t.type ≠ TokenType.semicolon) :
    Yields parseExpressionStmt p
      (Except.error (Failure.runtime_error
        ("Parse Error: " ++ "Expected a ;" ++ " [Line: " ++ toString t.line ++ "]"), q)) := by
  obtain ⟨n1, h1⟩ := h1
  refine ⟨n1 + 1, fun m hm => ?_⟩
  obtain ⟨m, rfl⟩ : ∃ k, m = k + 1 := ⟨m - 1, by omega⟩
  rw [parseExpressionStmt]
  simp [bind_apply, h1 m (by omega), consume_apply, h, ht]

theorem parseReturn_of {p q : Parser} {kw : Token} {e : ASTNode} {r : Outcome ASTNode}
    (h : p.look = some kw) (ht : kw.type = TokenType._return)
    (h1 : Yields parseExpressionStmt (p.skip 1) (Except.ok (e, q)))
    (h2 : (consume TokenType.semicolon "Expected ;" >>= fun _ =>
      (pure (ASTNode.ReturnStmt (some e)) : ParserM ASTNode)) q = r) :
    Yields parseReturn p r := by
  obtain ⟨n1, h1⟩ := h1
  refine ⟨n1 + 1, fun m hm => ?_⟩
  obtain ⟨m, rfl⟩ : ∃ k, m = k + 1 := ⟨m - 1, by omega⟩
  rw [parseReturn, ← h2]
  simp [bind_apply, consume_apply, h, ht, h1 m (by omega)]

theorem parseDefinition_of {p q : Parser} {T : Token} {e : ASTNode} {r : Outcome ASTNode}
    (h : p.look = some T) (ht : T.type = TokenType.identifier)
    (h1 : Yields parseExpression (p.skip 1) (Except.ok (e, q)))
    (h2 : (consume TokenType.semicolon "Expected ;" >>= fun _ =>
      (pure (ASTNode.DefinitionStmt T.value e) : ParserM ASTNode)) q = r) :
    Yields parseDefinition p r := by
  obtain ⟨n1, h1⟩ := h1
  refine ⟨n1 + 1, fun m hm => ?_⟩
  obtain ⟨m, rfl⟩ : ∃ k, m = k + 1 := ⟨m - 1, by omega⟩
  rw [parseDefinition, ← h2]
  simp [bind_apply, consume_apply, h, ht, h1 m (by omega)]

theorem parseIf_of {p q1 q2 : Parser} {kw op cp : Token} {C S1 : ASTNode}
    {r : Outcome ASTNode}
    (h : p.look = some kw) (ht : kw.type = TokenType._if)
    (hop : (p.skip 1).look = some op) (hopt : op.type = TokenType.o_paren)
    (h1 : Yields parseStatement (p.skip 2) (Except.ok (C, q1)))
    (hcp : q1.look = some cp) (hcpt : cp.type = TokenType.c_paren)
    (h2 : Yields parseStatement (q1.skip 1) (Except.ok (S1, q2)))
    (h3 : Yields (fun n => (do
        if ← match_ TokenType._else then
          let elseStmt ← parseStatement n
          return ASTNode.IfStmt C S1 (some elseStmt)
        else
          return ASTNode.IfStmt C S1 none : ParserM ASTNode)) q2 r) :
    Yields parseIf p r := by
  obtain ⟨n1, h1⟩ := h1
  obtain ⟨n2, h2⟩ := h2
  obtain ⟨n3, h3⟩ := h3
  refine ⟨n1 + n2 + n3 + 1, fun m hm => ?_⟩
  obtain ⟨m, rfl⟩ : ∃ k, m = k + 1 := ⟨m - 1, by omega⟩
  have hm1 : n1 ≤ m := by omega
  have hm2 : n2 ≤ m := by omega
  have hm3 : n3 ≤ m := by omega
  rw [parseIf, ← h3 m hm3]
  simp [bind_apply, match_apply, h, ht, hop, hopt, skip_skip, h1 m hm1, hcp, hcpt, h2 m hm2]

theorem parseIf_then {p q1 q2 : Parser} {kw op cp : Token} {C S1 : ASTNode}
    (h : p.look = some kw) (ht : kw.type = TokenType._if)
    (hop : (p.skip 1).look = some op) (hopt : op.type = TokenType.o_paren)
    (h1 : Yields parseStatement (p.skip 2) (Except.ok (C, q1)))
    (hcp : q1.look = some cp) (hcpt : cp.type = TokenType.c_paren)
    (h2 : Yields parseStatement (q1.skip 1) (Except.ok (S1, q2)))
    (h3 : q2.atType TokenType._else = false) :
    Yields parseIf p (Except.ok (ASTNode.IfStmt C S1 none, q2)) := by
  refine parseIf_of h ht hop hopt h1 hcp hcpt h2 ⟨0, fun m _ => ?_⟩
  have h3' : q2.look.any (fun t => t.type == TokenType._else) = false := h3
  simp [bind_apply, match_apply, h3', pure_apply]

theorem parseIf_else {p q1 q2 q3 : Parser} {kw op cp el : Token} {C S1 S2 : ASTNode}
    (h : p.look = some kw) (ht : kw.type = TokenType._if)
    (hop : (p.skip 1).look = some op) (hopt : op.type = TokenType.o_paren)
    (h1 : Yields parseStatement (p.skip 2) (Except.ok (C, q1)))
    (hcp : q1.look = some cp) (hcpt : cp.type = TokenType.c_paren)
    (h2 : Yields parseStatement (q1.skip 1) (Except.ok (S1, q2)))
    (hel : q2.look = some el) (helt : el.type = TokenType._else)
    (h3 : Yields parseStatement (q2.skip 1) (Except.ok (S2, q3))) :
    Yields parseIf p (Except.ok (ASTNode.IfStmt C S1 (some S2), q3)) := by
  obtain ⟨n3, h3⟩ := h3
  refine parseIf_of h ht hop hopt h1 hcp hcpt h2 ⟨n3, fun m hm => ?_⟩
  simp [bind_apply, match_apply, hel, helt, h3 m hm, pure_apply]

theorem parseFor_header {p : Parser} {kw op : Token} {r : Outcome ASTNode}
    (h : p.look = some kw) (ht : kw.type = TokenType._for)
    (hop : (p.skip 1).look = some op) (hopt : op.type = TokenType.o_paren)
    (h3 : Yields (fun n => (do
        let initializer ← parseExpression n
        let _ ← consume TokenType.semicolon "Expected ; in 'for' loop."
        let condition ← parseExpression n
        let _ ← consume TokenType.semicolon "Expected ; in 'for' loop."
        let incrementor ← parseExpression n
        if !(← match_ TokenType.c_paren) then
          fail (Failure.runtime_error "Expected ')' after condition.")
        else
          let body ← parseStatement n
          return ASTNode.ForStmt initializer condition incrementor body : ParserM ASTNode))
      (p.skip 2) r) :
    Yields parseFor p r := by
  obtain ⟨n3, h3⟩ := h3
  refine ⟨n3 + 1, fun m hm => ?_⟩
  obtain ⟨m, rfl⟩ : ∃ k, m = k + 1 := ⟨m - 1, by omega⟩
  rw [parseFor, ← h3 m (by omega)]
  simp [bind_apply, match_apply, h, ht, hop, hopt, skip_skip]

theorem parseFor_of {p q1 q2 q3 q4 : Parser} {kw op s1 s2 cp : Token} {I C U S : ASTNode}
    (h : p.look = some kw) (ht : kw.type = TokenType._for)
    (hop : (p.skip 1).look = some op) (hopt : op.type = TokenType.o_paren)
    (h1 : Yields parseExpression (p.skip 2) (Except.ok (I, q1)))
    (hs1 : q1.look = some s1) (hs1t : s1.type = TokenType.semicolon)
    (h2 : Yields parseExpression (q1.skip 1) (Except.ok (C, q2)))
    (hs2 : q2.look = some s2) (hs2t : s2.type = TokenType.semicolon)
    (h3 : Yields parseExpression (q2.skip 1) (Except.ok (U, q3)))
    (hcp : q3.look = some cp) (hcpt : cp.type = TokenType.c_paren)
    (h4 : Yields parseStatement (q3.skip 1) (Except.ok (S, q4))) :
    Yields parseFor p (Except.ok (ASTNode.ForStmt I C U S, q4)) := by
  obtain ⟨n1, h1⟩ := h1
  obtain ⟨n2, h2⟩ := h2
  obtain ⟨n3, h3⟩ := h3
  obtain ⟨n4, h4⟩ := h4
  refine parseFor_header h ht hop hopt ⟨n1 + n2 + n3 + n4, fun m hm => ?_⟩
  have hm1 : n1 ≤ m := by omega
  have hm2 : n2 ≤ m := by omega
  have hm3 : n3 ≤ m := by omega
  have hm4 : n4 ≤ m := by omega
  simp [bind_apply, match_apply, consume_apply, h1 m hm1, hs1, hs1t, h2 m hm2, hs2, hs2t,
    h3 m hm3, hcp, hcpt, h4 m hm4, pure_apply]

theorem parseFor_first {p : Parser} {kw op : Token} {e : Failure × Parser}
    (h : p.look = some kw) (ht : kw.type = TokenType._for)
    (hop : (p.skip 1).look = some op) (hopt : op.type = TokenType.o_paren)
    (h1 : Yields parseExpression (p.skip 2) (Except.error e)) :
    Yields parseFor p (Except.error e) := by
  obtain ⟨n1, h1⟩ := h1
  refine parseFor_header h ht hop hopt ⟨n1, fun m hm => ?_⟩
  simp [bind_apply, h1 m hm]

theorem parseFor_second {p q1 : Parser} {kw op s1 : Token} {I : ASTNode}
    {e : Failure × Parser}
    (h : p.look = some kw) (ht : kw.type = TokenType._for)
    (hop : (p.skip 1).look = some op) (hopt : op.type = TokenType.o_paren)
    (h1 : Yields parseExpression (p.skip 2) (Except.ok (I, q1)))
    (hs1 : q1.look = some s1) (hs1t : s1.type = TokenType.semicolon)
    (h2 : Yields parseExpression (q1.skip 1) (Except.error e)) :
    Yields parseFor p (Except.error e) := by
  obtain ⟨n1, h1⟩ := h1
  obtain ⟨n2, h2⟩ := h2
  refine parseFor_header h ht hop hopt ⟨n1 + n2, fun m hm => ?_⟩
  have hm1 : n1 ≤ m := by omega
  have hm2 : n2 ≤ m := by omega
  simp [bind_apply, consume_apply, h1 m hm1, hs1, hs1t, h2 m hm2]

theorem parseFor_third {p q1 q2 : Parser} {kw op s1 s2 : Token} {I C : ASTNode}
    {e : Failure × Parser}
    (h : p.look = some kw) (ht : kw.type = TokenType._for)
    (hop : (p.skip 1).look = some op) (hopt : op.type = TokenType.o_paren)
    (h1 : Yields parseExpression (p.skip 2) (Except.ok (I, q1)))
    (hs1 : q1.look = some s1) (hs1t : s1.type = TokenType.semicolon)
    (h2 : Yields parseExpression (q1.skip 1) (Except.ok (C, q2)))
    (hs2 : q2.look = some s2) (hs2t : s2.type = TokenType.semicolon)
    (h3 : Yields parseExpression (q2.skip 1) (Except.error e)) :
    Yields parseFor p (Except.error e) := by
  obtain ⟨n1, h1⟩ := h1
  obtain ⟨n2, h2⟩ := h2
  obtain ⟨n3, h3⟩ := h3
  refine parseFor_header h ht hop hopt ⟨n1 + n2 + n3, fun m hm => ?_⟩
  have hm1 : n1 ≤ m := by omega
  have hm2 : n2 ≤ m := by omega
  have hm3 : n3 ≤ m := by omega
  simp [bind_apply, consume_apply, h1 m hm1, hs1, hs1t, h2 m hm2, hs2, hs2t, h3 m hm3]

/-! ## Unknown types, return, if, for and definitions -/

/-- C11. A declaration with an unknown type fails. When the statement parser
stands at an identifier `T` whose text is not in the type table and the next
token `x` is an identifier too, the statement is sent to the expression
statement parser, which reads `T` as a variable and then throws the runtime
error `Parse Error: Expected a ; [Line: n]` of `consume`, `n` being the line of
`x` and the cursor standing at `x`; with no amount of fuel does the statement
parser return a tree, be it a definition or an expression statement. -/
theorem unknown_type_declaration_fails (p : Parser) (T x : Token)
    (hT : p.look = some T) (hTt : T.type = TokenType.identifier)
    (hTv : T.value ∉ p.typeTable)
    (hx : (p.skip 1).look = some x) (hxt : x.type = TokenType.identifier) :
    Yields parseStatement p
      (Except.error (Failure.runtime_error
        ("Parse Error: " ++ "Expected a ;" ++ " [Line: " ++ toString x.line ++ "]"),
        p.skip 1)) ∧
    ∀ fuel node q, parseStatement fuel p ≠ Except.ok (node, q) := by
  have hop : ∀ ops, (p.skip 1).atOperator ops = false :=
    fun ops => atOperator_of_type hx (by simp [hxt])
  have hvar : Yields parseExpression p
      (Except.ok (ASTNode.VariableExpr T.value, p.skip 1)) :=
    parseExpression_iff.mpr (parseAssignment_plain
      (parseComparison_atom
        (parsePrimary_variable hT hTt (atType_false_of_look hx (by simp [hxt])) (hop _) (hop _)
          (atType_false_of_look hx (by simp [hxt])))
        (atOperator_of_type hT (by simp [hTt])) (hop _) (hop _) (hop _))
      (hop _))
  have hfail := parseStatement_expression hT hTt hTv
    (parseExpressionStmt_missing hvar hx (by simp [hxt]))
  exact ⟨hfail, parseStatement_never_ok hfail⟩

theorem unknown_type_declaration_fails_witness :
    Yields parseStatement (Parser.new (tokenize ["Foo x = 1;"]))
      (Except.error (Failure.runtime_error "Parse Error: Expected a ; [Line: 1]",
        (Parser.new (tokenize ["Foo x = 1;"])).skip 1)) ∧
    ∀ fuel node q,
      parseStatement fuel (Parser.new (tokenize ["Foo x = 1;"])) ≠ Except.ok (node, q) :=
  unknown_type_declaration_fails (Parser.new (tokenize ["Foo x = 1;"]))
    ⟨TokenType.identifier, 1, "Foo"⟩ ⟨TokenType.identifier, 1, "x"⟩
    (by rfl) (by rfl) (by decide) (by rfl) (by rfl)

/-- C17. A return statement needs two semicolons. When the statement parser
stands at `return`, the expression parser reads the tokens after it in place as
the tree `E`, and a `;` follows, then: if a second `;` follows, the statement
is `ReturnStmt(E)` and both semicolons are consumed; if another token `t`
follows, the parse fails with `Parse Error: Expected ; [Line: n]`, `n` the line
of `t`; and if the input ends there, the parse fails on the read of
`tokens[current]` past the end that `consume` makes for its message. -/
theorem return_requires_two_semicolons (p q : Parser) (kw s1 : Token) (E : ASTNode)
    (hkw : p.look = some kw) (hkwt : kw.type = TokenType._return)
    (hE : Yields parseExpression (p.skip 1) (Except.ok (E, q)))
    (hs1 : q.look = some s1) (hs1t : s1.type = TokenType.semicolon) :
    (∀ s2, (q.skip 1).look = some s2 → s2.type = TokenType.semicolon →
      Yields parseStatement p (Except.ok (ASTNode.ReturnStmt (some E), q.skip 2))) ∧
    (∀ t, (q.skip 1).look = some t → t.type ≠ TokenType.semicolon →
      Yields parseStatement p
        (Except.error (Failure.runtime_error
          ("Parse Error: " ++ "Expected ;" ++ " [Line: " ++ toString t.line ++ "]"),
          q.skip 1))) ∧
    ((q.skip 1).look = none →
      Yields parseStatement p
        (Except.error (Failure.out_of_bounds (q.current + 1), q.skip 1))) := by
  have hstmt := parseExpressionStmt_of hE hs1 hs1t
  refine ⟨fun s2 h2 h2t => ?_, fun t h2 h2t => ?_, fun h2 => ?_⟩
  · exact parseStatement_return hkw hkwt (parseReturn_of hkw hkwt hstmt
      (by simp [bind_apply, consume_apply, h2, h2t, pure_apply, skip_skip]))
  · exact parseStatement_return hkw hkwt (parseReturn_of hkw hkwt hstmt
      (by simp [bind_apply, consume_apply, h2, h2t]))
  · exact parseStatement_return hkw hkwt (parseReturn_of hkw hkwt hstmt
      (by simp [bind_apply, consume_apply, h2, skip_current]))

theorem return_requires_two_semicolons_witness :
    Yields parseStatement (Parser.new (tokenize ["return 1;;"]))
      (Except.ok (ASTNode.ReturnStmt (some (ASTNode.LiteralExpr 1)),
        (Parser.new (tokenize ["return 1;;"])).skip 4)) ∧
    Yields parseStatement (Parser.new (tokenize ["return 1;", "x"]))
      (Except.error (Failure.runtime_error "Parse Error: Expected ; [Line: 2]",
        (Parser.new (tokenize ["return 1;", "x"])).skip 3)) ∧
    Yields parseStatement (Parser.new (tokenize ["return 1;"]))
      (Except.error (Failure.out_of_bounds 3, (Parser.new (tokenize ["return 1;"])).skip 3)) :=
  ⟨(return_requires_two_semicolons (Parser.new (tokenize ["return 1;;"]))
      ((Parser.new (tokenize ["return 1;;"])).skip 2)
      ⟨TokenType._return, 1, "return"⟩ ⟨TokenType.semicolon, 1, ";"⟩ (ASTNode.LiteralExpr 1)
      (by rfl) (by rfl) (yields_parseExpression 8 (by rfl) (outOfFuel_ok _)) (by rfl) (by rfl)).1
      ⟨TokenType.semicolon, 1, ";"⟩ (by rfl) (by rfl),
    (return_requires_two_semicolons (Parser.new (tokenize ["return 1;", "x"]))
      ((Parser.new (tokenize ["return 1;", "x"])).skip 2)
      ⟨TokenType._return, 1, "return"⟩ ⟨TokenType.semicolon, 1, ";"⟩ (ASTNode.LiteralExpr 1)
      (by rfl) (by rfl) (yields_parseExpression 8 (by rfl) (outOfFuel_ok _)) (by rfl)
      (by rfl)).2.1
      ⟨TokenType.identifier, 2, "x"⟩ (by rfl) (by decide),
    (return_requires_two_semicolons (Parser.new (tokenize ["return 1;"]))
      ((Parser.new (tokenize ["return 1;"])).skip 2)
      ⟨TokenType._return, 1, "return"⟩ ⟨TokenType.semicolon, 1, ";"⟩ (ASTNode.LiteralExpr 1)
      (by rfl) (by rfl) (yields_parseExpression 8 (by rfl) (outOfFuel_ok _)) (by rfl)
      (by rfl)).2.2 (by rfl)⟩

/-- C18. The condition of `if` is parsed as a statement. When the statement
parser stands at `if (`, the statement parser reads the condition in place as
the tree `C`, a `)` follows, and the statement parser reads the branch in place
as the tree `S1`, then: if no `else` follows, the statement is
`IfStmt(C, S1, none)`; if `else` follows and the statement parser reads the
tokens after it as `S2`, the statement is `IfStmt(C, S1, S2)`. An expression as
a condition therefore carries its own `;`: `if (x) y;` fails at the `)` with
`Parse Error: Expected a ; [Line: 1]`. -/
theorem if_condition_is_statement (p q1 q2 : Parser) (kw op cp : Token) (C S1 : ASTNode)
    (hkw : p.look = some kw) (hkwt : kw.type = TokenType._if)
    (hop : (p.skip 1).look = some op) (hopt : op.type = TokenType.o_paren)
    (hC : Yields parseStatement (p.skip 2) (Except.ok (C, q1)))
    (hcp : q1.look = some cp) (hcpt : cp.type = TokenType.c_paren)
    (hS1 : Yields parseStatement (q1.skip 1) (Except.ok (S1, q2))) :
    (q2.atType TokenType._else = false →
      Yields parseStatement p (Except.ok (ASTNode.IfStmt C S1 none, q2))) ∧
    (∀ (el : Token) (S2 : ASTNode) (q3 : Parser),
      q2.look = some el → el.type = TokenType._else →
      Yields parseStatement (q2.skip 1) (Except.ok (S2, q3)) →
      Yields parseStatement p (Except.ok (ASTNode.IfStmt C S1 (some S2), q3))) ∧
    Yields parseStatement (Parser.new (tokenize ["if (x) y;"]))
      (Except.error (Failure.runtime_error "Parse Error: Expected a ; [Line: 1]",
        (Parser.new (tokenize ["if (x) y;"])).skip 3)) :=
  ⟨fun h => parseStatement_if hkw hkwt (parseIf_then hkw hkwt hop hopt hC hcp hcpt hS1 h),
    fun _ _ _ hel helt hS2 =>
      parseStatement_if hkw hkwt (parseIf_else hkw hkwt hop hopt hC hcp hcpt hS1 hel helt hS2),
    yields_parseStatement 12 (by rfl) (by simp [outOfFuel_error])⟩

theorem if_condition_is_statement_witness :
    Yields parseStatement (Parser.new (tokenize ["if (x;) y;"]))
      (Except.ok (ASTNode.IfStmt (ASTNode.VariableExpr "x") (ASTNode.VariableExpr "y") none,
        (Parser.new (tokenize ["if (x;) y;"])).skip 7)) ∧
    Yields parseStatement (Parser.new (tokenize ["if (x;) y; else z;"]))
      (Except.ok (ASTNode.IfStmt (ASTNode.VariableExpr "x") (ASTNode.VariableExpr "y")
          (some (ASTNode.VariableExpr "z")),
        (Parser.new (tokenize ["if (x;) y; else z;"])).skip 10)) :=
  ⟨(if_condition_is_statement (Parser.new (tokenize ["if (x;) y;"]))
      ((Parser.new (tokenize ["if (x;) y;"])).skip 4)
      ((Parser.new (tokenize ["if (x;) y;"])).skip 7)
      ⟨TokenType._if, 1, "if"⟩ ⟨TokenType.o_paren, 1, "("⟩ ⟨TokenType.c_paren, 1, ")"⟩
      (ASTNode.VariableExpr "x") (ASTNode.VariableExpr "y")
      (by rfl) (by rfl) (by rfl) (by rfl)
      (yields_parseStatement 10 (by rfl) (outOfFuel_ok _)) (by rfl) (by rfl)
      (yields_parseStatement 10 (by rfl) (outOfFuel_ok _))).1 (by rfl),
    (if_condition_is_statement (Parser.new (tokenize ["if (x;) y; else z;"]))
      ((Parser.new (tokenize ["if (x;) y; else z;"])).skip 4)
      ((Parser.new (tokenize ["if (x;) y; else z;"])).skip 7)
      ⟨TokenType._if, 1, "if"⟩ ⟨TokenType.o_paren, 1, "("⟩ ⟨TokenType.c_paren, 1, ")"⟩
      (ASTNode.VariableExpr "x") (ASTNode.VariableExpr "y")
      (by rfl) (by rfl) (by rfl) (by rfl)
      (yields_parseStatement 10 (by rfl) (outOfFuel_ok _)) (by rfl) (by rfl)
      (yields_parseStatement 10 (by rfl) (outOfFuel_ok _))).2.1
      ⟨TokenType._else, 1, "else"⟩ (ASTNode.VariableExpr "z")
      ((Parser.new (tokenize ["if (x;) y; else z;"])).skip 10) (by rfl) (by rfl)
      (yields_parseStatement 10 (by rfl) (outOfFuel_ok _))⟩

/-- C19. A `for` statement needs its three clauses. When the statement parser
stands at `for (`: if the expression parser reads three clauses in place as the
trees `I`, `C` and `U`, a `;` follows each of the first two and a `)` the
third, and the statement parser reads the body in place as `S`, the statement
is `ForStmt(I, C, U, S)`; if the first clause is empty (a `;` follows the `(`),
or the second is (a `;` follows the first `;`), or the third is (a `)` follows
the second `;`), the parse fails at that token with the runtime error
`Expected a number, variable, or '('.` of the primary expression parser. -/
theorem for_needs_three_clauses (p : Parser) (kw op : Token)
    (hkw : p.look = some kw) (hkwt : kw.type = TokenType._for)
    (hop : (p.skip 1).look = some op) (hopt : op.type = TokenType.o_paren) :
    (∀ (I C U S : ASTNode) (q1 q2 q3 q4 : Parser) (s1 s2 cp : Token),
      Yields parseExpression (p.skip 2) (Except.ok (I, q1)) →
      q1.look = some s1 → s1.type = TokenType.semicolon →
      Yields parseExpression (q1.skip 1) (Except.ok (C, q2)) →
      q2.look = some s2 → s2.type = TokenType.semicolon →
      Yields parseExpression (q2.skip 1) (Except.ok (U, q3)) →
      q3.look = some cp → cp.type = TokenType.c_paren →
      Yields parseStatement (q3.skip 1) (Except.ok (S, q4)) →
      Yields parseStatement p (Except.ok (ASTNode.ForStmt I C U S, q4))) ∧
    (∀ (s : Token), (p.skip 2).look = some s → s.type = TokenType.semicolon →
      Yields parseStatement p
        (Except.error
          (Failure.runtime_error "Expected a number, variable, or '('.", p.skip 2))) ∧
    (∀ (I : ASTNode) (q1 : Parser) (s1 s : Token),
      Yields parseExpression (p.skip 2) (Except.ok (I, q1)) →
      q1.look = some s1 → s1.type = TokenType.semicolon →
      (q1.skip 1).look = some s → s.type = TokenType.semicolon →
      Yields parseStatement p
        (Except.error
          (Failure.runtime_error "Expected a number, variable, or '('.", q1.skip 1))) ∧
    (∀ (I C : ASTNode) (q1 q2 : Parser) (s1 s2 c : Token),
      Yields parseExpression (p.skip 2) (Except.ok (I, q1)) →
      q1.look = some s1 → s1.type = TokenType.semicolon →
      Yields parseExpression (q1.skip 1) (Except.ok (C, q2)) →
      q2.look = some s2 → s2.type = TokenType.semicolon →
      (q2.skip 1).look = some c → c.type = TokenType.c_paren →
      Yields parseStatement p
        (Except.error
          (Failure.runtime_error "Expected a number, variable, or '('.", q2.skip 1))) :=
  ⟨fun _ _ _ _ _ _ _ _ _ _ _ h1 hs1 hs1t h2 hs2 hs2t h3 hcp hcpt h4 =>
      parseStatement_for hkw hkwt
        (parseFor_of hkw hkwt hop hopt h1 hs1 hs1t h2 hs2 hs2t h3 hcp hcpt h4),
    fun _ hs hst =>
      parseStatement_for hkw hkwt
        (parseFor_first hkw hkwt hop hopt (parseExpression_reject hs (Or.inl hst))),
    fun _ _ _ _ h1 hs1 hs1t hs hst =>
      parseStatement_for hkw hkwt
        (parseFor_second hkw hkwt hop hopt h1 hs1 hs1t (parseExpression_reject hs (Or.inl hst))),
    fun _ _ _ _ _ _ _ h1 hs1 hs1t h2 hs2 hs2t hc hct =>
      parseStatement_for hkw hkwt
        (parseFor_third hkw hkwt hop hopt h1 hs1 hs1t h2 hs2 hs2t
          (parseExpression_reject hc (Or.inr hct)))⟩

theorem for_needs_three_clauses_witness :
    Yields parseStatement (Parser.new (tokenize ["for (i; c; u) x;"]))
      (Except.ok (ASTNode.ForStmt (ASTNode.VariableExpr "i") (ASTNode.VariableExpr "c")
          (ASTNode.VariableExpr "u") (ASTNode.VariableExpr "x"),
        (Parser.new (tokenize ["for (i; c; u) x;"])).skip 10)) ∧
    Yields parseStatement (Parser.new (tokenize ["for (;;) x;"]))
      (Except.error (Failure.runtime_error "Expected a number, variable, or '('.",
        (Parser.new (tokenize ["for (;;) x;"])).skip 2)) ∧
    Yields parseStatement (Parser.new (tokenize ["for (i;;u) x;"]))
      (Except.error (Failure.runtime_error "Expected a number, variable, or '('.",
        (Parser.new (tokenize ["for (i;;u) x;"])).skip 4)) ∧
    Yields parseStatement (Parser.new (tokenize ["for (i;c;) x;"]))
      (Except.error (Failure.runtime_error "Expected a number, variable, or '('.",
        (Parser.new (tokenize ["for (i;c;) x;"])).skip 6)) :=
  ⟨(for_needs_three_clauses (Parser.new (tokenize ["for (i; c; u) x;"]))
      ⟨TokenType._for, 1, "for"⟩ ⟨TokenType.o_paren, 1, "("⟩ (by rfl) (by rfl) (by rfl)
      (by rfl)).1
      (ASTNode.VariableExpr "i") (ASTNode.VariableExpr "c") (ASTNode.VariableExpr "u")
      (ASTNode.VariableExpr "x")
      ((Parser.new (tokenize ["for (i; c; u) x;"])).skip 3)
      ((Parser.new (tokenize ["for (i; c; u) x;"])).skip 5)
      ((Parser.new (tokenize ["for (i; c; u) x;"])).skip 7)
      ((Parser.new (tokenize ["for (i; c; u) x;"])).skip 10)
      ⟨TokenType.semicolon, 1, ";"⟩ ⟨TokenType.semicolon, 1, ";"⟩ ⟨TokenType.c_paren, 1, ")"⟩
      (yields_parseExpression 8 (by rfl) (outOfFuel_ok _)) (by rfl) (by rfl)
      (yields_parseExpression 8 (by rfl) (outOfFuel_ok _)) (by rfl) (by rfl)
      (yields_parseExpression 8 (by rfl) (outOfFuel_ok _)) (by rfl) (by rfl)
      (yields_parseStatement 10 (by rfl) (outOfFuel_ok _)),
    (for_needs_three_clauses (Parser.new (tokenize ["for (;;) x;"]))
      ⟨TokenType._for, 1, "for"⟩ ⟨TokenType.o_paren, 1, "("⟩ (by rfl) (by rfl) (by rfl)
      (by rfl)).2.1 ⟨TokenType.semicolon, 1, ";"⟩ (by rfl) (by rfl),
    (for_needs_three_clauses (Parser.new (tokenize ["for (i;;u) x;"]))
      ⟨TokenType._for, 1, "for"⟩ ⟨TokenType.o_paren, 1, "("⟩ (by rfl) (by rfl) (by rfl)
      (by rfl)).2.2.1 (ASTNode.VariableExpr "i")
      ((Parser.new (tokenize ["for (i;;u) x;"])).skip 3)
      ⟨TokenType.semicolon, 1, ";"⟩ ⟨TokenType.semicolon, 1, ";"⟩
      (yields_parseExpression 8 (by rfl) (outOfFuel_ok _)) (by rfl) (by rfl) (by rfl) (by rfl),
    (for_needs_three_clauses (Parser.new (tokenize ["for (i;c;) x;"]))
      ⟨TokenType._for, 1, "for"⟩ ⟨TokenType.o_paren, 1, "("⟩ (by rfl) (by rfl) (by rfl)
      (by rfl)).2.2.2 (ASTNode.VariableExpr "i") (ASTNode.VariableExpr "c")
      ((Parser.new (tokenize ["for (i;c;) x;"])).skip 3)
      ((Parser.new (tokenize ["for (i;c;) x;"])).skip 5)
      ⟨TokenType.semicolon, 1, ";"⟩ ⟨TokenType.semicolon, 1, ";"⟩ ⟨TokenType.c_paren, 1, ")"⟩
      (yields_parseExpression 8 (by rfl) (outOfFuel_ok _)) (by rfl) (by rfl)
      (yields_parseExpression 8 (by rfl) (outOfFuel_ok _)) (by rfl) (by rfl) (by rfl) (by rfl)⟩

/-- C20. Definition dispatch. When the statement parser stands at an identifier
`T` whose text is in the type table and the expression parser reads the tokens
after it in place as the tree `E`, then: if a `;` follows, the statement is
`DefinitionStmt(T, E)` and the `;` is consumed; if another token `t` follows,
the parse fails with `Parse Error: Expected ; [Line: n]`, `n` the line of `t`.
With the seed type table, `float x = 5;` is
`DefinitionStmt(float, BinaryExpr(=, VariableExpr(x), LiteralExpr(5)))`. -/
theorem definition_dispatch (p q : Parser) (T : Token) (E : ASTNode)
    (hT : p.look = some T) (hTt : T.type = TokenType.identifier)
    (hTv : T.value ∈ p.typeTable)
    (hE : Yields parseExpression (p.skip 1) (Except.ok (E, q))) :
    (∀ s, q.look = some s → s.type = TokenType.semicolon →
      Yields parseStatement p (Except.ok (ASTNode.DefinitionStmt T.value E, q.skip 1))) ∧
    (∀ t, q.look = some t → t.type ≠ TokenType.semicolon →
      Yields parseStatement p
        (Except.error (Failure.runtime_error
          ("Parse Error: " ++ "Expected ;" ++ " [Line: " ++ toString t.line ++ "]"), q))) ∧
    Yields parseStatement (Parser.new (tokenize ["float x = 5;"]))
      (Except.ok (ASTNode.DefinitionStmt "float"
          (ASTNode.BinaryExpr "=" (ASTNode.VariableExpr "x") (ASTNode.LiteralExpr 5)),
        (Parser.new (tokenize ["float x = 5;"])).skip 5)) :=
  ⟨fun s hs hst => parseStatement_definition hT hTt hTv (parseDefinition_of hT hTt hE
      (by simp [bind_apply, consume_apply, hs, hst, pure_apply])),
    fun t ht htt => parseStatement_definition hT hTt hTv (parseDefinition_of hT hTt hE
      (by simp [bind_apply, consume_apply, ht, htt])),
    yields_parseStatement 12 (by rfl) (outOfFuel_ok _)⟩

theorem definition_dispatch_witness :
    Yields parseStatement (Parser.new (tokenize ["float y = x + 2;"]))
      (Except.ok (ASTNode.DefinitionStmt "float"
          (ASTNode.BinaryExpr "=" (ASTNode.VariableExpr "y")
            (ASTNode.BinaryExpr "+" (ASTNode.VariableExpr "x") (ASTNode.LiteralExpr 2))),
        (Parser.new (tokenize ["float y = x + 2;"])).skip 7)) ∧
    Yields parseStatement (Parser.new (tokenize ["void y = 2 )"]))
      (Except.error (Failure.runtime_error "Parse Error: Expected ; [Line: 1]",
        (Parser.new (tokenize ["void y = 2 )"])).skip 4)) :=
  ⟨(definition_dispatch (Parser.new (tokenize ["float y = x + 2;"]))
      ((Parser.new (tokenize ["float y = x + 2;"])).skip 6)
      ⟨TokenType.identifier, 1, "float"⟩
      (ASTNode.BinaryExpr "=" (ASTNode.VariableExpr "y")
        (ASTNode.BinaryExpr "+" (ASTNode.VariableExpr "x") (ASTNode.LiteralExpr 2)))
      (by rfl) (by rfl) (by decide)
      (yields_parseExpression 10 (by rfl) (outOfFuel_ok _))).1
      ⟨TokenType.semicolon, 1, ";"⟩ (by rfl) (by rfl),
    (definition_dispatch (Parser.new (tokenize ["void y = 2 )"]))
      ((Parser.new (tokenize ["void y = 2 )"])).skip 4)
      ⟨TokenType.identifier, 1, "void"⟩
      (ASTNode.BinaryExpr "=" (ASTNode.VariableExpr "y") (ASTNode.LiteralExpr 2))
      (by rfl) (by rfl) (by decide)
      (yields_parseExpression 10 (by rfl) (outOfFuel_ok _))).2.1
      ⟨TokenType.c_paren, 1, ")"⟩ (by rfl) (by decide)⟩

/-! ## Function declarations -/

theorem parseFunctionParamLoop_unknown {p : Parser} {T : Token} (acc : List (String × String))
    (h : p.look = some T) (hv : T.value ∉ p.typeTable) :
    Yields (fun n => parseFunctionParamLoop n acc) p
      (Except.error (Failure.runtime_error "Expected a type.", p)) := by
  refine ⟨1, fun m hm => ?_⟩
  obtain ⟨m, rfl⟩ : ∃ k, m = k + 1 := ⟨m - 1, by omega⟩
  simp only []
  rw [parseFunctionParamLoop]
  simp [bind_apply, peek_apply, h, inTypeTable_apply, hv, fail_apply]

theorem parseFunctionParamLoop_last {p : Parser} {T x : Token} (acc : List (String × String))
    (h : p.look = some T) (hv : T.value ∈ p.typeTable)
    (hx : (p.skip 1).look = some x) (hxt : x.type = TokenType.identifier)
    (hc : (p.skip 2).atType TokenType.comma = false) :
    Yields (fun n => parseFunctionParamLoop n acc) p
      (Except.ok (acc ++ [(x.value, T.value)], p.skip 2)) := by
  refine ⟨1, fun m hm => ?_⟩
  obtain ⟨m, rfl⟩ : ∃ k, m = k + 1 := ⟨m - 1, by omega⟩
  have hc' : (p.skip 2).look.any (fun t => t.type == TokenType.comma) = false := hc
  simp only []
  rw [parseFunctionParamLoop]
  simp [bind_apply, peek_apply, h, inTypeTable_apply, hv, advance_apply, check_at,
    atType_true_of_look hx hxt, hx, skip_skip, match_apply, hc', pure_apply]

theorem parseFunctionParamLoop_more {p : Parser} {T x c : Token} {acc : List (String × String)}
    {r : Outcome (List (String × String))}
    (h : p.look = some T) (hv : T.value ∈ p.typeTable)
    (hx : (p.skip 1).look = some x) (hxt : x.type = TokenType.identifier)
    (hc : (p.skip 2).look = some c) (hct : c.type = TokenType.comma)
    (h2 : Yields (fun n => parseFunctionParamLoop n (acc ++ [(x.value, T.value)])) (p.skip 3) r) :
    Yields (fun n => parseFunctionParamLoop n acc) p r := by
  obtain ⟨n2, h2⟩ := h2
  refine ⟨n2 + 1, fun m hm => ?_⟩
  obtain ⟨m, rfl⟩ : ∃ k, m = k + 1 := ⟨m - 1, by omega⟩
  simp only [] at h2 ⊢
  rw [parseFunctionParamLoop]
  simp [bind_apply, peek_apply, h, inTypeTable_apply, hv, advance_apply, check_at,
    atType_true_of_look hx hxt, hx, skip_skip, match_apply, hc, hct, h2 m (by omega)]

theorem paramTokens_length : ∀ (l : List ParamDecl), l ≠ [] →
    (paramTokens l).length + 1 = 3 * l.length
  | [], h => absurd rfl h
  | [a], _ => rfl
  | a :: b :: rest, _ => by
    have := paramTokens_length (b :: rest) (by simp)
    simp only [paramTokens, List.length_cons] at this ⊢
    omega

theorem parseFunctionParamLoop_run : ∀ (l : List ParamDecl) (p : Parser)
    (acc : List (String × String)) (more : List Token),
    l ≠ [] → p.rest = paramTokens l ++ more → paramsInPlace p.typeTable l →
    (∀ t, more.head? = some t → t.type ≠ TokenType.comma) →
    Yields (fun n => parseFunctionParamLoop n acc) p
      (Except.ok (acc ++ paramEntries l, p.skip (paramTokens l).length))
  | [], _, _, _, h, _, _, _ => absurd rfl h
  | [a], p, acc, more, _, hrest, hin, hmore => by
    have hr : p.rest = a.type :: a.name :: more := by rw [hrest]; rfl
    obtain ⟨l0, r1⟩ := rest_cons hr
    obtain ⟨l1, r2⟩ := rest_cons r1
    rw [skip_skip] at r2
    exact parseFunctionParamLoop_last acc l0 hin.1 l1 hin.2 (atType_false_of_rest r2 hmore)
  | a :: b :: rest, p, acc, more, _, hrest, hin, hmore => by
    have hr : p.rest = a.type :: a.name :: a.comma :: (paramTokens (b :: rest) ++ more) := by
      rw [hrest]; rfl
    obtain ⟨l0, r1⟩ := rest_cons hr
    obtain ⟨l1, r2⟩ := rest_cons r1
    rw [skip_skip] at r2
    obtain ⟨l2, r3⟩ := rest_cons r2
    rw [skip_skip] at r3
    have ih := parseFunctionParamLoop_run (b :: rest) (p.skip 3)
      (acc ++ [(a.name.value, a.type.value)]) more (by simp) r3 hin.2.2.2 hmore
    have e : (p.skip 3).skip (paramTokens (b :: rest)).length =
        p.skip (paramTokens (a :: b :: rest)).length := by
      rw [skip_skip]
      apply skip_eq
      simp only [paramTokens, List.length_cons]
      omega
    rw [e] at ih
    have e2 : acc ++ [(a.name.value, a.type.value)] ++ paramEntries (b :: rest) =
        acc ++ paramEntries (a :: b :: rest) := by
      simp [paramEntries]
    rw [e2] at ih
    exact parseFunctionParamLoop_more l0 hin.1 l1 hin.2.1 l2 hin.2.2.1 ih

theorem paramPrefixTokens_cons (d : ParamDecl) (l : List ParamDecl) :
    paramPrefixTokens (d :: l) = d.type :: d.name :: d.comma :: paramPrefixTokens l := by
  simp [paramPrefixTokens]

theorem paramPrefixTokens_length (l : List ParamDecl) :
    (paramPrefixTokens l).length = 3 * l.length := by
  induction l with
  | nil => rfl
  | cons d l ih => rw [paramPrefixTokens_cons]; simp only [List.length_cons, ih]; omega

theorem parseFunctionParamLoop_prefix (T : Token) (more : List Token) :
    ∀ (pre : List ParamDecl) (p : Parser) (acc : List (String × String)),
    p.rest = paramPrefixTokens pre ++ T :: more →
    (∀ d ∈ pre, d.type.value ∈ p.typeTable ∧ d.name.type = TokenType.identifier ∧
      d.comma.type = TokenType.comma) →
    T.value ∉ p.typeTable →
    Yields (fun n => parseFunctionParamLoop n acc) p
      (Except.error (Failure.runtime_error "Expected a type.", p.skip (3 * pre.length))) := by
  intro pre
  induction pre with
  | nil =>
    intro p acc hrest _ hT
    obtain ⟨l0, _⟩ := rest_cons (show p.rest = T :: more from hrest)
    exact parseFunctionParamLoop_unknown acc l0 hT
  | cons d pre ih =>
    intro p acc hrest hpre hT
    have hr : p.rest = d.type :: d.name :: d.comma :: (paramPrefixTokens pre ++ T :: more) := by
      rw [hrest, paramPrefixTokens_cons]; rfl
    obtain ⟨l0, r1⟩ := rest_cons hr
    obtain ⟨l1, r2⟩ := rest_cons r1
    rw [skip_skip] at r2
    obtain ⟨l2, r3⟩ := rest_cons r2
    rw [skip_skip] at r3
    obtain ⟨hd1, hd2, hd3⟩ := hpre d (List.mem_cons_self _ _)
    have h := ih (p.skip 3) (acc ++ [(d.name.value, d.type.value)]) r3
      (fun x hx => hpre x (List.mem_cons_of_mem _ hx)) hT
    have e : (p.skip 3).skip (3 * pre.length) = p.skip (3 * (d :: pre).length) := by
      rw [skip_skip]
      apply skip_eq
      simp only [List.length_cons]
      omega
    rw [e] at h
    exact parseFunctionParamLoop_more l0 hd1 l1 hd2 l2 hd3 h

theorem parseFunction_unknown {p : Parser} {R : Token} (h : p.look = some R)
    (hv : R.value ∉ p.typeTable) :
    Yields parseFunction p
      (Except.error (Failure.runtime_error "Expected return datatype for function.", p)) := by
  refine ⟨0, fun m _ => ?_⟩
  simp [parseFunction, bind_apply, peek_apply, h, inTypeTable_apply, hv, fail_apply]

theorem parseFunction_header {p : Parser} {R f op : Token} {r : Outcome ASTNode}
    (h : p.look = some R) (hv : R.value ∈ p.typeTable)
    (hf : (p.skip 1).look = some f) (hft : f.type = TokenType.identifier)
    (hop : (p.skip 2).look = some op) (hopt : op.type = TokenType.o_paren)
    (h3 : Yields (fun n => (do
        let params ←
          if !(← check TokenType.c_paren) then parseFunctionParamLoop n []
          else pure []
        if !(← match_ TokenType.c_paren) then
          fail (Failure.runtime_error "Expected ')' after parameters.")
        else
          let body ← parseStatement n
          return ASTNode.FunctionDecl f.value params R.value body : ParserM ASTNode))
      (p.skip 3) r) :
    Yields parseFunction p r := by
  obtain ⟨n3, h3⟩ := h3
  refine ⟨n3, fun m hm => ?_⟩
  rw [← h3 m hm]
  simp [parseFunction, bind_apply, peek_apply, h, inTypeTable_apply, hv, advance_apply, check_at,
    atType_true_of_look hf hft, hf, skip_skip, match_apply, hop, hopt]

theorem parseFunction_of {p q1 q2 : Parser} {R f op cp : Token} {params : List (String × String)}
    {S : ASTNode}
    (h : p.look = some R) (hv : R.value ∈ p.typeTable)
    (hf : (p.skip 1).look = some f) (hft : f.type = TokenType.identifier)
    (hop : (p.skip 2).look = some op) (hopt : op.type = TokenType.o_paren)
    (h1 : (p.skip 3).atType TokenType.c_paren = true ∧ params = [] ∧ q1 = p.skip 3 ∨
      (p.skip 3).atType TokenType.c_paren = false ∧
        Yields (fun n => parseFunctionParamLoop n []) (p.skip 3) (Except.ok (params, q1)))
    (hcp : q1.look = some cp) (hcpt : cp.type = TokenType.c_paren)
    (h2 : Yields parseStatement (q1.skip 1) (Except.ok (S, q2))) :
    Yields parseFunction p (Except.ok (ASTNode.FunctionDecl f.value params R.value S, q2)) := by
  obtain ⟨n2, h2⟩ := h2
  rcases h1 with ⟨ha, rfl, rfl⟩ | ⟨ha, n1, h1⟩
  · refine parseFunction_header h hv hf hft hop hopt ⟨n2, fun m hm => ?_⟩
    simp [bind_apply, check_at, ha, pure_apply, match_apply, hcp, hcpt, h2 m hm]
  · refine parseFunction_header h hv hf hft hop hopt ⟨n1 + n2, fun m hm => ?_⟩
    have hm1 : n1 ≤ m := by omega
    have hm2 : n2 ≤ m := by omega
    simp only [] at h1
    simp [bind_apply, check_at, ha, h1 m hm1, pure_apply, match_apply, hcp, hcpt, h2 m hm2]

theorem parseFunction_param_error {p : Parser} {R f op : Token} {e : Failure × Parser}
    (h : p.look = some R) (hv : R.value ∈ p.typeTable)
    (hf : (p.skip 1).look = some f) (hft : f.type = TokenType.identifier)
    (hop : (p.skip 2).look = some op) (hopt : op.type = TokenType.o_paren)
    (ha : (p.skip 3).atType TokenType.c_paren = false)
    (h1 : Yields (fun n => parseFunctionParamLoop n []) (p.skip 3) (Except.error e)) :
    Yields parseFunction p (Except.error e) := by
  obtain ⟨n1, h1⟩ := h1
  refine parseFunction_header h hv hf hft hop hopt ⟨n1, fun m hm => ?_⟩
  simp only [] at h1
  simp [bind_apply, check_at, ha, h1 m hm]

/-- C13. Function declaration. Let the function parser stand at a token `R`.
If the text of `R` is in the type table, an identifier `f` and a `(` follow,
then parameters `T1 p1 , ... , Tn pn` whose type texts are all in the type
table and whose names are identifiers (the first type token not being a `)`),
then a `)`, and the statement parser reads the tokens after the `)` in place as
the tree `S` (any statement, braced or not), the result is
`FunctionDecl(f, [(p1, T1), ..., (pn, Tn)], R, S)`. If the text of `R` is not
in the type table the parse fails with `Expected return datatype for
function.`; and if, after any number of well formed parameters each followed by
a comma, the next token has a text that is not in the type table, the parse
fails at that token with `Expected a type.`. -/
theorem function_declaration (P : Parser) (R : Token) (hR : P.look = some R) :
    (∀ (f op cp : Token) (params : List ParamDecl) (more : List Token) (S : ASTNode)
        (q : Parser),
      P.rest = R :: f :: op :: (paramTokens params ++ cp :: more) →
      R.value ∈ P.typeTable → f.type = TokenType.identifier → op.type = TokenType.o_paren →
      paramsInPlace P.typeTable params →
      (params ≠ [] → (P.skip 3).atType TokenType.c_paren = false) →
      cp.type = TokenType.c_paren →
      Yields parseStatement (P.skip ((paramTokens params).length + 4)) (Except.ok (S, q)) →
      Yields parseFunction P
        (Except.ok (ASTNode.FunctionDecl f.value (paramEntries params) R.value S, q))) ∧
    (R.value ∉ P.typeTable →
      Yields parseFunction P
        (Except.error (Failure.runtime_error "Expected return datatype for function.", P))) ∧
    (∀ (f op T : Token) (pre : List ParamDecl) (more : List Token),
      P.rest = R :: f :: op :: (paramPrefixTokens pre ++ T :: more) →
      R.value ∈ P.typeTable → f.type = TokenType.identifier → op.type = TokenType.o_paren →
      (∀ d ∈ pre, d.type.value ∈ P.typeTable ∧ d.name.type = TokenType.identifier ∧
        d.comma.type = TokenType.comma) →
      (P.skip 3).atType TokenType.c_paren = false →
      T.value ∉ P.typeTable →
      Yields parseFunction P
        (Except.error (Failure.runtime_error "Expected a type.",
          P.skip (3 * pre.length + 3)))) := by
  refine ⟨?_, fun hv => parseFunction_unknown hR hv, ?_⟩
  · intro f op cp params more S q hP hv hf hop hin hfirst hcp hS
    obtain ⟨l0, r1⟩ := rest_cons hP
    obtain ⟨l1, r2⟩ := rest_cons r1
    rw [skip_skip] at r2
    obtain ⟨l2, r3⟩ := rest_cons r2
    rw [skip_skip] at r3
    have r4 := rest_append (paramTokens params) r3
    rw [skip_skip] at r4
    obtain ⟨l4, _⟩ := rest_cons r4
    have e : (P.skip (1 + 1 + 1 + (paramTokens params).length)).skip 1 =
        P.skip ((paramTokens params).length + 4) := by
      rw [skip_skip]; apply skip_eq; omega
    rw [← e] at hS
    by_cases hnil : params = []
    · subst hnil
      refine parseFunction_of l0 hv l1 hf l2 hop (Or.inl ⟨?_, rfl, rfl⟩) l4 hcp hS
      exact atType_true_of_look (rest_cons r3).1 hcp
    · have hrun := parseFunctionParamLoop_run params (P.skip (1 + 1 + 1)) [] (cp :: more) hnil r3
        hin (by intro t ht; simp only [List.head?_cons, Option.some.injEq] at ht; subst ht
                simp [hcp])
      rw [skip_skip, List.nil_append] at hrun
      exact parseFunction_of l0 hv l1 hf l2 hop (Or.inr ⟨hfirst hnil, hrun⟩) l4 hcp hS
  · intro f op T pre more hP hv hf hop hpre hfirst hT
    obtain ⟨l0, r1⟩ := rest_cons hP
    obtain ⟨l1, r2⟩ := rest_cons r1
    rw [skip_skip] at r2
    obtain ⟨l2, r3⟩ := rest_cons r2
    rw [skip_skip] at r3
    have hrun := parseFunctionParamLoop_prefix T more pre (P.skip (1 + 1 + 1)) [] r3 hpre hT
    rw [skip_skip] at hrun
    have e : P.skip (1 + 1 + 1 + 3 * pre.length) = P.skip (3 * pre.length + 3) := by
      apply skip_eq; omega
    rw [e] at hrun
    exact parseFunction_param_error l0 hv l1 hf l2 hop hfirst hrun

theorem function_declaration_witness :
    Yields parseFunction (Parser.new (tokenize ["void f(float a, float b) a;"]))
      (Except.ok (ASTNode.FunctionDecl "f" [("a", "float"), ("b", "float")] "void"
          (ASTNode.VariableExpr "a"),
        (Parser.new (tokenize ["void f(float a, float b) a;"])).skip 11)) ∧
    Yields parseFunction (Parser.new (tokenize ["Foo f() x;"]))
      (Except.error (Failure.runtime_error "Expected return datatype for function.",
        Parser.new (tokenize ["Foo f() x;"]))) ∧
    Yields parseFunction (Parser.new (tokenize ["void f(float a, Foo b) a;"]))
      (Except.error (Failure.runtime_error "Expected a type.",
        (Parser.new (tokenize ["void f(float a, Foo b) a;"])).skip 6)) :=
  ⟨(function_declaration (Parser.new (tokenize ["void f(float a, float b) a;"]))
      ⟨TokenType.identifier, 1, "void"⟩ (by rfl)).1
      ⟨TokenType.identifier, 1, "f"⟩ ⟨TokenType.o_paren, 1, "("⟩ ⟨TokenType.c_paren, 1, ")"⟩
      [⟨⟨TokenType.identifier, 1, "float"⟩, ⟨TokenType.identifier, 1, "a"⟩,
          ⟨TokenType.comma, 1, ","⟩⟩,
        ⟨⟨TokenType.identifier, 1, "float"⟩, ⟨TokenType.identifier, 1, "b"⟩,
          ⟨TokenType.comma, 1, ","⟩⟩]
      [⟨TokenType.identifier, 1, "a"⟩, ⟨TokenType.semicolon, 1, ";"⟩]
      (ASTNode.VariableExpr "a")
      ((Parser.new (tokenize ["void f(float a, float b) a;"])).skip 11)
      (by rfl) (by decide) (by rfl) (by rfl)
      ⟨by decide, rfl, rfl, by decide, rfl⟩ (fun _ => by rfl) (by rfl)
      (yields_parseStatement 10 (by rfl) (outOfFuel_ok _)),
    (function_declaration (Parser.new (tokenize ["Foo f() x;"]))
      ⟨TokenType.identifier, 1, "Foo"⟩ (by rfl)).2.1 (by decide),
    (function_declaration (Parser.new (tokenize ["void f(float a, Foo b) a;"]))
      ⟨TokenType.identifier, 1, "void"⟩ (by rfl)).2.2
      ⟨TokenType.identifier, 1, "f"⟩ ⟨TokenType.o_paren, 1, "("⟩ ⟨TokenType.identifier, 1, "Foo"⟩
      [⟨⟨TokenType.identifier, 1, "float"⟩, ⟨TokenType.identifier, 1, "a"⟩,
          ⟨TokenType.comma, 1, ","⟩⟩]
      [⟨TokenType.identifier, 1, "b"⟩, ⟨TokenType.c_paren, 1, ")"⟩,
        ⟨TokenType.identifier, 1, "a"⟩, ⟨TokenType.semicolon, 1, ";"⟩]
      (by rfl) (by decide) (by rfl) (by rfl)
      (by decide) (by rfl) (by decide)⟩

/-! ## The entry loop -/

theorem returns_pure {α : Type} {P : α → Prop} {a : α} (h : P a) :
    Returns (pure a : ParserM α) P := by
  intro p b q hb
  rw [pure_apply] at hb
  simp only [Except.ok.injEq, Prod.mk.injEq] at hb
  rw [← hb.1]
  exact h

theorem returns_fail {α : Type} {P : α → Prop} (e : Failure) : Returns (fail e : ParserM α) P := by
  intro p b q hb
  rw [fail_apply] at hb
  simp at hb

theorem returns_bind {α β : Type} {P : β → Prop} {m : ParserM α} {f : α → ParserM β}
    (h : ∀ a, Returns (f a) P) : Returns (m >>= f) P := by
  intro p b q hb
  obtain ⟨a, p', _, h2⟩ := bind_ok hb
  exact h a p' b q h2

theorem returns_ite {α : Type} {P : α → Prop} {c : Prop} [Decidable c] {a b : ParserM α}
    (h1 : Returns a P) (h2 : Returns b P) : Returns (if c then a else b) P := by
  by_cases h : c <;> simp [h, h1, h2]

theorem parseClass_returns (fuel : Nat) :
    Returns (parseClass fuel) (fun d => d.isClassDecl = true) := by
  unfold parseClass
  repeat (first
    | (with_reducible exact returns_fail _)
    | (with_reducible apply returns_ite)
    | (with_reducible (apply returns_bind; intro _))
    | exact returns_pure rfl)

theorem parseFunction_returns (fuel : Nat) :
    Returns (parseFunction fuel) (fun d => d.isFunctionDecl = true) := by
  unfold parseFunction
  repeat (first
    | (with_reducible exact returns_fail _)
    | (with_reducible apply returns_ite)
    | (with_reducible (apply returns_bind; intro _))
    | exact returns_pure rfl)

theorem ParseLoop_run : ∀ (fuel : Nat) (p : Parser) (acc code : List ASTNode) (q : Parser),
    ParseLoop fuel acc p = Except.ok (code, q) →
    ∃ ds, code = acc ++ ds ∧ topLevelRun p ds q := by
  intro fuel
  induction fuel with
  | zero =>
    intro p acc code q h
    rw [ParseLoop, fail_apply] at h
    simp at h
  | succ n ih =>
    intro p acc code q h
    rw [ParseLoop] at h
    cases hl : p.look with
    | none =>
      simp [bind_apply, isAtEnd_apply, hl, pure_apply] at h
      exact ⟨[], by simp [h.1], hl, h.2.symm⟩
    | some t =>
      by_cases hc : t.value = "class"
      · simp only [bind_apply, isAtEnd_apply, hl, peek_apply, hc, Option.isNone_some,
          Bool.not_false, if_true, beq_self_eq_true] at h
        obtain ⟨d, p', hd, hrest⟩ := bind_ok h
        obtain ⟨ds, hds, hrun⟩ := ih p' (acc ++ [d]) code q hrest
        refine ⟨d :: ds, by simp [hds], t, p', hl, ?_, hrun⟩
        rw [if_pos hc]
        exact ⟨parseClass_returns n p d p' hd, yields_parseClass n hd (outOfFuel_ok _)⟩
      · have hb : (t.value == "class") = false := by simp [hc]
        simp only [bind_apply, isAtEnd_apply, hl, peek_apply, hb, Option.isNone_some,
          Bool.not_false, if_true] at h
        obtain ⟨d, p', hd, hrest⟩ := bind_ok h
        obtain ⟨ds, hds, hrun⟩ := ih p' (acc ++ [d]) code q hrest
        refine ⟨d :: ds, by simp [hds], t, p', hl, ?_, hrun⟩
        rw [if_neg hc]
        exact ⟨parseFunction_returns n p d p' hd, yields_parseFunction n hd (outOfFuel_ok _)⟩

theorem ParseLoop_end (n : Nat) (acc : List ASTNode) {p : Parser} (h : p.look = none) :
    ParseLoop (n + 1) acc p = Except.ok (acc, p) := by
  rw [ParseLoop]
  simp [bind_apply, isAtEnd_apply, h, pure_apply]

theorem ParseLoop_class (n : Nat) (acc : List ASTNode) (t : Token) {p p' : Parser} {d : ASTNode}
    (h : p.look = some t) (ht : t.value = "class") (hd : parseClass n p = Except.ok (d, p')) :
    ParseLoop (n + 1) acc p = ParseLoop n (acc ++ [d]) p' := by
  rw [ParseLoop]
  simp [bind_apply, isAtEnd_apply, h, peek_apply, ht, hd]

theorem ParseLoop_function (n : Nat) (acc : List ASTNode) (t : Token) {p p' : Parser}
    {d : ASTNode} (h : p.look = some t) (ht : t.value ≠ "class")
    (hd : parseFunction n p = Except.ok (d, p')) :
    ParseLoop (n + 1) acc p = ParseLoop n (acc ++ [d]) p' := by
  rw [ParseLoop]
  simp [bind_apply, isAtEnd_apply, h, peek_apply, ht, hd]

theorem Parse_of_loop {n : Nat} {p q : Parser} {code : List ASTNode}
    (h : ParseLoop n [] p = Except.ok (code, q)) :
    Parse n p = Except.ok (ASTNode.Program code, q) := by
  unfold Parse
  rw [bind_apply, h]
  rfl

theorem topLevelRun_end : ∀ (ds : List ASTNode) (p q : Parser), topLevelRun p ds q →
    q.look = none
  | [], _, _, h => by rw [h.2]; exact h.1
  | _ :: ds, _, _, ⟨_, p', _, _, h⟩ => topLevelRun_end ds p' _ h

theorem topLevelRun_kinds : ∀ (ds : List ASTNode) (p q : Parser), topLevelRun p ds q →
    ∀ d ∈ ds, d.isClassDecl = true ∨ d.isFunctionDecl = true
  | [], _, _, _ => by simp
  | d :: ds, _, _, ⟨t, p', _, hd, h⟩ => by
    intro x hx
    rcases List.mem_cons.mp hx with rfl | hx
    · by_cases hc : t.value = "class"
      · rw [if_pos hc] at hd; exact Or.inl hd.1
      · rw [if_neg hc] at hd; exact Or.inr hd.1
    · exact topLevelRun_kinds ds p' _ h x hx

/-- C12. The entry loop. `Parse` on the empty token sequence returns a program
with no declaration. Whenever `Parse`, run on the tokens `tokens` with some
fuel, returns `node` in the state `q`, it returns the same with any larger
fuel, and `node` is a `Program` whose `Code` lists the top-level constructs in
source order: a class declaration read by `parseClass` for each construct whose
first token has the text `class`, a function declaration read by
`parseFunction` for each other one. Every element of `Code` is thus a class or
a function declaration, and in `q` the cursor is past the last of the tokens. -/
theorem entry_loop (tokens : List Token) (fuel : Nat) (node : ASTNode) (q : Parser)
    (h : Parse fuel (Parser.new tokens) = Except.ok (node, q)) :
    Yields Parse (Parser.new []) (Except.ok (ASTNode.Program [], Parser.new [])) ∧
    Yields Parse (Parser.new tokens) (Except.ok (node, q)) ∧
    ∃ code, node = ASTNode.Program code ∧
      topLevelRun (Parser.new tokens) code q ∧
      (∀ d ∈ code, d.isClassDecl = true ∨ d.isFunctionDecl = true) ∧
      q.tokens = tokens ∧ tokens.length ≤ q.current := by
  refine ⟨yields_Parse 1 (by rfl) (outOfFuel_ok _), yields_Parse fuel h (outOfFuel_ok _), ?_⟩
  have hext := (Parse_advances fuel).run (Parser.new tokens)
  rw [h] at hext
  have hq : q.tokens = tokens := hext.tokens
  unfold Parse at h
  obtain ⟨code, p', hloop, hpure⟩ := bind_ok h
  rw [pure_apply] at hpure
  simp only [Except.ok.injEq, Prod.mk.injEq] at hpure
  obtain ⟨rfl, rfl⟩ := hpure
  obtain ⟨ds, hds, hrun⟩ := ParseLoop_run fuel _ [] code _ hloop
  rw [List.nil_append] at hds
  subst hds
  refine ⟨code, rfl, hrun, topLevelRun_kinds code _ _ hrun, hq, ?_⟩
  have hend := topLevelRun_end code _ _ hrun
  rw [Parser.look, List.getElem?_eq_none_iff, hq] at hend
  exact hend

theorem entry_loop_witness :
    Yields Parse (Parser.new []) (Except.ok (ASTNode.Program [], Parser.new [])) ∧
    Yields Parse (Parser.new (tokenize ["class A \x7b\x7d", "void f() x;"]))
      (Except.ok (ASTNode.Program
          [ASTNode.ClassDecl "A" { name := "A" },
            ASTNode.FunctionDecl "f" [] "void" (ASTNode.VariableExpr "x")],
        ((Parser.new (tokenize ["class A \x7b\x7d", "void f() x;"])).withType "A").skip 10)) ∧
    ∃ code,
      ASTNode.Program
          [ASTNode.ClassDecl "A" { name := "A" },
            ASTNode.FunctionDecl "f" [] "void" (ASTNode.VariableExpr "x")] =
        ASTNode.Program code ∧
      topLevelRun (Parser.new (tokenize ["class A \x7b\x7d", "void f() x;"])) code
        (((Parser.new (tokenize ["class A \x7b\x7d", "void f() x;"])).withType "A").skip 10) ∧
      (∀ d ∈ code, d.isClassDecl = true ∨ d.isFunctionDecl = true) ∧
      (((Parser.new (tokenize ["class A \x7b\x7d", "void f() x;"])).withType "A").skip 10).tokens =
        tokenize ["class A \x7b\x7d", "void f() x;"] ∧
      (tokenize ["class A \x7b\x7d", "void f() x;"]).length ≤
        (((Parser.new (tokenize ["class A \x7b\x7d", "void f() x;"])).withType "A").skip
          10).current :=
  entry_loop (tokenize ["class A \x7b\x7d", "void f() x;"]) 12 _ _
    (Parse_of_loop
      ((ParseLoop_class 11 [] ⟨TokenType.identifier, 1, "class"⟩ (by rfl) rfl
        (by rfl : parseClass 11 (Parser.new (tokenize ["class A \x7b\x7d", "void f() x;"])) =
          Except.ok (ASTNode.ClassDecl "A" { name := "A" },
            ((Parser.new (tokenize ["class A \x7b\x7d", "void f() x;"])).withType "A").skip
              4))).trans
      ((ParseLoop_function 10 _ ⟨TokenType.identifier, 2, "void"⟩ (by rfl) (by decide)
        (by rfl : parseFunction 10
            (((Parser.new (tokenize ["class A \x7b\x7d", "void f() x;"])).withType "A").skip 4) =
          Except.ok (ASTNode.FunctionDecl "f" [] "void" (ASTNode.VariableExpr "x"),
            ((Parser.new (tokenize ["class A \x7b\x7d", "void f() x;"])).withType "A").skip
              10))).trans
      (ParseLoop_end 9 _ (by rfl)))))

/-! ## Line numbers -/

theorem tokenizeLines_enum : ∀ (file : List String) (n : Nat),
    tokenizeLines (n : Int) file [] = (file.enumFrom n).flatMap (fun x => lineTokens x.1 x.2) := by
  intro file
  induction file with
  | nil => intro n; simp [tokenizeLines]
  | cons line file ih =>
    intro n
    rw [tokenizeLines_cons, List.enumFrom_cons, List.flatMap_cons, ← ih (n + 1)]
    simp [lineTokens]

theorem tokenizeLines_sorted : ∀ (file : List String) (ln : Int),
    (tokenizeLines ln file []).Pairwise (fun a b => a.line ≤ b.line) := by
  intro file
  induction file with
  | nil => intro ln; simp [tokenizeLines]
  | cons line file ih =>
    intro ln
    rw [tokenizeLines_cons, List.pairwise_append]
    have h1 := (tokenizeLine_spec ln line.length line.data (le_refl _)).1
    refine ⟨?_, ih (ln + 1), ?_⟩
    · apply List.pairwise_of_forall_mem_list
      intro a ha b hb
      rw [h1 a ha, h1 b hb]
    · intro a ha b hb
      have := (tokenizeLines_line_ge file (ln + 1) b hb).1
      rw [h1 a ha]
      omega

/-- C16. Line numbers are attached per token and are 1-based. For every list
of lines `file`, the token sequence is the concatenation, line after line, of
the tokens that the scan of each line produces, the first line being scanned
with number 1 and each following one with the next number, whatever the lines
contain; every token produced from the `k`-th line has `line = k`, and the
tokens of the whole sequence with `line = k` are exactly those; so every line
field is at least 1 and at most the number of lines, and the line fields never
decrease along the sequence. The count starts at 1 in every call, the result
depending on `file` only: in `a`, an empty line, a blank line and `b c`, the
lines of the three tokens are 1, 4 and 4. -/
theorem line_numbers_one_based (file : List String) :
    tokenize file = (file.enumFrom 1).flatMap (fun x => lineTokens x.1 x.2) ∧
    (∀ (k : Nat) (line : String), 1 ≤ k → file[k - 1]? = some line →
      (∀ t ∈ lineTokens k line, t.line = (k : Int)) ∧
      (tokenize file).filter (fun t => t.line = (k : Int)) = lineTokens k line) ∧
    (∀ t ∈ tokenize file, 1 ≤ t.line ∧ t.line ≤ (file.length : Int)) ∧
    (tokenize file).Pairwise (fun a b => a.line ≤ b.line) ∧
    (tokenize ["a", "", "  ", "b c"]).map Token.line = [1, 4, 4] := by
  refine ⟨tokenizeLines_enum file 1, fun k line hk hline => ⟨?_, ?_⟩, fun t ht => ?_,
    tokenizeLines_sorted file 1, by decide⟩
  · exact (tokenizeLine_spec (k : Int) line.length line.data (le_refl _)).1
  · have h := tokenizeLines_filter file 1 (k - 1) line hline
    have e : (1 : Int) + ((k - 1 : Nat) : Int) = (k : Int) := by omega
    rw [e] at h
    exact h
  · have := tokenizeLines_line_ge file 1 t ht
    omega

/-! ## Characters outside every class -/

theorem tokenizeLine_succ (ln : Int) : ∀ (fuel : Nat) (cs : List Char) (acc : List Token),
    cs.length ≤ fuel → tokenizeLine ln (fuel + 1) cs acc = tokenizeLine ln fuel cs acc := by
  intro fuel
  induction fuel with
  | zero =>
    intro cs acc h
    have : cs = [] := List.length_eq_zero.mp (by omega)
    subst this
    simp [tokenizeLine]
  | succ fuel ih =>
    intro cs acc h
    cases cs with
    | nil => simp [tokenizeLine]
    | cons c rest =>
      have hrest : rest.length ≤ fuel := by simpa using h
      rw [tokenizeLine, tokenizeLine]
      split_ifs with hs ha hd ho
      · exact ih _ _ hrest
      · exact ih _ _ (le_trans (dropWhile_length_le _ c rest (isWordChar_of_isalpha ha)) hrest)
      · exact ih _ _ (le_trans (dropWhile_length_le _ c rest (isNumberChar_of_isdigit hd)) hrest)
      · exact ih _ _ (le_trans (dropWhile_length_le _ c rest ho) hrest)
      · exact ih _ _ hrest

theorem tokenizeLine_fuel (ln : Int) (cs : List Char) (acc : List Token) :
    ∀ (k : Nat), tokenizeLine ln (cs.length + k) cs acc = tokenizeLine ln cs.length cs acc := by
  intro k
  induction k with
  | zero => rfl
  | succ k ih => rw [← Nat.add_assoc, tokenizeLine_succ ln _ cs acc (by omega), ih]

theorem tokenizeLine_enough (ln : Int) (cs : List Char) (acc : List Token) (fuel : Nat)
    (h : cs.length ≤ fuel) : tokenizeLine ln fuel cs acc = tokenizeLine ln cs.length cs acc := by
  obtain ⟨k, rfl⟩ : ∃ k, fuel = cs.length + k := ⟨fuel - cs.length, by omega⟩
  exact tokenizeLine_fuel ln cs acc k

theorem run_split (p : Char → Bool) : ∀ (l s : List Char),
    (l.dropWhile p = [] → ∀ x, s.head? = some x → p x = false) →
    (l ++ s).takeWhile p = l.takeWhile p ∧ (l ++ s).dropWhile p = l.dropWhile p ++ s := by
  intro l
  induction l with
  | nil =>
    intro s h
    cases s with
    | nil => simp
    | cons x s => simp [h rfl x rfl]
  | cons a l ih =>
    intro s h
    by_cases ha : p a = true
    · have h' := ih s (by simpa [List.dropWhile_cons_of_pos ha] using h)
      simp only [List.cons_append, List.takeWhile_cons_of_pos ha, List.dropWhile_cons_of_pos ha]
      exact ⟨by rw [h'.1], h'.2⟩
    · simp [List.takeWhile_cons_of_neg ha, List.dropWhile_cons_of_neg ha]

theorem getLast?_dropWhile (p : Char → Bool) (l : List Char) (h : l.dropWhile p ≠ []) :
    (l.dropWhile p).getLast? = l.getLast? := by
  conv => rhs; rw [← List.takeWhile_append_dropWhile p l]
  rw [List.getLast?_append_of_ne_nil _ h]

theorem boundary_dropWhile (p : Char → Bool) {c : Char} {l : List Char}
    (hb : isWordChar c = true → ∀ x, l.getLast? = some x → isWordChar x = false) :
    isWordChar c = true → ∀ x, (l.dropWhile p).getLast? = some x → isWordChar x = false := by
  intro hc x hx
  by_cases h : l.dropWhile p = []
  · rw [h] at hx; simp at hx
  · rw [getLast?_dropWhile p l h] at hx
    exact hb hc x hx

theorem boundary_tail {c d : Char} {l : List Char}
    (hb : isWordChar c = true → ∀ x, (d :: l).getLast? = some x → isWordChar x = false) :
    isWordChar c = true → ∀ x, l.getLast? = some x → isWordChar x = false := by
  intro hc x hx
  cases l with
  | nil => simp at hx
  | cons a l => exact hb hc x (by rw [List.getLast?_cons_cons]; exact hx)

theorem tokenizeLine_split (ln : Int) (c : Char) (post : List Char)
    (hn : isNumberChar c = false) (ho : isOperatorChar c = false) :
    ∀ (fuel : Nat) (pre : List Char), pre.length ≤ fuel →
    (isWordChar c = true → ∀ x, pre.getLast? = some x → isWordChar x = false) →
    tokenizeLine ln (fuel + (post.length + 1)) (pre ++ c :: post) [] =
      tokenizeLine ln fuel pre [] ++ tokenizeLine ln (post.length + 1) (c :: post) [] := by
  intro fuel
  induction fuel with
  | zero =>
    intro pre h _
    have : pre = [] := List.length_eq_zero.mp (by omega)
    subst this
    simp [tokenizeLine]
  | succ fuel ih =>
    intro pre h hb
    cases pre with
    | nil =>
      rw [List.nil_append, tokenizeLine_nil, List.nil_append]
      exact (tokenizeLine_enough ln _ _ _ (by simp)).trans
        (tokenizeLine_enough ln _ _ _ (by simp)).symm
    | cons d pre =>
      have hpre : pre.length ≤ fuel := by simpa using h
      have e : fuel + 1 + (post.length + 1) = fuel + (post.length + 1) + 1 := by omega
      rw [e, List.cons_append, tokenizeLine, tokenizeLine]
      have hrun : ∀ (p : Char → Bool), p d = true →
          ((d :: pre).dropWhile p = [] → p c = false) →
          ∀ tok : Token,
          tokenizeLine ln (fuel + (post.length + 1))
              ((d :: (pre ++ c :: post)).dropWhile p) ([] ++ [tok]) =
            tokenizeLine ln fuel ((d :: pre).dropWhile p) ([] ++ [tok]) ++
              tokenizeLine ln (post.length + 1) (c :: post) [] := by
        intro p hd hc tok
        have hs := run_split p (d :: pre) (c :: post)
          (fun h0 x hx => by
            simp only [List.head?_cons, Option.some.injEq] at hx
            subst hx
            exact hc h0)
        rw [List.cons_append] at hs
        rw [hs.2, tokenizeLine_acc, tokenizeLine_acc ln fuel,
          ih _ (le_trans (dropWhile_length_le p d pre hd) hpre) (boundary_dropWhile p hb)]
        simp only [List.nil_append, List.append_assoc]
      have hword : (d :: pre).dropWhile isWordChar = [] → isWordChar c = false := by
        intro h0
        by_contra hc
        rw [Bool.not_eq_false] at hc
        rw [List.dropWhile_eq_nil_iff] at h0
        have hl := hb hc ((d :: pre).getLast (by simp))
          (List.getLast?_eq_getLast _ _)
        rw [h0 _ (List.getLast_mem _)] at hl
        exact absurd hl (by simp)
      split_ifs with hs ha hd hop
      · exact ih pre hpre (boundary_tail hb)
      · have hs := run_split isWordChar (d :: pre) (c :: post)
          (fun h0 x hx => by
            simp only [List.head?_cons, Option.some.injEq] at hx
            subst hx
            exact hword h0)
        rw [List.cons_append] at hs
        rw [hs.1]
        exact hrun isWordChar (isWordChar_of_isalpha ha) hword _
      · have hs := run_split isNumberChar (d :: pre) (c :: post)
          (fun _ x hx => by
            simp only [List.head?_cons, Option.some.injEq] at hx
            subst hx
            exact hn)
        rw [List.cons_append] at hs
        rw [hs.1]
        exact hrun isNumberChar (isNumberChar_of_isdigit hd) (fun _ => hn) _
      · have hs := run_split isOperatorChar (d :: pre) (c :: post)
          (fun _ x hx => by
            simp only [List.head?_cons, Option.some.injEq] at hx
            subst hx
            exact ho)
        rw [List.cons_append] at hs
        rw [hs.1]
        exact hrun isOperatorChar hop (fun _ => ho) _
      · rw [tokenizeLine_acc, tokenizeLine_acc ln fuel, ih pre hpre (boundary_tail hb)]
        simp only [List.nil_append, List.append_assoc]

theorem tokenize_single (l : List Char) :
    tokenize [String.mk l] = tokenizeLine 1 l.length l [] := by
  simp [tokenize, tokenizeLines, String.length]

/-- C15. The lexer never fails and unrecognised characters become tokens.
`tokenize` is a total function: it returns a token sequence for every list of
lines. Let `c` be a character that is not white space, a letter, a digit or an
operator character, standing in a line between the characters `pre` and `post`,
and, when `c` is an underscore, not directly after a letter, digit or
underscore (where it would be part of a word). Then the tokens of the line are
the tokens of `pre`, one token for `c` whose text is that single character, and
the tokens of `post`. The kind of that token is the dedicated kind for each of
`( ) { } [ ] ; , :` and `unknown` for every other character. The nine
punctuation characters, `@`, `#` and `_` all are such characters; `a_b` is one
identifier, and in `1_` the underscore is an `unknown` token. -/
theorem unrecognized_characters_become_tokens (pre post : List Char) (c : Char)
    (hs : isspace c = false) (ha : isalpha c = false) (hd : isdigit c = false)
    (ho : isOperatorChar c = false)
    (hb : c = '_' → ∀ x, pre.getLast? = some x → isWordChar x = false) :
    tokenize [String.mk (pre ++ c :: post)] =
      tokenize [String.mk pre] ++
        { type := punctuationType c, line := 1, value := String.mk [c] } ::
          tokenize [String.mk post] ∧
    (c ∉ ['(', ')', '{', '}', '[', ']', ';', ',', ':'] →
      punctuationType c = TokenType._unknown) ∧
    ['(', ')', '{', '}', '[', ']', ';', ',', ':'].map punctuationType =
      [TokenType.o_paren, TokenType.c_paren, TokenType.o_brace, TokenType.c_brace,
        TokenType.o_bracket, TokenType.c_bracket, TokenType.semicolon, TokenType.comma,
        TokenType.colon] ∧
    (∀ x ∈ ['(', ')', '{', '}', '[', ']', ';', ',', ':', '@', '#', '_'],
      isspace x = false ∧ isalpha x = false ∧ isdigit x = false ∧ isOperatorChar x = false) ∧
    tokenize ["a_b"] = [{ type := TokenType.identifier, line := 1, value := "a_b" }] ∧
    tokenize ["1_"] =
      [{ type := TokenType.int_lit, line := 1, value := "1" },
        { type := TokenType._unknown, line := 1, value := "_" }] := by
  refine ⟨?_, ?_, by decide, by decide, by decide, by decide⟩
  · have hn : isNumberChar c = false := by
      have hdot : c ≠ '.' := by
        rintro rfl
        exact absurd ho (by decide)
      simp [isNumberChar, hd, hdot]
    have hw : isWordChar c = true → c = '_' := by
      intro h
      simpa [isWordChar, isalnum, ha, hd] using h
    have hsplit := tokenizeLine_split 1 c post hn ho pre.length pre (le_refl _)
      (fun h => hb (hw h))
    have hstep : tokenizeLine 1 (post.length + 1) (c :: post) [] =
        { type := punctuationType c, line := 1, value := String.mk [c] } ::
          tokenizeLine 1 post.length post [] := by
      rw [tokenizeLine]
      simp only [hs, ha, hd, ho, Bool.false_eq_true, if_false]
      rw [tokenizeLine_acc]
      rfl
    rw [tokenize_single, tokenize_single, tokenize_single, ← hstep, ← hsplit]
    congr 1
    simp
  · intro hc
    simp only [List.mem_cons, List.mem_singleton, List.not_mem_nil, or_false, not_or] at hc
    simp [punctuationType, hc]

theorem unrecognized_characters_become_tokens_witness :
    tokenize ["f(@)"] =
      [{ type := TokenType.identifier, line := 1, value := "f" },
        { type := TokenType.o_paren, line := 1, value := "(" },
        { type := TokenType._unknown, line := 1, value := "@" },
        { type := TokenType.c_paren, line := 1, value := ")" }] ∧
    tokenize ["_x;"] =
      [{ type := TokenType._unknown, line := 1, value := "_" },
        { type := TokenType.identifier, line := 1, value := "x" },
        { type := TokenType.semicolon, line := 1, value := ";" }] :=
  ⟨(unrecognized_characters_become_tokens ['f', '('] [')'] '@' (by decide) (by decide)
      (by decide) (by decide) (by decide)).1,
    (unrecognized_characters_become_tokens [] ['x', ';'] '_' (by decide) (by decide)
      (by decide) (by decide) (by decide)).1⟩

/-! ## Multiplicative and prefix operators -/

theorem yields_parseUnary {p : Parser} {r : Outcome ASTNode} (n : Nat)
    (h : parseUnary n p = r) (hr : ¬ OutOfFuel r) : Yields parseUnary p r :=
  Yields.of_run (fun n => (stableAt n).parseUnary) n h hr

theorem parseUnary_prefixed {p q : Parser} {t : Token} {operand : ASTNode}
    (h : p.look = some t) (ht : t.type = TokenType._operator) (hv : t.value ∈ ["++", "--"])
    (h1 : Yields parseUnary (p.skip 1) (Except.ok (operand, q))) :
    Yields parseUnary p (Except.ok (ASTNode.PrefixExpr t.value operand, q)) := by
  obtain ⟨n1, h1⟩ := h1
  refine ⟨n1 + 1, fun m hm => ?_⟩
  obtain ⟨m, rfl⟩ : ∃ k, m = k + 1 := ⟨m - 1, by omega⟩
  rw [parseUnary]
  simp [bind_apply, checkOperator_at, atOperator_of_look h ht hv, advance_apply, h,
    h1 m (by omega), pure_apply]

/-- The expression levels above `parseMultiplication`, when no operator follows. -/
theorem parseExpression_of_multiplication {p q : Parser} {e : ASTNode}
    (h : Yields parseMultiplication p (Except.ok (e, q)))
    (h2 : q.atOperator ["+", "-"] = false)
    (h3 : q.atOperator ["==", "!=", "<", "<=", ">", ">="] = false)
    (h4 : q.atOperator ["="] = false) :
    Yields parseExpression p (Except.ok (e, q)) :=
  parseExpression_iff.mpr (parseAssignment_plain
    (parseComparison_of (parseAddition_of h (parseAdditionLoop_exit _ h2))
      (parseComparisonLoop_exit _ h3)) h4)

/-- C21. The operator `^` is an ordinary left-associative multiplicative
operator. For operands that the unary parser reads in place as the trees `A`,
`B` and `C`, separated by operator tokens `m1` and `m2` whose texts are among
`*`, `/`, `%`, `^`: if no multiplicative operator follows, the multiplication
parser yields `binary(m2, binary(m1, A, B), C)`, and if a `;` follows, so does
the expression statement parser. -/
theorem caret_left_associative (p q1 q2 q3 : Parser) (A B C : ASTNode) (m1 m2 : Token)
    (hA : Yields parseUnary p (Except.ok (A, q1)))
    (h1 : q1.look = some m1) (h1t : m1.type = TokenType._operator)
    (h1v : m1.value ∈ ["*", "/", "%", "^"])
    (hB : Yields parseUnary (q1.skip 1) (Except.ok (B, q2)))
    (h2 : q2.look = some m2) (h2t : m2.type = TokenType._operator)
    (h2v : m2.value ∈ ["*", "/", "%", "^"])
    (hC : Yields parseUnary (q2.skip 1) (Except.ok (C, q3))) :
    (q3.atOperator ["*", "/", "%", "^"] = false →
      Yields parseMultiplication p
        (Except.ok (ASTNode.BinaryExpr m2.value (ASTNode.BinaryExpr m1.value A B) C, q3))) ∧
    (∀ semi, q3.look = some semi → semi.type = TokenType.semicolon →
      Yields parseExpressionStmt p
        (Except.ok (ASTNode.BinaryExpr m2.value (ASTNode.BinaryExpr m1.value A B) C,
          q3.skip 1))) := by
  have hmul : q3.atOperator ["*", "/", "%", "^"] = false →
      Yields parseMultiplication p
        (Except.ok (ASTNode.BinaryExpr m2.value (ASTNode.BinaryExpr m1.value A B) C, q3)) :=
    fun hend => parseMultiplication_of hA
      (parseMultiplicationLoop_step h1 h1t h1v hB
        (parseMultiplicationLoop_step h2 h2t h2v hC (parseMultiplicationLoop_exit _ hend)))
  refine ⟨hmul, fun semi hs hst => ?_⟩
  have hno : ∀ ops, q3.atOperator ops = false :=
    fun ops => atOperator_of_type hs (by simp [hst])
  exact parseExpressionStmt_of
    (parseExpression_of_multiplication (hmul (hno _)) (hno _) (hno _) (hno _)) hs hst

theorem caret_left_associative_witness :
    Yields parseExpressionStmt (Parser.new (tokenize ["2^3^4;"]))
      (Except.ok (ASTNode.BinaryExpr "^"
          (ASTNode.BinaryExpr "^" (ASTNode.LiteralExpr 2) (ASTNode.LiteralExpr 3))
          (ASTNode.LiteralExpr 4),
        (Parser.new (tokenize ["2^3^4;"])).skip 6)) ∧
    Yields parseExpressionStmt (Parser.new (tokenize ["2*3^4;"]))
      (Except.ok (ASTNode.BinaryExpr "^"
          (ASTNode.BinaryExpr "*" (ASTNode.LiteralExpr 2) (ASTNode.LiteralExpr 3))
          (ASTNode.LiteralExpr 4),
        (Parser.new (tokenize ["2*3^4;"])).skip 6)) :=
  ⟨(caret_left_associative (Parser.new (tokenize ["2^3^4;"]))
      ((Parser.new (tokenize ["2^3^4;"])).skip 1) ((Parser.new (tokenize ["2^3^4;"])).skip 3)
      ((Parser.new (tokenize ["2^3^4;"])).skip 5)
      (ASTNode.LiteralExpr 2) (ASTNode.LiteralExpr 3) (ASTNode.LiteralExpr 4)
      ⟨TokenType._operator, 1, "^"⟩ ⟨TokenType._operator, 1, "^"⟩
      (yields_parseUnary 3 (by rfl) (outOfFuel_ok _)) (by rfl) (by rfl) (by decide)
      (yields_parseUnary 3 (by rfl) (outOfFuel_ok _)) (by rfl) (by rfl) (by decide)
      (yields_parseUnary 3 (by rfl) (outOfFuel_ok _))).2
      ⟨TokenType.semicolon, 1, ";"⟩ (by rfl) (by rfl),
    (caret_left_associative (Parser.new (tokenize ["2*3^4;"]))
      ((Parser.new (tokenize ["2*3^4;"])).skip 1) ((Parser.new (tokenize ["2*3^4;"])).skip 3)
      ((Parser.new (tokenize ["2*3^4;"])).skip 5)
      (ASTNode.LiteralExpr 2) (ASTNode.LiteralExpr 3) (ASTNode.LiteralExpr 4)
      ⟨TokenType._operator, 1, "*"⟩ ⟨TokenType._operator, 1, "^"⟩
      (yields_parseUnary 3 (by rfl) (outOfFuel_ok _)) (by rfl) (by rfl) (by decide)
      (yields_parseUnary 3 (by rfl) (outOfFuel_ok _)) (by rfl) (by rfl) (by decide)
      (yields_parseUnary 3 (by rfl) (outOfFuel_ok _))).2
      ⟨TokenType.semicolon, 1, ";"⟩ (by rfl) (by rfl)⟩

theorem mem_disjoint (l1 l2 : List String) (hd : ∀ x ∈ l1, x ∉ l2) {v : String}
    (h : v ∈ l1) : v ∉ l2 :=
  hd v h

/-- C22. Prefix `++` and `--` are right-recursive and bind tighter than every
binary operator. Let `pp` be a `++` or `--` token and `a` an identifier. If the
tokens from the cursor on are `pp a o b` for a binary operator `o` of the
grammar (`=`, a comparison, `+`, `-`, `*`, `/`, `%` or `^`) and an identifier
`b`, and the next token, if any, is not an operator, a `[` or a `(`, the
expression parser yields `binary(o, prefix(pp, variable(a)), variable(b))`. If
they are `pp pp2 a` for a second `++` or `--` token `pp2`, followed in the same
way, it yields `prefix(pp, prefix(pp2, variable(a)))`. -/
theorem prefix_binds_tighter (pp a : Token)
    (hpp : pp.type = TokenType._operator) (hppv : pp.value ∈ ["++", "--"])
    (ha : a.type = TokenType.identifier) :
    (∀ (P : Parser) (o b : Token) (more : List Token),
      P.rest = pp :: a :: o :: b :: more →
      o.type = TokenType._operator →
      o.value ∈ ["=", "==", "!=", "<", "<=", ">", ">=", "+", "-", "*", "/", "%", "^"] →
      b.type = TokenType.identifier →
      (∀ t, more.head? = some t → t.type ≠ TokenType._operator ∧
        t.type ≠ TokenType.o_bracket ∧ t.type ≠ TokenType.o_paren) →
      Yields parseExpression P
        (Except.ok (ASTNode.BinaryExpr o.value
            (ASTNode.PrefixExpr pp.value (ASTNode.VariableExpr a.value))
            (ASTNode.VariableExpr b.value),
          P.skip 4))) ∧
    (∀ (P : Parser) (pp2 : Token) (more : List Token),
      P.rest = pp :: pp2 :: a :: more →
      pp2.type = TokenType._operator → pp2.value ∈ ["++", "--"] →
      (∀ t, more.head? = some t → t.type ≠ TokenType._operator ∧
        t.type ≠ TokenType.o_bracket ∧ t.type ≠ TokenType.o_paren) →
      Yields parseExpression P
        (Except.ok (ASTNode.PrefixExpr pp.value
            (ASTNode.PrefixExpr pp2.value (ASTNode.VariableExpr a.value)),
          P.skip 3))) := by
  constructor
  · intro P o b more hP ho hov hb hmore
    obtain ⟨l0, r1⟩ := rest_cons hP
    obtain ⟨l1, r2⟩ := rest_cons r1
    rw [skip_skip] at r2
    obtain ⟨l2, r3⟩ := rest_cons r2
    rw [skip_skip] at r3
    obtain ⟨l3, r4⟩ := rest_cons r3
    rw [skip_skip] at r4
    have e2 : (P.skip 1).skip 1 = P.skip 2 := skip_skip P 1 1
    have e4 : (P.skip 3).skip 1 = P.skip 4 := skip_skip P 3 1
    have hend : ∀ ops, (P.skip 4).atOperator ops = false :=
      fun ops => atOperator_false_of_rest r4 (fun t ht h => absurd h (hmore t ht).1)
    have hov' : o.value ∈ ["="] ++ (["==", "!=", "<", "<=", ">", ">="] ++
        (["+", "-"] ++ ["*", "/", "%", "^"])) := hov
    have hnpost : o.value ∉ ["++", "--"] :=
      mem_disjoint _ ["++", "--"] (by decide) hov
    have hndot : o.value ∉ ["."] := mem_disjoint _ ["."] (by decide) hov
    -- the two operands
    have hA : Yields parseUnary P
        (Except.ok (ASTNode.PrefixExpr pp.value (ASTNode.VariableExpr a.value), P.skip 2)) := by
      refine parseUnary_prefixed l0 hpp hppv (parseUnary_primary (atOperator_of_type l1 (by simp [ha])) ?_)
      rw [← e2]
      refine parsePrimary_variable l1 ha ?_ ?_ ?_ ?_
      · rw [e2]; exact atType_false_of_look l2 (by simp [ho])
      · rw [e2]; exact atOperator_of_value l2 hndot
      · rw [e2]; exact atOperator_of_value l2 hnpost
      · rw [e2]; exact atType_false_of_look l2 (by simp [ho])
    have hB : Yields parseUnary (P.skip 3)
        (Except.ok (ASTNode.VariableExpr b.value, P.skip 4)) := by
      refine parseUnary_primary (atOperator_of_type l3 (by simp [hb])) ?_
      rw [← e4]
      refine parsePrimary_variable l3 hb ?_ (by rw [e4]; exact hend _)
        (by rw [e4]; exact hend _) ?_
      · rw [e4]; exact atType_false_of_rest r4 (fun t ht => (hmore t ht).2.1)
      · rw [e4]; exact atType_false_of_rest r4 (fun t ht => (hmore t ht).2.2)
    have e3 : (P.skip 2).skip 1 = P.skip 3 := skip_skip P 2 1
    have hBm : Yields parseMultiplication (P.skip 3)
        (Except.ok (ASTNode.VariableExpr b.value, P.skip 4)) :=
      parseMultiplication_of hB (parseMultiplicationLoop_exit _ (hend _))
    have hBa : Yields parseAddition (P.skip 3)
        (Except.ok (ASTNode.VariableExpr b.value, P.skip 4)) :=
      parseAddition_of hBm (parseAdditionLoop_exit _ (hend _))
    rcases List.mem_append.mp hov' with h | h
    · -- assignment
      have hv : o.value = "=" := by simpa using h
      have hleft : Yields parseComparison P
          (Except.ok (ASTNode.PrefixExpr pp.value (ASTNode.VariableExpr a.value), P.skip 2)) :=
        parseComparison_of
          (parseAddition_of
            (parseMultiplication_of hA (parseMultiplicationLoop_exit _
              (atOperator_of_value l2 (mem_disjoint ["="] _ (by decide) h))))
            (parseAdditionLoop_exit _
              (atOperator_of_value l2 (mem_disjoint ["="] _ (by decide) h))))
          (parseComparisonLoop_exit _
            (atOperator_of_value l2 (mem_disjoint ["="] _ (by decide) h)))
      have hright : Yields parseAssignment ((P.skip 2).skip 1)
          (Except.ok (ASTNode.VariableExpr b.value, P.skip 4)) := by
        rw [e3]
        exact parseAssignment_plain
          (parseComparison_of hBa (parseComparisonLoop_exit _ (hend _))) (hend _)
      have := parseAssignment_assign hleft l2 ho hv hright
      rw [← hv] at this
      exact parseExpression_iff.mpr this
    rcases List.mem_append.mp h with h | h
    · -- comparison
      have hleft : Yields parseAddition P
          (Except.ok (ASTNode.PrefixExpr pp.value (ASTNode.VariableExpr a.value), P.skip 2)) :=
        parseAddition_of
          (parseMultiplication_of hA (parseMultiplicationLoop_exit _
            (atOperator_of_value l2
              (mem_disjoint ["==", "!=", "<", "<=", ">", ">="] _ (by decide) h))))
          (parseAdditionLoop_exit _
            (atOperator_of_value l2
              (mem_disjoint ["==", "!=", "<", "<=", ">", ">="] _ (by decide) h)))
      exact parseExpression_iff.mpr (parseAssignment_plain
        (parseComparison_of hleft
          (parseComparisonLoop_step l2 ho h (by rw [e3]; exact hBa)
            (parseComparisonLoop_exit _ (hend _))))
        (hend _))
    rcases List.mem_append.mp h with h | h
    · -- addition
      have hleft : Yields parseMultiplication P
          (Except.ok (ASTNode.PrefixExpr pp.value (ASTNode.VariableExpr a.value), P.skip 2)) :=
        parseMultiplication_of hA (parseMultiplicationLoop_exit _
          (atOperator_of_value l2 (not_mem_mul_of_mem_add h)))
      exact parseExpression_iff.mpr (parseAssignment_plain
        (parseComparison_of
          (parseAddition_of hleft
            (parseAdditionLoop_step l2 ho h (by rw [e3]; exact hBm)
              (parseAdditionLoop_exit _ (hend _))))
          (parseComparisonLoop_exit _ (hend _)))
        (hend _))
    · -- multiplication
      exact parseExpression_of_multiplication
        (parseMultiplication_of hA
          (parseMultiplicationLoop_step l2 ho h (by rw [e3]; exact hB)
            (parseMultiplicationLoop_exit _ (hend _))))
        (hend _) (hend _) (hend _)
  · intro P pp2 more hP hpp2 hpp2v hmore
    obtain ⟨l0, r1⟩ := rest_cons hP
    obtain ⟨l1, r2⟩ := rest_cons r1
    rw [skip_skip] at r2
    obtain ⟨l2, r3⟩ := rest_cons r2
    rw [skip_skip] at r3
    have e3 : (P.skip 2).skip 1 = P.skip 3 := skip_skip P 2 1
    have e2 : (P.skip 1).skip 1 = P.skip 2 := skip_skip P 1 1
    have hend : ∀ ops, (P.skip 3).atOperator ops = false :=
      fun ops => atOperator_false_of_rest r3 (fun t ht h => absurd h (hmore t ht).1)
    have hprim : Yields parseUnary (P.skip 2)
        (Except.ok (ASTNode.VariableExpr a.value, P.skip 3)) := by
      refine parseUnary_primary (atOperator_of_type l2 (by simp [ha])) ?_
      rw [← e3]
      refine parsePrimary_variable l2 ha ?_ (by rw [e3]; exact hend _)
        (by rw [e3]; exact hend _) ?_
      · rw [e3]; exact atType_false_of_rest r3 (fun t ht => (hmore t ht).2.1)
      · rw [e3]; exact atType_false_of_rest r3 (fun t ht => (hmore t ht).2.2)
    have hin : Yields parseUnary (P.skip 1)
        (Except.ok (ASTNode.PrefixExpr pp2.value (ASTNode.VariableExpr a.value), P.skip 3)) :=
      parseUnary_prefixed l1 hpp2 hpp2v (by rw [e2]; exact hprim)
    exact parseExpression_of_multiplication
      (parseMultiplication_of (parseUnary_prefixed l0 hpp hppv hin)
        (parseMultiplicationLoop_exit _ (hend _)))
      (hend _) (hend _) (hend _)

theorem prefix_binds_tighter_witness :
    Yields parseExpression (Parser.new (tokenize ["++a+b"]))
      (Except.ok (ASTNode.BinaryExpr "+"
          (ASTNode.PrefixExpr "++" (ASTNode.VariableExpr "a")) (ASTNode.VariableExpr "b"),
        (Parser.new (tokenize ["++a+b"])).skip 4)) ∧
    Yields parseExpression (Parser.new (tokenize ["++a=b"]))
      (Except.ok (ASTNode.BinaryExpr "="
          (ASTNode.PrefixExpr "++" (ASTNode.VariableExpr "a")) (ASTNode.VariableExpr "b"),
        (Parser.new (tokenize ["++a=b"])).skip 4)) ∧
    Yields parseExpression (Parser.new (tokenize ["++ --a"]))
      (Except.ok (ASTNode.PrefixExpr "++"
          (ASTNode.PrefixExpr "--" (ASTNode.VariableExpr "a")),
        (Parser.new (tokenize ["++ --a"])).skip 3)) :=
  ⟨(prefix_binds_tighter ⟨TokenType._operator, 1, "++"⟩ ⟨TokenType.identifier, 1, "a"⟩
      (by rfl) (by decide) (by rfl)).1 (Parser.new (tokenize ["++a+b"]))
      ⟨TokenType._operator, 1, "+"⟩ ⟨TokenType.identifier, 1, "b"⟩ [] (by rfl) (by rfl)
      (by decide) (by rfl) (by simp),
    (prefix_binds_tighter ⟨TokenType._operator, 1, "++"⟩ ⟨TokenType.identifier, 1, "a"⟩
      (by rfl) (by decide) (by rfl)).1 (Parser.new (tokenize ["++a=b"]))
      ⟨TokenType._operator, 1, "="⟩ ⟨TokenType.identifier, 1, "b"⟩ [] (by rfl) (by rfl)
      (by decide) (by rfl) (by simp),
    (prefix_binds_tighter ⟨TokenType._operator, 1, "++"⟩ ⟨TokenType.identifier, 1, "a"⟩
      (by rfl) (by decide) (by rfl)).2 (Parser.new (tokenize ["++ --a"]))
      ⟨TokenType._operator, 1, "--"⟩ [] (by rfl) (by rfl) (by decide) (by simp)⟩

/-! ## Numeric literals -/

theorem tokenizeLine_number (ln : Int) (fuel : Nat) (c : Char) (cs rest : List Char)
    (acc : List Token) (hc : isdigit c = true) (hcs : ∀ x ∈ cs, isNumberChar x = true)
    (hr : ∀ x, rest.head? = some x → isNumberChar x = false) :
    tokenizeLine ln (fuel + 1) (c :: cs ++ rest) acc =
      tokenizeLine ln fuel rest
        (acc ++ [{ type := TokenType.int_lit, line := ln, value := String.mk (c :: cs) }]) := by
  have hall : ∀ x ∈ c :: cs, isNumberChar x = true := by
    intro x hx
    rcases List.mem_cons.mp hx with rfl | hx
    · exact isNumberChar_of_isdigit hc
    · exact hcs x hx
  obtain ⟨h1, h2⟩ := takeWhile_run isNumberChar (c :: cs) rest hall hr
  have hs : isspace c = false := isspace_of_isNumberChar (isNumberChar_of_isdigit hc)
  have ha : isalpha c = false := by
    simp only [isdigit, isalpha] at hc ⊢
    simp only [Bool.and_eq_true, decide_eq_true_eq] at hc
    simp
    omega
  rw [List.cons_append] at h1 h2 ⊢
  simp only [tokenizeLine, hs, ha, hc, h1, h2]
  simp

/-- C23. A numeric literal is the maximal run of digits and `.` that starts
at a digit. For every line that starts with a digit `c` followed by characters
`cs` that are digits or `.`, and then ends or goes on with a character that is
neither (the characters `rest`), the first token is a single `int_lit` token
whose text is `c cs`, on line 1, and the tokens after it are those of `rest`.
The malformed `1.2.3` is one `int_lit` token with the text `1.2.3`, also inside
`x = 1.2.3;`. -/
theorem number_is_maximal_run (c : Char) (cs rest : List Char)
    (hc : isdigit c = true) (hcs : ∀ x ∈ cs, isdigit x = true ∨ x = '.')
    (hr : ∀ x, rest.head? = some x → isdigit x = false ∧ x ≠ '.') :
    tokenize [String.mk (c :: cs ++ rest)] =
      { type := TokenType.int_lit, line := 1, value := String.mk (c :: cs) } ::
        tokenize [String.mk rest] ∧
    tokenize ["1.2.3"] = [{ type := TokenType.int_lit, line := 1, value := "1.2.3" }] ∧
    tokenize ["x = 1.2.3;"] =
      [{ type := TokenType.identifier, line := 1, value := "x" },
        { type := TokenType._operator, line := 1, value := "=" },
        { type := TokenType.int_lit, line := 1, value := "1.2.3" },
        { type := TokenType.semicolon, line := 1, value := ";" }] := by
  refine ⟨?_, by decide, by decide⟩
  have hcs' : ∀ x ∈ cs, isNumberChar x = true := by
    intro x hx
    rcases hcs x hx with h | h
    · simp [isNumberChar, h]
    · simp [isNumberChar, h]
  have hr' : ∀ x, rest.head? = some x → isNumberChar x = false := by
    intro x hx
    obtain ⟨h1, h2⟩ := hr x hx
    simp [isNumberChar, h1, h2]
  rw [tokenize_single, tokenize_single]
  have hlen : (c :: cs ++ rest).length = (cs.length + rest.length) + 1 := by
    simp only [List.cons_append, List.length_cons, List.length_append]
  rw [hlen, tokenizeLine_number 1 _ c cs rest [] hc hcs' hr', tokenizeLine_acc,
    tokenizeLine_enough 1 rest [] _ (by omega)]
  rfl

theorem number_is_maximal_run_witness :
    tokenize ["12.5.+x"] =
      [{ type := TokenType.int_lit, line := 1, value := "12.5." },
        { type := TokenType._operator, line := 1, value := "+" },
        { type := TokenType.identifier, line := 1, value := "x" }] :=
  (number_is_maximal_run '1' ['2', '.', '5', '.'] ['+', 'x'] (by decide) (by decide)
    (by decide)).1

theorem foldl_decimal (d : List Char) :
    d.foldl (fun acc c => 10 * acc + (c.toNat - 48)) 0 = decimalValue d := by
  induction d using List.reverseRecOn with
  | nil => rfl
  | append_singleton l x ih =>
    rw [List.foldl_append, List.foldl_cons, List.foldl_nil, ih]
    simp only [decimalValue, List.reverse_append, List.reverse_singleton, List.singleton_append,
      List.map_cons, Nat.ofDigits_cons, digitValue]
    have : '0'.toNat = 48 := rfl
    rw [this]
    omega

theorem stoi_digits (c : Char) (cs r : List Char) (hc : isdigit c = true)
    (hcs : ∀ x ∈ cs, isdigit x = true) (hr : ∀ x, r.head? = some x → isdigit x = false) :
    stoi (String.mk (c :: cs ++ r)) =
      if decimalValue (c :: cs) ≤ 2147483647 then Except.ok (decimalValue (c :: cs) : Int)
      else Except.error (Failure.out_of_range "stoi") := by
  have hs : isspace c = false := isspace_of_isNumberChar (isNumberChar_of_isdigit hc)
  have hminus : c ≠ '-' := by rintro rfl; exact absurd hc (by decide)
  have hplus : c ≠ '+' := by rintro rfl; exact absurd hc (by decide)
  have hall : ∀ x ∈ c :: cs, isdigit x = true := by
    intro x hx
    rcases List.mem_cons.mp hx with rfl | hx
    · exact hc
    · exact hcs x hx
  obtain ⟨h1, _⟩ := takeWhile_run isdigit (c :: cs) r hall hr
  rw [List.cons_append] at h1
  have hd : (c :: (cs ++ r)).dropWhile isspace = c :: (cs ++ r) := by
    rw [List.dropWhile_cons_of_neg (by simp [hs])]
  have hm : (some c == some '-') = false := by simp [hminus]
  have hp : (some c == some '+') = false := by simp [hplus]
  simp only [stoi, List.cons_append, hd, List.head?_cons, hm, hp, Bool.or_self,
    Bool.false_eq_true, if_false, h1, List.isEmpty_cons, foldl_decimal]
  by_cases hv : decimalValue (c :: cs) ≤ 2147483647
  · rw [if_pos hv, if_neg (by omega)]
  · rw [if_neg hv, if_pos (by omega)]

theorem parsePrimary_literal_error {p : Parser} {t : Token} {e : Failure} (h : p.look = some t)
    (ht : t.type = TokenType.int_lit) (hv : stoi t.value = Except.error e) :
    Yields parsePrimary p (Except.error (e, p.skip 1)) := by
  refine ⟨1, fun m hm => ?_⟩
  obtain ⟨m, rfl⟩ : ∃ k, m = k + 1 := ⟨m - 1, by omega⟩
  rw [parsePrimary]
  have hp := previous_skip p 0
  simp only [skip_zero, h] at hp
  simp [bind_apply, match_apply, h, ht, hp, hv, liftExcept_error]

/-- C28. The value of a literal node is the decimal value of the leading
digit run of the token's text. Let the primary parser stand at an `int_lit`
token whose text is `c cs r`, where `c cs` is a non-empty run of digits (every
`int_lit` token of the lexer starts with a digit) and `r` is empty or starts
with a character that is not a digit. If the decimal value of `c cs` is at most
2147483647, the result is `LiteralExpr` of that value and `r` is dropped; if it
is larger, the parse fails with the `std::out_of_range` of `std::stoi`. The
texts `1.2.3` and `1.9` both give `LiteralExpr 1`, and `2147483648` fails. -/
theorem literal_value_is_leading_digits (p : Parser) (t : Token) (c : Char) (cs r : List Char)
    (hp : p.look = some t) (ht : t.type = TokenType.int_lit)
    (htext : t.value = String.mk (c :: cs ++ r))
    (hc : isdigit c = true) (hcs : ∀ x ∈ cs, isdigit x = true)
    (hr : ∀ x, r.head? = some x → isdigit x = false) :
    (decimalValue (c :: cs) ≤ 2147483647 →
      Yields parsePrimary p
        (Except.ok (ASTNode.LiteralExpr (decimalValue (c :: cs) : Int), p.skip 1))) ∧
    (2147483647 < decimalValue (c :: cs) →
      Yields parsePrimary p (Except.error (Failure.out_of_range "stoi", p.skip 1))) ∧
    stoi "1.2.3" = Except.ok 1 ∧ stoi "1.9" = Except.ok 1 ∧
    stoi "2147483647" = Except.ok 2147483647 ∧
    stoi "2147483648" = Except.error (Failure.out_of_range "stoi") := by
  have hstoi := stoi_digits c cs r hc hcs hr
  rw [← htext] at hstoi
  refine ⟨fun hv => ?_, fun hv => ?_, by rfl, by rfl, by rfl, by rfl⟩
  · rw [if_pos hv] at hstoi
    exact parsePrimary_literal hp ht hstoi
  · rw [if_neg (by omega)] at hstoi
    exact parsePrimary_literal_error hp ht hstoi

theorem literal_value_is_leading_digits_witness :
    Yields parsePrimary (Parser.new (tokenize ["1.2.3"]))
      (Except.ok (ASTNode.LiteralExpr 1, (Parser.new (tokenize ["1.2.3"])).skip 1)) ∧
    Yields parsePrimary (Parser.new (tokenize ["4294967296.5"]))
      (Except.error (Failure.out_of_range "stoi",
        (Parser.new (tokenize ["4294967296.5"])).skip 1)) :=
  ⟨(literal_value_is_leading_digits (Parser.new (tokenize ["1.2.3"]))
      ⟨TokenType.int_lit, 1, "1.2.3"⟩ '1' [] ['.', '2', '.', '3'] (by rfl) (by rfl) (by rfl)
      (by decide) (by decide) (by decide)).1 (by decide),
    (literal_value_is_leading_digits (Parser.new (tokenize ["4294967296.5"]))
      ⟨TokenType.int_lit, 1, "4294967296.5"⟩ '4' ['2', '9', '4', '9', '6', '7', '2', '9', '6']
      ['.', '5'] (by rfl) (by rfl) (by rfl)
      (by decide) (by decide) (by decide)).2.1 (by decide)⟩

/-! ## Class fields: unknown types and repeated names -/

theorem foldl_addField_eq (fields : List FieldDecl) : ∀ (st : StructType),
    fields.foldl (fun s f => s.addField f.name.value (Type_.PrimitiveType f.type.value)) st =
      { name := st.name, fields := declareFields st.fields fields } := by
  induction fields with
  | nil => intro st; rfl
  | cons f fields ih =>
    intro st
    rw [List.foldl_cons, ih]
    rfl

theorem parseClass_of_fields (P : Parser) (kw name ob cb : Token) (fields : List FieldDecl)
    (more : List Token)
    (hP : P.rest = kw :: name :: ob :: (classBodyTokens fields ++ cb :: more))
    (hkw : kw.type = TokenType.identifier) (hob : ob.type = TokenType.o_brace)
    (hcb : cb.type = TokenType.c_brace)
    (hf : ∀ f ∈ fields, f.type.type = TokenType.identifier ∧
      f.name.type = TokenType.identifier ∧ f.semi.type = TokenType.semicolon) :
    Yields parseClass P
      (Except.ok (ASTNode.ClassDecl name.value
          { name := name.value, fields := declareFields [] fields },
        (P.withType name.value).skip (3 * fields.length + 4))) := by
  obtain ⟨l0, r1⟩ := rest_cons hP
  obtain ⟨l1, r2⟩ := rest_cons r1
  obtain ⟨l2, r3⟩ := rest_cons r2
  have r3' : ((((P.skip 1).skip 1).withType name.value).skip 1).rest =
      classBodyTokens fields ++ cb :: more := by
    rw [withType_skip, withType_rest]; exact r3
  have hloop := parseClassFieldLoop_fields cb more hcb fields
    ((((P.skip 1).skip 1).withType name.value).skip 1) { name := name.value } r3' hf
  rw [foldl_addField_eq] at hloop
  have r4 := rest_append (classBodyTokens fields) r3'
  rw [classBodyTokens_length] at r4
  obtain ⟨l3, _⟩ := rest_cons r4
  have efin : (((((P.skip 1).skip 1).withType name.value).skip 1).skip (3 * fields.length)).skip 1 =
      (P.withType name.value).skip (3 * fields.length + 4) := by
    simp only [Parser.skip, Parser.withType]
    congr 1
    omega
  obtain ⟨n, hn⟩ := hloop
  refine ⟨n, fun m hm => ?_⟩
  simp only [] at hn
  unfold parseClass
  simp [bind_apply, check_at, atType_true_of_look l0 hkw, advance_apply, l0, l1,
    registerType_apply, consume_apply, withType_look, l2, hob, hn m hm, l3, hcb,
    pure_apply, efin]

theorem lookup_replace {β : Type} (key : String) (value : β) (x : String) :
    ∀ (m : List (String × β)),
    (m.map (fun e => if e.1 = key then (key, value) else e)).lookup x =
      if x = key then (if key ∈ m.map Prod.fst then some value else none)
      else m.lookup x := by
  intro m
  induction m with
  | nil => simp
  | cons e m ih =>
    obtain ⟨k, b⟩ := e
    by_cases hk : k = key
    · by_cases hx : x = key
      · subst hk; subst hx; simp [List.lookup_cons]
      · subst hk
        have hne : (x == k) = false := by simpa using hx
        rw [if_neg hx] at ih
        simp [List.lookup_cons, hne, ih, hx]
    · by_cases hx : x = key
      · subst hx
        have hne : (x == k) = false := by simpa using fun h => hk h.symm
        have hk' : ¬ x = k := fun h => hk h.symm
        rw [if_pos rfl] at ih
        have e : (x ∈ ((k, b) :: m).map Prod.fst) ↔ x ∈ m.map Prod.fst := by
          simp [hk']
        rw [if_pos rfl, if_congr e rfl rfl, ← ih]
        simp [List.lookup_cons, hne, hk]
      · rw [if_neg hx] at ih
        simp only [List.map_cons, hk, if_false, List.lookup_cons, ih, hx]

theorem lookup_append_new {β : Type} (key : String) (value : β) (x : String) :
    ∀ (m : List (String × β)),
    (m ++ [(key, value)]).lookup x =
      match m.lookup x with
      | some v => some v
      | none => if x = key then some value else none := by
  intro m
  induction m with
  | nil =>
    by_cases hx : x = key
    · simp [List.lookup_cons, hx]
    · have hne : (x == key) = false := by simpa using hx
      simp [List.lookup_cons, hne, hx]
  | cons e m ih =>
    obtain ⟨k, b⟩ := e
    simp only [List.cons_append, List.lookup_cons]
    cases hxk : x == k with
    | true => rfl
    | false => exact ih

theorem lookup_none_of_not_mem {β : Type} (x : String) : ∀ (m : List (String × β)),
    x ∉ m.map Prod.fst → m.lookup x = none := by
  intro m
  induction m with
  | nil => intro _; rfl
  | cons e m ih =>
    obtain ⟨k, b⟩ := e
    intro h
    simp only [List.map_cons, List.mem_cons, not_or] at h
    have hne : (x == k) = false := by simpa using h.1
    simp only [List.lookup_cons, hne]
    exact ih h.2

theorem mapAssign_lookup {β : Type} (m : List (String × β)) (key : String) (value : β)
    (x : String) :
    (mapAssign m key value).lookup x = if x = key then some value else m.lookup x := by
  unfold mapAssign
  have hiff : m.any (fun e => e.1 == key) = true ↔ key ∈ m.map Prod.fst := by
    simp only [List.any_eq_true, beq_iff_eq, List.mem_map]
  by_cases hmem : key ∈ m.map Prod.fst
  · rw [if_pos (hiff.mpr hmem)]
    simp only [beq_iff_eq]
    rw [lookup_replace, if_pos hmem]
  · rw [if_neg (fun h => hmem (hiff.mp h)), lookup_append_new]
    by_cases hx : x = key
    · subst hx
      rw [lookup_none_of_not_mem x m hmem]
    · rw [if_neg hx, if_neg hx]
      cases m.lookup x <;> rfl

theorem mapAssign_keys {β : Type} (m : List (String × β)) (key : String) (value : β) :
    (mapAssign m key value).map Prod.fst =
      if key ∈ m.map Prod.fst then m.map Prod.fst else m.map Prod.fst ++ [key] := by
  unfold mapAssign
  have hiff : m.any (fun e => e.1 == key) = true ↔ key ∈ m.map Prod.fst := by
    simp only [List.any_eq_true, beq_iff_eq, List.mem_map]
  by_cases h : key ∈ m.map Prod.fst
  · rw [if_pos (hiff.mpr h), if_pos h, List.map_map]
    apply List.map_congr_left
    intro e _
    by_cases he : e.1 = key
    · simp [he]
    · simp [he]
  · rw [if_neg (fun h' => h (hiff.mp h')), if_neg h]
    simp

theorem declareFields_keys : ∀ (fields : List FieldDecl) (m : List (String × Type_)),
    (m.map Prod.fst).Nodup →
    ((declareFields m fields).map Prod.fst).Nodup ∧
    ∀ x, x ∈ (declareFields m fields).map Prod.fst ↔
      x ∈ m.map Prod.fst ∨ x ∈ fields.map (fun f => f.name.value) := by
  intro fields
  induction fields with
  | nil => intro m hm; exact ⟨hm, fun x => by simp [declareFields]⟩
  | cons f fields ih =>
    intro m hm
    have hk := mapAssign_keys m f.name.value (Type_.PrimitiveType f.type.value)
    have hm' : ((mapAssign m f.name.value (Type_.PrimitiveType f.type.value)).map
        Prod.fst).Nodup := by
      rw [hk]
      split_ifs with h
      · exact hm
      · exact List.Nodup.append hm (List.nodup_singleton _) (by simpa using h)
    obtain ⟨h1, h2⟩ := ih _ hm'
    refine ⟨h1, fun x => ?_⟩
    have h2x := h2 x
    rw [hk] at h2x
    simp only [declareFields, List.foldl_cons, List.map_cons, List.mem_cons] at h2x ⊢
    rw [h2x]
    split_ifs with h
    · constructor
      · rintro (h' | h')
        · exact Or.inl h'
        · exact Or.inr (Or.inr h')
      · rintro (h' | h' | h')
        · exact Or.inl h'
        · exact Or.inl (h' ▸ h)
        · exact Or.inr h'
    · simp only [List.mem_append, List.mem_singleton]
      tauto

theorem lastDeclared_cons (f : FieldDecl) (fields : List FieldDecl) (x : String) :
    lastDeclared (f :: fields) x =
      match lastDeclared fields x with
      | some v => some v
      | none => if x = f.name.value then some (Type_.PrimitiveType f.type.value) else none := by
  simp only [lastDeclared, List.reverse_cons, List.find?_append]
  cases h : fields.reverse.find? (fun g => g.name.value == x) with
  | some g => simp
  | none =>
    by_cases hx : f.name.value = x
    · simp [hx]
    · have hx' : ¬ x = f.name.value := fun h => hx h.symm
      simp [hx, hx']

theorem declareFields_lookup : ∀ (fields : List FieldDecl) (m : List (String × Type_))
    (x : String),
    (declareFields m fields).lookup x =
      match lastDeclared fields x with
      | some v => some v
      | none => m.lookup x := by
  intro fields
  induction fields with
  | nil => intro m x; simp [declareFields, lastDeclared]
  | cons f fields ih =>
    intro m x
    have h := ih (mapAssign m f.name.value (Type_.PrimitiveType f.type.value)) x
    simp only [declareFields, List.foldl_cons] at h ⊢
    rw [h, lastDeclared_cons, mapAssign_lookup]
    cases lastDeclared fields x with
    | some v => rfl
    | none =>
      by_cases hx : x = f.name.value
      · simp [hx]
      · simp [hx]

theorem declareFields_length (fields : List FieldDecl) :
    (declareFields [] fields).length = (fields.map (fun f => f.name.value)).dedup.length := by
  obtain ⟨h1, h2⟩ := declareFields_keys fields [] (by simp)
  rw [← List.length_map (declareFields [] fields) Prod.fst, ← List.toFinset_card_of_nodup h1,
    ← List.card_toFinset]
  congr 1
  ext x
  simp only [List.mem_toFinset]
  rw [h2 x]
  simp

theorem lastDeclared_of_last (pre post : List FieldDecl) (f : FieldDecl)
    (h : ∀ g ∈ post, g.name.value ≠ f.name.value) :
    lastDeclared (pre ++ f :: post) f.name.value = some (Type_.PrimitiveType f.type.value) := by
  have hnone : post.reverse.find? (fun g => g.name.value == f.name.value) = none := by
    rw [List.find?_eq_none]
    intro g hg
    simpa using h g (List.mem_reverse.mp hg)
  simp [lastDeclared, List.find?_append, hnone]

theorem withType_skip_typeTable (p : Parser) (name : String) (k : Nat) :
    ((p.withType name).skip k).typeTable = emplace p.typeTable name := rfl

/-- C24. Class field types are not validated. For a class declaration
`class N { T1 f1; ... Tn fn; }` whose field types `Ti` are identifier tokens
with any text, in the type table or not, `parseClass` returns a `ClassDecl`
(no lookup of a `Ti` can make it fail); every field that is not declared again
further down is recorded as `primitive(Ti)`; and the type table afterwards is
the one before with `N` added, no `Ti` being entered. `class A { Bar b; }`
with `Bar` never declared yields the field `b` of type `primitive(Bar)`, and
`class Node { Node next; }` the field `next` of type `primitive(Node)`. -/
theorem class_field_types_not_validated (P : Parser) (kw name ob cb : Token)
    (fields : List FieldDecl) (more : List Token)
    (hP : P.rest = kw :: name :: ob :: (classBodyTokens fields ++ cb :: more))
    (hkw : kw.type = TokenType.identifier) (hob : ob.type = TokenType.o_brace)
    (hcb : cb.type = TokenType.c_brace)
    (hf : ∀ f ∈ fields, f.type.type = TokenType.identifier ∧
      f.name.type = TokenType.identifier ∧ f.semi.type = TokenType.semicolon) :
    Yields parseClass P
      (Except.ok (ASTNode.ClassDecl name.value
          { name := name.value, fields := declareFields [] fields },
        (P.withType name.value).skip (3 * fields.length + 4))) ∧
    (∀ (pre post : List FieldDecl) (f : FieldDecl), fields = pre ++ f :: post →
      (∀ g ∈ post, g.name.value ≠ f.name.value) →
      (declareFields [] fields).lookup f.name.value =
        some (Type_.PrimitiveType f.type.value)) ∧
    ((P.withType name.value).skip (3 * fields.length + 4)).typeTable =
      emplace P.typeTable name.value ∧
    Yields parseClass (Parser.new (tokenize ["class A \x7b Bar b; \x7d"]))
      (Except.ok (ASTNode.ClassDecl "A"
          { name := "A", fields := [("b", Type_.PrimitiveType "Bar")] },
        ((Parser.new (tokenize ["class A \x7b Bar b; \x7d"])).withType "A").skip 7)) ∧
    "Bar" ∉ (((Parser.new (tokenize ["class A \x7b Bar b; \x7d"])).withType "A").skip
      7).typeTable ∧
    Yields parseClass (Parser.new (tokenize ["class Node \x7b Node next; \x7d"]))
      (Except.ok (ASTNode.ClassDecl "Node"
          { name := "Node", fields := [("next", Type_.PrimitiveType "Node")] },
        ((Parser.new (tokenize ["class Node \x7b Node next; \x7d"])).withType "Node").skip
          7)) := by
  refine ⟨parseClass_of_fields P kw name ob cb fields more hP hkw hob hcb hf, ?_,
    withType_skip_typeTable _ _ _, yields_parseClass 10 (by rfl) (outOfFuel_ok _), by decide,
    yields_parseClass 10 (by rfl) (outOfFuel_ok _)⟩
  intro pre post f hfields hlast
  rw [declareFields_lookup, hfields, lastDeclared_of_last pre post f hlast]

theorem class_field_types_not_validated_witness :
    Yields parseClass (Parser.new (tokenize ["class A \x7b Bar b; A next; \x7d"]))
      (Except.ok (ASTNode.ClassDecl "A"
          { name := "A", fields := [("b", Type_.PrimitiveType "Bar"),
              ("next", Type_.PrimitiveType "A")] },
        ((Parser.new (tokenize ["class A \x7b Bar b; A next; \x7d"])).withType "A").skip
          10)) :=
  (class_field_types_not_validated (Parser.new (tokenize ["class A \x7b Bar b; A next; \x7d"]))
    ⟨TokenType.identifier, 1, "class"⟩ ⟨TokenType.identifier, 1, "A"⟩
    ⟨TokenType.o_brace, 1, "\x7b"⟩ ⟨TokenType.c_brace, 1, "\x7d"⟩
    [⟨⟨TokenType.identifier, 1, "Bar"⟩, ⟨TokenType.identifier, 1, "b"⟩,
        ⟨TokenType.semicolon, 1, ";"⟩⟩,
      ⟨⟨TokenType.identifier, 1, "A"⟩, ⟨TokenType.identifier, 1, "next"⟩,
        ⟨TokenType.semicolon, 1, ";"⟩⟩]
    [] (by rfl) (by rfl) (by rfl) (by rfl) (by decide)).1

/-- C29. Field names of a struct descriptor stay unique by overwriting. For a
class declaration `class N { T1 f1; ... Tn fn; }` in which field names may be
repeated, `parseClass` returns a `ClassDecl` without error; the descriptor has
no field name twice, its field names are exactly the declared names, the type
of each name is `primitive(T)` for the last declaration `T f` of that name, and
the number of fields is the number of distinct declared names.
`class A { float x; void x; }` yields the single field `x` of type
`primitive(void)`. -/
theorem duplicate_fields_overwrite (P : Parser) (kw name ob cb : Token)
    (fields : List FieldDecl) (more : List Token)
    (hP : P.rest = kw :: name :: ob :: (classBodyTokens fields ++ cb :: more))
    (hkw : kw.type = TokenType.identifier) (hob : ob.type = TokenType.o_brace)
    (hcb : cb.type = TokenType.c_brace)
    (hf : ∀ f ∈ fields, f.type.type = TokenType.identifier ∧
      f.name.type = TokenType.identifier ∧ f.semi.type = TokenType.semicolon) :
    Yields parseClass P
      (Except.ok (ASTNode.ClassDecl name.value
          { name := name.value, fields := declareFields [] fields },
        (P.withType name.value).skip (3 * fields.length + 4))) ∧
    ((declareFields [] fields).map Prod.fst).Nodup ∧
    (∀ x, x ∈ (declareFields [] fields).map Prod.fst ↔
      x ∈ fields.map (fun f => f.name.value)) ∧
    (∀ x, (declareFields [] fields).lookup x = lastDeclared fields x) ∧
    (declareFields [] fields).length = (fields.map (fun f => f.name.value)).dedup.length ∧
    Yields parseClass (Parser.new (tokenize ["class A \x7b float x; void x; \x7d"]))
      (Except.ok (ASTNode.ClassDecl "A"
          { name := "A", fields := [("x", Type_.PrimitiveType "void")] },
        ((Parser.new (tokenize ["class A \x7b float x; void x; \x7d"])).withType "A").skip
          10)) := by
  obtain ⟨h1, h2⟩ := declareFields_keys fields [] (by simp)
  refine ⟨parseClass_of_fields P kw name ob cb fields more hP hkw hob hcb hf, h1,
    fun x => by simpa using h2 x, fun x => ?_, declareFields_length fields, ?_⟩
  · rw [declareFields_lookup]
    cases lastDeclared fields x <;> rfl
  · exact parseClass_of_fields (Parser.new (tokenize ["class A \x7b float x; void x; \x7d"]))
      ⟨TokenType.identifier, 1, "class"⟩ ⟨TokenType.identifier, 1, "A"⟩
      ⟨TokenType.o_brace, 1, "\x7b"⟩ ⟨TokenType.c_brace, 1, "\x7d"⟩
      [⟨⟨TokenType.identifier, 1, "float"⟩, ⟨TokenType.identifier, 1, "x"⟩,
          ⟨TokenType.semicolon, 1, ";"⟩⟩,
        ⟨⟨TokenType.identifier, 1, "void"⟩, ⟨TokenType.identifier, 1, "x"⟩,
          ⟨TokenType.semicolon, 1, ";"⟩⟩]
      [] (by rfl) (by rfl) (by rfl) (by rfl) (by decide)

theorem duplicate_fields_overwrite_witness :
    Yields parseClass
      (Parser.new (tokenize ["class B \x7b float x; float y; void x; \x7d"]))
      (Except.ok (ASTNode.ClassDecl "B"
          { name := "B", fields := [("x", Type_.PrimitiveType "void"),
              ("y", Type_.PrimitiveType "float")] },
        ((Parser.new (tokenize ["class B \x7b float x; float y; void x; \x7d"])).withType
          "B").skip 13)) :=
  (duplicate_fields_overwrite
    (Parser.new (tokenize ["class B \x7b float x; float y; void x; \x7d"]))
    ⟨TokenType.identifier, 1, "class"⟩ ⟨TokenType.identifier, 1, "B"⟩
    ⟨TokenType.o_brace, 1, "\x7b"⟩ ⟨TokenType.c_brace, 1, "\x7d"⟩
    [⟨⟨TokenType.identifier, 1, "float"⟩, ⟨TokenType.identifier, 1, "x"⟩,
        ⟨TokenType.semicolon, 1, ";"⟩⟩,
      ⟨⟨TokenType.identifier, 1, "float"⟩, ⟨TokenType.identifier, 1, "y"⟩,
        ⟨TokenType.semicolon, 1, ";"⟩⟩,
      ⟨⟨TokenType.identifier, 1, "void"⟩, ⟨TokenType.identifier, 1, "x"⟩,
        ⟨TokenType.semicolon, 1, ";"⟩⟩]
    [] (by rfl) (by rfl) (by rfl) (by rfl) (by decide)).1

/-! ## Termination -/

theorem unread_mono {ts : List Token} {r r' : Nat} {p : Parser} (h : Unread ts r p)
    (hr : r ≤ r') : Unread ts r' p :=
  ⟨h.1, le_trans h.2 hr⟩

theorem triple_bind {α β : Type} {P : Parser → Prop} {m : ParserM α} {f : α → ParserM β}
    {Q : α → Parser → Prop} {R : β → Parser → Prop}
    (h1 : Triple P m Q) (h2 : ∀ a, Triple (Q a) (f a) R) : Triple P (m >>= f) R := by
  constructor
  · intro p hp hof
    rw [bind_apply] at hof
    cases hm : m p with
    | error e =>
      rw [hm] at hof
      have he : e.1 = Failure.out_of_fuel := (outOfFuel_error e).mp hof
      exact h1.safe p hp (by rw [hm]; exact (outOfFuel_error e).mpr he)
    | ok v =>
      obtain ⟨a, q⟩ := v
      rw [hm] at hof
      exact (h2 a).safe q (h1.post p a q hp hm) hof
  · intro p b q hp hb
    obtain ⟨a, p', hm, hf⟩ := bind_ok hb
    exact (h2 a).post p' b q (h1.post p a p' hp hm) hf

theorem triple_pure {α : Type} {P : Parser → Prop} {Q : α → Parser → Prop} {a : α}
    (h : ∀ p, P p → Q a p) : Triple P (pure a : ParserM α) Q := by
  constructor
  · intro p _
    rw [pure_apply]
    exact outOfFuel_ok _
  · intro p b q hp hb
    rw [pure_apply] at hb
    simp only [Except.ok.injEq, Prod.mk.injEq] at hb
    rw [← hb.1, ← hb.2]
    exact h p hp

theorem triple_unit {α : Type} {P : Parser → Prop} (a : α) :
    Triple P (pure a : ParserM α) (fun _ => P) :=
  triple_pure (fun _ hp => hp)

theorem triple_throw {α : Type} {P : Parser → Prop} {Q : α → Parser → Prop} (msg : String) :
    Triple P (fail (Failure.runtime_error msg) : ParserM α) Q := by
  constructor
  · intro p _
    rw [fail_apply]
    simp [outOfFuel_error]
  · intro p b q _ hb
    rw [fail_apply] at hb
    simp at hb

theorem triple_ite {α : Type} {P : Parser → Prop} {Q : α → Parser → Prop} {c : Prop}
    [Decidable c] {a b : ParserM α} (h1 : Triple P a Q) (h2 : Triple P b Q) :
    Triple P (if c then a else b) Q := by
  by_cases h : c
  · rw [if_pos h]; exact h1
  · rw [if_neg h]; exact h2

theorem triple_ite_pos {α : Type} {P : Parser → Prop} {Q : α → Parser → Prop} {c : Prop}
    [Decidable c] {a b : ParserM α} (hc : c) (h1 : Triple P a Q) :
    Triple P (if c then a else b) Q := by
  rw [if_pos hc]; exact h1

theorem triple_ite_neg {α : Type} {P : Parser → Prop} {Q : α → Parser → Prop} {c : Prop}
    [Decidable c] {a b : ParserM α} (hc : ¬ c) (h2 : Triple P b Q) :
    Triple P (if c then a else b) Q := by
  rw [if_neg hc]; exact h2

/-- A call that returns in the state it was called in, or fails otherwise than
by exhausting the fuel. -/
theorem triple_still {α : Type} {P : Parser → Prop} {m : ParserM α}
    (h : ∀ p, (∃ a, m p = Except.ok (a, p)) ∨
      ∃ e, m p = Except.error (e, p) ∧ e ≠ Failure.out_of_fuel) :
    Triple P m (fun _ => P) := by
  constructor
  · intro p _
    rcases h p with ⟨a, ha⟩ | ⟨e, he, hne⟩
    · rw [ha]; exact outOfFuel_ok _
    · rw [he, outOfFuel_error]; exact hne
  · intro p a q hp ha
    rcases h p with ⟨a', ha'⟩ | ⟨e, he, _⟩
    · rw [ha'] at ha
      simp only [Except.ok.injEq, Prod.mk.injEq] at ha
      rw [← ha.2]; exact hp
    · rw [he] at ha; simp at ha

theorem triple_check {P : Parser → Prop} (ty : TokenType) : Triple P (check ty) (fun _ => P) :=
  triple_still (fun p => Or.inl ⟨_, check_at ty p⟩)

theorem triple_checkOperator {P : Parser → Prop} (ops : List String) :
    Triple P (checkOperator ops) (fun _ => P) :=
  triple_still (fun p => Or.inl ⟨_, checkOperator_at ops p⟩)

theorem triple_isAtEnd {P : Parser → Prop} : Triple P isAtEnd (fun _ => P) :=
  triple_still (fun p => Or.inl ⟨_, isAtEnd_apply p⟩)

theorem triple_inTypeTable {P : Parser → Prop} (name : String) :
    Triple P (inTypeTable name) (fun _ => P) :=
  triple_still (fun p => Or.inl ⟨_, inTypeTable_apply name p⟩)

theorem triple_tokenAt {P : Parser → Prop} (i : Nat) : Triple P (tokenAt i) (fun _ => P) :=
  triple_still (fun p => by
    unfold tokenAt
    cases p.tokens[i]? with
    | some t => exact Or.inl ⟨t, rfl⟩
    | none => exact Or.inr ⟨_, rfl, by simp⟩)

theorem triple_peek {P : Parser → Prop} : Triple P peek (fun _ => P) :=
  ⟨fun p hp => (triple_tokenAt p.current).safe p hp,
    fun p a q hp h => (triple_tokenAt p.current).post p a q hp h⟩

theorem triple_previous {P : Parser → Prop} : Triple P previous (fun _ => P) :=
  ⟨fun p hp => (triple_tokenAt _).safe p hp,
    fun p a q hp h => (triple_tokenAt _).post p a q hp h⟩

theorem stoi_ne_out_of_fuel (s : String) : stoi s ≠ Except.error Failure.out_of_fuel := by
  unfold stoi
  simp only []
  split_ifs <;> simp

theorem triple_stoi {P : Parser → Prop} (s : String) :
    Triple P (liftExcept (stoi s)) (fun _ => P) :=
  triple_still (fun p => by
    cases h : stoi s with
    | ok v => exact Or.inl ⟨v, rfl⟩
    | error e =>
      refine Or.inr ⟨e, rfl, ?_⟩
      rintro rfl
      exact stoi_ne_out_of_fuel s h)

theorem unread_skip {ts : List Token} {r : Nat} {p : Parser} {t : Token}
    (hp : Unread ts r p) (h : p.look = some t) : Read ts r 1 (p.skip 1) := by
  obtain ⟨h1, h2⟩ := hp
  have hlt : p.current < p.tokens.length := by
    by_contra hge
    rw [Parser.look, List.getElem?_eq_none (by omega)] at h
    simp at h
  rw [h1] at hlt
  refine ⟨by omega, h1, ?_⟩
  rw [skip_current]
  omega

theorem triple_advance {ts : List Token} {r : Nat} :
    Triple (Unread ts r) advance (fun _ => Read ts r 1) := by
  constructor
  · intro p _
    rw [advance_apply]
    cases p.look with
    | some t => exact outOfFuel_ok _
    | none => simp [outOfFuel_error]
  · intro p a q hp h
    rw [advance_apply] at h
    cases hl : p.look with
    | some t =>
      rw [hl] at h
      simp only [Except.ok.injEq, Prod.mk.injEq] at h
      rw [← h.2]
      exact unread_skip hp hl
    | none => rw [hl] at h; simp at h

theorem triple_consume {ts : List Token} {r : Nat} (ty : TokenType) (msg : String) :
    Triple (Unread ts r) (consume ty msg) (fun _ => Read ts r 1) := by
  constructor
  · intro p _
    rw [consume_apply]
    cases p.look with
    | some t =>
      by_cases ht : t.type = ty
      · simp only [ht, if_true]; exact outOfFuel_ok _
      · simp [ht, outOfFuel_error]
    | none => simp [outOfFuel_error]
  · intro p a q hp h
    rw [consume_apply] at h
    cases hl : p.look with
    | some t =>
      rw [hl] at h
      by_cases ht : t.type = ty
      · simp only [ht, if_true, Except.ok.injEq, Prod.mk.injEq] at h
        rw [← h.2]
        exact unread_skip hp hl
      · simp [ht] at h
    | none => rw [hl] at h; simp at h

theorem triple_match {ts : List Token} {r : Nat} (ty : TokenType) :
    Triple (Unread ts r) (match_ ty)
      (fun b => if b = true then Read ts r 1 else Unread ts r) := by
  constructor
  · intro p _
    rw [match_apply]
    split_ifs <;> exact outOfFuel_ok _
  · intro p a q hp h
    rw [match_apply] at h
    cases hl : p.look with
    | none =>
      simp only [hl, Option.any_none, Bool.false_eq_true, if_false, Except.ok.injEq,
        Prod.mk.injEq] at h
      rw [← h.1, ← h.2]
      simpa using hp
    | some t =>
      by_cases ht : t.type = ty
      · simp only [hl, Option.any_some, ht, beq_self_eq_true, if_true, Except.ok.injEq,
          Prod.mk.injEq] at h
        rw [← h.1, ← h.2]
        simpa using unread_skip hp hl
      · have hb : (t.type == ty) = false := by simpa using ht
        simp only [hl, Option.any_some, hb, Bool.false_eq_true, if_false, Except.ok.injEq,
          Prod.mk.injEq] at h
        rw [← h.1, ← h.2]
        simpa using hp

/-- Sequencing after `match`: the continuation is checked once for each answer. -/
theorem triple_bind_match {β : Type} {ts : List Token} {r : Nat} (ty : TokenType)
    {f : Bool → ParserM β} {R : β → Parser → Prop}
    (hT : 1 ≤ r → Triple (Unread ts (r - 1)) (f true) R)
    (hF : Triple (Unread ts r) (f false) R) :
    Triple (Unread ts r) (match_ ty >>= f) R := by
  refine triple_bind (triple_match ty) (fun b => ?_)
  cases b with
  | true =>
    constructor
    · intro p hp
      have hp' : Read ts r 1 p := by simpa using hp
      exact (hT hp'.1).safe p hp'.2
    · intro p a q hp
      have hp' : Read ts r 1 p := by simpa using hp
      exact (hT hp'.1).post p a q hp'.2
  | false =>
    constructor
    · intro p hp
      exact hF.safe p (by simpa using hp)
    · intro p a q hp
      exact hF.post p a q (by simpa using hp)

/-- A precondition that tokens were read is used as a smaller bound. -/
theorem triple_read {α : Type} {ts : List Token} {r d : Nat} {m : ParserM α}
    {Q : α → Parser → Prop} (h : d ≤ r → Triple (Unread ts (r - d)) m Q) :
    Triple (Read ts r d) m Q :=
  ⟨fun p hp => (h hp.1).safe p hp.2, fun p a q hp => (h hp.1).post p a q hp.2⟩

/-- The last call of a body: its count of read tokens is carried over to the
bound of the caller. -/
theorem triple_tail {α : Type} {P : Parser → Prop} {ts : List Token} {r r' d d' : Nat}
    {m : ParserM α} (h : Triple P m (fun _ => Read ts r' d'))
    (hle : d' ≤ r' → d ≤ r ∧ r' - d' ≤ r - d) : Triple P m (fun _ => Read ts r d) := by
  constructor
  · exact h.safe
  · intro p a q hp ha
    obtain ⟨h1, h2⟩ := h.post p a q hp ha
    exact ⟨(hle h1).1, unread_mono h2 (hle h1).2⟩

theorem triple_return {α : Type} {ts : List Token} {r r' d : Nat} {a : α}
    (hle : d ≤ r ∧ r' ≤ r - d) :
    Triple (Unread ts r') (pure a : ParserM α) (fun _ => Read ts r d) :=
  triple_pure (fun _ hp => ⟨hle.1, unread_mono hp hle.2⟩)

theorem parseLoopControl_runs (ts : List Token) (r : Nat) :
    Triple (Unread ts r) parseLoopControl (fun _ => Read ts r 1) := by
  unfold parseLoopControl
  repeat (first
    | exact triple_return (by omega)
    | exact triple_throw _
    | (apply triple_read; intro _)
    | (refine triple_ite_pos (by decide) ?_)
    | (refine triple_ite_neg (by decide) ?_)
    | (refine triple_bind_match _ (fun _ => ?_) ?_)
    | (refine triple_bind (triple_consume _ _) fun _ => ?_))

theorem parsePrimaryFieldLoop_runs (n : Nat) : ∀ (node : ASTNode) (ts : List Token) (r : Nat),
    10 * r + 1 ≤ n →
    Triple (Unread ts r) (parsePrimaryFieldLoop n node) (fun _ => Read ts r 0) := by
  induction n with
  | zero => intro node ts r h; omega
  | succ n ih =>
    intro node ts r h
    rw [parsePrimaryFieldLoop]
    repeat (first
      | exact triple_return (by omega)
      | (apply triple_read; intro _)
      | apply triple_ite
      | (refine triple_bind (triple_checkOperator _) fun _ => ?_)
      | (refine triple_bind triple_advance fun _ => ?_)
      | (exact triple_tail (ih _ ts _ (by omega)) (by omega)))

theorem parsePrimaryPostfixLoop_runs (n : Nat) : ∀ (node : ASTNode) (ts : List Token) (r : Nat),
    10 * r + 1 ≤ n →
    Triple (Unread ts r) (parsePrimaryPostfixLoop n node) (fun _ => Read ts r 0) := by
  induction n with
  | zero => intro node ts r h; omega
  | succ n ih =>
    intro node ts r h
    rw [parsePrimaryPostfixLoop]
    repeat (first
      | exact triple_return (by omega)
      | (apply triple_read; intro _)
      | apply triple_ite
      | (refine triple_bind (triple_checkOperator _) fun _ => ?_)
      | (refine triple_bind triple_advance fun _ => ?_)
      | (refine triple_bind triple_previous fun _ => ?_)
      | (exact triple_tail (ih _ ts _ (by omega)) (by omega)))

theorem runsAt (n : Nat) : RunsAt n := by
  induction n with
  | zero =>
    constructor
    all_goals (intro ts r h; omega)
  | succ n ih =>
    constructor
    all_goals first | intro l ts r h | intro ts r h
    all_goals first
      | rw [parseStatement]
      | rw [parseExpression]
      | rw [parseAssignment]
      | rw [parseComparisonLoop]
      | rw [parseComparison]
      | rw [parseAdditionLoop]
      | rw [parseAddition]
      | rw [parseMultiplicationLoop]
      | rw [parseMultiplication]
      | rw [parseUnary]
      | rw [parsePrimaryIndexLoop]
      | rw [parsePrimaryArgumentLoop]
      | rw [parsePrimaryCallLoop]
      | rw [parsePrimary]
      | rw [parseCompoundLoop]
      | rw [parseCompound]
      | rw [parseIf]
      | rw [parseWhile]
      | rw [parseFor]
      | rw [parseExpressionStmt]
      | rw [parseReturn]
      | rw [parseDefinition]
    all_goals repeat (first
      | ((with_reducible refine triple_return ?_); omega)
      | (with_reducible exact triple_throw _)
      | (with_reducible apply triple_read; intro _)
      | ((with_reducible refine triple_ite_pos ?_ ?_); decide)
      | ((with_reducible refine triple_ite_neg ?_ ?_); decide)
      | (with_reducible apply triple_ite)
      | (with_reducible refine triple_bind_match _ (fun _ => ?_) ?_)
      | (with_reducible refine triple_bind (triple_check _) fun _ => ?_)
      | (with_reducible refine triple_bind (triple_checkOperator _) fun _ => ?_)
      | (with_reducible refine triple_bind triple_isAtEnd fun _ => ?_)
      | (with_reducible refine triple_bind triple_peek fun _ => ?_)
      | (with_reducible refine triple_bind triple_previous fun _ => ?_)
      | (with_reducible refine triple_bind (triple_inTypeTable _) fun _ => ?_)
      | (with_reducible refine triple_bind (triple_stoi _) fun _ => ?_)
      | (with_reducible refine triple_bind (triple_unit _) fun _ => ?_)
      | (with_reducible refine triple_bind triple_advance fun _ => ?_)
      | (with_reducible refine triple_bind (triple_consume _ _) fun _ => ?_)
      | ((with_reducible refine triple_tail (parseLoopControl_runs _ _) ?_); omega)
      | ((with_reducible refine triple_bind (parsePrimaryFieldLoop_runs n _ _ _ ?_) fun _ => ?_); omega)
      | ((with_reducible refine triple_bind (parsePrimaryPostfixLoop_runs n _ _ _ ?_) fun _ => ?_); omega)
      | ((with_reducible refine triple_bind (ih.parseStatement _ _ ?_) fun _ => ?_); omega)
      | ((with_reducible refine triple_bind (ih.parseExpression _ _ ?_) fun _ => ?_); omega)
      | ((with_reducible refine triple_bind (ih.parseAssignment _ _ ?_) fun _ => ?_); omega)
      | ((with_reducible refine triple_tail (ih.parseAssignment _ _ ?_) ?_); omega; omega)
      | ((with_reducible refine triple_tail (ih.parseComparisonLoop _ _ _ ?_) ?_); omega; omega)
      | ((with_reducible refine triple_bind (ih.parseComparison _ _ ?_) fun _ => ?_); omega)
      | ((with_reducible refine triple_tail (ih.parseAdditionLoop _ _ _ ?_) ?_); omega; omega)
      | ((with_reducible refine triple_bind (ih.parseAddition _ _ ?_) fun _ => ?_); omega)
      | ((with_reducible refine triple_tail (ih.parseMultiplicationLoop _ _ _ ?_) ?_); omega; omega)
      | ((with_reducible refine triple_bind (ih.parseMultiplication _ _ ?_) fun _ => ?_); omega)
      | ((with_reducible refine triple_bind (ih.parseUnary _ _ ?_) fun _ => ?_); omega)
      | ((with_reducible refine triple_bind (ih.parsePrimaryIndexLoop _ _ _ ?_) fun _ => ?_); omega)
      | ((with_reducible refine triple_tail (ih.parsePrimaryIndexLoop _ _ _ ?_) ?_); omega; omega)
      | ((with_reducible refine triple_bind (ih.parsePrimaryArgumentLoop _ _ _ ?_) fun _ => ?_); omega)
      | ((with_reducible refine triple_tail (ih.parsePrimaryArgumentLoop _ _ _ ?_) ?_); omega; omega)
      | ((with_reducible refine triple_bind (ih.parsePrimaryCallLoop _ _ _ ?_) fun _ => ?_); omega)
      | ((with_reducible refine triple_tail (ih.parsePrimaryCallLoop _ _ _ ?_) ?_); omega; omega)
      | ((with_reducible refine triple_tail (ih.parsePrimary _ _ ?_) ?_); omega; omega)
      | ((with_reducible refine triple_bind (ih.parseCompoundLoop _ _ _ ?_) fun _ => ?_); omega)
      | ((with_reducible refine triple_tail (ih.parseCompoundLoop _ _ _ ?_) ?_); omega; omega)
      | ((with_reducible refine triple_tail (ih.parseCompound _ _ ?_) ?_); omega; omega)
      | ((with_reducible refine triple_tail (ih.parseIf _ _ ?_) ?_); omega; omega)
      | ((with_reducible refine triple_tail (ih.parseWhile _ _ ?_) ?_); omega; omega)
      | ((with_reducible refine triple_tail (ih.parseFor _ _ ?_) ?_); omega; omega)
      | ((with_reducible refine triple_bind (ih.parseExpressionStmt _ _ ?_) fun _ => ?_); omega)
      | ((with_reducible refine triple_tail (ih.parseExpressionStmt _ _ ?_) ?_); omega; omega)
      | ((with_reducible refine triple_tail (ih.parseReturn _ _ ?_) ?_); omega; omega)
      | ((with_reducible refine triple_tail (ih.parseDefinition _ _ ?_) ?_); omega; omega))

theorem triple_registerType {ts : List Token} {r : Nat} (name : String) :
    Triple (Unread ts r) (registerType name) (fun _ => Unread ts r) := by
  constructor
  · intro p _
    rw [registerType_apply]
    exact outOfFuel_ok _
  · intro p a q hp h
    rw [registerType_apply] at h
    simp only [Except.ok.injEq, Prod.mk.injEq] at h
    rw [← h.2]
    exact hp

theorem parseFunctionParamLoop_runs (n : Nat) : ∀ (params : List (String × String))
    (ts : List Token) (r : Nat), 10 * r + 1 ≤ n →
    Triple (Unread ts r) (parseFunctionParamLoop n params) (fun _ => Read ts r 0) := by
  induction n with
  | zero => intro params ts r h; omega
  | succ n ih =>
    intro params ts r h
    rw [parseFunctionParamLoop]
    repeat (first
      | ((with_reducible refine triple_return ?_); omega)
      | (with_reducible exact triple_throw _)
      | (with_reducible apply triple_read; intro _)
      | ((with_reducible refine triple_ite_pos ?_ ?_); decide)
      | ((with_reducible refine triple_ite_neg ?_ ?_); decide)
      | (with_reducible apply triple_ite)
      | (with_reducible refine triple_bind_match _ (fun _ => ?_) ?_)
      | (with_reducible refine triple_bind (triple_check _) fun _ => ?_)
      | (with_reducible refine triple_bind triple_isAtEnd fun _ => ?_)
      | (with_reducible refine triple_bind triple_peek fun _ => ?_)
      | (with_reducible refine triple_bind (triple_inTypeTable _) fun _ => ?_)
      | (with_reducible refine triple_bind (triple_unit _) fun _ => ?_)
      | (with_reducible refine triple_bind (triple_registerType _) fun _ => ?_)
      | (with_reducible refine triple_bind triple_advance fun _ => ?_)
      | (with_reducible refine triple_bind (triple_consume _ _) fun _ => ?_)
      | ((with_reducible refine triple_tail (ih _ _ _ ?_) ?_); omega; omega))

theorem parseFunction_runs (n : Nat) (ts : List Token) (r : Nat) (h : 10 * r + 1 ≤ n) :
    Triple (Unread ts r) (parseFunction n) (fun _ => Read ts r 1) := by
  unfold parseFunction
  repeat (first
    | ((with_reducible refine triple_return ?_); omega)
    | (with_reducible exact triple_throw _)
    | (with_reducible apply triple_read; intro _)
    | ((with_reducible refine triple_ite_pos ?_ ?_); decide)
    | ((with_reducible refine triple_ite_neg ?_ ?_); decide)
    | (with_reducible apply triple_ite)
    | (with_reducible refine triple_bind_match _ (fun _ => ?_) ?_)
    | (with_reducible refine triple_bind (triple_check _) fun _ => ?_)
    | (with_reducible refine triple_bind triple_isAtEnd fun _ => ?_)
    | (with_reducible refine triple_bind triple_peek fun _ => ?_)
    | (with_reducible refine triple_bind (triple_inTypeTable _) fun _ => ?_)
    | (with_reducible refine triple_bind (triple_unit _) fun _ => ?_)
    | (with_reducible refine triple_bind (triple_registerType _) fun _ => ?_)
    | (with_reducible refine triple_bind triple_advance fun _ => ?_)
    | (with_reducible refine triple_bind (triple_consume _ _) fun _ => ?_)
    | ((with_reducible refine triple_bind (parseFunctionParamLoop_runs n _ _ _ ?_) fun _ => ?_); omega)
    | ((with_reducible refine triple_bind ((runsAt n).parseStatement _ _ ?_) fun _ => ?_); omega))

theorem parseClassFieldLoop_runs (n : Nat) : ∀ (structType : StructType)
    (ts : List Token) (r : Nat), 10 * r + 1 ≤ n →
    Triple (Unread ts r) (parseClassFieldLoop n structType) (fun _ => Read ts r 0) := by
  induction n with
  | zero => intro structType ts r h; omega
  | succ n ih =>
    intro structType ts r h
    rw [parseClassFieldLoop]
    repeat (first
      | ((with_reducible refine triple_return ?_); omega)
      | (with_reducible exact triple_throw _)
      | (with_reducible apply triple_read; intro _)
      | (with_reducible apply triple_ite)
      | (with_reducible refine triple_bind_match _ (fun _ => ?_) ?_)
      | (with_reducible refine triple_bind (triple_check _) fun _ => ?_)
      | (with_reducible refine triple_bind triple_isAtEnd fun _ => ?_)
      | (with_reducible refine triple_bind triple_peek fun _ => ?_)
      | (with_reducible refine triple_bind (triple_inTypeTable _) fun _ => ?_)
      | (with_reducible refine triple_bind (triple_unit _) fun _ => ?_)
      | (with_reducible refine triple_bind (triple_registerType _) fun _ => ?_)
      | (with_reducible refine triple_bind triple_advance fun _ => ?_)
      | (with_reducible refine triple_bind (triple_consume _ _) fun _ => ?_)
      | ((with_reducible refine triple_tail (ih _ _ _ ?_) ?_); omega; omega))

theorem parseClass_runs (n : Nat) (ts : List Token) (r : Nat) (h : 10 * r + 1 ≤ n) :
    Triple (Unread ts r) (parseClass n) (fun _ => Read ts r 1) := by
  unfold parseClass
  repeat (first
    | ((with_reducible refine triple_return ?_); omega)
    | (with_reducible exact triple_throw _)
    | (with_reducible apply triple_read; intro _)
    | (with_reducible apply triple_ite)
    | (with_reducible refine triple_bind_match _ (fun _ => ?_) ?_)
    | (with_reducible refine triple_bind (triple_check _) fun _ => ?_)
    | (with_reducible refine triple_bind triple_isAtEnd fun _ => ?_)
    | (with_reducible refine triple_bind triple_peek fun _ => ?_)
    | (with_reducible refine triple_bind (triple_inTypeTable _) fun _ => ?_)
    | (with_reducible refine triple_bind (triple_unit _) fun _ => ?_)
    | (with_reducible refine triple_bind (triple_registerType _) fun _ => ?_)
    | (with_reducible refine triple_bind triple_advance fun _ => ?_)
    | (with_reducible refine triple_bind (triple_consume _ _) fun _ => ?_)
    | ((with_reducible refine triple_bind (parseClassFieldLoop_runs n _ _ _ ?_) fun _ => ?_); omega))

theorem ParseLoop_runs (n : Nat) : ∀ (code : List ASTNode) (ts : List Token) (r : Nat),
    10 * r + 2 ≤ n →
    Triple (Unread ts r) (ParseLoop n code) (fun _ => Read ts r 0) := by
  induction n with
  | zero => intro code ts r h; omega
  | succ n ih =>
    intro code ts r h
    rw [ParseLoop]
    repeat (first
      | ((with_reducible refine triple_return ?_); omega)
      | (with_reducible exact triple_throw _)
      | (with_reducible apply triple_read; intro _)
      | (with_reducible apply triple_ite)
      | (with_reducible refine triple_bind_match _ (fun _ => ?_) ?_)
      | (with_reducible refine triple_bind (triple_check _) fun _ => ?_)
      | (with_reducible refine triple_bind triple_isAtEnd fun _ => ?_)
      | (with_reducible refine triple_bind triple_peek fun _ => ?_)
      | (with_reducible refine triple_bind (triple_inTypeTable _) fun _ => ?_)
      | (with_reducible refine triple_bind (triple_unit _) fun _ => ?_)
      | (with_reducible refine triple_bind (triple_registerType _) fun _ => ?_)
      | (with_reducible refine triple_bind triple_advance fun _ => ?_)
      | (with_reducible refine triple_bind (triple_consume _ _) fun _ => ?_)
      | ((with_reducible refine triple_bind (parseClass_runs n _ _ ?_) fun _ => ?_); omega)
      | ((with_reducible refine triple_bind (parseFunction_runs n _ _ ?_) fun _ => ?_); omega)
      | ((with_reducible refine triple_tail (ih _ _ _ ?_) ?_); omega; omega))

theorem Parse_runs (n : Nat) (ts : List Token) (r : Nat) (h : 10 * r + 2 ≤ n) :
    Triple (Unread ts r) (Parse n) (fun _ => Read ts r 0) := by
  unfold Parse
  repeat (first
    | ((with_reducible refine triple_return ?_); omega)
    | (with_reducible exact triple_throw _)
    | (with_reducible apply triple_read; intro _)
    | (with_reducible apply triple_ite)
    | (with_reducible refine triple_bind_match _ (fun _ => ?_) ?_)
    | (with_reducible refine triple_bind (triple_check _) fun _ => ?_)
    | (with_reducible refine triple_bind triple_isAtEnd fun _ => ?_)
    | (with_reducible refine triple_bind triple_peek fun _ => ?_)
    | (with_reducible refine triple_bind (triple_inTypeTable _) fun _ => ?_)
    | (with_reducible refine triple_bind (triple_unit _) fun _ => ?_)
    | (with_reducible refine triple_bind (triple_registerType _) fun _ => ?_)
    | (with_reducible refine triple_bind triple_advance fun _ => ?_)
    | (with_reducible refine triple_bind (triple_consume _ _) fun _ => ?_)
    | ((with_reducible refine triple_bind (ParseLoop_runs n _ _ _ ?_) fun _ => ?_); omega))

theorem unread_start (p : Parser) : Unread p.tokens (p.tokens.length - p.current) p :=
  ⟨rfl, le_refl _⟩

/-- A function that runs within a bound on the fuel has a result: the same for
every larger amount of fuel. -/
theorem result_of_runs {α : Type} (f : Nat → ParserM α) (hf : ∀ n, Stable (f n) (f (n + 1)))
    (k : Nat) {d : Nat}
    (h : ∀ n ts r, 10 * r + k ≤ n → Triple (Unread ts r) (f n) (fun _ => Read ts r d))
    (p : Parser) :
    ∃ r, ¬ OutOfFuel r ∧ Yields f p r ∧
      ∀ fuel, 10 * (p.tokens.length - p.current) + k ≤ fuel → f fuel p = r := by
  have hsafe := (h _ p.tokens (p.tokens.length - p.current) (le_refl _)).safe p (unread_start p)
  refine ⟨_, hsafe, Yields.of_run hf _ rfl hsafe, fun fuel hfuel => ?_⟩
  exact (Stable.le f hf hfuel).run p hsafe

/-- A function that reads a token whenever it returns moves the cursor
forward, whatever the fuel it was given. -/
theorem progress_of_runs {α : Type} (f : Nat → ParserM α) (hf : ∀ n, Stable (f n) (f (n + 1)))
    (k : Nat)
    (h : ∀ n ts r, 10 * r + k ≤ n → Triple (Unread ts r) (f n) (fun _ => Read ts r 1))
    {fuel : Nat} {p q : Parser} {a : α} (hrun : f fuel p = Except.ok (a, q)) :
    p.current < q.current ∧ q.tokens = p.tokens := by
  have hmax : f (max fuel (10 * (p.tokens.length - p.current) + k)) p = Except.ok (a, q) := by
    rw [(Stable.le f hf (le_max_left _ _)).run p (by rw [hrun]; exact outOfFuel_ok _), hrun]
  obtain ⟨h1, h2, h3⟩ := (h _ p.tokens (p.tokens.length - p.current) (le_max_right _ _)).post
    p a q (unread_start p) hmax
  rw [h2]
  exact ⟨by omega, rfl⟩

/-- C25. The parser terminates on every finite token sequence. Reading
`tokens[i]` outside the sequence counting as a failure, `Parse` run on any
tokens with fuel at least ten times their number plus two ends without
exhausting the fuel, with one result (a tree or a failure) that every larger
amount of fuel gives as well; the same holds from any state for `Parse`, for
the statement parser and for the expression parser, with a bound on the fuel
that is linear in the number of unread tokens. The measure that decreases is
the number of unread tokens: whenever a statement, an expression, a primary, a
class declaration or a function declaration is returned, the cursor has moved
forward by at least one token, so every iteration of a loop and every cycle of
the recursive descent reads a token or fails. -/
theorem parser_terminates (tokens : List Token) (p : Parser) :
    (∃ r, ¬ OutOfFuel r ∧ Yields Parse (Parser.new tokens) r ∧
      ∀ fuel, 10 * tokens.length + 2 ≤ fuel → Parse fuel (Parser.new tokens) = r) ∧
    (∃ r, ¬ OutOfFuel r ∧ Yields Parse p r ∧
      ∀ fuel, 10 * (p.tokens.length - p.current) + 2 ≤ fuel → Parse fuel p = r) ∧
    (∃ r, ¬ OutOfFuel r ∧ Yields parseStatement p r ∧
      ∀ fuel, 10 * (p.tokens.length - p.current) + 9 ≤ fuel → parseStatement fuel p = r) ∧
    (∃ r, ¬ OutOfFuel r ∧ Yields parseExpression p r ∧
      ∀ fuel, 10 * (p.tokens.length - p.current) + 7 ≤ fuel → parseExpression fuel p = r) ∧
    (∀ fuel node q, parseStatement fuel p = Except.ok (node, q) → p.current < q.current) ∧
    (∀ fuel node q, parseExpression fuel p = Except.ok (node, q) → p.current < q.current) ∧
    (∀ fuel node q, parsePrimary fuel p = Except.ok (node, q) → p.current < q.current) ∧
    (∀ fuel node q, parseClass fuel p = Except.ok (node, q) → p.current < q.current) ∧
    (∀ fuel node q, parseFunction fuel p = Except.ok (node, q) → p.current < q.current) := by
  refine ⟨?_, result_of_runs Parse Parse_stable 2 Parse_runs p,
    result_of_runs parseStatement (fun n => (stableAt n).parseStatement) 9
      (fun n => (runsAt n).parseStatement) p,
    result_of_runs parseExpression (fun n => (stableAt n).parseExpression) 7
      (fun n => (runsAt n).parseExpression) p,
    fun fuel node q h => (progress_of_runs parseStatement (fun n => (stableAt n).parseStatement) 9
      (fun n => (runsAt n).parseStatement) h).1,
    fun fuel node q h => (progress_of_runs parseExpression
      (fun n => (stableAt n).parseExpression) 7 (fun n => (runsAt n).parseExpression) h).1,
    fun fuel node q h => (progress_of_runs parsePrimary (fun n => (stableAt n).parsePrimary) 1
      (fun n => (runsAt n).parsePrimary) h).1,
    fun fuel node q h => (progress_of_runs parseClass parseClass_stable 1 parseClass_runs h).1,
    fun fuel node q h =>
      (progress_of_runs parseFunction parseFunction_stable 1 parseFunction_runs h).1⟩
  exact result_of_runs Parse Parse_stable 2 Parse_runs (Parser.new tokens)

/-! ## The dangling else -/

theorem look_of_atType {p : Parser} {ty : TokenType} (h : p.atType ty = true) :
    ∃ t, p.look = some t ∧ t.type = ty := by
  unfold Parser.atType at h
  cases hl : p.look with
  | none => rw [hl] at h; simp at h
  | some t =>
    rw [hl] at h
    exact ⟨t, rfl, by simpa using h⟩

/-- Every state has a statement result. -/
theorem parseStatement_result (p : Parser) :
    ∃ r, ¬ OutOfFuel r ∧ Yields parseStatement p r := by
  obtain ⟨r, h1, h2, _⟩ := result_of_runs parseStatement (fun n => (stableAt n).parseStatement) 9
    (fun n => (runsAt n).parseStatement) p
  exact ⟨r, h1, h2⟩

/-- Once the condition and the `then` branch of an `if` are read, the `if` has
a result, and a tree that is returned has that condition and that branch. -/
theorem parseIf_then_branch {p q1 q2 : Parser} {kw op cp : Token} {C S1 : ASTNode}
    (h : p.look = some kw) (ht : kw.type = TokenType._if)
    (hop : (p.skip 1).look = some op) (hopt : op.type = TokenType.o_paren)
    (h1 : Yields parseStatement (p.skip 2) (Except.ok (C, q1)))
    (hcp : q1.look = some cp) (hcpt : cp.type = TokenType.c_paren)
    (h2 : Yields parseStatement (q1.skip 1) (Except.ok (S1, q2))) :
    ∃ r, Yields parseIf p r ∧
      ∀ node q, r = Except.ok (node, q) → ∃ e, node = ASTNode.IfStmt C S1 e := by
  cases he : q2.atType TokenType._else with
  | false =>
    refine ⟨_, parseIf_then h ht hop hopt h1 hcp hcpt h2 he, fun node q hr => ⟨none, ?_⟩⟩
    simp only [Except.ok.injEq, Prod.mk.injEq] at hr
    exact hr.1.symm
  | true =>
    obtain ⟨el, hel, helt⟩ := look_of_atType he
    obtain ⟨r', _, n3, h3⟩ := parseStatement_result (q2.skip 1)
    cases r' with
    | ok v =>
      obtain ⟨S2, q3⟩ := v
      refine ⟨_, parseIf_else h ht hop hopt h1 hcp hcpt h2 hel helt ⟨n3, h3⟩,
        fun node q hr => ⟨some S2, ?_⟩⟩
      simp only [Except.ok.injEq, Prod.mk.injEq] at hr
      exact hr.1.symm
    | error e =>
      refine ⟨Except.error e, parseIf_of h ht hop hopt h1 hcp hcpt h2 ⟨n3, fun m hm => ?_⟩,
        fun node q hr => by simp at hr⟩
      simp [bind_apply, match_apply, hel, helt, h3 m hm]

/-- C27. A dangling `else` binds to the nearest `if`. Let the statement parser
stand at `if ( A ) if ( B ) S1 else S2`, where the statement parser reads the
conditions `A` and `B` and the branches `S1` and `S2` in place. If no further
`else` follows `S2`, the result is `IfStmt(A, IfStmt(B, S1, S2), none)`. And
whatever follows `S2`, with no amount of fuel is the result
`IfStmt(A, IfStmt(B, S1, none), S2)`. -/
theorem dangling_else_nearest_if (P q1 q2 q3 q4 : Parser) (kw1 op1 cp1 kw2 op2 cp2 el : Token)
    (A B S1 S2 : ASTNode)
    (hkw1 : P.look = some kw1) (hkw1t : kw1.type = TokenType._if)
    (hop1 : (P.skip 1).look = some op1) (hop1t : op1.type = TokenType.o_paren)
    (hA : Yields parseStatement (P.skip 2) (Except.ok (A, q1)))
    (hcp1 : q1.look = some cp1) (hcp1t : cp1.type = TokenType.c_paren)
    (hkw2 : (q1.skip 1).look = some kw2) (hkw2t : kw2.type = TokenType._if)
    (hop2 : (q1.skip 2).look = some op2) (hop2t : op2.type = TokenType.o_paren)
    (hB : Yields parseStatement (q1.skip 3) (Except.ok (B, q2)))
    (hcp2 : q2.look = some cp2) (hcp2t : cp2.type = TokenType.c_paren)
    (hS1 : Yields parseStatement (q2.skip 1) (Except.ok (S1, q3)))
    (hel : q3.look = some el) (helt : el.type = TokenType._else)
    (hS2 : Yields parseStatement (q3.skip 1) (Except.ok (S2, q4))) :
    (q4.atType TokenType._else = false →
      Yields parseStatement P
        (Except.ok (ASTNode.IfStmt A (ASTNode.IfStmt B S1 (some S2)) none, q4))) ∧
    ∀ fuel q, parseStatement fuel P ≠
      Except.ok (ASTNode.IfStmt A (ASTNode.IfStmt B S1 none) (some S2), q) := by
  have e2 : (q1.skip 1).skip 1 = q1.skip 2 := skip_skip q1 1 1
  have e3 : (q1.skip 1).skip 2 = q1.skip 3 := skip_skip q1 1 2
  have hinner : Yields parseStatement (q1.skip 1)
      (Except.ok (ASTNode.IfStmt B S1 (some S2), q4)) :=
    parseStatement_if hkw2 hkw2t
      (parseIf_else hkw2 hkw2t (by rw [e2]; exact hop2) hop2t (by rw [e3]; exact hB)
        hcp2 hcp2t hS1 hel helt hS2)
  refine ⟨fun hq4 => parseStatement_if hkw1 hkw1t
    (parseIf_then hkw1 hkw1t hop1 hop1t hA hcp1 hcp1t hinner hq4), fun fuel q hrun => ?_⟩
  obtain ⟨r, hr, hshape⟩ := parseIf_then_branch hkw1 hkw1t hop1 hop1t hA hcp1 hcp1t hinner
  have heq := Yields.eq_of_run (fun n => (stableAt n).parseStatement)
    (parseStatement_if hkw1 hkw1t hr) fuel hrun (outOfFuel_ok _)
  obtain ⟨e, he⟩ := hshape _ q heq.symm
  injection he with _ hthen _
  injection hthen with _ _ hnone
  exact absurd hnone (by simp)

theorem dangling_else_nearest_if_witness :
    Yields parseStatement (Parser.new (tokenize ["if (a;) if (b;) x; else y;"]))
      (Except.ok (ASTNode.IfStmt (ASTNode.VariableExpr "a")
          (ASTNode.IfStmt (ASTNode.VariableExpr "b") (ASTNode.VariableExpr "x")
            (some (ASTNode.VariableExpr "y")))
          none,
        (Parser.new (tokenize ["if (a;) if (b;) x; else y;"])).skip 15)) :=
  (dangling_else_nearest_if (Parser.new (tokenize ["if (a;) if (b;) x; else y;"]))
    ((Parser.new (tokenize ["if (a;) if (b;) x; else y;"])).skip 4)
    ((Parser.new (tokenize ["if (a;) if (b;) x; else y;"])).skip 9)
    ((Parser.new (tokenize ["if (a;) if (b;) x; else y;"])).skip 12)
    ((Parser.new (tokenize ["if (a;) if (b;) x; else y;"])).skip 15)
    ⟨TokenType._if, 1, "if"⟩ ⟨TokenType.o_paren, 1, "("⟩ ⟨TokenType.c_paren, 1, ")"⟩
    ⟨TokenType._if, 1, "if"⟩ ⟨TokenType.o_paren, 1, "("⟩ ⟨TokenType.c_paren, 1, ")"⟩
    ⟨TokenType._else, 1, "else"⟩
    (ASTNode.VariableExpr "a") (ASTNode.VariableExpr "b") (ASTNode.VariableExpr "x")
    (ASTNode.VariableExpr "y")
    (by rfl) (by rfl) (by rfl) (by rfl)
    (yields_parseStatement 10 (by rfl) (outOfFuel_ok _)) (by rfl) (by rfl)
    (by rfl) (by rfl) (by rfl) (by rfl)
    (yields_parseStatement 10 (by rfl) (outOfFuel_ok _)) (by rfl) (by rfl)
    (yields_parseStatement 10 (by rfl) (outOfFuel_ok _)) (by rfl) (by rfl)
    (yields_parseStatement 10 (by rfl) (outOfFuel_ok _))).1 (by rfl)

/-! ## Statements end with a terminator -/

theorem post_bind {α β : Type} {P Q R : Parser → Prop} {m : ParserM α} {f : α → ParserM β}
    (h1 : Post P m Q) (h2 : ∀ a, Post Q (f a) R) : Post P (m >>= f) R := by
  intro p b q hp hb
  obtain ⟨a, p', hm, hf⟩ := bind_ok hb
  exact h2 a p' b q (h1 p a p' hp hm) hf

theorem post_any {α : Type} {P : Parser → Prop} (m : ParserM α) : Post P m (fun _ => True) :=
  fun _ _ _ _ _ => trivial

theorem post_unit {α : Type} {P : Parser → Prop} (a : α) : Post P (pure a : ParserM α) P := by
  intro p b q hp hb
  rw [pure_apply] at hb
  simp only [Except.ok.injEq, Prod.mk.injEq] at hb
  rw [← hb.2]
  exact hp

theorem post_fail {α : Type} {P Q : Parser → Prop} (e : Failure) :
    Post P (fail e : ParserM α) Q := by
  intro p b q _ hb
  rw [fail_apply] at hb
  simp at hb

theorem post_ite {α : Type} {P Q : Parser → Prop} {c : Prop} [Decidable c] {a b : ParserM α}
    (h1 : Post P a Q) (h2 : Post P b Q) : Post P (if c then a else b) Q := by
  by_cases h : c
  · rw [if_pos h]; exact h1
  · rw [if_neg h]; exact h2

theorem post_ite_pos {α : Type} {P Q : Parser → Prop} {c : Prop} [Decidable c]
    {a b : ParserM α} (hc : c) (h1 : Post P a Q) : Post P (if c then a else b) Q := by
  rw [if_pos hc]; exact h1

theorem post_ite_neg {α : Type} {P Q : Parser → Prop} {c : Prop} [Decidable c]
    {a b : ParserM α} (hc : ¬ c) (h2 : Post P b Q) : Post P (if c then a else b) Q := by
  rw [if_neg hc]; exact h2

/-- Sequencing after `match`: when the answer is `false` no token was read. -/
theorem post_bind_match {β : Type} {P R : Parser → Prop} (ty : TokenType)
    {f : Bool → ParserM β}
    (hT : Post (fun _ => True) (f true) R) (hF : Post P (f false) R) :
    Post P (match_ ty >>= f) R := by
  intro p b q hp hb
  obtain ⟨a, p', hm, hf⟩ := bind_ok hb
  rw [match_apply] at hm
  split_ifs at hm with hc
  · simp only [Except.ok.injEq, Prod.mk.injEq] at hm
    rw [← hm.1] at hf
    exact hT p' b q trivial hf
  · simp only [Except.ok.injEq, Prod.mk.injEq] at hm
    rw [← hm.1, ← hm.2] at hf
    exact hF p b q hp hf

theorem post_consume {P : Parser → Prop} (ty : TokenType) (msg : String)
    (hty : ty = TokenType.semicolon ∨ ty = TokenType.c_brace) :
    Post P (consume ty msg) EndsStatement := by
  intro p a q _ h
  rw [consume_apply] at h
  cases hl : p.look with
  | none => rw [hl] at h; simp at h
  | some t =>
    rw [hl] at h
    by_cases ht : t.type = ty
    · simp only [ht, if_true, Except.ok.injEq, Prod.mk.injEq] at h
      rw [← h.2]
      refine ⟨t, by rw [skip_current]; omega, ?_, by rw [ht]; exact hty⟩
      rw [skip_current, skip_tokens, Nat.add_sub_cancel]
      exact hl
    · simp [ht] at h

theorem parseLoopControl_ends {P : Parser → Prop} : Post P parseLoopControl EndsStatement := by
  unfold parseLoopControl
  repeat (first
    | exact post_fail _
    | exact post_unit _
    | (refine post_ite_pos (by decide) ?_)
    | (refine post_ite_neg (by decide) ?_)
    | (refine post_bind (post_consume _ _ (by decide)) fun _ => ?_)
    | (refine post_bind_match _ ?_ ?_))

theorem parseExpressionStmt_ends {P : Parser → Prop} (n : Nat) :
    Post P (parseExpressionStmt n) EndsStatement := by
  cases n with
  | zero => rw [parseExpressionStmt]; exact post_fail _
  | succ n =>
    rw [parseExpressionStmt]
    refine post_bind (post_any _) fun _ => ?_
    exact post_bind (post_consume _ _ (by decide)) fun _ => post_unit _

theorem parseReturn_ends {P : Parser → Prop} (n : Nat) :
    Post P (parseReturn n) EndsStatement := by
  cases n with
  | zero => rw [parseReturn]; exact post_fail _
  | succ n =>
    rw [parseReturn]
    refine post_bind (post_any _) fun _ => ?_
    refine post_bind (post_any _) fun _ => ?_
    exact post_bind (post_consume _ _ (by decide)) fun _ => post_unit _

theorem parseDefinition_ends {P : Parser → Prop} (n : Nat) :
    Post P (parseDefinition n) EndsStatement := by
  cases n with
  | zero => rw [parseDefinition]; exact post_fail _
  | succ n =>
    rw [parseDefinition]
    refine post_bind (post_any _) fun _ => ?_
    refine post_bind (post_any _) fun _ => ?_
    exact post_bind (post_consume _ _ (by decide)) fun _ => post_unit _


theorem endsAt (n : Nat) :
    (∀ P : Parser → Prop, Post P (parseStatement n) EndsStatement) ∧
    (∀ P : Parser → Prop, Post P (parseCompound n) EndsStatement) ∧
    (∀ P : Parser → Prop, Post P (parseIf n) EndsStatement) ∧
    (∀ P : Parser → Prop, Post P (parseWhile n) EndsStatement) ∧
    (∀ P : Parser → Prop, Post P (parseFor n) EndsStatement) := by
  induction n with
  | zero =>
    refine ⟨fun P => ?_, fun P => ?_, fun P => ?_, fun P => ?_, fun P => ?_⟩
    · rw [parseStatement]; exact post_fail _
    · rw [parseCompound]; exact post_fail _
    · rw [parseIf]; exact post_fail _
    · rw [parseWhile]; exact post_fail _
    · rw [parseFor]; exact post_fail _
  | succ n ih =>
    obtain ⟨ihS, ihC, ihI, ihW, ihF⟩ := ih
    refine ⟨fun P => ?_, fun P => ?_, fun P => ?_, fun P => ?_, fun P => ?_⟩
    · rw [parseStatement]
      repeat (first
        | exact ihC _
        | exact ihI _
        | exact ihW _
        | exact ihF _
        | exact parseReturn_ends _
        | exact parseDefinition_ends _
        | exact parseLoopControl_ends
        | exact parseExpressionStmt_ends _
        | (refine post_bind (post_any _) fun _ => ?_)
        | (apply post_ite))
    · rw [parseCompound]
      repeat (first
        | exact post_unit _
        | (refine post_bind (post_consume _ _ (by decide)) fun _ => ?_)
        | (refine post_bind (post_any _) fun _ => ?_))
    · rw [parseIf]
      repeat (first
        | exact post_fail _
        | exact post_unit _
        | (refine post_ite_pos (by decide) ?_)
        | (refine post_ite_neg (by decide) ?_)
        | (refine post_bind_match _ ?_ ?_)
        | (refine post_bind (ihS _) fun _ => ?_))
    · rw [parseWhile]
      repeat (first
        | exact post_fail _
        | exact post_unit _
        | (refine post_ite_pos (by decide) ?_)
        | (refine post_ite_neg (by decide) ?_)
        | (refine post_bind_match _ ?_ ?_)
        | (refine post_bind (ihS _) fun _ => ?_)
        | (refine post_bind (post_any _) fun _ => ?_))
    · rw [parseFor]
      repeat (first
        | exact post_fail _
        | exact post_unit _
        | (refine post_ite_pos (by decide) ?_)
        | (refine post_ite_neg (by decide) ?_)
        | (refine post_bind_match _ ?_ ?_)
        | (refine post_bind (ihS _) fun _ => ?_)
        | (refine post_bind (post_any _) fun _ => ?_))

/-- A statement that is accepted has read at least one token, and the last
token it read is a `;` or a `}`. -/
theorem parseStatement_ends {fuel : Nat} {p q : Parser} {node : ASTNode}
    (h : parseStatement fuel p = Except.ok (node, q)) :
    p.current < q.current ∧ q.tokens = p.tokens ∧
      ∃ t, q.tokens[q.current - 1]? = some t ∧
        (t.type = TokenType.semicolon ∨ t.type = TokenType.c_brace) := by
  have h1 := progress_of_runs parseStatement (fun n => (stableAt n).parseStatement) 9
    (fun n => (runsAt n).parseStatement) h
  obtain ⟨t, _, ht, hty⟩ := (endsAt fuel).1 (fun _ => True) p node q trivial h
  exact ⟨h1.1, h1.2, t, ht, hty⟩

theorem sameEnd_bind {α β γ : Type} (m : ParserM γ) {f1 : γ → ParserM α} {f2 : γ → ParserM β}
    (h : ∀ c, SameEnd (f1 c) (f2 c)) : SameEnd (m >>= f1) (m >>= f2) := by
  intro s a q hs
  obtain ⟨c, s', hm, hf⟩ := bind_ok hs
  obtain ⟨b, hb⟩ := h c s' a q hf
  exact ⟨b, by rw [bind_apply, hm]; exact hb⟩

theorem sameEnd_pure {α β : Type} (a : α) (b : β) :
    SameEnd (pure a : ParserM α) (pure b : ParserM β) := by
  intro s x q hs
  rw [pure_apply] at hs
  simp only [Except.ok.injEq, Prod.mk.injEq] at hs
  exact ⟨b, by rw [pure_apply, hs.2]⟩

theorem sameEnd_ite {α β : Type} {c : Prop} [Decidable c] {a1 b1 : ParserM α}
    {a2 b2 : ParserM β} (h1 : SameEnd a1 a2) (h2 : SameEnd b1 b2) :
    SameEnd (if c then a1 else b1) (if c then a2 else b2) := by
  by_cases h : c
  · rw [if_pos h, if_pos h]; exact h1
  · rw [if_neg h, if_neg h]; exact h2

/-- Two runs that return in the same state, continued alike. -/
theorem bind_sameEnd {α β γ δ : Type} {m1 : ParserM γ} {m2 : ParserM δ} {s1 s2 : Parser}
    {f1 : γ → ParserM α} {f2 : δ → ParserM β}
    (h1 : ∀ a q, m1 s1 = Except.ok (a, q) → ∃ b, m2 s2 = Except.ok (b, q))
    (h2 : ∀ c d, SameEnd (f1 c) (f2 d)) :
    ∀ a q, (m1 >>= f1) s1 = Except.ok (a, q) → ∃ b, (m2 >>= f2) s2 = Except.ok (b, q) := by
  intro a q hs
  obtain ⟨c, s', hm, hf⟩ := bind_ok hs
  obtain ⟨d, hd⟩ := h1 c s' hm
  obtain ⟨b, hb⟩ := h2 c d s' a q hf
  exact ⟨b, by rw [bind_apply, hd]; exact hb⟩

theorem parseMultiplicationLoop_sameEnd (n : Nat) : ∀ l1 l2 : ASTNode,
    SameEnd (parseMultiplicationLoop n l1) (parseMultiplicationLoop n l2) := by
  induction n with
  | zero =>
    intro l1 l2 s a q h
    rw [parseMultiplicationLoop, fail_apply] at h
    simp at h
  | succ n ih =>
    intro l1 l2
    rw [parseMultiplicationLoop, parseMultiplicationLoop]
    refine sameEnd_bind _ fun b => sameEnd_ite ?_ (sameEnd_pure _ _)
    exact sameEnd_bind _ fun t => sameEnd_bind _ fun r => ih _ _

theorem parseAdditionLoop_sameEnd (n : Nat) : ∀ l1 l2 : ASTNode,
    SameEnd (parseAdditionLoop n l1) (parseAdditionLoop n l2) := by
  induction n with
  | zero =>
    intro l1 l2 s a q h
    rw [parseAdditionLoop, fail_apply] at h
    simp at h
  | succ n ih =>
    intro l1 l2
    rw [parseAdditionLoop, parseAdditionLoop]
    refine sameEnd_bind _ fun b => sameEnd_ite ?_ (sameEnd_pure _ _)
    exact sameEnd_bind _ fun t => sameEnd_bind _ fun r => ih _ _

theorem parseComparisonLoop_sameEnd (n : Nat) : ∀ l1 l2 : ASTNode,
    SameEnd (parseComparisonLoop n l1) (parseComparisonLoop n l2) := by
  induction n with
  | zero =>
    intro l1 l2 s a q h
    rw [parseComparisonLoop, fail_apply] at h
    simp at h
  | succ n ih =>
    intro l1 l2
    rw [parseComparisonLoop, parseComparisonLoop]
    refine sameEnd_bind _ fun b => sameEnd_ite ?_ (sameEnd_pure _ _)
    exact sameEnd_bind _ fun t => sameEnd_bind _ fun r => ih _ _

/-- Two operands that end in the same state are continued to the same state
by the binary levels of the expression parser. -/
theorem parseExpression_sameEnd {s1 s2 j q : Parser} {l1 l2 X : ASTNode}
    (h1 : Yields parseUnary s1 (Except.ok (l1, j)))
    (h2 : Yields parseUnary s2 (Except.ok (l2, j)))
    (hE : Yields parseExpression s1 (Except.ok (X, q))) :
    ∃ X2, Yields parseExpression s2 (Except.ok (X2, q)) := by
  obtain ⟨n1, h1⟩ := h1
  obtain ⟨n2, h2⟩ := h2
  obtain ⟨n3, hE⟩ := hE
  have hu1 := h1 (n1 + n2 + n3) (by omega)
  have hu2 := h2 (n1 + n2 + n3) (by omega)
  have he := hE (n1 + n2 + n3 + 5) (by omega)
  have key : ∀ a q, parseExpression (n1 + n2 + n3 + 5) s1 = Except.ok (a, q) →
      ∃ b, parseExpression (n1 + n2 + n3 + 5) s2 = Except.ok (b, q) := by
    rw [parseExpression, parseAssignment, parseComparison, parseAddition, parseMultiplication]
    refine bind_sameEnd ?_ fun c d => sameEnd_bind _ fun b => sameEnd_ite ?_ (sameEnd_pure _ _)
    · refine bind_sameEnd ?_ fun c d => parseComparisonLoop_sameEnd _ c d
      refine bind_sameEnd ?_ fun c d => parseAdditionLoop_sameEnd _ c d
      refine bind_sameEnd ?_ fun c d => parseMultiplicationLoop_sameEnd _ c d
      intro a q h
      rw [hu1] at h
      simp only [Except.ok.injEq, Prod.mk.injEq] at h
      exact ⟨l2, by rw [hu2, h.2]⟩
    · exact sameEnd_bind _ fun t => sameEnd_bind _ fun r => sameEnd_pure _ _
  obtain ⟨X2, hX⟩ := key X q he
  exact ⟨X2, yields_parseExpression _ hX (outOfFuel_ok _)⟩


/-! ### What follows a type name -/

theorem atType_unique {p : Parser} {ty1 ty2 : TokenType} (h : p.atType ty1 = true)
    (hne : ty1 ≠ ty2) : p.atType ty2 = false := by
  obtain ⟨t, hl, ht⟩ := look_of_atType h
  exact atType_false_of_look hl (by rw [ht]; exact hne)

theorem atOperator_false_of_atType {p : Parser} {ty : TokenType} (h : p.atType ty = true)
    (hne : ty ≠ TokenType._operator) (ops : List String) : p.atOperator ops = false := by
  obtain ⟨t, hl, ht⟩ := look_of_atType h
  exact atOperator_of_type hl (by rw [ht]; exact hne)

theorem look_of_atOperator {p : Parser} {ops : List String} (h : p.atOperator ops = true) :
    ∃ t, p.look = some t ∧ t.type = TokenType._operator ∧ t.value ∈ ops := by
  unfold Parser.atOperator at h
  cases hl : p.look with
  | none => rw [hl] at h; simp at h
  | some t =>
    rw [hl] at h
    exact ⟨t, rfl, by simpa using h⟩

theorem consume_fails {p : Parser} {ty : TokenType} (msg : String) (h : p.atType ty = false) :
    ∃ e, consume ty msg p = Except.error e := by
  rw [consume_apply]
  cases hl : p.look with
  | none => exact ⟨_, rfl⟩
  | some t =>
    have ht : t.type ≠ ty := by
      intro ht
      rw [atType_true_of_look hl ht] at h
      exact Bool.noConfusion h
    simp only [if_neg ht]
    exact ⟨_, rfl⟩

theorem parseExpression_of_unary {s j : Parser} {l : ASTNode}
    (h : Yields parseUnary s (Except.ok (l, j))) (hop : ∀ ops, j.atOperator ops = false) :
    Yields parseExpression s (Except.ok (l, j)) :=
  parseExpression_of_multiplication
    (parseMultiplication_of h (parseMultiplicationLoop_exit _ (hop _))) (hop _) (hop _) (hop _)

theorem parseExpression_unary_error {s : Parser} {e : Failure × Parser}
    (h : Yields parseUnary s (Except.error e)) : Yields parseExpression s (Except.error e) :=
  parseExpression_iff.mpr (parseAssignment_error (parseComparison_error
    (parseAddition_error (parseMultiplication_error h))))

theorem parseUnary_operand_error {p : Parser} {t : Token} {e : Failure × Parser}
    (h : p.look = some t) (ht : t.type = TokenType._operator) (hv : t.value ∈ ["++", "--"])
    (h1 : Yields parseUnary (p.skip 1) (Except.error e)) :
    Yields parseUnary p (Except.error e) := by
  obtain ⟨n1, h1⟩ := h1
  refine ⟨n1 + 1, fun m hm => ?_⟩
  obtain ⟨m, rfl⟩ : ∃ k, m = k + 1 := ⟨m - 1, by omega⟩
  rw [parseUnary]
  simp [bind_apply, checkOperator_at, atOperator_of_look h ht hv, advance_apply, h,
    h1 m (by omega)]

/-- Nothing but a number, a name or a `(` starts a primary expression. -/
theorem parsePrimary_rejects {p : Parser} (h1 : p.atType TokenType.int_lit = false)
    (h2 : p.atType TokenType.identifier = false) (h3 : p.atType TokenType.o_paren = false) :
    Yields parsePrimary p
      (Except.error (Failure.runtime_error "Expected a number, variable, or '('.", p)) := by
  refine ⟨1, fun m hm => ?_⟩
  obtain ⟨m, rfl⟩ : ∃ k, m = k + 1 := ⟨m - 1, by omega⟩
  rw [parsePrimary]
  simp only [Parser.atType] at h1 h2 h3
  simp [bind_apply, match_apply, h1, h2, h3, fail_apply]

theorem parsePrimary_group {s j : Parser} {t : Token} {a : ASTNode} {r : Outcome ASTNode}
    (h : s.look = some t) (ht : t.type = TokenType.o_paren)
    (h1 : Yields parseExpression (s.skip 1) (Except.ok (a, j)))
    (h2 : (consume TokenType.c_paren "Expected ')' after expression." >>= fun _ =>
      (pure a : ParserM ASTNode)) j = r) :
    Yields parsePrimary s r := by
  obtain ⟨n1, h1⟩ := h1
  refine ⟨n1 + 1, fun m hm => ?_⟩
  obtain ⟨m, rfl⟩ : ∃ k, m = k + 1 := ⟨m - 1, by omega⟩
  rw [parsePrimary, ← h2]
  simp [bind_apply, match_apply, h, ht, h1 m (by omega)]

theorem parsePrimary_group_error {s : Parser} {t : Token} {e : Failure × Parser}
    (h : s.look = some t) (ht : t.type = TokenType.o_paren)
    (h1 : Yields parseExpression (s.skip 1) (Except.error e)) :
    Yields parsePrimary s (Except.error e) := by
  obtain ⟨n1, h1⟩ := h1
  refine ⟨n1 + 1, fun m hm => ?_⟩
  obtain ⟨m, rfl⟩ : ∃ k, m = k + 1 := ⟨m - 1, by omega⟩
  rw [parsePrimary]
  simp [bind_apply, match_apply, h, ht, h1 m (by omega)]

/-- Every state has an expression result. -/
theorem parseExpression_result (p : Parser) :
    ∃ r, ¬ OutOfFuel r ∧ Yields parseExpression p r := by
  obtain ⟨r, h1, h2, _⟩ := result_of_runs parseExpression
    (fun n => (stableAt n).parseExpression) 7 (fun n => (runsAt n).parseExpression) p
  exact ⟨r, h1, h2⟩

/-- At a `(`: either no primary expression can be read, or it ends where
another `(` follows, or it ends where one call suffix ends. -/
theorem call_or_group {s : Parser} {t : Token} (N : ASTNode)
    (h : s.look = some t) (ht : t.type = TokenType.o_paren) :
    (∃ e, Yields parsePrimary s (Except.error e)) ∨
    ∃ a j, Yields parsePrimary s (Except.ok (a, j)) ∧
      (j.atType TokenType.o_paren = true ∨
        ∃ N2, Yields (fun n => parsePrimaryCallLoop n N) s (Except.ok (N2, j))) := by
  obtain ⟨rA, -, hA⟩ := parseExpression_result (s.skip 1)
  cases rA with
  | error e => exact Or.inl ⟨e, parsePrimary_group_error h ht hA⟩
  | ok v =>
    obtain ⟨a, j1⟩ := v
    cases hc : j1.atType TokenType.c_paren with
    | false =>
      obtain ⟨e, he⟩ := consume_fails "Expected ')' after expression." hc
      refine Or.inl ⟨e, parsePrimary_group h ht hA ?_⟩
      rw [bind_apply, he]
    | true =>
      obtain ⟨cp, hcp, hcpt⟩ := look_of_atType hc
      refine Or.inr ⟨a, j1.skip 1, parsePrimary_group h ht hA ?_, ?_⟩
      · simp [bind_apply, consume_apply, hcp, hcpt, pure_apply]
      · cases hj : (j1.skip 1).atType TokenType.o_paren with
        | true => exact Or.inl rfl
        | false =>
          have hc0 : (s.skip 1).atType TokenType.c_paren = false := by
            cases h0 : (s.skip 1).atType TokenType.c_paren with
            | false => rfl
            | true =>
              obtain ⟨t0, hl0, ht0⟩ := look_of_atType h0
              have := Yields.unique hA (parseExpression_reject hl0 (Or.inr ht0))
              simp at this
          exact Or.inr ⟨_, parsePrimaryCallLoop_step_arguments h ht hc0
            (parsePrimaryArgumentLoop_last hA (atType_unique hc (by decide))) hcp hcpt
            (parsePrimaryCallLoop_exit _ hj)⟩

/-- A run of `++` and `--` tokens is read as postfix operators after a name
and as prefix operators in front of what follows. -/
theorem increments_run : ∀ (r : Nat) (s : Parser) (N : ASTNode),
    s.tokens.length - s.current ≤ r →
    ∃ s2 N2, s2.atOperator ["++", "--"] = false ∧
      (s2 = s ∨ s.atOperator ["++", "--"] = true) ∧
      Yields (fun n => parsePrimaryPostfixLoop n N) s (Except.ok (N2, s2)) ∧
      (∀ e, Yields parsePrimary s2 (Except.error e) → Yields parseUnary s (Except.error e)) ∧
      (∀ a j, Yields parsePrimary s2 (Except.ok (a, j)) →
        ∃ a2, Yields parseUnary s (Except.ok (a2, j))) := by
  intro r
  induction r with
  | zero =>
    intro s N hr
    have hs : s.atOperator ["++", "--"] = false := by
      have : s.look = none := by
        simp only [Parser.look]
        exact List.getElem?_eq_none (by omega)
      simp [Parser.atOperator, this]
    exact ⟨s, N, hs, Or.inl rfl, parsePrimaryPostfixLoop_exit _ hs,
      fun e he => parseUnary_primary hs he, fun a j ha => ⟨a, parseUnary_primary hs ha⟩⟩
  | succ r ih =>
    intro s N hr
    cases hs : s.atOperator ["++", "--"] with
    | false =>
      exact ⟨s, N, hs, Or.inl rfl, parsePrimaryPostfixLoop_exit _ hs,
        fun e he => parseUnary_primary hs he, fun a j ha => ⟨a, parseUnary_primary hs ha⟩⟩
    | true =>
      obtain ⟨t, hl, ht, hv⟩ := look_of_atOperator hs
      obtain ⟨s2, N2, h1, -, h3, h4, h5⟩ := ih (s.skip 1) (ASTNode.PostfixExpr t.value N)
        (by rw [skip_current, skip_tokens]; omega)
      refine ⟨s2, N2, h1, Or.inr rfl, parsePrimaryPostfixLoop_step hl ht hv h3,
        fun e he => parseUnary_operand_error hl ht hv (h4 e he), fun a j ha => ?_⟩
      obtain ⟨a2, ha2⟩ := h5 a j ha
      exact ⟨_, parseUnary_prefixed hl ht hv ha2⟩


theorem parseDefinition_expression_error {p : Parser} {T : Token} {e : Failure × Parser}
    (h : p.look = some T) (ht : T.type = TokenType.identifier)
    (h1 : Yields parseExpression (p.skip 1) (Except.error e)) :
    Yields parseDefinition p (Except.error e) := by
  obtain ⟨n1, h1⟩ := h1
  refine ⟨n1 + 1, fun m hm => ?_⟩
  obtain ⟨m, rfl⟩ : ∃ k, m = k + 1 := ⟨m - 1, by omega⟩
  rw [parseDefinition]
  simp [bind_apply, consume_apply, h, ht, h1 m (by omega)]

theorem parseDefinition_unterminated {p q : Parser} {T : Token} {a : ASTNode}
    (h : p.look = some T) (ht : T.type = TokenType.identifier)
    (h1 : Yields parseExpression (p.skip 1) (Except.ok (a, q)))
    (hq : q.atType TokenType.semicolon = false) :
    ∃ e, Yields parseDefinition p (Except.error e) := by
  obtain ⟨e, he⟩ := consume_fails "Expected ;" hq
  exact ⟨e, parseDefinition_of h ht h1 (by rw [bind_apply, he])⟩

theorem parseDefinition_not_identifier {p : Parser}
    (h : p.atType TokenType.identifier = false) :
    ∃ e, Yields parseDefinition p (Except.error e) := by
  obtain ⟨e, he⟩ := consume_fails "Expected a datatype" h
  refine ⟨e, 1, fun m hm => ?_⟩
  obtain ⟨m, rfl⟩ : ∃ k, m = k + 1 := ⟨m - 1, by omega⟩
  rw [parseDefinition]
  simp [bind_apply, he]

/-- An expression that starts with a name and is followed by a `)` cannot be
read as a declaration of that name's type: what follows the name is not an
expression followed by a `;`. -/
theorem type_name_not_declaration {p q : Parser} {T : Token} {X : ASTNode}
    (h : p.look = some T) (ht : T.type = TokenType.identifier)
    (hE : Yields parseExpression p (Except.ok (X, q)))
    (hq : q.atType TokenType.c_paren = true) :
    ∃ e, Yields parseDefinition p (Except.error e) := by
  obtain ⟨s2, N2, hs2, hor, hpost, herr, hok⟩ :=
    increments_run _ (p.skip 1) (ASTNode.VariableExpr T.value) (le_refl _)
  have hp0 : p.atOperator ["++", "--"] = false := atOperator_of_type h (by simp [ht])
  have hsfx : ∀ ty, s2.atType ty = true → ty ≠ TokenType._operator →
      ty ≠ TokenType.o_bracket →
      (p.skip 1).atType TokenType.o_bracket = false ∧ (p.skip 1).atOperator ["."] = false := by
    intro ty hty h1 h2
    rcases hor with hor | hor
    · rw [← hor]
      exact ⟨atType_unique hty h2, atOperator_false_of_atType hty h1 _⟩
    · obtain ⟨t, hl, htt, hv⟩ := look_of_atOperator hor
      refine ⟨atType_false_of_look hl (by simp [htt]), atOperator_of_value hl ?_⟩
      intro hmem
      simp only [List.mem_cons, List.mem_singleton, List.not_mem_nil, or_false] at hv hmem
      rcases hv with hv | hv <;> rw [hv] at hmem <;> exact absurd hmem (by decide)
  cases hp : s2.atType TokenType.o_paren with
  | true =>
    obtain ⟨t, hl, hlt⟩ := look_of_atType hp
    obtain ⟨hidx, hfld⟩ := hsfx _ hp (by decide) (by decide)
    rcases call_or_group N2 hl hlt with ⟨e, he⟩ | ⟨a, j, ha, hj | ⟨N3, hcall⟩⟩
    · exact ⟨e, parseDefinition_expression_error h ht
        (parseExpression_unary_error (herr e he))⟩
    · obtain ⟨a2, ha2⟩ := hok a j ha
      exact parseDefinition_unterminated h ht
        (parseExpression_of_unary ha2 (atOperator_false_of_atType hj (by decide)))
        (atType_unique hj (by decide))
    · obtain ⟨a2, ha2⟩ := hok a j ha
      have hU1 : Yields parseUnary p (Except.ok (N3, j)) :=
        parseUnary_primary hp0 (parsePrimary_identifier h ht (parsePrimaryIndexLoop_exit _ hidx)
          (parsePrimaryFieldLoop_exit _ hfld) hpost hcall)
      obtain ⟨X2, hX2⟩ := parseExpression_sameEnd hU1 ha2 hE
      exact parseDefinition_unterminated h ht hX2 (atType_unique hq (by decide))
  | false =>
    have hstop : ∀ ty, s2.atType ty = true → ty ≠ TokenType._operator →
        ty ≠ TokenType.o_bracket → ty ≠ TokenType.c_paren → False := by
      intro ty hty h1 h2 h3
      obtain ⟨hidx, hfld⟩ := hsfx _ hty h1 h2
      have hU1 : Yields parseUnary p (Except.ok (N2, s2)) :=
        parseUnary_primary hp0 (parsePrimary_identifier h ht (parsePrimaryIndexLoop_exit _ hidx)
          (parsePrimaryFieldLoop_exit _ hfld) hpost (parsePrimaryCallLoop_exit _ hp))
      have := Yields.unique hE
        (parseExpression_of_unary hU1 (atOperator_false_of_atType hty h1))
      simp only [Except.ok.injEq, Prod.mk.injEq] at this
      rw [this.2, atType_unique hty h3] at hq
      exact Bool.noConfusion hq
    cases h1 : s2.atType TokenType.int_lit with
    | true => exact (hstop _ h1 (by decide) (by decide) (by decide)).elim
    | false =>
      cases h2 : s2.atType TokenType.identifier with
      | true => exact (hstop _ h2 (by decide) (by decide) (by decide)).elim
      | false =>
        exact ⟨_, parseDefinition_expression_error h ht
          (parseExpression_unary_error (herr _ (parsePrimary_rejects h1 h2 hp)))⟩

theorem parseIf_condition_error {p : Parser} {kw op : Token} {e : Failure × Parser}
    (h : p.look = some kw) (ht : kw.type = TokenType._if)
    (hop : (p.skip 1).look = some op) (hopt : op.type = TokenType.o_paren)
    (h1 : Yields parseStatement (p.skip 2) (Except.error e)) :
    Yields parseIf p (Except.error e) := by
  obtain ⟨n1, h1⟩ := h1
  refine ⟨n1 + 1, fun m hm => ?_⟩
  obtain ⟨m, rfl⟩ : ∃ k, m = k + 1 := ⟨m - 1, by omega⟩
  rw [parseIf]
  simp [bind_apply, match_apply, h, ht, hop, hopt, skip_skip, h1 m (by omega)]

/-- The first token of an expression is a number, a name, a `(` or an operator. -/
theorem parseExpression_first {p q : Parser} {X : ASTNode}
    (hE : Yields parseExpression p (Except.ok (X, q))) :
    ∃ t, p.look = some t ∧ (t.type = TokenType.int_lit ∨ t.type = TokenType.identifier ∨
      t.type = TokenType.o_paren ∨ t.type = TokenType._operator) := by
  cases h0 : p.atOperator ["++", "--"] with
  | true =>
    obtain ⟨t, hl, ht, -⟩ := look_of_atOperator h0
    exact ⟨t, hl, Or.inr (Or.inr (Or.inr ht))⟩
  | false =>
    cases h1 : p.atType TokenType.int_lit with
    | true =>
      obtain ⟨t, hl, ht⟩ := look_of_atType h1
      exact ⟨t, hl, Or.inl ht⟩
    | false =>
      cases h2 : p.atType TokenType.identifier with
      | true =>
        obtain ⟨t, hl, ht⟩ := look_of_atType h2
        exact ⟨t, hl, Or.inr (Or.inl ht)⟩
      | false =>
        cases h3 : p.atType TokenType.o_paren with
        | true =>
          obtain ⟨t, hl, ht⟩ := look_of_atType h3
          exact ⟨t, hl, Or.inr (Or.inr (Or.inl ht))⟩
        | false =>
          have := Yields.unique hE (parseExpression_unary_error
            (parseUnary_primary h0 (parsePrimary_rejects h1 h2 h3)))
          simp at this

/-- An `if` whose parentheses hold an expression directly followed by the `)`
is rejected. -/
theorem if_bare_condition {P q : Parser} {kw op : Token} {X : ASTNode}
    (hkw : P.look = some kw) (hkwt : kw.type = TokenType._if)
    (hop : (P.skip 1).look = some op) (hopt : op.type = TokenType.o_paren)
    (hE : Yields parseExpression (P.skip 2) (Except.ok (X, q)))
    (hq : q.atType TokenType.c_paren = true) :
    ∃ e, Yields parseStatement P (Except.error e) := by
  obtain ⟨t0, hl0, htype⟩ := parseExpression_first hE
  obtain ⟨cp, hcp, hcpt⟩ := look_of_atType hq
  have hcond : ∃ e, Yields parseStatement (P.skip 2) (Except.error e) := by
    by_cases hv : t0.value ∈ (P.skip 2).typeTable
    · have hdef : ∃ e, Yields parseDefinition (P.skip 2) (Except.error e) := by
        by_cases hid : t0.type = TokenType.identifier
        · exact type_name_not_declaration hl0 hid hE hq
        · exact parseDefinition_not_identifier (atType_false_of_look hl0 hid)
      obtain ⟨e, he⟩ := hdef
      refine ⟨e, parseStatement_to (fun fuel => ?_) he⟩
      rw [parseStatement_succ fuel hl0]
      rcases htype with h | h | h | h <;> simp [h, hv]
    · refine ⟨_, parseStatement_to (fun fuel => ?_)
        (parseExpressionStmt_missing hE hcp (by simp [hcpt]))⟩
      rw [parseStatement_succ fuel hl0]
      rcases htype with h | h | h | h <;> simp [h, hv]
  obtain ⟨e, he⟩ := hcond
  exact ⟨e, parseStatement_if hkw hkwt (parseIf_condition_error hkw hkwt hop hopt he)⟩

theorem parseExpressionStmt_error {p : Parser} {e : Failure × Parser}
    (h1 : Yields parseExpression p (Except.error e)) :
    Yields parseExpressionStmt p (Except.error e) := by
  obtain ⟨n1, h1⟩ := h1
  refine ⟨n1 + 1, fun m hm => ?_⟩
  obtain ⟨m, rfl⟩ : ∃ k, m = k + 1 := ⟨m - 1, by omega⟩
  rw [parseExpressionStmt]
  simp [bind_apply, h1 m (by omega)]

/-- An `if` whose parentheses hold one name or one number is rejected. -/
theorem if_single_token {P : Parser} {kw op x cp : Token} {more : List Token}
    (hr : P.rest = kw :: op :: x :: cp :: more)
    (hkwt : kw.type = TokenType._if) (hopt : op.type = TokenType.o_paren)
    (hxt : x.type = TokenType.identifier ∨ x.type = TokenType.int_lit)
    (hcpt : cp.type = TokenType.c_paren) :
    ∃ e, Yields parseStatement P (Except.error e) := by
  obtain ⟨hkw, hr1⟩ := rest_cons hr
  obtain ⟨hop, hr2⟩ := rest_cons hr1
  rw [skip_skip] at hr2
  obtain ⟨hx, hr3⟩ := rest_cons hr2
  obtain ⟨hcp, -⟩ := rest_cons hr3
  have hq : ((P.skip 2).skip 1).atType TokenType.c_paren = true := atType_true_of_look hcp hcpt
  have hops : ∀ ops, ((P.skip 2).skip 1).atOperator ops = false :=
    atOperator_false_of_atType hq (by decide)
  have hx0 : (P.skip 2).atOperator ["++", "--"] = false :=
    atOperator_of_type hx (by rcases hxt with h | h <;> simp [h])
  rcases hxt with hxt | hxt
  · exact if_bare_condition hkw hkwt hop hopt
      (parseExpression_of_unary (parseUnary_primary hx0
        (parsePrimary_variable hx hxt (atType_unique hq (by decide)) (hops _) (hops _)
          (atType_unique hq (by decide)))) hops) hq
  · cases hs : stoi x.value with
    | ok v =>
      exact if_bare_condition hkw hkwt hop hopt
        (parseExpression_of_unary (parseUnary_primary hx0 (parsePrimary_literal hx hxt hs)) hops)
        hq
    | error e =>
      have hE := parseExpression_unary_error
        (parseUnary_primary hx0 (parsePrimary_literal_error hx hxt hs))
      have hcond : ∃ e, Yields parseStatement (P.skip 2) (Except.error e) := by
        by_cases hv : x.value ∈ (P.skip 2).typeTable
        · obtain ⟨e, he⟩ := parseDefinition_not_identifier
            (atType_false_of_look hx (by simp [hxt]) : (P.skip 2).atType TokenType.identifier = false)
          refine ⟨e, parseStatement_to (fun fuel => ?_) he⟩
          rw [parseStatement_succ fuel hx]
          simp [hxt, hv]
        · refine ⟨_, parseStatement_to (fun fuel => ?_) (parseExpressionStmt_error hE)⟩
          rw [parseStatement_succ fuel hx]
          simp [hxt, hv]
      obtain ⟨e, he⟩ := hcond
      exact ⟨e, parseStatement_if hkw hkwt (parseIf_condition_error hkw hkwt hop hopt he)⟩

/-- C26. A statement that is accepted has read at least one token, and the last
token it read is a `;` or a `}`. Consequently an `if` is rejected, with every
amount of fuel, when its parentheses hold an expression that the expression
parser reads in place up to the closing `)`, whatever that expression is and
whatever follows; in particular `if ( x ) y ;` is rejected for every name or
number `x` and every `y`, in every state of the type table. -/
theorem statement_ends_with_terminator (p : Parser) :
    (∀ fuel node q, parseStatement fuel p = Except.ok (node, q) →
      p.current < q.current ∧ q.tokens = p.tokens ∧
        ∃ t, q.tokens[q.current - 1]? = some t ∧
          (t.type = TokenType.semicolon ∨ t.type = TokenType.c_brace)) ∧
    (∀ kw op cp X q, p.look = some kw → kw.type = TokenType._if →
      (p.skip 1).look = some op → op.type = TokenType.o_paren →
      Yields parseExpression (p.skip 2) (Except.ok (X, q)) →
      q.look = some cp → cp.type = TokenType.c_paren →
      (∃ e, Yields parseStatement p (Except.error e)) ∧
        ∀ fuel node q2, parseStatement fuel p ≠ Except.ok (node, q2)) ∧
    (∀ kw op x cp y semi more, p.rest = kw :: op :: x :: cp :: y :: semi :: more →
      kw.type = TokenType._if → op.type = TokenType.o_paren →
      x.type = TokenType.identifier ∨ x.type = TokenType.int_lit →
      cp.type = TokenType.c_paren →
      (∃ e, Yields parseStatement p (Except.error e)) ∧
        ∀ fuel node q2, parseStatement fuel p ≠ Except.ok (node, q2)) := by
  refine ⟨fun fuel node q h => parseStatement_ends h, ?_, ?_⟩
  · intro kw op cp X q hkw hkwt hop hopt hE hcp hcpt
    obtain ⟨e, he⟩ := if_bare_condition hkw hkwt hop hopt hE (atType_true_of_look hcp hcpt)
    exact ⟨⟨e, he⟩, parseStatement_never_ok he⟩
  · intro kw op x cp y semi more hr hkwt hopt hxt hcpt
    obtain ⟨e, he⟩ := if_single_token hr hkwt hopt hxt hcpt
    exact ⟨⟨e, he⟩, parseStatement_never_ok he⟩

theorem statement_ends_with_terminator_witness :
    (∀ fuel node q2, parseStatement fuel (Parser.new (tokenize ["if (x) y;"])) ≠
      Except.ok (node, q2)) ∧
    (∀ fuel node q2, parseStatement fuel (Parser.new (tokenize ["if (float(a)) y;"])) ≠
      Except.ok (node, q2)) ∧
    ((Parser.new (tokenize ["x;"])).current < ((Parser.new (tokenize ["x;"])).skip 2).current ∧
      ((Parser.new (tokenize ["x;"])).skip 2).tokens = (Parser.new (tokenize ["x;"])).tokens ∧
      ∃ t, ((Parser.new (tokenize ["x;"])).skip 2).tokens[
          ((Parser.new (tokenize ["x;"])).skip 2).current - 1]? = some t ∧
        (t.type = TokenType.semicolon ∨ t.type = TokenType.c_brace)) :=
  ⟨((statement_ends_with_terminator (Parser.new (tokenize ["if (x) y;"]))).2.2
      ⟨TokenType._if, 1, "if"⟩ ⟨TokenType.o_paren, 1, "("⟩ ⟨TokenType.identifier, 1, "x"⟩
      ⟨TokenType.c_paren, 1, ")"⟩ ⟨TokenType.identifier, 1, "y"⟩ ⟨TokenType.semicolon, 1, ";"⟩ []
      (by rfl) (by rfl) (by rfl) (Or.inl (by rfl)) (by rfl)).2,
    ((statement_ends_with_terminator (Parser.new (tokenize ["if (float(a)) y;"]))).2.1
      ⟨TokenType._if, 1, "if"⟩ ⟨TokenType.o_paren, 1, "("⟩ ⟨TokenType.c_paren, 1, ")"⟩
      (ASTNode.FunctionCallExpr (ASTNode.VariableExpr "float") [ASTNode.VariableExpr "a"])
      ((Parser.new (tokenize ["if (float(a)) y;"])).skip 6)
      (by rfl) (by rfl) (by rfl) (by rfl)
      (yields_parseExpression 20 (by rfl) (outOfFuel_ok _)) (by rfl) (by rfl)).2,
    (statement_ends_with_terminator (Parser.new (tokenize ["x;"]))).1 12
      (ASTNode.VariableExpr "x") ((Parser.new (tokenize ["x;"])).skip 2) (by rfl)⟩

end Compiler
